import Mathlib

/-!
# domesticdns: a verification development of the resolution engine

A shallow embedding of the resolver core of the `domesticdns` repository
(`src/services/dnsService.js`, `src/services/dohService.js`,
`src/services/dotService.js`, `src/services/doqService.js`,
`src/models/dnsCacheModel.js`, `src/models/dnsLogModel.js`,
`src/models/dnsRecordModel.js`) and theorems about it.

Conventions of the embedding

* A JavaScript string is the list of its UTF-16 code units (`JSString`); `js "..."`
  turns a Lean string literal into one.
* `toLowerCase` / `toUpperCase` are modelled on the ASCII letters; every other code
  unit is left unchanged.
* A `Buffer` is a list of bytes (`List Nat`, every element below 256).
* JavaScript numbers that the code uses as counters, times and TTLs are integers.
* Module-level mutable state (`cache`, `records`, `logs`) is passed explicitly;
  a `Map` is an association list in insertion order.
* The clock (`Date.now()`), `Math.random()` and the network are an explicit `World`.
* A call that may not return (`lookup`, `reverse`, the loop of `configure`) takes a
  bound on its depth or on its turns and gives `none` when the bound is not enough.
-/

set_option autoImplicit false

namespace DomesticDns

/-! ## JavaScript strings -/

/-- A JavaScript string: the list of its UTF-16 code units. -/
abbrev JSString := List Nat

/-- UTF-16 code units of one Unicode scalar value. -/
def utf16 (c : Char) : List Nat :=
  if c.toNat < 65536 then [c.toNat]
  else [55296 + (c.toNat - 65536) / 1024, 56320 + (c.toNat - 65536) % 1024]

/-- The JavaScript string denoted by a Lean string literal. -/
def js (s : String) : JSString := s.toList.flatMap utf16

/-- One code unit of `String.prototype.toLowerCase` (ASCII letters). -/
def lowerUnit (c : Nat) : Nat := if 65 ≤ c ∧ c ≤ 90 then c + 32 else c

/-- One code unit of `String.prototype.toUpperCase` (ASCII letters). -/
def upperUnit (c : Nat) : Nat := if 97 ≤ c ∧ c ≤ 122 then c - 32 else c

/-- `s.toLowerCase()`. -/
def toLowerCase (s : JSString) : JSString := s.map lowerUnit

/-- `s.toUpperCase()`. -/
def toUpperCase (s : JSString) : JSString := s.map upperUnit

/-- `s.startsWith(p)`. -/
def startsWith (s p : JSString) : Bool := p.isPrefixOf s

/-- `s.endsWith(p)`. -/
def endsWith (s p : JSString) : Bool := p.isSuffixOf s

/-- `s.substring(1)`. -/
def substring1 (s : JSString) : JSString := s.drop 1

/-- `s.split('.')`: the dot-separated labels of `s` (one empty label for `""`). -/
def splitDot : JSString → List JSString
  | [] => [[]]
  | c :: rest =>
    if c = 46 then [] :: splitDot rest
    else
      match splitDot rest with
      | [] => [[c]]
      | l :: ls => (c :: l) :: ls

/-- JavaScript truthiness of a string: non-empty. -/
def truthy (s : JSString) : Bool := !s.isEmpty

/-- `xs.slice(start, end)` of `Array.prototype.slice` for integer arguments. -/
def jsSlice {α : Type} (xs : List α) (start stop : Int) : List α :=
  let len : Int := xs.length
  let rel : Int → Nat := fun i => if i < 0 then (len + i).toNat else min i.toNat xs.length
  (xs.drop (rel start)).take (rel stop - rel start)

/-! ## Records -/

/-- A record object as it flows through the resolver: the answers of the transports,
the entries of the record store and the results of the manual parser. A field that
the object does not carry is `none`; `cls` is the field `class`. -/
structure Rec where
  name : Option JSString
  domain : Option JSString
  type : Option JSString
  value : Option JSString
  address : Option JSString
  data : Option JSString
  ttl : Option Int
  priority : Option Int
  createdAt : Option Nat
  updatedAt : Option Nat
  exchange : Option JSString
  entries : Option (List JSString)
  cls : Option Int
deriving DecidableEq, Repr

/-- The record object with no field. -/
def Rec.empty : Rec :=
  ⟨none, none, none, none, none, none, none, none, none, none, none, none, none⟩

/-! ## Log sink (`src/models/dnsLogModel.js`) -/

/-- The constant `MAX_LOGS`. -/
def MAX_LOGS : Nat := 1000

/-- The `dns.logging` section of `config.json` as `addLog` reads it on every call.
`none` stands for a field that is absent (also: the section is absent, or the file
could not be read, in which case `addLog` goes on and stores the entry). -/
structure LoggingConfig where
  logQueries : Option Bool
  logResponses : Option Bool
deriving DecidableEq, Repr

/-- The object handed to `addLog`. -/
structure LogInput where
  domain : JSString
  type : JSString
  clientIp : JSString
  source : JSString
  success : Bool
  results : Option (List Rec)
  error : Option JSString
  responseTime : Option Int
deriving DecidableEq, Repr

/-- A stored log entry: `{ id, timestamp, ...logEntry }`. -/
structure LogEntry where
  id : Nat
  timestamp : Nat
  entry : LogInput
deriving DecidableEq, Repr

/-- The entry is dropped by the logging policy (the two early `return null`). -/
def logDropped (cfg : LoggingConfig) (e : LogInput) : Bool :=
  let isQueryLog := e.source != js "response"
  (isQueryLog && cfg.logQueries == some false) ||
    (!isQueryLog && cfg.logResponses == some false)

/-- `addLog(logEntry)`. `idNow` is the value of `Date.now()` in the `id` expression,
`rnd` the value of `Math.floor(Math.random() * 1000)` and `tsNow` the time of
`new Date()`. Returns the stored entry (`none` for `null`) and the new buffer. -/
def addLog (cfg : LoggingConfig) (idNow rnd tsNow : Nat) (e : LogInput)
    (logs : List LogEntry) : Option LogEntry × List LogEntry :=
  if logDropped cfg e then (none, logs)
  else
    let log : LogEntry := ⟨idNow + rnd, tsNow, e⟩
    let logs1 := log :: logs
    let logs2 := if logs1.length > MAX_LOGS then logs1.dropLast else logs1
    (some log, logs2)

/-- `getLogs(limit, skip)`. -/
def getLogs (logs : List LogEntry) (limit skip : Int) : List LogEntry :=
  jsSlice logs skip (skip + limit)

/-- `getLogsCount()`. -/
def getLogsCount (logs : List LogEntry) : Nat := logs.length

/-- One `addLog` call together with what it reads from its environment. -/
structure AddLogCall where
  cfg : LoggingConfig
  idNow : Nat
  rnd : Nat
  tsNow : Nat
  entry : LogInput
deriving DecidableEq, Repr

/-- The entry that an accepted call stores. -/
def AddLogCall.stored (c : AddLogCall) : LogEntry := ⟨c.idNow + c.rnd, c.tsNow, c.entry⟩

/-- The call is accepted by the logging policy. -/
def AddLogCall.accepted (c : AddLogCall) : Bool := !logDropped c.cfg c.entry

/-- The buffer after a sequence of `addLog` calls, first call first. -/
def runAddLogs (calls : List AddLogCall) (logs : List LogEntry) : List LogEntry :=
  calls.foldl (fun acc c => (addLog c.cfg c.idNow c.rnd c.tsNow c.entry acc).2) logs

/-- The calls of the 1001-insertion scenario: call `i` stores an entry for `a.com`
at time `i`. -/
def sampleCalls : List AddLogCall :=
  (List.range 1001).map fun i =>
    ⟨⟨none, none⟩, i, 0, i,
      ⟨js "a.com", js "A", js "127.0.0.1", js "system", true, none, none, none⟩⟩

/-! ## Cache store (`src/models/dnsCacheModel.js`) -/

/-- The constant `DEFAULT_TTL`. -/
def DEFAULT_TTL : Int := 300

/-- The constant `DEFAULT_MAX_SIZE`. -/
def DEFAULT_MAX_SIZE : Int := 1000

/-- A cache item `{ data, createdAt, expiresAt, ttl }`. -/
structure CacheItem where
  data : List Rec
  createdAt : Nat
  expiresAt : Int
  ttl : Int
deriving DecidableEq, Repr

/-- `Map.prototype.get`. -/
def mapGet {β : Type} (m : List (JSString × β)) (key : JSString) : Option β :=
  (m.find? (fun e => e.1 == key)).map (fun e => e.2)

/-- `Map.prototype.has`. -/
def mapHas {β : Type} (m : List (JSString × β)) (key : JSString) : Bool :=
  m.any (fun e => e.1 == key)

/-- `Map.prototype.set`: an existing key keeps its place, a new key goes last. -/
def mapSet {β : Type} : List (JSString × β) → JSString → β → List (JSString × β)
  | [], key, v => [(key, v)]
  | e :: rest, key, v => if e.1 == key then (key, v) :: rest else e :: mapSet rest key v

/-- `Map.prototype.delete`: the map without the entry of `key`. -/
def mapDelete {β : Type} (m : List (JSString × β)) (key : JSString) : List (JSString × β) :=
  m.eraseP (fun e => e.1 == key)

/-- The `DNSCacheModel` singleton together with the module-level `cache` map
(`entries`, in insertion order). `hits`, `misses` and `size` are `this.stats`. -/
structure DNSCache where
  enabled : Bool
  ttl : Int
  maxSize : Int
  hits : Nat
  misses : Nat
  size : Nat
  entries : List (JSString × CacheItem)
deriving DecidableEq, Repr

/-- The cache as `new DNSCacheModel()` leaves it: no options, empty map. -/
def DNSCache.initial : DNSCache :=
  ⟨true, DEFAULT_TTL, DEFAULT_MAX_SIZE, 0, 0, 0, []⟩

/-- The invariant of a `Map` filled by the cache: keys are pairwise distinct and
non-empty (every key built by `_getCacheKey` contains a colon). -/
def DNSCache.WF (c : DNSCache) : Prop :=
  (c.entries.map (fun e => e.1)).Nodup ∧ ∀ e ∈ c.entries, e.1 ≠ []

/-- `_getCacheKey(domain, type)`. -/
def _getCacheKey (domain type : JSString) : JSString :=
  toLowerCase domain ++ js ":" ++ toUpperCase type

/-- `_removeItem(key)`. -/
def _removeItem (c : DNSCache) (key : JSString) : Bool × DNSCache :=
  let result := mapHas c.entries key
  let entries1 := mapDelete c.entries key
  if result then (true, { c with entries := entries1, size := entries1.length })
  else (false, { c with entries := entries1 })

/-- `item.createdAt < oldestTime`, where `none` is `Infinity`. -/
def ltOldest (createdAt : Nat) : Option Nat → Bool
  | none => true
  | some t => decide (createdAt < t)

/-- One iteration of the loop of `_evictOldest` on the pair `(oldestKey, oldestTime)`. -/
def scanStep (acc : Option JSString × Option Nat) (e : JSString × CacheItem) :
    Option JSString × Option Nat :=
  if ltOldest e.2.createdAt acc.2 then (some e.1, some e.2.createdAt) else acc

/-- The loop of `_evictOldest`: the pair `(oldestKey, oldestTime)` after the scan
(`none` is `null`, respectively `Infinity`). -/
def oldestScan (entries : List (JSString × CacheItem)) : Option JSString × Option Nat :=
  entries.foldl scanStep (none, none)

/-- `_evictOldest()`. -/
def _evictOldest (c : DNSCache) : Bool × DNSCache :=
  match (oldestScan c.entries).1 with
  | some key => if truthy key then _removeItem c key else (false, c)
  | none => (false, c)

/-- The list `recordTtls`: the `ttl` fields that are numbers and positive. -/
def recordTtls (data : List Rec) : List Int :=
  (data.map (fun r => r.ttl)).filterMap
    (fun t => match t with
      | some n => if n > 0 then some n else none
      | none => none)

/-- `Math.min(...xs)` for a non-empty list (`x` is its head). -/
def mathMin (x : Int) (xs : List Int) : Int := xs.foldl min x

/-- The value of `recordTtl` with which `set` builds the item. -/
def resolveTtl (c : DNSCache) (data : List Rec) (ttl : Option Int) : Int :=
  let recordTtl : Option Int :=
    match ttl with
    | some t => some t
    | none =>
      match recordTtls data with
      | [] => none
      | t :: ts => some (mathMin t ts)
  match recordTtl with
  | none => c.ttl
  | some t => if t ≤ 0 then c.ttl else t

/-- `set(domain, type, data, ttl = null)`. `data = none` is a `null`/`undefined`
argument, `ttl = none` an absent (or `null`) one; `now1` is the `Date.now()` of
`createdAt` and `now2` the `Date.now()` of `expiresAt`. -/
def DNSCache.set (c : DNSCache) (domain type : JSString) (data : Option (List Rec))
    (ttl : Option Int) (now1 now2 : Nat) : Bool × DNSCache :=
  match data with
  | none => (false, c)
  | some d =>
    if !c.enabled then (false, c)
    else
      let key := _getCacheKey domain type
      let recordTtl := resolveTtl c d ttl
      let cacheItem : CacheItem := ⟨d, now1, (now2 : Int) + recordTtl * 1000, recordTtl⟩
      let c1 :=
        if decide ((c.entries.length : Int) ≥ c.maxSize) && !mapHas c.entries key
        then (_evictOldest c).2 else c
      let entries2 := mapSet c1.entries key cacheItem
      (true, { c1 with entries := entries2, size := entries2.length })

/-- `get(domain, type)`; `now` is the value of `Date.now()` in the expiry check. -/
def DNSCache.get (c : DNSCache) (domain type : JSString) (now : Nat) :
    Option (List Rec) × DNSCache :=
  if !c.enabled then (none, c)
  else
    let key := _getCacheKey domain type
    match mapGet c.entries key with
    | none => (none, { c with misses := c.misses + 1 })
    | some item =>
      if (now : Int) > item.expiresAt then
        let c1 := (_removeItem c key).2
        (none, { c1 with misses := c1.misses + 1 })
      else (some item.data, { c with hits := c.hits + 1 })

/-- What the eviction claim says of a `set` that turns the map `before` into `after`
by inserting `item` under `key`: exactly one entry `victim` is removed, its
`createdAt` is minimal and it is the first such entry in insertion order, the other
entries are kept unchanged and in order, and the new entry is stored. -/
def EvictsOldest (before after : List (JSString × CacheItem)) (key : JSString)
    (item : CacheItem) : Prop :=
  ∃ pre victim post,
    before = pre ++ victim :: post ∧
    (∀ e ∈ before, victim.2.createdAt ≤ e.2.createdAt) ∧
    (∀ e ∈ pre, victim.2.createdAt < e.2.createdAt) ∧
    after = pre ++ post ++ [(key, item)]

/-- A full one-entry cache that has been disabled (`configure({enable: false})`
keeps the entries). -/
def disabledFullCache : DNSCache :=
  ⟨false, 300, 1, 0, 0, 1, [(js "a.com:A", ⟨[], 5, 300005, 300⟩)]⟩

/-- A full, enabled two-entry cache whose entries have the same `createdAt`. -/
def fullCache : DNSCache :=
  ⟨true, 300, 2, 0, 0, 2,
    [(js "a.com:A", ⟨[], 5, 300005, 300⟩), (js "b.com:A", ⟨[], 5, 60005, 60⟩)]⟩

/-- An answer record `{ name, type: 'A', address, ttl }`. -/
def answerA (name address : JSString) (ttl : Int) : Rec :=
  { Rec.empty with name := some name, type := some (js "A"), address := some address,
                   ttl := some ttl }

/-! ## Wire codec (`src/services/dohService.js`, `src/services/dotService.js`) -/

/-- The bytes of one code unit below the surrogate range or above it. -/
def utf8Unit (u : Nat) : List Nat :=
  if u < 128 then [u]
  else if u < 2048 then [192 + u / 64, 128 + u % 64]
  else [224 + u / 4096, 128 + u / 64 % 64, 128 + u % 64]

/-- The four bytes of the code point of a surrogate pair. -/
def utf8Pair (hi lo : Nat) : List Nat :=
  let cp := 65536 + (hi - 55296) * 1024 + (lo - 56320)
  [240 + cp / 262144, 128 + cp / 4096 % 64, 128 + cp / 64 % 64, 128 + cp % 64]

/-- Worker of `utf8Encode`: `pending` is a high surrogate waiting for its partner.
A lone surrogate becomes U+FFFD (`EF BF BD`). -/
def utf8Aux : Option Nat → JSString → List Nat
  | none, [] => []
  | some _, [] => [239, 191, 189]
  | none, u :: rest =>
    if 55296 ≤ u ∧ u < 56320 then utf8Aux (some u) rest
    else if 56320 ≤ u ∧ u < 57344 then [239, 191, 189] ++ utf8Aux none rest
    else utf8Unit u ++ utf8Aux none rest
  | some hi, u :: rest =>
    if 56320 ≤ u ∧ u < 57344 then utf8Pair hi u ++ utf8Aux none rest
    else if 55296 ≤ u ∧ u < 56320 then [239, 191, 189] ++ utf8Aux (some u) rest
    else [239, 191, 189] ++ utf8Unit u ++ utf8Aux none rest

/-- `Buffer.from(str)`: the UTF-8 bytes of a string. -/
def utf8Encode (s : JSString) : List Nat := utf8Aux none s

/-- `buf.writeUInt16BE(v, ...)`: the two bytes written (callers pass `v < 65536`). -/
def writeUInt16BE (v : Nat) : List Nat := [v / 256 % 256, v % 256]

/-- The `typeCode` chain of `_createDNSQueryBuffer`. -/
def typeCode (type : JSString) : Nat :=
  if type = js "AAAA" then 28
  else if type = js "MX" then 15
  else if type = js "TXT" then 16
  else if type = js "NS" then 2
  else if type = js "CNAME" then 5
  else if type = js "SOA" then 6
  else if type = js "PTR" then 12
  else if type = js "SRV" then 33
  else 1

/-- The loop over `domainParts`: `Buffer.from([part.length])` keeps the length
modulo 256, `Buffer.from(part)` is the UTF-8 encoding. -/
def encodeParts (parts : List JSString) : List Nat :=
  parts.foldl (fun buf part => buf ++ [part.length % 256] ++ utf8Encode part) []

/-- `_createDNSQueryBuffer(domain, type)` of the DoH client; the DoT client builds the
same bytes inline in `query`. `id` is the value of `Math.floor(Math.random() * 65535)`,
a number in 0..65534. -/
def _createDNSQueryBuffer (id : Nat) (domain type : JSString) : List Nat :=
  let header := writeUInt16BE id ++ writeUInt16BE 256 ++ writeUInt16BE 1 ++
    writeUInt16BE 0 ++ writeUInt16BE 0 ++ writeUInt16BE 0
  let domainBuffer := encodeParts (splitDot domain) ++ [0]
  let typeBuffer := writeUInt16BE (typeCode type) ++ writeUInt16BE 1
  header ++ domainBuffer ++ typeBuffer

/-- The type-code table of the specification. -/
def specTypeCode (type : JSString) : Nat :=
  if type = js "A" then 1
  else if type = js "NS" then 2
  else if type = js "CNAME" then 5
  else if type = js "SOA" then 6
  else if type = js "PTR" then 12
  else if type = js "MX" then 15
  else if type = js "TXT" then 16
  else if type = js "AAAA" then 28
  else if type = js "SRV" then 33
  else 1

/-- The query layout in the words of the specification: id, flags `01 00`, QDCOUNT
`00 01`, six zero bytes, every label as its length in bytes followed by its bytes, a
zero byte, the big-endian type code and the class `00 01`. -/
def specQueryBuffer (id : Nat) (domain type : JSString) : List Nat :=
  [id / 256, id % 256] ++ [1, 0] ++ [0, 1] ++ [0, 0, 0, 0, 0, 0] ++
    (splitDot domain).flatMap (fun label => (utf8Encode label).length :: utf8Encode label) ++
    [0] ++ [specTypeCode type / 256, specTypeCode type % 256] ++ [0, 1]

/-- `buf.readUInt16BE(pos)`; `none` when the read is out of range (it throws). -/
def readUInt16BE (buf : List Nat) (pos : Nat) : Option Nat :=
  if pos + 2 ≤ buf.length then some (buf.getD pos 0 * 256 + buf.getD (pos + 1) 0) else none

/-- `buf.readUInt32BE(pos)`; `none` when the read is out of range (it throws). -/
def readUInt32BE (buf : List Nat) (pos : Nat) : Option Nat :=
  if pos + 4 ≤ buf.length then
    some (buf.getD pos 0 * 16777216 + buf.getD (pos + 1) 0 * 65536 +
      buf.getD (pos + 2) 0 * 256 + buf.getD (pos + 3) 0)
  else none

/-- The loop that skips the question name: stops on a zero byte or at the end of the
buffer, and steps over a compression pointer (two high bits set) with `break`. Every
turn moves `pos` forward, so `fuel = buffer.length` turns are enough. -/
def skipQuestionName : Nat → List Nat → Nat → Nat
  | 0, _, pos => pos
  | fuel + 1, buf, pos =>
    if pos < buf.length ∧ buf.getD pos 0 ≠ 0 then
      if buf.getD pos 0 &&& 192 = 192 then pos + 2
      else skipQuestionName fuel buf (pos + buf.getD pos 0 + 1)
    else pos

/-- The inner loop that skips the labels of an answer name (no pointer test). -/
def skipLabels : Nat → List Nat → Nat → Nat
  | 0, _, pos => pos
  | fuel + 1, buf, pos =>
    if pos < buf.length ∧ buf.getD pos 0 ≠ 0 then
      skipLabels fuel buf (pos + buf.getD pos 0 + 1)
    else pos

/-- The text of a number in the given base (`String(n)`, `n.toString(16)`). -/
def numStr (base n : Nat) : JSString := (Nat.toDigits base n).flatMap utf16

/-- The text of `buffer[i]` in a template literal: the decimal byte, or `undefined`
beyond the end of the buffer. -/
def byteStr (buf : List Nat) (i : Nat) : JSString :=
  match buf.get? i with
  | some b => numStr 10 b
  | none => js "undefined"

/-- The eight groups of an AAAA address, `none` when a read throws. -/
def ipv6Parts (buf : List Nat) (pos : Nat) : Nat → Option (List JSString)
  | 0 => some []
  | j + 1 =>
    match ipv6Parts buf pos j with
    | none => none
    | some parts =>
      match readUInt16BE buf (pos + j * 2) with
      | none => none
      | some v => some (parts ++ [numStr 16 v])

/-- `parts.join(sep)`. -/
def joinWith (sep : JSString) : List JSString → JSString
  | [] => []
  | [x] => x
  | x :: y :: rest => x ++ sep ++ joinWith sep (y :: rest)

/-- The answer loop of `_manualParsePacket`; `n` is the number of turns left
(`ancount - i`). A thrown read ends the loop (`catch { break }`). -/
def parseAnswers : Nat → List Nat → JSString → Nat → List Rec → List Rec
  | 0, _, _, _, results => results
  | n + 1, buf, domain, pos, results =>
    if pos + 12 < buf.length then
      let pos1 :=
        if buf.getD pos 0 &&& 192 = 192 then pos + 2
        else skipLabels buf.length buf pos + 1
      match readUInt16BE buf pos1, readUInt16BE buf (pos1 + 2), readUInt32BE buf (pos1 + 4),
          readUInt16BE buf (pos1 + 8) with
      | some type, some _, some ttl, some rdlength =>
        let pos2 := pos1 + 10
        if type = 1 ∧ rdlength = 4 then
          let address := byteStr buf pos2 ++ js "." ++ byteStr buf (pos2 + 1) ++ js "." ++
            byteStr buf (pos2 + 2) ++ js "." ++ byteStr buf (pos2 + 3)
          let answer : Rec :=
            { Rec.empty with name := some domain, ttl := some (ttl : Int),
                             type := some (js "A"), address := some address }
          parseAnswers n buf domain (pos2 + rdlength) (results ++ [answer])
        else if type = 28 ∧ rdlength = 16 then
          match ipv6Parts buf pos2 8 with
          | none => results
          | some parts =>
            let answer : Rec :=
              { Rec.empty with name := some domain, ttl := some (ttl : Int),
                               type := some (js "AAAA"),
                               address := some (joinWith (js ":") parts) }
            parseAnswers n buf domain (pos2 + rdlength) (results ++ [answer])
        else parseAnswers n buf domain (pos2 + rdlength) results
      | _, _, _, _ => results
    else results

/-- `_manualParsePacket(buffer, domain)` (the DoH and the DoT client carry the same
body). `none` when the header read throws. -/
def _manualParsePacket (buf : List Nat) (domain : JSString) : Option (List Rec) :=
  match readUInt16BE (buf.take 12) 6 with
  | none => none
  | some ancount =>
    if ancount = 0 then some []
    else
      let pos := skipQuestionName buf.length buf 12
      let pos1 := if pos < buf.length ∧ buf.getD pos 0 = 0 then pos + 5 else pos
      some (parseAnswers ancount buf domain pos1 [])

/-- The four bytes of a 32-bit big-endian number. -/
def u32Bytes (t : Nat) : List Nat :=
  [t / 16777216 % 256, t / 65536 % 256, t / 256 % 256, t % 256]

/-- A response with one A answer for the query of `domain`: the header `hdr` (its
bytes 6..7 are ANCOUNT), the question section of the encoded query, and the answer
`name, TYPE=1, CLASS=1, TTL=t, RDLENGTH=4, a b c d`. -/
def responseA (hdr : List Nat) (domain : JSString) (name : List Nat) (t a b c d : Nat) :
    List Nat :=
  hdr ++ (_createDNSQueryBuffer 0 domain (js "A")).drop 12 ++
    name ++ [0, 1, 0, 1] ++ u32Bytes t ++ [0, 4] ++ [a, b, c, d]

/-- A header with ANCOUNT = 1 (a response to a recursive query). -/
def headerOneAnswer : List Nat := [18, 52, 129, 128, 0, 1, 0, 1, 0, 0, 0, 0]

/-! ## Domain router (`matchDomain` in `src/services/dnsService.js`) -/

/-- `pattern.replace(/\./g, '\\.')`: every dot becomes backslash-dot. -/
def escapeDots (s : JSString) : JSString :=
  s.flatMap (fun c => if c = 46 then [92, 46] else [c])

/-- `.replace(/\*/g, '[^.]+')`: every star becomes the class `[^.]+`. -/
def expandStars (s : JSString) : JSString :=
  s.flatMap (fun c => if c = 42 then js "[^.]+" else [c])

/-- The atoms of the regular expressions that `matchDomain` builds from domain
patterns: a literal code unit, or `[^.]+`. -/
inductive RegexAtom where
  | lit (c : Nat)
  | nonDotPlus
deriving DecidableEq, Repr

/-- Code units with a meaning of their own in a regular expression source:
`$ ( ) * + . / ? [ \ ] ^ { | }`. -/
def isRegexSpecial (c : Nat) : Bool :=
  c = 36 || c = 40 || c = 41 || c = 42 || c = 43 || c = 46 || c = 47 || c = 63 ||
    c = 91 || c = 92 || c = 93 || c = 94 || c = 123 || c = 124 || c = 125

/-- Where the reader of a regular expression source stands: between atoms, after a
backslash, or inside the class `[^.]+` after `[`, `[^`, `[^.` and `[^.]`. -/
inductive ParseState where
  | start
  | esc
  | cls1
  | cls2
  | cls3
  | cls4
deriving DecidableEq, Repr

/-- Worker of `parseRegexBody`. -/
def parseRegexAux : ParseState → JSString → Option (List RegexAtom)
  | ParseState.start, [] => some []
  | _, [] => none
  | ParseState.start, c :: rest =>
    if c = 92 then parseRegexAux ParseState.esc rest
    else if c = 91 then parseRegexAux ParseState.cls1 rest
    else if isRegexSpecial c then none
    else (parseRegexAux ParseState.start rest).map (fun as => RegexAtom.lit c :: as)
  | ParseState.esc, c :: rest =>
    if c = 46 then
      (parseRegexAux ParseState.start rest).map (fun as => RegexAtom.lit 46 :: as)
    else none
  | ParseState.cls1, c :: rest => if c = 94 then parseRegexAux ParseState.cls2 rest else none
  | ParseState.cls2, c :: rest => if c = 46 then parseRegexAux ParseState.cls3 rest else none
  | ParseState.cls3, c :: rest => if c = 93 then parseRegexAux ParseState.cls4 rest else none
  | ParseState.cls4, c :: rest =>
    if c = 43 then
      (parseRegexAux ParseState.start rest).map (fun as => RegexAtom.nonDotPlus :: as)
    else none

/-- The atoms of a regular expression source made of escaped dots (`\.`), the class
`[^.]+` and plain code units; `none` for a source outside this fragment. -/
def parseRegexBody (src : JSString) : Option (List RegexAtom) :=
  parseRegexAux ParseState.start src

/-- The atom that one code unit of a pattern becomes after the two `replace` calls:
a star gives `[^.]+`, a dot the escaped dot, any other unit itself. -/
def atomOfUnit (c : Nat) : RegexAtom :=
  if c = 42 then RegexAtom.nonDotPlus else RegexAtom.lit c

/-- One or more code units other than a dot, then `k` on what is left. -/
def plusThen (k : JSString → Bool) : JSString → Bool
  | [] => false
  | x :: xs => x != 46 && (k xs || plusThen k xs)

/-- The atoms match the whole input (the expression is anchored by `^` and `$`). -/
def matchAtoms : List RegexAtom → JSString → Bool
  | [] => fun s => s.isEmpty
  | RegexAtom.lit c :: as => fun s =>
    match s with
    | x :: xs => x == c && matchAtoms as xs
    | [] => false
  | RegexAtom.nonDotPlus :: as => plusThen (matchAtoms as)

/-- `matchDomain(pattern, domain)`. `none` when the expression built from the
pattern lies outside the fragment of `parseRegexBody`. -/
def matchDomain (pattern domain : JSString) : Option Bool :=
  let pattern := toLowerCase pattern
  let domain := toLowerCase domain
  if pattern = domain then some true
  else
    let regexPattern := expandStars (escapeDots pattern)
    match parseRegexBody regexPattern with
    | none => none
    | some atoms => some (matchAtoms atoms domain)

/-- A code unit of a literal label: a letter, a digit, a hyphen or an underscore. -/
def isLiteralUnit (c : Nat) : Bool :=
  (65 ≤ c && c ≤ 90) || (97 ≤ c && c ≤ 122) || (48 ≤ c && c ≤ 57) || c = 45 || c = 95

/-- A label of a pattern against a label of a domain, in the words of the
specification: `*` stands against a non-empty label, a literal label equals the
label of the domain ignoring letter case. -/
def labelMatches (p d : JSString) : Bool :=
  if p = js "*" then !d.isEmpty else toLowerCase p == toLowerCase d

/-- Label by label: the same number of labels, and every pair matches. -/
def labelsMatch : List JSString → List JSString → Bool
  | [], [] => true
  | p :: ps, d :: ds => labelMatches p d && labelsMatch ps ds
  | _, _ => false

/-- The matching rule of the specification for a pattern and a domain. -/
def specMatch (pattern domain : JSString) : Bool :=
  labelsMatch (splitDot pattern) (splitDot domain)

/-! ## Record store: reading (`getRecords` in `src/models/dnsRecordModel.js`) -/

/-- A JavaScript `Error`: its message and its `code` property, if any. -/
structure JSError where
  message : JSString
  code : Option JSString
deriving DecidableEq, Repr

/-- How a promise of a record list settles. -/
inductive Settled where
  | resolved (records : List Rec)
  | rejected (error : JSError)
deriving DecidableEq, Repr

/-- `getRecords(domain, type)` on the module-level `records` map: the list under
`domain:TYPE`, or with an empty `type` the lists of every key of the domain; an empty
domain throws. -/
def getRecords (records : List (JSString × List Rec)) (domain type : JSString) : Settled :=
  if !truthy domain then Settled.rejected ⟨js "域名不能为空", none⟩
  else
    let normalizedDomain := toLowerCase domain
    if truthy type then
      Settled.resolved
        ((mapGet records (normalizedDomain ++ js ":" ++ toUpperCase type)).getD [])
    else
      Settled.resolved
        (records.flatMap fun e => if startsWith e.1 (normalizedDomain ++ js ":") then e.2 else [])

/-! ## Resolution engine (`src/services/dnsService.js`, `src/services/doqService.js`) -/

/-- The object `supportedProtocols`. -/
structure Protocols where
  standard : Bool
  custom : Bool
  dot : Bool
  doh : Bool
  doq : Bool
deriving DecidableEq, Repr

/-- `this.supportedProtocols[name]` as a condition; a name that is not a key of the
object is not supported. -/
def Protocols.supports (p : Protocols) (name : JSString) : Bool :=
  if name = js "standard" then p.standard
  else if name = js "custom" then p.custom
  else if name = js "dot" then p.dot
  else if name = js "doh" then p.doh
  else if name = js "doq" then p.doq
  else false

/-- One invocation of a transport: `localLookup` (`standard`), `directLookup`
(`custom`), `dotService.query` (`dot`) or `dohService.query` (`doh`). `clientIp` is
`none` where the client address is not passed on, `server` is `none` where the
transport uses the system resolver or the server configured for the protocol. -/
structure NetCall where
  protocol : JSString
  domain : JSString
  type : JSString
  clientIp : Option JSString
  server : Option JSString
deriving DecidableEq, Repr

/-- What one transport invocation does: how its promise settles and the entries it
hands to `addLog` on the way. -/
structure NetOutcome where
  result : Settled
  logs : List LogInput
deriving DecidableEq, Repr

/-- The calls that the engine makes on its collaborators, in order. -/
inductive Event where
  | getRecords (domain type : JSString)
  | cacheGet (domain type : JSString)
  | cacheSet (domain type : JSString) (data : List Rec)
  | transport (call : NetCall)
  | addLog (entry : LogInput)
deriving DecidableEq, Repr

/-- Everything outside the process: `clock k` is the value of the `k`-th read of the
clock, `random k` the value of `Math.floor(Math.random() * 1000)` drawn at clock
position `k`, and `net k call` the behaviour of the transport invocation `call` made
after `k` earlier events. -/
structure World where
  clock : Nat → Nat
  random : Nat → Nat
  net : Nat → NetCall → NetOutcome

/-- The state that a lookup only reads: the fields of the `DNSService` instance, the
`dns.logging` section of `config.json` and the record store. -/
structure Config where
  supportedProtocols : Protocols
  defaultProtocol : JSString
  fallbackOrder : List JSString
  blockedDomains : List JSString
  logging : LoggingConfig
  records : List (JSString × List Rec)
deriving DecidableEq, Repr

/-- The state that a lookup changes: the cache, the log buffer, the number of clock
reads so far and the trace of calls so far. -/
structure Stores where
  cache : DNSCache
  logs : List LogEntry
  ticks : Nat
  trace : List Event
deriving DecidableEq, Repr

/-- `isDomainBlocked(domain)`. -/
def isDomainBlocked (blockedDomains : List JSString) (domain : JSString) : Bool :=
  if blockedDomains.length = 0 then false
  else
    let normalizedDomain := toLowerCase domain
    if blockedDomains.contains normalizedDomain then true
    else
      blockedDomains.any fun blockedDomain =>
        startsWith blockedDomain (js "*.") &&
          endsWith normalizedDomain (substring1 blockedDomain)

/-- A call of `dnsLogModel.addLog(entry)`: the clock is read twice and a random
number drawn once unless the policy drops the entry. -/
def Stores.addLog (w : World) (cfg : Config) (st : Stores) (e : LogInput) : Stores :=
  if logDropped cfg.logging e then { st with trace := st.trace ++ [Event.addLog e] }
  else
    { st with
      logs := (DomesticDns.addLog cfg.logging (w.clock st.ticks) (w.random st.ticks)
        (w.clock (st.ticks + 1)) e st.logs).2
      ticks := st.ticks + 2
      trace := st.trace ++ [Event.addLog e] }

/-- A call of `dnsCacheModel.get(domain, type)`: the clock is read once when an item
is found. -/
def Stores.cacheGet (w : World) (st : Stores) (domain type : JSString) :
    Option (List Rec) × Stores :=
  let r := st.cache.get domain type (w.clock st.ticks)
  let found := st.cache.enabled &&
    (mapGet st.cache.entries (_getCacheKey domain type)).isSome
  (r.1, { st with
    cache := r.2
    ticks := if found then st.ticks + 1 else st.ticks
    trace := st.trace ++ [Event.cacheGet domain type] })

/-- A call of `dnsCacheModel.set(domain, type, result)`: the clock is read twice when
the cache is enabled. -/
def Stores.cacheSet (w : World) (st : Stores) (domain type : JSString) (data : List Rec) :
    Stores :=
  { st with
    cache := (st.cache.set domain type (some data) none (w.clock st.ticks)
      (w.clock (st.ticks + 1))).2
    ticks := if st.cache.enabled then st.ticks + 2 else st.ticks
    trace := st.trace ++ [Event.cacheSet domain type data] }

/-- One transport invocation: the world decides how it settles, and the entries it
logs go through `addLog`. -/
def Stores.netCall (w : World) (cfg : Config) (st : Stores) (call : NetCall) :
    Settled × Stores :=
  let out := w.net st.trace.length call
  let st1 : Stores := { st with trace := st.trace ++ [Event.transport call] }
  (out.result, out.logs.foldl (fun acc e => acc.addLog w cfg e) st1)

/-- One read of the clock whose value is only used for debug output. -/
def Stores.tick (st : Stores) : Stores := { st with ticks := st.ticks + 1 }

/-- The type of `lookup` once the recursion depth is fixed: `none` stands for a call
that does not return within that depth. -/
abbrev LookupFn :=
  World → Config → Stores → JSString → JSString → JSString → Option JSString →
    Option JSString → Option (Settled × Stores)

/-- `protocol || this.defaultProtocol`, and likewise for any optional string. -/
def orDefault (x : Option JSString) (dflt : JSString) : JSString :=
  match x with
  | some v => if truthy v then v else dflt
  | none => dflt

/-- The log entry of a blocked domain. -/
def blockedEntry (domain type clientIp : JSString) : LogInput :=
  ⟨domain, toUpperCase type, clientIp, js "blocked", true, some [], none, none⟩

/-- The log entry of an answer from the record store. -/
def customEntry (domain type clientIp : JSString) (records : List Rec) : LogInput :=
  ⟨domain, toUpperCase type, clientIp, js "custom", true, some records, none, none⟩

/-- The log entry of a cache hit. -/
def cacheEntry (domain type clientIp : JSString) (records : List Rec) : LogInput :=
  ⟨domain, toUpperCase type, clientIp, js "cache", true, some records, none, none⟩

/-- `doqService.query(domain, type, options)`: the stub reads the clock, re-enters
`lookup(domain, type, '127.0.0.1')`, logs the outcome as `doq-simulated` and settles
like the nested lookup (a failure is wrapped in a new error). -/
def doqQuery (nested : LookupFn) (w : World) (cfg : Config) (st : Stores)
    (domain type : JSString) : Option (Settled × Stores) :=
  let startTime := w.clock st.ticks
  match nested w cfg st.tick domain type (js "127.0.0.1") none none with
  | none => none
  | some (Settled.resolved results, st2) =>
    let responseTime : Int := (w.clock st2.ticks : Int) - startTime
    some (Settled.resolved results,
      st2.tick.addLog w cfg
        ⟨domain, toUpperCase type, js "127.0.0.1", js "doq-simulated", true, some results,
          none, some responseTime⟩)
  | some (Settled.rejected error, st2) =>
    let responseTime : Int := (w.clock st2.ticks : Int) - startTime
    some (Settled.rejected ⟨js "模拟DNS over QUIC查询失败: " ++ error.message, none⟩,
      st2.tick.addLog w cfg
        ⟨domain, toUpperCase type, js "127.0.0.1", js "doq-simulated", false, none,
          some (js "后备DNS查询失败: " ++ error.message), some responseTime⟩)

/-- `_lookupWithProtocol(domain, type, clientIp, protocol, serverIp)`. -/
def _lookupWithProtocol (nested : LookupFn) (w : World) (cfg : Config) (st : Stores)
    (domain type clientIp protocol : JSString) (serverIp : Option JSString) :
    Option (Settled × Stores) :=
  if protocol = js "dot" then
    some (st.netCall w cfg ⟨js "dot", domain, type, none, none⟩)
  else if protocol = js "doh" then
    some (st.netCall w cfg ⟨js "doh", domain, type, none, none⟩)
  else if protocol = js "doq" then
    doqQuery nested w cfg st domain type
  else if protocol = js "custom" then
    some (st.netCall w cfg
      ⟨js "custom", domain, type, some clientIp, some (orDefault serverIp (js "8.8.8.8"))⟩)
  else
    some (st.netCall w cfg ⟨js "standard", domain, type, some clientIp, none⟩)

/-- The fallback loop of `lookup` over what is left of `fallbackOrder`; `error` is
the error of the first attempt. -/
def fallbackLoop (nested : LookupFn) (w : World) (cfg : Config)
    (domain type clientIp useProtocol : JSString) (serverIp : Option JSString)
    (error : JSError) : List JSString → Stores → Option (Settled × Stores)
  | [], st => some (Settled.rejected error, st)
  | fallbackProtocol :: rest, st =>
    if fallbackProtocol ≠ useProtocol ∧ cfg.supportedProtocols.supports fallbackProtocol then
      match _lookupWithProtocol nested w cfg st.tick domain type clientIp fallbackProtocol
          serverIp with
      | none => none
      | some (Settled.resolved result, st2) =>
        some (Settled.resolved result, st2.cacheSet w domain type result)
      | some (Settled.rejected _, st2) =>
        fallbackLoop nested w cfg domain type clientIp useProtocol serverIp error rest st2
    else fallbackLoop nested w cfg domain type clientIp useProtocol serverIp error rest st

/-- The body of `lookup`, with `nested` for the lookups started below it. -/
def lookupBody (nested : LookupFn) : LookupFn :=
  fun w cfg st domain type clientIp protocol serverIp =>
    let useProtocol := orDefault protocol cfg.defaultProtocol
    if isDomainBlocked cfg.blockedDomains domain then
      some (Settled.resolved [], st.addLog w cfg (blockedEntry domain type clientIp))
    else
      let st1 : Stores := { st with trace := st.trace ++ [Event.getRecords domain type] }
      match getRecords cfg.records domain type with
      | Settled.rejected e => some (Settled.rejected e, st1)
      | Settled.resolved customRecords =>
        if customRecords.length > 0 then
          some (Settled.resolved customRecords,
            st1.addLog w cfg (customEntry domain type clientIp customRecords))
        else
          match st1.cacheGet w domain type with
          | (some cachedResults, st2) =>
            some (Settled.resolved cachedResults,
              st2.addLog w cfg (cacheEntry domain type clientIp cachedResults))
          | (none, st2) =>
            if cfg.supportedProtocols.supports useProtocol then
              match _lookupWithProtocol nested w cfg st2.tick domain type clientIp
                  useProtocol serverIp with
              | none => none
              | some (Settled.resolved result, st3) =>
                some (Settled.resolved result, st3.cacheSet w domain type result)
              | some (Settled.rejected error, st3) =>
                fallbackLoop nested w cfg domain type clientIp useProtocol serverIp error
                  cfg.fallbackOrder st3
            else
              match st2.netCall w cfg ⟨js "standard", domain, type, some clientIp, none⟩ with
              | (Settled.resolved result, st3) =>
                some (Settled.resolved result, st3.cacheSet w domain type result)
              | (Settled.rejected error, st3) => some (Settled.rejected error, st3)

/-- `lookup(domain, type, clientIp, protocol, serverIp)` with at most `depth` lookups
nested in one another (the DoQ stub re-enters `lookup`). -/
def lookup : Nat → LookupFn
  | 0 => fun _ _ _ _ _ _ _ _ => none
  | depth + 1 => lookupBody (lookup depth)

/-- The protocols that the specification lets the fallback chain try: those of
`fallbackOrder`, in order, without the primary protocol and the unsupported ones. -/
def fallbackCandidates (cfg : Config) (useProtocol : JSString) : List JSString :=
  cfg.fallbackOrder.filter fun p =>
    decide (p ≠ useProtocol) && cfg.supportedProtocols.supports p

/-- One attempt of the fallback loop: a clock read, then the dispatch. -/
def fallbackAttempt (nested : LookupFn) (w : World) (cfg : Config)
    (domain type clientIp : JSString) (serverIp : Option JSString)
    (p : JSString) (st : Stores) : Option (Settled × Stores) :=
  _lookupWithProtocol nested w cfg st.tick domain type clientIp p serverIp

/-- The stores after the attempts of `ps`, made one after the other, have all failed;
`none` when one of them does not fail. -/
def failedRun (attempt : JSString → Stores → Option (Settled × Stores)) :
    List JSString → Stores → Option Stores
  | [], st => some st
  | p :: ps, st =>
    match attempt p st with
    | some (Settled.rejected _, st') => failedRun attempt ps st'
    | _ => none

/-- The stores of a lookup at the moment of the dispatch: after the record store and
the cache have been asked. -/
def afterMiss (w : World) (st : Stores) (domain type : JSString) : Stores :=
  (Stores.cacheGet w { st with trace := st.trace ++ [Event.getRecords domain type] }
    domain type).2

/-- A lookup function never switches the cache on or off. -/
def KeepsEnabled (f : LookupFn) : Prop :=
  ∀ w cfg st domain type clientIp protocol serverIp r st',
    f w cfg st domain type clientIp protocol serverIp = some (r, st') →
      st'.cache.enabled = st.cache.enabled

/-! ## Sample configurations and worlds -/

/-- A world whose clock advances by one per read, whose system resolver answers every
query with one A record of ttl 60 (logging it as `system`), and whose other
transports fail with `upstream failure` (logging the failure). -/
def sampleWorld : World where
  clock := fun k => 1000 + k
  random := fun _ => 0
  net := fun _ call =>
    if call.protocol = js "standard" then
      ⟨Settled.resolved [answerA call.domain (js "1.2.3.4") 60],
        [⟨call.domain, toUpperCase call.type, js "10.0.0.1", js "system", true,
          some [answerA call.domain (js "1.2.3.4") 60], none, some 3⟩]⟩
    else
      ⟨Settled.rejected ⟨js "upstream failure: " ++ call.protocol, none⟩,
        [⟨call.domain, toUpperCase call.type, js "10.0.0.1", call.protocol, false, none,
          some (js "upstream failure"), some 3⟩]⟩

/-- A world in which every transport fails. -/
def deadWorld : World where
  clock := fun k => 1000 + k
  random := fun _ => 0
  net := fun _ call => ⟨Settled.rejected ⟨js "upstream failure: " ++ call.protocol, none⟩, []⟩

/-- All five protocols enabled. -/
def allProtocols : Protocols := ⟨true, true, true, true, true⟩

/-- A custom A record of the record store. -/
def customA (domain value : JSString) : Rec :=
  { Rec.empty with domain := some domain, type := some (js "A"), value := some value,
                   ttl := some 300, createdAt := some 1, updatedAt := some 1 }

/-- A configuration: default protocol `custom`, fallback order `standard, custom`, two
blocked entries, one custom record, logging left at its defaults. -/
def sampleConfig : Config where
  supportedProtocols := allProtocols
  defaultProtocol := js "custom"
  fallbackOrder := [js "standard", js "custom"]
  blockedDomains := [js "ads.example.com", js "*.tracker.net"]
  logging := ⟨none, none⟩
  records := [(js "home.lan:A", [customA (js "home.lan") (js "192.168.1.1")])]

/-- The sample configuration with `logQueries: false`. -/
def quietConfig : Config := { sampleConfig with logging := ⟨some false, none⟩ }

/-- The sample configuration with a blocked entry written in mixed case. -/
def mixedCaseConfig : Config := { sampleConfig with blockedDomains := [js "Ads.Example.com"] }

/-- The sample configuration with a custom record for a blocked domain. -/
def blockedRecordConfig : Config :=
  { sampleConfig with
    records := [(js "ads.example.com:A", [customA (js "ads.example.com") (js "10.1.1.1")])] }

/-- Empty stores: a fresh cache, no log entry, no event. -/
def emptyStores : Stores := ⟨DNSCache.initial, [], 0, []⟩

/-- Empty stores whose cache has been disabled. -/
def disabledStores : Stores := ⟨{ DNSCache.initial with enabled := false }, [], 0, []⟩

/-- The protocols of the transport invocations of a trace, in order. -/
def transportsOf (trace : List Event) : List JSString :=
  trace.filterMap fun ev =>
    match ev with
    | Event.transport call => some call.protocol
    | _ => none

/-- The sample lookup of `foo.org` in the dead world, after the primary protocol
`custom` has failed. -/
def sampleAfterPrimary : Stores :=
  (Stores.netCall deadWorld sampleConfig (afterMiss deadWorld emptyStores (js "foo.org")
      (js "A")).tick
    ⟨js "custom", js "foo.org", js "A", some (js "10.0.0.1"), some (js "8.8.8.8")⟩).2

/-- The same lookup after the only fallback candidate, `standard`, has failed too. -/
def sampleAfterFallbacks : Stores :=
  (Stores.netCall deadWorld sampleConfig sampleAfterPrimary.tick
    ⟨js "standard", js "foo.org", js "A", some (js "10.0.0.1"), none⟩).2

/-- The stores that a lookup leaves, or `st` itself when it does not return. -/
def storesAfter (st : Stores) (r : Option (Settled × Stores)) : Stores :=
  match r with
  | some x => x.2
  | none => st

/-- The stores after a first lookup of `foo.org` in the sample world. -/
def sampleAfterFirst : Stores :=
  storesAfter emptyStores
    (lookup 1 sampleWorld sampleConfig emptyStores (js "foo.org") (js "A") (js "10.0.0.1")
      none none)

/-- The same with query logging switched off. -/
def quietAfterFirst : Stores :=
  storesAfter emptyStores
    (lookup 1 sampleWorld quietConfig emptyStores (js "foo.org") (js "A") (js "10.0.0.1")
      none none)


/-! ## Cache entries and the clock (`set` of `src/models/dnsCacheModel.js`) -/

/-- The relation `expiresAt = createdAt + ttl * 1000` on one stored item. -/
def CacheItem.expiryOk (i : CacheItem) : Bool :=
  i.expiresAt == (i.createdAt : Int) + i.ttl * 1000

/-- One `set` call with non-null data together with the two values that its two
`Date.now()` reads return. -/
structure SetCall where
  domain : JSString
  type : JSString
  data : List Rec
  ttl : Option Int
  now1 : Nat
  now2 : Nat
deriving DecidableEq, Repr

/-- A sequence of `set` calls, left to right. -/
def runSets (calls : List SetCall) (c : DNSCache) : DNSCache :=
  calls.foldl (fun acc s => (acc.set s.domain s.type (some s.data) s.ttl s.now1 s.now2).2) c

/-- A `set` whose second clock read comes one millisecond after the first. -/
def tickingSet : SetCall := ⟨js "a.com", js "A", [], none, 1000, 1001⟩

/-! ## Record store (`src/models/dnsRecordModel.js`) -/

/-- The module-level `records` map: key `domain:TYPE`, value the list of records. -/
abbrev RecordStore := List (JSString × List Rec)

/-- The array `validTypes` of `addRecord`. -/
def validTypes : List JSString :=
  [js "A", js "AAAA", js "CNAME", js "MX", js "TXT", js "NS"]

/-- `addRecord(domain, type, value, ttl = 300, priority = 10)`. A string argument that
is absent is the empty string (both are falsy), `ttl`/`priority` = `none` is
`undefined`; `now1` and `now2` are the `Date.now()` of `createdAt` and of
`updatedAt`. Returns what the call returns or throws, and the map afterwards. -/
def addRecord (records : RecordStore) (domain type value : JSString)
    (ttl priority : Option Int) (now1 now2 : Nat) : Except JSError Rec × RecordStore :=
  if !truthy domain || !truthy type || !truthy value then
    (Except.error ⟨js "域名、类型和值不能为空", none⟩, records)
  else
    let normalizedDomain := toLowerCase domain
    let normalizedType := toUpperCase type
    if !validTypes.contains normalizedType then
      (Except.error ⟨js "不支持的记录类型: " ++ normalizedType, none⟩, records)
    else
      let key := normalizedDomain ++ js ":" ++ normalizedType
      let record : Rec :=
        { Rec.empty with
          domain := some normalizedDomain, type := some normalizedType,
          value := some value, ttl := some (ttl.getD 300),
          createdAt := some now1, updatedAt := some now2,
          priority := if normalizedType = js "MX" then some (priority.getD 10) else none }
      let records1 := if !mapHas records key then mapSet records key [] else records
      let records2 := mapSet records1 key ((mapGet records1 key).getD [] ++ [record])
      (Except.ok record, records2)

/-- The loop of `deleteRecord` without a type: it walks the entries of the map and
deletes every key that starts with `pre`, adding up the lengths. -/
def deleteDomainLoop (pre : JSString) (records : RecordStore) : Nat × RecordStore :=
  records.foldl
    (fun acc e =>
      if startsWith e.1 pre then (acc.1 + e.2.length, mapDelete acc.2 e.1) else acc)
    (0, records)

/-- `deleteRecord(domain, type, value)`; an absent `type` or `value` is the empty
string. Returns the count (or the thrown error) and the map afterwards. -/
def deleteRecord (records : RecordStore) (domain type value : JSString) :
    Except JSError Nat × RecordStore :=
  if !truthy domain then (Except.error ⟨js "域名不能为空", none⟩, records)
  else
    let normalizedDomain := toLowerCase domain
    if truthy type then
      let normalizedType := toUpperCase type
      let key := normalizedDomain ++ js ":" ++ normalizedType
      if truthy value then
        match mapGet records key with
        | none => (Except.ok 0, records)
        | some domainRecords =>
          let initialLength := domainRecords.length
          let filteredRecords := domainRecords.filter (fun record => record.value != some value)
          let deletedCount := initialLength - filteredRecords.length
          if filteredRecords.length = 0 then (Except.ok deletedCount, mapDelete records key)
          else (Except.ok deletedCount, mapSet records key filteredRecords)
      else
        if mapHas records key then
          (Except.ok ((mapGet records key).getD []).length, mapDelete records key)
        else (Except.ok 0, records)
    else
      let r := deleteDomainLoop (normalizedDomain ++ js ":") records
      (Except.ok r.1, r.2)

/-- One element of the array handed to `importRecords`; an absent string field is
the empty string. -/
structure ImportEntry where
  domain : JSString
  type : JSString
  value : JSString
  ttl : Option Int
  priority : Option Int
deriving DecidableEq, Repr

/-- `importRecords(recordsArray)` on an array. Every `Date.now()` read takes the next
value of `clock`, counted by the tick `t`; an entry that `addRecord` throws on
reads no clock. Returns the count, the map and the tick afterwards. -/
def importRecords (clock : Nat → Nat) :
    List ImportEntry → RecordStore → Nat → Nat × RecordStore × Nat
  | [], records, t => (0, records, t)
  | record :: rest, records, t =>
    match addRecord records record.domain record.type record.value record.ttl
        record.priority (clock t) (clock (t + 1)) with
    | (Except.ok _, records1) =>
      let r := importRecords clock rest records1 (t + 2)
      (r.1 + 1, r.2)
    | (Except.error _, records1) => importRecords clock rest records1 t

/-- The entry is one that `addRecord` accepts (does not throw on). -/
def ImportEntry.accepted (e : ImportEntry) : Bool :=
  match (addRecord [] e.domain e.type e.value e.ttl e.priority 0 0).1 with
  | Except.ok _ => true
  | Except.error _ => false

/-- Calling `addRecord` on each entry of the list in order, with the same clock. -/
def addAll (clock : Nat → Nat) : List ImportEntry → RecordStore → Nat → RecordStore × Nat
  | [], records, t => (records, t)
  | e :: rest, records, t =>
    addAll clock rest
      (addRecord records e.domain e.type e.value e.ttl e.priority (clock t) (clock (t + 1))).2
      (t + 2)

/-- Every key of the map occurs once, and a record stored under a key carries the
domain and the type that the key is made of, as `addRecord` stores it. -/
def RecordStore.WF (records : RecordStore) : Prop :=
  (records.map (fun e => e.1)).Nodup ∧
  ∀ e ∈ records, ∀ r ∈ e.2, ∃ d t, r.domain = some d ∧ r.type = some t ∧
    e.1 = d ++ js ":" ++ t

/-- No domain name of a stored record contains a colon. -/
def RecordStore.ColonFree (records : RecordStore) : Prop :=
  ∀ e ∈ records, ∀ r ∈ e.2, ∀ d, r.domain = some d → 58 ∉ d

/-- The records that a `deleteRecord(domain, type, value)` call is to remove, by its
granularity. -/
def selected (domain type value : JSString) (r : Rec) : Bool :=
  if !truthy type then r.domain == some (toLowerCase domain)
  else if !truthy value then
    r.domain == some (toLowerCase domain) && r.type == some (toUpperCase type)
  else
    r.domain == some (toLowerCase domain) && r.type == some (toUpperCase type) &&
      r.value == some value

/-- Every record of the store, in map order. -/
def allRecords (records : RecordStore) : List Rec := records.flatMap (fun e => e.2)

/-- The list stored under a key (empty when the key is absent). -/
def listAt (records : RecordStore) (key : JSString) : List Rec :=
  (mapGet records key).getD []

/-- A store with one record whose domain name contains a colon. -/
def colonStore : RecordStore :=
  (addRecord [] (js "a:b") (js "A") (js "1.1.1.1") none none 5 5).2

/-- A store with two records of `a.com` and one of `b.com`. -/
def sampleStore : RecordStore :=
  (addAll (fun n => n)
    [⟨js "a.com", js "A", js "1.1.1.1", none, none⟩,
     ⟨js "b.com", js "A", js "2.2.2.2", none, none⟩,
     ⟨js "A.com", js "mx", js "mail.a.com", some 60, none⟩] [] 0).1

/-- An import list with two rejected entries among three accepted ones. -/
def sampleImport : List ImportEntry :=
  [⟨js "a.com", js "A", js "1.1.1.1", none, none⟩,
   ⟨js "bad.com", js "SRV", js "x", none, none⟩,
   ⟨js "a.com", js "a", js "1.1.1.1", some 60, some 5⟩,
   ⟨js "", js "A", js "x", none, none⟩,
   ⟨js "m.com", js "mx", js "mail.m.com", none, none⟩]


/-! ## Log queries (`filterLogs` of `src/models/dnsLogModel.js`) -/

/-- `s.includes(p)`: `p` occurs in `s` as a contiguous substring. -/
def includes (s p : JSString) : Bool := s.tails.any (fun t => startsWith t p)

/-- The `filters` object of `filterLogs`. `none` is a field that is absent; a string
field that is present may still be empty (falsy). `startTime`/`endTime` hold the time
in milliseconds of `new Date(filters.startTime)` for a value that is truthy, and
`none` otherwise. -/
structure Filters where
  domain : Option JSString
  type : Option JSString
  clientIp : Option JSString
  startTime : Option Int
  endTime : Option Int
  status : Option Bool
deriving DecidableEq, Repr

/-- The empty `filters` object `{}`. -/
def Filters.none : Filters := ⟨Option.none, Option.none, Option.none, Option.none,
  Option.none, Option.none⟩

/-- One `if (filters.x) { filtered = filtered.filter(...) }` step on a string field. -/
def filterStep (field : Option JSString) (keep : JSString → LogEntry → Bool)
    (filtered : List LogEntry) : List LogEntry :=
  match field with
  | some v => if truthy v then filtered.filter (keep v) else filtered
  | Option.none => filtered

/-- One `if (filters.x) { filtered = filtered.filter(...) }` step on a field whose
value, when present, is applied. -/
def filterWhen {β : Type} (field : Option β) (keep : β → LogEntry → Bool)
    (filtered : List LogEntry) : List LogEntry :=
  match field with
  | some v => filtered.filter (keep v)
  | Option.none => filtered

/-- `filterLogs(filters = {}, limit = 100, skip = 0)`. -/
def filterLogs (logs : List LogEntry) (filters : Filters) (limit skip : Int) :
    List LogEntry :=
  let filtered := logs
  let filtered := filterStep filters.domain
    (fun v log => truthy log.entry.domain &&
      includes (toLowerCase log.entry.domain) (toLowerCase v)) filtered
  let filtered := filterStep filters.type
    (fun v log => truthy log.entry.type && log.entry.type == v) filtered
  let filtered := filterStep filters.clientIp
    (fun v log => truthy log.entry.clientIp && includes log.entry.clientIp v) filtered
  let filtered := filterWhen filters.startTime
    (fun startTime log => decide ((log.timestamp : Int) ≥ startTime)) filtered
  let filtered := filterWhen filters.endTime
    (fun endTime log => decide ((log.timestamp : Int) ≤ endTime)) filtered
  let filtered := filterWhen filters.status
    (fun status log => log.entry.success == status) filtered
  jsSlice filtered skip (skip + limit)

/-- A string filter is supplied when it is present and not empty. -/
def suppliedString (field : Option JSString) : Option JSString :=
  match field with
  | some v => if truthy v then some v else Option.none
  | Option.none => Option.none

/-- The entry satisfies every supplied filter: its domain contains the domain filter
without regard to case, its type equals the type filter, its client address contains
the `clientIp` filter, its timestamp lies in `[startTime, endTime]` and its `success`
equals `status`. -/
def satisfiesFilters (filters : Filters) (log : LogEntry) : Bool :=
  (match suppliedString filters.domain with
    | some v => includes (toLowerCase log.entry.domain) (toLowerCase v)
    | Option.none => true) &&
  (match suppliedString filters.type with
    | some v => log.entry.type == v
    | Option.none => true) &&
  (match suppliedString filters.clientIp with
    | some v => includes log.entry.clientIp v
    | Option.none => true) &&
  (match filters.startTime with
    | some t => decide (t ≤ (log.timestamp : Int))
    | Option.none => true) &&
  (match filters.endTime with
    | some t => decide ((log.timestamp : Int) ≤ t)
    | Option.none => true) &&
  (match filters.status with
    | some b => log.entry.success == b
    | Option.none => true)

/-- Three stored entries, newest first. -/
def sampleLogs : List LogEntry :=
  [⟨3, 30, ⟨js "Mail.Example.com", js "MX", js "10.0.0.2", js "custom", true, none, none, none⟩⟩,
   ⟨2, 20, ⟨js "example.com", js "A", js "10.0.0.1", js "standard", false, none, none, none⟩⟩,
   ⟨1, 10, ⟨js "other.org", js "A", js "10.0.0.1", js "standard", true, none, none, none⟩⟩]

/-! ## DoT response framing (the `data` handler of `src/services/dotService.js`) -/

/-- The variables `data`, `remainingBytes` and `expectedLength` of `query`. -/
structure DotState where
  data : List Nat
  remainingBytes : Int
  expectedLength : Int
deriving DecidableEq, Repr

/-- Their initial values: `Buffer.alloc(0)`, `0` and `-1`. -/
def DotState.initial : DotState := ⟨[], 0, -1⟩

/-- One `data` event with `chunk`: the variables afterwards and, when the handler
reaches the decoding branch, the bytes `data.slice(0, remainingBytes)` that it hands
to the decoder. The length field is read with `readUInt16BE(0)`, which is in range
there because two bytes are buffered. -/
def onData (s : DotState) (chunk : List Nat) : DotState × Option (List Nat) :=
  let data1 := s.data ++ chunk
  let s1 : DotState :=
    if s.expectedLength = -1 ∧ data1.length ≥ 2 then
      let expectedLength : Int := (((readUInt16BE data1 0).getD 0 : Nat) : Int)
      ⟨data1.drop 2, expectedLength, expectedLength⟩
    else ⟨data1, s.remainingBytes, s.expectedLength⟩
  if s1.expectedLength ≠ -1 ∧ (s1.data.length : Int) ≥ s1.remainingBytes then
    (s1, some (jsSlice s1.data 0 s1.remainingBytes))
  else (s1, Option.none)

/-- The `data` events of a sequence of chunks: for each chunk, what was decoded. -/
def runChunks : DotState → List (List Nat) → List (Option (List Nat))
  | _, [] => []
  | s, c :: cs => (onData s c).2 :: runChunks (onData s c).1 cs

/-- The framed stream of a payload: its length as two big-endian bytes, then it. -/
def framed (payload : List Nat) : List Nat := writeUInt16BE payload.length ++ payload

/-- The variables of the handler after the bytes `received` of a stream that starts
with the frame of a payload of `n` bytes, before the first decode. -/
def stateAfter (n : Nat) (received : List Nat) : DotState :=
  if received.length < 2 then ⟨received, 0, -1⟩ else ⟨received.drop 2, n, n⟩


/-! ## DoH GET parameter (`query` of `src/services/dohService.js`) -/

/-- The alphabet of `Buffer.prototype.toString('base64')`. -/
def base64Chars : List Nat :=
  js "ABCDEFGHIJKLMNOPQRSTUVWXYZabcdefghijklmnopqrstuvwxyz0123456789+/"

/-- The character of a 6-bit value. -/
def base64Char (v : Nat) : Nat := base64Chars.getD v 0

/-- `buf.toString('base64')`: three bytes give four characters, and a last group of
one or two bytes is padded with `=` (code 61). -/
def toBase64 : List Nat → JSString
  | [] => []
  | [a] => [base64Char (a / 4), base64Char (a % 4 * 16), 61, 61]
  | [a, b] => [base64Char (a / 4), base64Char (a % 4 * 16 + b / 16), base64Char (b % 16 * 4), 61]
  | a :: b :: c :: rest =>
    base64Char (a / 4) :: base64Char (a % 4 * 16 + b / 16) ::
      base64Char (b % 16 * 4 + c / 64) :: base64Char (c % 64) :: toBase64 rest

/-- `s.replace(/c/g, r)` for a pattern that is the single character `c`. -/
def replaceAll (s : JSString) (c : Nat) (r : JSString) : JSString :=
  s.flatMap (fun x => if x = c then r else [x])

/-- The value `base64Url` that the GET branch puts into the `dns=` parameter. -/
def dnsParam (dnsQueryBuffer : List Nat) : JSString :=
  replaceAll (replaceAll (replaceAll (toBase64 dnsQueryBuffer) 61 []) 43 (js "-")) 47 (js "_")

/-- A character of the URL-safe alphabet: `A`-`Z`, `a`-`z`, `0`-`9`, `-`, `_`. -/
def isUrlSafe (c : Nat) : Bool :=
  (65 ≤ c && c ≤ 90) || (97 ≤ c && c ≤ 122) || (48 ≤ c && c ≤ 57) || c == 45 || c == 95

/-- The 6-bit value of a character of the base64url alphabet (RFC 4648 §5). -/
def base64UrlValue (c : Nat) : Option Nat :=
  if 65 ≤ c ∧ c ≤ 90 then some (c - 65)
  else if 97 ≤ c ∧ c ≤ 122 then some (c - 97 + 26)
  else if 48 ≤ c ∧ c ≤ 57 then some (c - 48 + 52)
  else if c = 45 then some 62
  else if c = 95 then some 63
  else Option.none

/-- The text with its padding restored: `=` is appended up to a multiple of four. -/
def restorePadding (s : JSString) : JSString :=
  s ++ List.replicate ((4 - s.length % 4) % 4) 61

/-- The bytes of one group of four characters; a group that ends in `=` or `==` is
the last one and gives two bytes or one. -/
def decodeGroup (a b c d : Nat) : Option (List Nat) :=
  match base64UrlValue a, base64UrlValue b with
  | some v0, some v1 =>
    if c = 61 ∧ d = 61 then some [(v0 * 4 + v1 / 16) % 256]
    else
      match base64UrlValue c with
      | some v2 =>
        if d = 61 then some [(v0 * 4 + v1 / 16) % 256, (v1 % 16 * 16 + v2 / 4) % 256]
        else
          match base64UrlValue d with
          | some v3 =>
            some [(v0 * 4 + v1 / 16) % 256, (v1 % 16 * 16 + v2 / 4) % 256,
              (v2 % 4 * 64 + v3) % 256]
          | Option.none => Option.none
      | Option.none => Option.none
  | _, _ => Option.none

/-- Decoding of padded base64url text, group by group; padding may only occur in the
last group. -/
def decodePadded : JSString → Option (List Nat)
  | [] => some []
  | a :: b :: c :: d :: rest =>
    match decodeGroup a b c d with
    | some bytes =>
      if d = 61 ∧ rest ≠ [] then Option.none
      else (decodePadded rest).map (fun more => bytes ++ more)
    | Option.none => Option.none
  | _ => Option.none

/-- Decoding of unpadded base64url text (RFC 4648 §5): the padding is restored, then
the text is decoded. -/
def base64UrlDecode (s : JSString) : Option (List Nat) := decodePadded (restorePadding s)

/-- The base64url character of a 6-bit value: the base64 one with `+` and `/`
replaced by `-` and `_`. -/
def urlChar (v : Nat) : Nat :=
  if base64Char v = 43 then 45 else if base64Char v = 47 then 95 else base64Char v

/-- The unpadded base64url text of a byte sequence, group by group. -/
def urlText : List Nat → JSString
  | [] => []
  | [a] => [urlChar (a / 4), urlChar (a % 4 * 16)]
  | [a, b] => [urlChar (a / 4), urlChar (a % 4 * 16 + b / 16), urlChar (b % 16 * 4)]
  | a :: b :: c :: rest =>
    urlChar (a / 4) :: urlChar (a % 4 * 16 + b / 16) :: urlChar (b % 16 * 4 + c / 64) ::
      urlChar (c % 64) :: urlText rest


/-! ## DoQ stub: sample run -/

/-- The stores after the lookup that the DoQ stub starts for `foo.org` in the sample
world: `custom` fails there and the fallback `standard` answers. -/
def doqNestedStores : Stores :=
  storesAfter emptyStores.tick
    (lookup 2 sampleWorld sampleConfig emptyStores.tick (js "foo.org") (js "A")
      (js "127.0.0.1") none none)


/-! ## Listener (`handleQuery` of `src/services/dnsService.js`) -/

/-- One entry of `request.questions`: the name and the numeric type. -/
structure Question where
  name : JSString
  type : Nat
deriving DecidableEq, Repr

/-- The parsed request packet, as far as `handleQuery` reads it. -/
structure Request where
  questions : List Question
deriving DecidableEq, Repr

/-- The value of a `data` field of an answer: a string, or the `entries` array of a
TXT record. -/
inductive AnswerData where
  | text (s : JSString)
  | entries (l : List JSString)
deriving DecidableEq, Repr

/-- One element of `response.answers`; `cls` is the field `class`, and a field that
the object does not carry is `none`. -/
structure Answer where
  name : JSString
  type : Nat
  cls : Int
  ttl : Int
  address : Option JSString
  exchange : Option JSString
  priority : Option Int
  data : Option AnswerData
deriving DecidableEq, Repr

/-- The response packet, as far as `handleQuery` writes it. -/
structure Response where
  answers : List Answer
  flags : Nat
deriving DecidableEq, Repr

/-- The object that `getDomainServerConfig` returns for a matching rule. -/
structure ServerConfig where
  serverIP : Option JSString
  protocol : JSString
deriving DecidableEq, Repr

/-- The table `types` of `getDnsTypeName`, with `'A'` for every other value. -/
def getDnsTypeName (typeValue : Nat) : JSString :=
  if typeValue = 1 then js "A"
  else if typeValue = 2 then js "NS"
  else if typeValue = 5 then js "CNAME"
  else if typeValue = 6 then js "SOA"
  else if typeValue = 12 then js "PTR"
  else if typeValue = 15 then js "MX"
  else if typeValue = 16 then js "TXT"
  else if typeValue = 28 then js "AAAA"
  else if typeValue = 33 then js "SRV"
  else js "A"

/-- `getDnsType(typeName)` on a string: the table `types` at the upper-cased name,
with 1 for every other name. -/
def getDnsType (typeName : JSString) : Nat :=
  let t := toUpperCase typeName
  if t = js "A" then 1
  else if t = js "NS" then 2
  else if t = js "CNAME" then 5
  else if t = js "SOA" then 6
  else if t = js "PTR" then 12
  else if t = js "MX" then 15
  else if t = js "TXT" then 16
  else if t = js "AAAA" then 28
  else if t = js "SRV" then 33
  else 1

/-- `x || dflt` on an optional number: `undefined` and `0` give the default. -/
def numOr (x : Option Int) (dflt : Int) : Int :=
  match x with
  | some v => if v = 0 then dflt else v
  | none => dflt

/-- The callback of `answers.map` in `handleQuery`: the answer object built from one
record, for the question `name`/`type`. -/
def toAnswer (name : JSString) (type : Nat) (answer : Rec) : Answer :=
  let result : Answer :=
    { name := orDefault answer.name name
      type := match answer.type with
        | some t => if truthy t then getDnsType t else type
        | none => type
      cls := numOr answer.cls 1
      ttl := numOr answer.ttl 300
      address := none, exchange := none, priority := none, data := none }
  let typeName := orDefault answer.type (getDnsTypeName type)
  if typeName = js "A" ∨ typeName = js "AAAA" then
    { result with address := some (orDefault answer.address (js "0.0.0.0")) }
  else if typeName = js "MX" then
    { result with
      exchange := some (orDefault answer.exchange (js ""))
      priority := some (numOr answer.priority 10) }
  else if typeName = js "TXT" then
    { result with
      data := some (match answer.entries with
        | some l => AnswerData.entries l
        | none => AnswerData.text (orDefault answer.data (js ""))) }
  else if typeName = js "NS" ∨ typeName = js "CNAME" ∨ typeName = js "PTR" then
    { result with
      data := some (AnswerData.text (orDefault answer.value (orDefault answer.data (js "")))) }
  else
    let result1 : Answer :=
      { result with
        data := some (AnswerData.text
          (orDefault answer.data (orDefault answer.value (js "")))) }
    if type = 1 ∨ type = 28 then
      { result1 with address := some (orDefault answer.address (js "0.0.0.0")) }
    else result1

/-- What a run of `handleQuery` leaves: the responses handed to `send`, in order, the
error with which the returned promise rejects (if it does) and the stores. -/
structure Handled where
  sent : List Response
  thrown : Option JSError
  stores : Stores
deriving DecidableEq, Repr

/-- The `TypeError` that destructuring `undefined` raises. -/
def destructureError : JSError := ⟨js "TypeError", none⟩

/-- `rinfo ? rinfo.address : '127.0.0.1'`. -/
def clientIpOf (rinfo : Option JSString) : JSString :=
  match rinfo with
  | some address => address
  | none => js "127.0.0.1"

/-- `handleQuery(request, send, rinfo)`. `response` is the packet that
`Packet.createResponseFromRequest(request)` returns, `servfail` the constant
`Packet.RCODE_SERVFAIL`, `rinfo` the client address when `rinfo` is given, and
`serverConfig` the way the promise of `getDomainServerConfig(name)` settles.
`none` stands for a run whose lookup does not return within `depth`. -/
def handleQuery (depth : Nat) (w : World) (cfg : Config) (st : Stores) (servfail : Nat)
    (response : Response) (request : Request) (rinfo : Option JSString)
    (serverConfig : Except JSError (Option ServerConfig)) : Option Handled :=
  match request.questions with
  | [] => some ⟨[], some destructureError, st⟩
  | question :: _ =>
    let name := question.name
    let type := question.type
    let clientIp := clientIpOf rinfo
    match serverConfig with
    | Except.error error =>
      if error.code = some (js "ENODATA") then
        some ⟨[{ response with answers := [] }], none, st⟩
      else some ⟨[{ response with flags := response.flags ||| servfail }], none, st⟩
    | Except.ok found =>
      let useProtocol : Option JSString := found.map (fun c => c.protocol)
      let serverIp : Option JSString := found.bind (fun c => c.serverIP)
      match lookup depth w cfg st name (getDnsTypeName type) clientIp useProtocol serverIp with
      | none => none
      | some (Settled.resolved answers, st1) =>
        some ⟨[{ response with answers := answers.map (toAnswer name type) }], none, st1⟩
      | some (Settled.rejected error, st1) =>
        if error.code = some (js "ENODATA") then
          some ⟨[{ response with answers := [] }], none, st1⟩
        else some ⟨[{ response with flags := response.flags ||| servfail }], none, st1⟩

/-- A request without a question (`QDCOUNT = 0`). -/
def emptyRequest : Request := ⟨[]⟩

/-- A request for `foo.org`, type A. -/
def sampleRequest : Request := ⟨[⟨js "foo.org", 1⟩]⟩

/-- The response packet of a request before `handleQuery` fills it. -/
def blankResponse : Response := ⟨[], 0⟩


/-! ## Cache configuration (`configure` of `src/models/dnsCacheModel.js`) -/

/-- The `options` object of `configure`; `none` is a field that is `undefined`. -/
structure CacheOptions where
  enable : Option Bool
  ttl : Option Int
  maxSize : Option Int
deriving DecidableEq, Repr

/-- The loop `while (cache.size > this.maxSize) this._evictOldest()`, cut off after
`fuel` turns: `none` when the condition still holds after them. -/
def evictLoop : Nat → DNSCache → Option DNSCache
  | 0, c => if (c.entries.length : Int) > c.maxSize then none else some c
  | fuel + 1, c =>
    if (c.entries.length : Int) > c.maxSize then evictLoop fuel (_evictOldest c).2
    else some c

/-- The first two steps of `configure(options)`: `enabled` and `ttl`. A `ttl` of `0`
is falsy and is skipped. -/
def configureBase (c : DNSCache) (options : CacheOptions) : DNSCache :=
  let c1 : DNSCache :=
    match options.enable with
    | some b => { c with enabled := b }
    | none => c
  match options.ttl with
  | some t => if t = 0 then c1 else { c1 with ttl := t }
  | none => c1

/-- `configure(options)`: the cache afterwards, `none` when the eviction loop has not
ended after `fuel` turns. A `maxSize` of `0` is falsy and is skipped. -/
def configure (fuel : Nat) (c : DNSCache) (options : CacheOptions) : Option DNSCache :=
  let c2 := configureBase c options
  match options.maxSize with
  | some m => if m = 0 then some c2 else evictLoop fuel { c2 with maxSize := m }
  | none => some c2

/-- The smallest `createdAt` of a map (`none` for the empty map). -/
def minCreatedAt : List (JSString × CacheItem) → Option Nat
  | [] => none
  | e :: es =>
    match minCreatedAt es with
    | none => some e.2.createdAt
    | some t => some (min e.2.createdAt t)

/-- The map without one entry of minimal `createdAt`: the first one in insertion
order. -/
def dropOldest (entries : List (JSString × CacheItem)) : List (JSString × CacheItem) :=
  match minCreatedAt entries with
  | none => entries
  | some t => entries.eraseP (fun e => e.2.createdAt == t)

/-- A cache of three entries created at times 7, 5 and 5. -/
def threeCache : DNSCache :=
  ⟨true, 300, 1000, 0, 0, 3,
    [(js "a.com:A", ⟨[], 7, 300007, 300⟩), (js "b.com:A", ⟨[], 5, 300005, 300⟩),
     (js "c.com:A", ⟨[], 5, 300005, 300⟩)]⟩


/-! ## Routing rules (`getDomainData`, `getDomainServerConfig` of
`src/services/dnsService.js`) -/

/-- One element of the `domestic` or `foreign` array of `customdomains.json`; a
`domain` that is absent is the empty string (both are falsy). -/
structure RuleItem where
  domain : JSString
  dns : Option JSString
  protocol : Option JSString
  name : Option JSString
deriving DecidableEq, Repr

/-- The value stored under a pattern in `domainData`. -/
structure DomainEntry where
  dns : Option JSString
  protocol : Option JSString
  name : Option JSString
deriving DecidableEq, Repr

/-- The parsed file; an array that is absent is the empty list. -/
structure RawData where
  domestic : List RuleItem
  foreign : List RuleItem
deriving DecidableEq, Repr

/-- The number of a property key that is an array index: a canonical decimal numeral
below `2^32 - 1`. -/
def arrayIndex (key : JSString) : Option Nat :=
  if key = [] then none
  else if !key.all (fun c => decide (48 ≤ c ∧ c ≤ 57)) then none
  else if key.head? = some 48 ∧ key.length > 1 then none
  else
    let v := key.foldl (fun a c => a * 10 + (c - 48)) 0
    if v < 4294967295 then some v else none

/-- `obj[key] = v` on a plain object: an own property is created or overwritten in
place, except for the key `__proto__`, which sets the prototype instead. -/
def objSet {β : Type} (obj : List (JSString × β)) (key : JSString) (v : β) :
    List (JSString × β) :=
  if key = js "__proto__" then obj else mapSet obj key v

/-- Insertion of an index key into a list of index keys in ascending order. -/
def insertKey {β : Type} (e : JSString × β) : List (JSString × β) → List (JSString × β)
  | [] => [e]
  | x :: xs =>
    if (arrayIndex e.1).getD 0 ≤ (arrayIndex x.1).getD 0 then e :: x :: xs
    else x :: insertKey e xs

/-- `Object.entries(obj)`: the array-index keys in ascending numeric order, then the
other keys in the order of their creation. -/
def objectEntries {β : Type} (obj : List (JSString × β)) : List (JSString × β) :=
  (obj.filter (fun e => (arrayIndex e.1).isSome)).foldr insertKey [] ++
    obj.filter (fun e => (arrayIndex e.1).isNone)

/-- One `forEach` of `getDomainData` over an array of items. -/
def addRules (obj : List (JSString × DomainEntry)) (items : List RuleItem) :
    List (JSString × DomainEntry) :=
  items.foldl
    (fun acc item =>
      if truthy item.domain then objSet acc item.domain ⟨item.dns, item.protocol, item.name⟩
      else acc)
    obj

/-- `getDomainData()`; `none` is a file that cannot be read or parsed, for which the
function returns the empty object. -/
def getDomainData (rawData : Option RawData) : List (JSString × DomainEntry) :=
  match rawData with
  | none => []
  | some raw => addRules (addRules [] raw.domestic) raw.foreign

/-- The loop of `getDomainServerConfig` over the entries of `domainData`. `none` when
`matchDomain` leaves its modelled fragment before a match is found. -/
def findRule : List (JSString × DomainEntry) → JSString → Option (Option ServerConfig)
  | [], _ => some none
  | (pattern, config) :: rest, domain =>
    match matchDomain pattern domain with
    | none => none
    | some true => some (some ⟨config.dns, orDefault config.protocol (js "standard")⟩)
    | some false => findRule rest domain

/-- `getDomainServerConfig(domain)` for the rule file `rawData`. -/
def getDomainServerConfig (rawData : Option RawData) (domain : JSString) :
    Option (Option ServerConfig) :=
  findRule (objectEntries (getDomainData rawData)) domain

/-- The first rule of a snapshot, in its order, whose pattern satisfies
`matchDomain(pattern, domain)`: its server address and its protocol (`standard` when
it names none), and `null` when no rule matches. -/
def firstMatch : List RuleItem → JSString → Option (Option ServerConfig)
  | [], _ => some none
  | rule :: rest, domain =>
    match matchDomain rule.domain domain with
    | none => none
    | some true => some (some ⟨rule.dns, orDefault rule.protocol (js "standard")⟩)
    | some false => firstMatch rest domain

/-- A snapshot whose rules have pairwise distinct, non-empty patterns, none of which
is an array index or `__proto__`. -/
def PlainRules (rules : List RuleItem) : Prop :=
  (rules.map (fun r => r.domain)).Nodup ∧
  ∀ r ∈ rules, r.domain ≠ [] ∧ r.domain ≠ js "__proto__" ∧ arrayIndex r.domain = none

/-- A rule file in which the pattern `a.com` occurs in both arrays. -/
def repeatedRules : RawData :=
  ⟨[⟨js "a.com", some (js "1.1.1.1"), none, none⟩],
   [⟨js "a.com", some (js "8.8.8.8"), some (js "doh"), none⟩]⟩

/-- A rule file with a wildcard rule in front of a rule whose pattern is a numeral. -/
def numeralRules : RawData :=
  ⟨[⟨js "*", some (js "1.1.1.1"), none, none⟩,
    ⟨js "10", some (js "8.8.8.8"), some (js "doh"), none⟩], []⟩

/-- A rule file with two domestic rules and one foreign rule. -/
def sampleRules : RawData :=
  ⟨[⟨js "*.example.cn", some (js "223.5.5.5"), none, none⟩,
    ⟨js "www.example.com", some (js "9.9.9.9"), some (js "dot"), none⟩],
   [⟨js "*.example.com", some (js "8.8.8.8"), some (js "doh"), none⟩]⟩


/-! ## Transport servers (`_getServerForProtocol`, `_lookupWithProtocol` of
`src/services/dnsService.js`) -/

/-- A server object of the configuration, also the options object handed to a
transport client; a field that the object does not carry is `none`. -/
structure ServerEntry where
  host : Option JSString
  port : Option Int
  servername : Option JSString
  path : Option JSString
  method : Option JSString
  protocol : Option JSString
  timeout : Option Int
  priority : Option Int
deriving DecidableEq, Repr

/-- The server object `{}`. -/
def ServerEntry.empty : ServerEntry := ⟨none, none, none, none, none, none, none, none⟩

/-- The section `this.dnsConfig[protocol]`: its `servers` array and its `timeout`. -/
structure ProtocolConfig where
  servers : Option (List ServerEntry)
  timeout : Option Int
deriving DecidableEq, Repr

/-- The protocol sections of `this.dnsConfig`, by protocol name. -/
abbrev DnsConfig := List (JSString × ProtocolConfig)

/-- The built-in server of the `switch` of `_getServerForProtocol`. -/
def defaultServer (protocol : JSString) : ServerEntry :=
  if protocol = js "dot" then
    { ServerEntry.empty with
      host := some (js "1.1.1.1"), port := some 853,
      servername := some (js "cloudflare-dns.com"), timeout := some 5000 }
  else if protocol = js "doh" then
    { ServerEntry.empty with
      host := some (js "dns.google"), path := some (js "/dns-query"),
      method := some (js "GET"), protocol := some (js "https"), timeout := some 5000 }
  else if protocol = js "doq" then
    { ServerEntry.empty with
      host := some (js "1.1.1.1"), port := some 853, timeout := some 5000 }
  else ServerEntry.empty

/-- The sort key `a.priority || 100` of the comparator. -/
def effPriority (s : ServerEntry) : Int := numOr s.priority 100

/-- Insertion into a list sorted by `effPriority`, in front of the elements that are
not smaller. -/
def insertByPriority (a : ServerEntry) : List ServerEntry → List ServerEntry
  | [] => [a]
  | b :: l => if effPriority a ≤ effPriority b then a :: b :: l else b :: insertByPriority a l

/-- `servers.sort((a, b) => (a.priority || 100) - (b.priority || 100))`:
`Array.prototype.sort` is stable, so the result is the stable sort by the key. -/
def sortByPriority : List ServerEntry → List ServerEntry
  | [] => []
  | a :: l => insertByPriority a (sortByPriority l)

/-- The timeout step of `_getServerForProtocol` on the copy of the chosen server:
`if (this.dnsConfig[protocol].timeout) server.timeout = ...`. -/
def withTimeout (timeout : Option Int) (server : ServerEntry) : ServerEntry :=
  match timeout with
  | some t => if t = 0 then server else { server with timeout := some t }
  | none => server

/-- `_getServerForProtocol(protocol)`: the server returned, and the configuration
afterwards (the sort works on the copy `[...servers]`). -/
def _getServerForProtocol (dnsConfig : DnsConfig) (protocol : JSString) :
    ServerEntry × DnsConfig :=
  match mapGet dnsConfig protocol with
  | none => (defaultServer protocol, dnsConfig)
  | some protocolConfig =>
    match protocolConfig.servers with
    | none => (defaultServer protocol, dnsConfig)
    | some configured =>
      if configured.length = 0 then (defaultServer protocol, dnsConfig)
      else
        let servers := sortByPriority configured
        let server := servers.headD ServerEntry.empty
        (withTimeout protocolConfig.timeout server, dnsConfig)

/-- The server options that `_lookupWithProtocol` hands to `dotService.query`,
`dohService.query` and `doqService.query` (`none` for the protocols that take no
options object). -/
def serverOptions (dnsConfig : DnsConfig) (protocol : JSString) (serverIp : Option JSString) :
    Option ServerEntry :=
  if protocol = js "dot" then some (_getServerForProtocol dnsConfig (js "dot")).1
  else if protocol = js "doh" then some (_getServerForProtocol dnsConfig (js "doh")).1
  else if protocol = js "doq" then
    match serverIp with
    | some ip =>
      if truthy ip then some { ServerEntry.empty with host := some ip }
      else some (_getServerForProtocol dnsConfig (js "doq")).1
    | none => some (_getServerForProtocol dnsConfig (js "doq")).1
  else none

/-- A DoT section with three servers: no priority, priority 5, priority 5. -/
def sampleDnsConfig : DnsConfig :=
  [(js "dot", ⟨some [{ ServerEntry.empty with host := some (js "a") },
      { ServerEntry.empty with host := some (js "b"), priority := some 5 },
      { ServerEntry.empty with host := some (js "c"), priority := some 5 }], some 3000⟩)]

/-- A DoT section whose first server has priority 0. -/
def zeroPriorityConfig : DnsConfig :=
  [(js "dot", ⟨some [{ ServerEntry.empty with host := some (js "a"), priority := some 0 },
      { ServerEntry.empty with host := some (js "b"), priority := some 5 }], none⟩)]


/-! ## Manual parser, question section and truncated input (`_manualParsePacket`) -/

/-- The read position of `_manualParsePacket` after its question-skipping step: the
name loop from offset 12, then `pos += 5` when the byte at `pos` is `0`. -/
def skipQuestion (buf : List Nat) : Nat :=
  let pos := skipQuestionName buf.length buf 12
  if pos < buf.length ∧ buf.getD pos 0 = 0 then pos + 5 else pos

/-- The length-prefixed labels of a name, without the closing zero byte. -/
def labelBytes (ls : List JSString) : List Nat := ls.flatMap (fun l => l.length :: l)

/-- A response whose question name is the pointer `C0 12` (to offset 18, where the
answer spells out `a.com`), followed by one A answer `1.2.3.4` with ttl 60. -/
def pointerResponse : List Nat :=
  headerOneAnswer ++ [192, 18, 0, 1, 0, 1] ++
    [1, 97, 3, 99, 111, 109, 0] ++ [0, 1, 0, 1] ++ u32Bytes 60 ++ [0, 4] ++ [1, 2, 3, 4]

/-- A response for the root name with one A answer whose RDATA is cut off after its
first byte. -/
def truncatedResponse : List Nat :=
  headerOneAnswer ++ [0, 0, 1, 0, 1] ++
    [192, 12, 0, 1, 0, 1] ++ u32Bytes 60 ++ [0, 4] ++ [1]

/-- The response of type AAAA whose RDATA is cut off after one byte: the header with
ANCOUNT = 1, a question with the root name, and the answer `C0 0C, TYPE=28, CLASS=1,
TTL=60, RDLENGTH=16, 1`. -/
def truncatedAAAA : List Nat :=
  headerOneAnswer ++ [0, 0, 1, 0, 1] ++ [192, 12, 0, 28, 0, 1] ++ u32Bytes 60 ++ [0, 16] ++ [1]

/-! ## Custom records in the listener -/

/-- A record that a call of `addRecord` whose type argument upper-cases to `typeName`
has returned. -/
def StoredThrough (typeName : JSString) (r : Rec) : Prop :=
  ∃ (records : RecordStore) (domain type value : JSString) (ttl priority : Option Int)
    (now1 now2 : Nat),
    toUpperCase type = typeName ∧
    (addRecord records domain type value ttl priority now1 now2).1 = Except.ok r

/-- A request for `home.lan`, type A. -/
def homeRequest : Request := ⟨[⟨js "home.lan", 1⟩]⟩

/-! ## Nesting of lookups through the DoQ stub -/

/-- The sample configuration with `doq` as the default protocol. -/
def doqDefaultConfig : Config := { sampleConfig with defaultProtocol := js "doq" }

/-- The sample configuration with the default protocol `standard` and `doq` in the
fallback order. -/
def doqFallbackConfig : Config :=
  { sampleConfig with defaultProtocol := js "standard", fallbackOrder := [js "doq"] }

/-! ## Reverse lookup (`reverse` of `src/services/dnsService.js`) -/

/-- The record that `reverse` builds from one host name of `dns.reverse`. -/
def ptrRecord (hostname : JSString) : Rec :=
  { Rec.empty with type := some (js "PTR"), value := some hostname, ttl := some 300 }

/-- `parts.reverse().join('.') + '.in-addr.arpa'` for `parts = ip.split('.')`. -/
def reverseDomain (ip : JSString) : JSString :=
  joinWith (js ".") (splitDot ip).reverse ++ js ".in-addr.arpa"

/-- The behaviour of `dns.reverse(ip, callback)` of the platform after `k` earlier
events: the error or the host names handed to the callback. -/
abbrev DnsReverse := Nat → JSString → Except JSError (List JSString)

/-- The native call that stands in the trace for one `dns.reverse(ip, ...)`. -/
def reverseCall (ip clientIp : JSString) : NetCall :=
  ⟨js "reverse", ip, js "PTR", some clientIp, none⟩

/-- The standard branch of `reverse`: one call of `dns.reverse`, logged with the source
`system`; `startTime` is the clock value read at the head of the `try` block. -/
def nativeReverse (dnsReverse : DnsReverse) (w : World) (cfg : Config) (st : Stores)
    (startTime : Nat) (ip clientIp : JSString) : Settled × Stores :=
  let st1 : Stores := { st with trace := st.trace ++ [Event.transport (reverseCall ip clientIp)] }
  let responseTime : Int := (w.clock st1.ticks : Int) - startTime
  match dnsReverse st.trace.length ip with
  | Except.error err =>
    (Settled.rejected err,
      st1.tick.addLog w cfg
        ⟨ip, js "PTR", clientIp, js "system", false, none, some err.message, some responseTime⟩)
  | Except.ok hostnames =>
    (Settled.resolved (hostnames.map ptrRecord),
      st1.tick.addLog w cfg
        ⟨ip, js "PTR", clientIp, js "system", true, some (hostnames.map ptrRecord), none,
          some responseTime⟩)

/-- The loop of the `catch` block of `reverse` over what is left of `fallbackOrder`:
`again st p` is the call `this.reverse(ip, clientIp, p)` started in the stores `st`,
and `error` the error that the `try` block raised. -/
def reverseFallback (again : Stores → JSString → Option (Settled × Stores)) (cfg : Config)
    (useProtocol : JSString) (error : JSError) :
    List JSString → Stores → Option (Settled × Stores)
  | [], st => some (Settled.rejected error, st)
  | fallbackProtocol :: rest, st =>
    if fallbackProtocol ≠ useProtocol ∧ cfg.supportedProtocols.supports fallbackProtocol then
      match again st fallbackProtocol with
      | none => none
      | some (Settled.resolved result, st2) => some (Settled.resolved result, st2)
      | some (Settled.rejected _, st2) =>
        reverseFallback again cfg useProtocol error rest st2
    else reverseFallback again cfg useProtocol error rest st

/-- `reverse(ip, clientIp, protocol)` with at most `n` calls of `reverse` nested in one
another and lookups of depth `depth`; `none` stands for a call that does not return
within these bounds. The promise of the standard branch is returned without `await`,
so its rejection does not reach the `catch` block. -/
def reverse (dnsReverse : DnsReverse) (depth : Nat) :
    Nat → World → Config → Stores → JSString → JSString → Option JSString →
      Option (Settled × Stores)
  | 0, _, _, _, _, _, _ => none
  | n + 1, w, cfg, st, ip, clientIp, protocol =>
    let useProtocol := orDefault protocol cfg.defaultProtocol
    let startTime := w.clock st.ticks
    if useProtocol = js "standard" ∨ cfg.supportedProtocols.supports useProtocol = false then
      some (nativeReverse dnsReverse w cfg st.tick startTime ip clientIp)
    else
      match lookup depth w cfg st.tick (reverseDomain ip) (js "PTR") clientIp
          (some useProtocol) none with
      | none => none
      | some (Settled.resolved result, st1) => some (Settled.resolved result, st1)
      | some (Settled.rejected error, st1) =>
        reverseFallback
          (fun st2 p => reverse dnsReverse depth n w cfg st2 ip clientIp (some p))
          cfg useProtocol error cfg.fallbackOrder st1

/-- A platform whose `dns.reverse` fails for every address. -/
def deadReverse : DnsReverse :=
  fun _ _ => Except.error ⟨js "getHostByAddr ENOTFOUND", some (js "ENOTFOUND")⟩

/-- The sample configuration with the fallback order `dot, doh`. -/
def loopConfig : Config := { sampleConfig with fallbackOrder := [js "dot", js "doh"] }

/-- The number of calls of `dns.reverse` in a trace. -/
def nativeReverseCalls (trace : List Event) : Nat :=
  (trace.filter fun e =>
    match e with
    | Event.transport call => call.protocol = js "reverse"
    | _ => false).length

end DomesticDns


namespace DomesticDns

/-! ## JavaScript strings: lower case, splitting and joining at dots -/

theorem lowerUnit_idem (c : Nat) : lowerUnit (lowerUnit c) = lowerUnit c := by
  unfold lowerUnit
  split_ifs <;> omega

theorem lowerUnit_eq_46 (c : Nat) : lowerUnit c = 46 ↔ c = 46 := by
  unfold lowerUnit
  split_ifs <;> omega

theorem lowerUnit_eq_42 (c : Nat) : lowerUnit c = 42 ↔ c = 42 := by
  unfold lowerUnit
  split_ifs <;> omega

theorem toLowerCase_idem (s : JSString) : toLowerCase (toLowerCase s) = toLowerCase s := by
  simp [toLowerCase, lowerUnit_idem]

theorem toLowerCase_eq_star (s : JSString) : toLowerCase s = js "*" ↔ s = js "*" := by
  have hs : js "*" = [42] := by decide
  rw [hs]
  cases s with
  | nil => simp [toLowerCase]
  | cons c rest =>
    cases rest with
    | nil => simp [toLowerCase, lowerUnit_eq_42]
    | cons d rest2 => simp [toLowerCase]

theorem splitDot_ne_nil (s : JSString) : splitDot s ≠ [] := by
  cases s with
  | nil => simp [splitDot]
  | cons c rest =>
    unfold splitDot
    split_ifs
    · simp
    · split <;> simp

theorem splitDot_cons_dot (rest : JSString) : splitDot (46 :: rest) = [] :: splitDot rest := by
  simp [splitDot]

theorem splitDot_cons_other (c : Nat) (rest : JSString) (hc : c ≠ 46) :
    ∃ l ls, splitDot rest = l :: ls ∧ splitDot (c :: rest) = (c :: l) :: ls := by
  cases h : splitDot rest with
  | nil => exact absurd h (splitDot_ne_nil rest)
  | cons l ls =>
    refine ⟨l, ls, rfl, ?_⟩
    rw [splitDot]
    simp [hc, h]

theorem join_splitDot (s : JSString) : joinWith [46] (splitDot s) = s := by
  induction s with
  | nil => rfl
  | cons c rest ih =>
    by_cases hc : c = 46
    · subst hc
      rw [splitDot_cons_dot]
      cases h : splitDot rest with
      | nil => exact absurd h (splitDot_ne_nil rest)
      | cons l ls =>
        rw [h] at ih
        simp [joinWith, ih]
    · obtain ⟨l, ls, h1, h2⟩ := splitDot_cons_other c rest hc
      rw [h2]
      rw [h1] at ih
      cases ls with
      | nil => simp [joinWith] at ih ⊢; exact ih
      | cons m ms => simp [joinWith] at ih ⊢; exact ih

theorem splitDot_dotfree (s : JSString) : ∀ l ∈ splitDot s, 46 ∉ l := by
  induction s with
  | nil => simp [splitDot]
  | cons c rest ih =>
    by_cases hc : c = 46
    · subst hc
      rw [splitDot_cons_dot]
      intro l hl
      rcases List.mem_cons.mp hl with rfl | hl
      · simp
      · exact ih l hl
    · obtain ⟨l0, ls, h1, h2⟩ := splitDot_cons_other c rest hc
      rw [h2]
      rw [h1] at ih
      intro l hl
      rcases List.mem_cons.mp hl with rfl | hl
      · intro hmem
        rcases List.mem_cons.mp hmem with h | h
        · exact hc h.symm
        · exact ih l0 (List.mem_cons_self _ _) h
      · exact ih l (List.mem_cons_of_mem _ hl)

theorem splitDot_toLowerCase (s : JSString) :
    splitDot (toLowerCase s) = (splitDot s).map toLowerCase := by
  induction s with
  | nil => rfl
  | cons c rest ih =>
    by_cases hc : c = 46
    · subst hc
      have : toLowerCase (46 :: rest) = 46 :: toLowerCase rest := by
        simp [toLowerCase, lowerUnit]
      rw [this, splitDot_cons_dot, splitDot_cons_dot, ih]
      simp [toLowerCase]
    · have hlc : lowerUnit c ≠ 46 := fun h => hc ((lowerUnit_eq_46 c).mp h)
      have : toLowerCase (c :: rest) = lowerUnit c :: toLowerCase rest := by
        simp [toLowerCase]
      obtain ⟨l, ls, h1, h2⟩ := splitDot_cons_other c rest hc
      obtain ⟨l', ls', h1', h2'⟩ := splitDot_cons_other (lowerUnit c) (toLowerCase rest) hlc
      rw [this, h2', h2]
      rw [h1, h1'] at ih
      simp only [List.map_cons, List.cons.injEq] at ih ⊢
      refine ⟨?_, ih.2⟩
      rw [ih.1]
      simp [toLowerCase]

end DomesticDns


namespace DomesticDns

/-! ## Log sink: theorems -/

theorem addLog_accepted (c : AddLogCall) (logs : List LogEntry) (h : c.accepted = true)
    (hl : logs.length ≤ 1000) :
    (addLog c.cfg c.idNow c.rnd c.tsNow c.entry logs).2 = (c.stored :: logs).take 1000 := by
  have hd : logDropped c.cfg c.entry = false := by
    simpa [AddLogCall.accepted] using h
  simp only [addLog, hd, MAX_LOGS, AddLogCall.stored]
  by_cases hlen : logs.length = 1000
  · simp [hlen, List.dropLast_eq_take]
  · have : logs.length < 1000 := by omega
    have h2 : ¬ (logs.length + 1 > 1000) := by omega
    simp [h2]
    omega

theorem take_append_take {α : Type} (n : Nat) (a b : List α) :
    (a ++ b.take n).take n = (a ++ b).take n := by
  simp only [List.take_append_eq_append_take, List.take_take]
  congr 2
  omega

theorem runAddLogs_eq (calls : List AddLogCall) (logs : List LogEntry)
    (h : ∀ c ∈ calls, c.accepted = true) (hl : logs.length ≤ 1000) :
    runAddLogs calls logs = ((calls.map AddLogCall.stored).reverse ++ logs).take 1000 := by
  induction calls generalizing logs with
  | nil => simp [runAddLogs, List.take_of_length_le hl]
  | cons c cs ih =>
    have hc := h c (List.mem_cons_self _ _)
    have hcs : ∀ d ∈ cs, d.accepted = true := fun d hd => h d (List.mem_cons_of_mem _ hd)
    have step : runAddLogs (c :: cs) logs
        = runAddLogs cs ((c.stored :: logs).take 1000) := by
      simp only [runAddLogs, List.foldl_cons]
      rw [addLog_accepted c logs hc hl]
    rw [step, ih _ hcs (by simp [List.length_take]), take_append_take]
    simp

theorem getLogs_all (logs : List LogEntry) (hl : logs.length ≤ 1000) :
    getLogs logs 1000 0 = logs := by
  simp [getLogs, jsSlice]
  omega

/-- C8. Starting from the empty buffer, after `n` accepted `addLog` calls the buffer
holds `min n 1000` entries; they are the most recently stored ones, newest first, and
`getLogs(1000, 0)` lists exactly them. After 1001 calls exactly 1000 remain: the
reverse of the 2nd to 1001st stored entries, so the first stored entry is gone (it
occurs nowhere in the buffer when the stored entries are pairwise distinct). -/
theorem log_bounding (calls : List AddLogCall) (h : ∀ c ∈ calls, c.accepted = true) :
    getLogsCount (runAddLogs calls []) = min calls.length 1000 ∧
    runAddLogs calls [] =
      ((calls.map AddLogCall.stored).drop (calls.length - 1000)).reverse ∧
    getLogs (runAddLogs calls []) 1000 0 =
      ((calls.map AddLogCall.stored).drop (calls.length - 1000)).reverse ∧
    (calls.length = 1001 →
      getLogsCount (runAddLogs calls []) = 1000 ∧
      runAddLogs calls [] = (calls.map AddLogCall.stored).tail.reverse ∧
      ((calls.map AddLogCall.stored).Nodup →
        ∀ e, (calls.map AddLogCall.stored).head? = some e → e ∉ runAddLogs calls [])) := by
  have key : runAddLogs calls [] =
      ((calls.map AddLogCall.stored).drop (calls.length - 1000)).reverse := by
    rw [runAddLogs_eq calls [] h (by simp), List.append_nil, List.take_reverse]
    simp
  have hlen : (runAddLogs calls []).length = min calls.length 1000 := by
    rw [key]; simp; omega
  refine ⟨hlen, key, ?_, ?_⟩
  · rw [getLogs_all _ (by rw [hlen]; omega), key]
  · intro hn
    have key1 : runAddLogs calls [] = (calls.map AddLogCall.stored).tail.reverse := by
      rw [key, hn]; simp
    refine ⟨by rw [getLogsCount, hlen, hn]; rfl, key1, ?_⟩
    intro hnd e he
    rw [key1]
    cases hs : calls.map AddLogCall.stored with
    | nil => rw [hs] at he; simp at he
    | cons a t =>
      rw [hs] at he hnd
      simp at he
      subst he
      simpa using (List.nodup_cons.mp hnd).1

/-- Witness for C8: 1001 accepted insertions leave 1000 entries, the reverse of the
2nd to 1001st stored entries. -/
theorem log_bounding_witness :
    (∀ c ∈ sampleCalls, c.accepted = true) ∧
    getLogsCount (runAddLogs sampleCalls []) = 1000 ∧
    runAddLogs sampleCalls [] = (sampleCalls.map AddLogCall.stored).tail.reverse :=
  have h : ∀ c ∈ sampleCalls, c.accepted = true := by
    intro c hc
    simp only [sampleCalls, List.mem_map] at hc
    obtain ⟨i, -, rfl⟩ := hc
    rfl
  ⟨h, ((log_bounding sampleCalls h).2.2.2 (by simp [sampleCalls])).1,
    ((log_bounding sampleCalls h).2.2.2 (by simp [sampleCalls])).2.1⟩

end DomesticDns


namespace DomesticDns

/-! ## Cache store: theorems -/

theorem oldestScan_eq (entries : List (JSString × CacheItem)) :
    oldestScan entries = entries.foldl scanStep (none, none) := rfl

/-- The scan started with a current best `(k0, t0)`: either nothing in the list is
older and the best is kept, or the result is the first strictly oldest entry. -/
theorem scan_from (entries : List (JSString × CacheItem)) (k0 : JSString) (t0 : Nat) :
    ((∀ e ∈ entries, t0 ≤ e.2.createdAt) ∧
        entries.foldl scanStep (some k0, some t0) = (some k0, some t0)) ∨
    (∃ pre v post, entries = pre ++ v :: post ∧ v.2.createdAt < t0 ∧
        (∀ e ∈ pre, v.2.createdAt < e.2.createdAt) ∧
        (∀ e ∈ post, v.2.createdAt ≤ e.2.createdAt) ∧
        entries.foldl scanStep (some k0, some t0) = (some v.1, some v.2.createdAt)) := by
  induction entries generalizing k0 t0 with
  | nil => left; simp
  | cons e es ih =>
    by_cases hlt : e.2.createdAt < t0
    · have hstep : scanStep (some k0, some t0) e = (some e.1, some e.2.createdAt) := by
        simp [scanStep, ltOldest, hlt]
      right
      rcases ih e.1 e.2.createdAt with ⟨hall, hres⟩ | ⟨pre, v, post, hsplit, hv, hpre, hpost, hres⟩
      · refine ⟨[], e, es, rfl, hlt, by simp, hall, ?_⟩
        simp [List.foldl_cons, hstep, hres]
      · refine ⟨e :: pre, v, post, by simp [hsplit], by omega, ?_, hpost, ?_⟩
        · intro x hx
          rcases List.mem_cons.mp hx with rfl | hx
          · exact hv
          · exact hpre x hx
        · simp [List.foldl_cons, hstep, hres]
    · have hstep : scanStep (some k0, some t0) e = (some k0, some t0) := by
        simp [scanStep, ltOldest, hlt]
      rcases ih k0 t0 with ⟨hall, hres⟩ | ⟨pre, v, post, hsplit, hv, hpre, hpost, hres⟩
      · left
        refine ⟨?_, by simp [List.foldl_cons, hstep, hres]⟩
        intro x hx
        rcases List.mem_cons.mp hx with rfl | hx
        · omega
        · exact hall x hx
      · right
        refine ⟨e :: pre, v, post, by simp [hsplit], hv, ?_, hpost, ?_⟩
        · intro x hx
          rcases List.mem_cons.mp hx with rfl | hx
          · omega
          · exact hpre x hx
        · simp [List.foldl_cons, hstep, hres]

/-- On a non-empty map the scan of `_evictOldest` ends on the first entry of minimal
`createdAt`. -/
theorem oldestScan_spec (entries : List (JSString × CacheItem)) (hne : entries ≠ []) :
    ∃ pre v post, entries = pre ++ v :: post ∧
      (∀ e ∈ entries, v.2.createdAt ≤ e.2.createdAt) ∧
      (∀ e ∈ pre, v.2.createdAt < e.2.createdAt) ∧
      oldestScan entries = (some v.1, some v.2.createdAt) := by
  cases entries with
  | nil => exact absurd rfl hne
  | cons e es =>
    have hstep : scanStep (none, none) e = (some e.1, some e.2.createdAt) := by
      simp [scanStep, ltOldest]
    rcases scan_from es e.1 e.2.createdAt with
      ⟨hall, hres⟩ | ⟨pre, v, post, hsplit, hv, hpre, hpost, hres⟩
    · refine ⟨[], e, es, rfl, ?_, by simp, ?_⟩
      · intro x hx
        rcases List.mem_cons.mp hx with rfl | hx
        · exact le_refl _
        · exact hall x hx
      · rw [oldestScan_eq, List.foldl_cons, hstep, hres]
    · refine ⟨e :: pre, v, post, by simp [hsplit], ?_, ?_, ?_⟩
      · intro x hx
        rcases List.mem_cons.mp hx with rfl | hx
        · omega
        · rw [hsplit] at hx
          rcases List.mem_append.mp hx with hx | hx
          · exact le_of_lt (hpre x hx)
          · rcases List.mem_cons.mp hx with rfl | hx
            · exact le_refl _
            · exact hpost x hx
      · intro x hx
        rcases List.mem_cons.mp hx with rfl | hx
        · exact hv
        · exact hpre x hx
      · rw [oldestScan_eq, List.foldl_cons, hstep, hres]

theorem mapDelete_split {β : Type} (pre post : List (JSString × β)) (v : JSString × β)
    (h : ∀ e ∈ pre, e.1 ≠ v.1) :
    mapDelete (pre ++ v :: post) v.1 = pre ++ post := by
  unfold mapDelete
  rw [List.eraseP_append_right]
  · simp
  · intro e he
    simpa using h e he

theorem mapHas_true_iff {β : Type} (m : List (JSString × β)) (key : JSString) :
    mapHas m key = true ↔ key ∈ m.map (fun e => e.1) := by
  simp only [mapHas, List.any_eq_true, List.mem_map, beq_iff_eq]

theorem mapHas_false_iff {β : Type} (m : List (JSString × β)) (key : JSString) :
    mapHas m key = false ↔ key ∉ m.map (fun e => e.1) := by
  rw [← mapHas_true_iff]; simp

theorem mapSet_new {β : Type} (m : List (JSString × β)) (key : JSString) (v : β)
    (h : key ∉ m.map (fun e => e.1)) : mapSet m key v = m ++ [(key, v)] := by
  induction m with
  | nil => rfl
  | cons e es ih =>
    simp only [List.map_cons, List.mem_cons, not_or] at h
    have hne : (e.1 == key) = false := by
      simpa using fun hh => h.1 hh.symm
    simp [mapSet, hne, ih h.2]

theorem mapGet_mapSet {β : Type} (m : List (JSString × β)) (key : JSString) (v : β) :
    mapGet (mapSet m key v) key = some v := by
  induction m with
  | nil => simp [mapSet, mapGet]
  | cons e es ih =>
    by_cases h : (e.1 == key) = true
    · simp [mapSet, h, mapGet]
    · have h2 : (e.1 == key) = false := by simpa using h
      simp only [mapGet] at ih
      simp [mapSet, h2, mapGet, List.find?_cons, ih]

/-- What `_evictOldest` does on a well-formed non-empty map. -/
theorem evictOldest_spec (c : DNSCache) (hwf : c.WF) (hne : c.entries ≠ []) :
    ∃ pre v post, c.entries = pre ++ v :: post ∧
      (∀ e ∈ c.entries, v.2.createdAt ≤ e.2.createdAt) ∧
      (∀ e ∈ pre, v.2.createdAt < e.2.createdAt) ∧
      _evictOldest c = (true, { c with entries := pre ++ post, size := (pre ++ post).length }) := by
  obtain ⟨pre, v, post, hsplit, hmin, hfirst, hscan⟩ := oldestScan_spec c.entries hne
  refine ⟨pre, v, post, hsplit, hmin, hfirst, ?_⟩
  have hvmem : v ∈ c.entries := by rw [hsplit]; simp
  have hkey : truthy v.1 = true := by
    have := hwf.2 v hvmem
    cases hv : v.1 with
    | nil => exact absurd hv this
    | cons a t => simp [truthy]
  have hnodup := hwf.1
  rw [hsplit] at hnodup
  have hpre : ∀ e ∈ pre, e.1 ≠ v.1 := by
    intro e he heq
    simp only [List.map_append, List.map_cons] at hnodup
    have h1 := (List.nodup_append.mp hnodup).2.2
    exact h1 (List.mem_map_of_mem _ he) (by rw [heq]; exact List.mem_cons_self _ _)
  have hhas : mapHas c.entries v.1 = true := by
    rw [mapHas_true_iff]; exact List.mem_map_of_mem _ hvmem
  have hdel : mapDelete c.entries v.1 = pre ++ post := by
    rw [hsplit]; exact mapDelete_split pre post v hpre
  simp [_evictOldest, hscan, hkey, _removeItem, hhas, hdel]

/-- C4 (amended). On an enabled cache whose occupancy equals `maxSize ≥ 1`, a `set`
of non-null data under a key that is not present removes exactly one entry, the
first one of minimal `createdAt`, keeps every other entry unchanged and in order,
appends the new entry, and leaves the occupancy (and `stats.size`) at `maxSize`. -/
theorem set_evicts_oldest (c : DNSCache) (domain type : JSString) (d : List Rec)
    (ttl : Option Int) (now1 now2 : Nat)
    (hen : c.enabled = true) (hwf : c.WF) (hmax : 1 ≤ c.maxSize)
    (hfull : (c.entries.length : Int) = c.maxSize)
    (hnew : mapHas c.entries (_getCacheKey domain type) = false) :
    EvictsOldest c.entries (c.set domain type (some d) ttl now1 now2).2.entries
        (_getCacheKey domain type)
        ⟨d, now1, (now2 : Int) + resolveTtl c d ttl * 1000, resolveTtl c d ttl⟩ ∧
      (((c.set domain type (some d) ttl now1 now2).2.entries.length : Nat) : Int) = c.maxSize ∧
      (c.set domain type (some d) ttl now1 now2).2.size
        = (c.set domain type (some d) ttl now1 now2).2.entries.length ∧
      (c.set domain type (some d) ttl now1 now2).1 = true := by
  have hne : c.entries ≠ [] := by
    intro h; rw [h] at hfull; simp at hfull; omega
  obtain ⟨pre, v, post, hsplit, hmin, hfirst, hev⟩ := evictOldest_spec c hwf hne
  have hcond : (decide ((c.entries.length : Int) ≥ c.maxSize)
      && !mapHas c.entries (_getCacheKey domain type)) = true := by
    simp [hnew, hfull]
  have hnotin : _getCacheKey domain type ∉ (pre ++ post).map (fun e => e.1) := by
    have h := (mapHas_false_iff _ _).mp hnew
    rw [hsplit] at h
    intro hin
    apply h
    simp only [List.map_append, List.mem_append, List.map_cons, List.mem_cons] at hin ⊢
    rcases hin with hin | hin
    · exact Or.inl hin
    · exact Or.inr (Or.inr hin)
  have hset : c.set domain type (some d) ttl now1 now2 =
      (true, ⟨c.enabled, c.ttl, c.maxSize, c.hits, c.misses,
        (pre ++ post).length + 1,
        pre ++ post ++ [(_getCacheKey domain type,
          ⟨d, now1, (now2 : Int) + resolveTtl c d ttl * 1000, resolveTtl c d ttl⟩)]⟩) := by
    simp only [DNSCache.set, hen, hcond, hev]
    simp [mapSet_new _ _ _ hnotin]
    omega
  rw [hset]
  refine ⟨⟨pre, v, post, hsplit, hmin, hfirst, rfl⟩, ?_, by simp; omega, rfl⟩
  have hlen : c.entries.length = pre.length + post.length + 1 := by
    rw [hsplit]; simp; omega
  simp only [List.length_append, List.length_singleton]
  rw [← hfull, hlen]

/-- Witness for C4: a full two-entry cache with equal `createdAt`; the first entry
goes. -/
theorem set_evicts_oldest_witness :
    EvictsOldest fullCache.entries
        (fullCache.set (js "c.com") (js "A") (some []) none 9 9).2.entries
        (_getCacheKey (js "c.com") (js "A"))
        ⟨[], 9, (9 : Int) + resolveTtl fullCache [] none * 1000, resolveTtl fullCache [] none⟩ ∧
      (((fullCache.set (js "c.com") (js "A") (some []) none 9 9).2.entries.length : Nat) : Int)
        = fullCache.maxSize ∧
      (fullCache.set (js "c.com") (js "A") (some []) none 9 9).2.size
        = (fullCache.set (js "c.com") (js "A") (some []) none 9 9).2.entries.length ∧
      (fullCache.set (js "c.com") (js "A") (some []) none 9 9).1 = true :=
  set_evicts_oldest fullCache (js "c.com") (js "A") [] none 9 9 rfl
    ⟨by decide, by decide⟩ (by decide) (by decide) (by decide)

/-- C4 as stated fails on a disabled cache: the cache is full, the key is new, and
`set` removes nothing and inserts nothing. -/
theorem set_evicts_oldest_counterexample :
    ((disabledFullCache.entries.length : Nat) : Int) = disabledFullCache.maxSize ∧
    1 ≤ disabledFullCache.maxSize ∧
    mapHas disabledFullCache.entries (_getCacheKey (js "b.com") (js "A")) = false ∧
    (disabledFullCache.set (js "b.com") (js "A") (some []) none 9 9).2.entries
      = disabledFullCache.entries ∧
    ¬ ∃ item, EvictsOldest disabledFullCache.entries
        (disabledFullCache.set (js "b.com") (js "A") (some []) none 9 9).2.entries
        (_getCacheKey (js "b.com") (js "A")) item := by
  refine ⟨by decide, by decide, by decide, by decide, ?_⟩
  rintro ⟨item, pre, v, post, h1, -, -, h4⟩
  have e1 : (disabledFullCache.set (js "b.com") (js "A") (some []) none 9 9).2.entries
      = [(js "a.com:A", ⟨[], 5, 300005, 300⟩)] := by decide
  have e0 : disabledFullCache.entries = [(js "a.com:A", ⟨[], 5, 300005, 300⟩)] := by decide
  rw [e1] at h4
  rw [e0] at h1
  have l1 := congrArg List.length h1
  have l4 := congrArg List.length h4
  simp at l1 l4
  have hpre : pre = [] := List.length_eq_zero.mp (by omega)
  have hpost : post = [] := List.length_eq_zero.mp (by omega)
  subst hpre hpost
  simp at h4
  exact absurd h4.1 (by decide)

theorem mathMin_le (x : Int) (xs : List Int) :
    mathMin x xs ≤ x ∧ ∀ y ∈ xs, mathMin x xs ≤ y := by
  unfold mathMin
  induction xs generalizing x with
  | nil => simp
  | cons a t ih =>
    simp only [List.foldl_cons]
    obtain ⟨h1, h2⟩ := ih (min x a)
    refine ⟨le_trans h1 (min_le_left _ _), ?_⟩
    intro y hy
    rcases List.mem_cons.mp hy with rfl | hy
    · exact le_trans h1 (min_le_right _ _)
    · exact h2 y hy

theorem mathMin_mem (x : Int) (xs : List Int) : mathMin x xs ∈ x :: xs := by
  unfold mathMin
  induction xs generalizing x with
  | nil => simp
  | cons a t ih =>
    simp only [List.foldl_cons]
    have h := ih (min x a)
    rcases List.mem_cons.mp h with h | h
    · rw [h]
      rcases min_choice x a with hm | hm <;> rw [hm] <;> simp
    · exact List.mem_cons_of_mem _ (List.mem_cons_of_mem _ h)

theorem mem_recordTtls (data : List Rec) (x : Int) :
    x ∈ recordTtls data ↔ ∃ r ∈ data, r.ttl = some x ∧ 0 < x := by
  unfold recordTtls
  simp only [List.mem_filterMap, List.mem_map]
  constructor
  · rintro ⟨t, ⟨r, hr, rfl⟩, ht⟩
    cases hrt : r.ttl with
    | none => rw [hrt] at ht; simp at ht
    | some n =>
      rw [hrt] at ht
      by_cases hn : n > 0
      · simp [hn] at ht
        subst ht
        exact ⟨r, hr, hrt, hn⟩
      · simp [hn] at ht
  · rintro ⟨r, hr, hrt, hx⟩
    exact ⟨some x, ⟨r, hr, hrt⟩, by simp [hx]⟩

end DomesticDns


namespace DomesticDns

/-- The item that a storing `set` leaves under its key. -/
theorem set_stores (c : DNSCache) (domain type : JSString) (d : List Rec)
    (ttl : Option Int) (now1 now2 : Nat) (hen : c.enabled = true) :
    (c.set domain type (some d) ttl now1 now2).1 = true ∧
    mapGet (c.set domain type (some d) ttl now1 now2).2.entries (_getCacheKey domain type)
      = some ⟨d, now1, (now2 : Int) + resolveTtl c d ttl * 1000, resolveTtl c d ttl⟩ := by
  simp only [DNSCache.set, hen]
  exact ⟨rfl, mapGet_mapSet _ _ _⟩

/-- C10 (amended). On an enabled cache a `set` of non-null data stores an item whose
`ttl` is: the explicit argument when it is given and positive; the configured default
when the explicit argument is given and is zero or negative; with no explicit
argument, the minimum of the positive numeric `ttl` fields of the records when there
is one, and the configured default otherwise. The default is 300 on a fresh cache. -/
theorem set_ttl_resolution (c : DNSCache) (domain type : JSString) (d : List Rec)
    (ttl : Option Int) (now1 now2 : Nat) (hen : c.enabled = true) :
    ∃ item, mapGet (c.set domain type (some d) ttl now1 now2).2.entries
        (_getCacheKey domain type) = some item ∧ item.data = d ∧
      (∀ t, ttl = some t → 0 < t → item.ttl = t) ∧
      (∀ t, ttl = some t → t ≤ 0 → item.ttl = c.ttl) ∧
      (ttl = none → (∃ r ∈ d, ∃ x, r.ttl = some x ∧ 0 < x) →
        0 < item.ttl ∧ (∃ r ∈ d, r.ttl = some item.ttl) ∧
        ∀ r ∈ d, ∀ x, r.ttl = some x → 0 < x → item.ttl ≤ x) ∧
      (ttl = none → (¬ ∃ r ∈ d, ∃ x, r.ttl = some x ∧ 0 < x) → item.ttl = c.ttl) ∧
      DNSCache.initial.ttl = 300 := by
  refine ⟨_, (set_stores c domain type d ttl now1 now2 hen).2, rfl, ?_, ?_, ?_, ?_, rfl⟩
  · intro t ht hpos
    subst ht
    have : ¬ t ≤ 0 := by omega
    simp [resolveTtl, this]
  · intro t ht hle
    subst ht
    simp [resolveTtl, hle]
  · intro ht hex
    subst ht
    obtain ⟨r, hr, x, hrx, hx⟩ := hex
    have hmem : x ∈ recordTtls d := (mem_recordTtls d x).mpr ⟨r, hr, hrx, hx⟩
    cases hl : recordTtls d with
    | nil => rw [hl] at hmem; simp at hmem
    | cons t ts =>
      have hmin_mem : mathMin t ts ∈ recordTtls d := by rw [hl]; exact mathMin_mem t ts
      obtain ⟨r0, hr0, hr0t, hpos⟩ := (mem_recordTtls d _).mp hmin_mem
      have hnot : ¬ mathMin t ts ≤ 0 := by omega
      have hres : resolveTtl c d none = mathMin t ts := by
        simp [resolveTtl, hl, hnot]
      simp only [hres]
      refine ⟨hpos, ⟨r0, hr0, hr0t⟩, ?_⟩
      intro r1 hr1 y hy hypos
      have hy_mem : y ∈ t :: ts := by
        rw [← hl]; exact (mem_recordTtls d y).mpr ⟨r1, hr1, hy, hypos⟩
      rcases List.mem_cons.mp hy_mem with rfl | h
      · exact (mathMin_le _ ts).1
      · exact (mathMin_le t ts).2 y h
  · intro ht hno
    subst ht
    have hl : recordTtls d = [] := by
      cases hl : recordTtls d with
      | nil => rfl
      | cons t ts =>
        exfalso
        have : t ∈ recordTtls d := by rw [hl]; simp
        obtain ⟨r, hr, hrt, hpos⟩ := (mem_recordTtls d t).mp this
        exact hno ⟨r, hr, t, hrt, hpos⟩
    simp [resolveTtl, hl]

/-- Witness for C10: two records with ttl 120 and 60, no explicit argument. -/
theorem set_ttl_resolution_witness :
    ∃ item, mapGet (DNSCache.initial.set (js "a.com") (js "A")
        (some [answerA (js "a.com") (js "1.2.3.4") 120, answerA (js "a.com") (js "1.2.3.5") 60])
        none 7 7).2.entries (_getCacheKey (js "a.com") (js "A")) = some item ∧
      item.data = [answerA (js "a.com") (js "1.2.3.4") 120,
        answerA (js "a.com") (js "1.2.3.5") 60] ∧
      (∀ t, (none : Option Int) = some t → 0 < t → item.ttl = t) ∧
      (∀ t, (none : Option Int) = some t → t ≤ 0 → item.ttl = DNSCache.initial.ttl) ∧
      ((none : Option Int) = none →
        (∃ r ∈ [answerA (js "a.com") (js "1.2.3.4") 120, answerA (js "a.com") (js "1.2.3.5") 60],
          ∃ x, r.ttl = some x ∧ 0 < x) →
        0 < item.ttl ∧
        (∃ r ∈ [answerA (js "a.com") (js "1.2.3.4") 120,
          answerA (js "a.com") (js "1.2.3.5") 60], r.ttl = some item.ttl) ∧
        ∀ r ∈ [answerA (js "a.com") (js "1.2.3.4") 120, answerA (js "a.com") (js "1.2.3.5") 60],
          ∀ x, r.ttl = some x → 0 < x → item.ttl ≤ x) ∧
      ((none : Option Int) = none →
        (¬ ∃ r ∈ [answerA (js "a.com") (js "1.2.3.4") 120,
          answerA (js "a.com") (js "1.2.3.5") 60], ∃ x, r.ttl = some x ∧ 0 < x) →
        item.ttl = DNSCache.initial.ttl) ∧
      DNSCache.initial.ttl = 300 :=
  set_ttl_resolution DNSCache.initial (js "a.com") (js "A")
    [answerA (js "a.com") (js "1.2.3.4") 120, answerA (js "a.com") (js "1.2.3.5") 60]
    none 7 7 rfl

/-- C10 as stated fails for an explicit ttl of zero: the stored ttl is the default
300, not the argument; the same holds for a negative argument, where the record
ttl 60 is not used either. -/
theorem set_ttl_counterexample :
    (mapGet (DNSCache.initial.set (js "a.com") (js "A") (some []) (some 0) 7 7).2.entries
        (_getCacheKey (js "a.com") (js "A"))).map (fun i => i.ttl) ≠ some 0 ∧
    (mapGet (DNSCache.initial.set (js "a.com") (js "A") (some []) (some 0) 7 7).2.entries
        (_getCacheKey (js "a.com") (js "A"))).map (fun i => i.ttl) = some 300 ∧
    (mapGet (DNSCache.initial.set (js "a.com") (js "A")
        (some [answerA (js "a.com") (js "1.2.3.4") 60]) (some (-5)) 7 7).2.entries
        (_getCacheKey (js "a.com") (js "A"))).map (fun i => i.ttl) = some 300 := by
  refine ⟨by decide, by decide, by decide⟩

end DomesticDns


namespace DomesticDns

/-! ## Wire codec: the encoder -/

theorem utf8Encode_ascii (s : JSString) (h : ∀ u ∈ s, u < 128) : utf8Encode s = s := by
  unfold utf8Encode
  induction s with
  | nil => rfl
  | cons u rest ih =>
    have hu : u < 128 := h u (List.mem_cons_self _ _)
    have h1 : ¬ (55296 ≤ u ∧ u < 56320) := by omega
    have h2 : ¬ (56320 ≤ u ∧ u < 57344) := by omega
    simp only [utf8Aux, h1, h2, if_false, utf8Unit, hu, if_true]
    rw [ih (fun v hv => h v (List.mem_cons_of_mem _ hv))]
    rfl

theorem foldl_append_eq {α β : Type} (f : α → List β) (xs : List α) (init : List β) :
    xs.foldl (fun buf x => buf ++ f x) init = init ++ xs.flatMap f := by
  induction xs generalizing init with
  | nil => simp
  | cons x rest ih => simp [List.foldl_cons, ih, List.flatMap_cons, List.append_assoc]

theorem encodeParts_eq (parts : List JSString) :
    encodeParts parts = parts.flatMap (fun p => (p.length % 256) :: utf8Encode p) := by
  unfold encodeParts
  have h := foldl_append_eq (fun p : JSString => (p.length % 256) :: utf8Encode p) parts []
  simpa [List.append_assoc] using h

/-- The length-prefixed labels of a name. -/
theorem encodeParts_ascii (parts : List JSString)
    (h : ∀ l ∈ parts, l.length < 256 ∧ ∀ u ∈ l, u < 128) :
    encodeParts parts = parts.flatMap (fun l => l.length :: l) := by
  rw [encodeParts_eq]
  induction parts with
  | nil => rfl
  | cons p rest ih =>
    have hp := h p (List.mem_cons_self _ _)
    simp only [List.flatMap_cons]
    rw [ih (fun l hl => h l (List.mem_cons_of_mem _ hl)), utf8Encode_ascii p hp.2,
      Nat.mod_eq_of_lt hp.1]

theorem typeCode_eq_spec (type : JSString) : typeCode type = specTypeCode type := by
  unfold typeCode specTypeCode
  by_cases h1 : type = js "AAAA"
  · subst h1; decide
  by_cases h2 : type = js "MX"
  · subst h2; decide
  by_cases h3 : type = js "TXT"
  · subst h3; decide
  by_cases h4 : type = js "NS"
  · subst h4; decide
  by_cases h5 : type = js "CNAME"
  · subst h5; decide
  by_cases h6 : type = js "SOA"
  · subst h6; decide
  by_cases h7 : type = js "PTR"
  · subst h7; decide
  by_cases h8 : type = js "SRV"
  · subst h8; decide
  simp [h1, h2, h3, h4, h5, h6, h7, h8]

theorem typeCode_lt (type : JSString) : typeCode type < 256 := by
  unfold typeCode
  split_ifs <;> omega

/-- C9 (amended). For every id in 0..65535, every type name and every domain string
whose labels are ASCII and shorter than 256 characters, `_createDNSQueryBuffer` is the
layout of the specification: the two id bytes, `01 00`, `00 01`, six zero bytes, each
label as its byte length followed by its bytes, a zero byte, the big-endian type code
of the table (unknown names as A) and `00 01`; and every element is a byte. -/
theorem query_buffer_layout (id : Nat) (domain type : JSString) (hid : id < 65536)
    (hlab : ∀ l ∈ splitDot domain, l.length < 256 ∧ ∀ u ∈ l, u < 128) :
    _createDNSQueryBuffer id domain type = specQueryBuffer id domain type ∧
    ∀ b ∈ _createDNSQueryBuffer id domain type, b < 256 := by
  have hflat : encodeParts (splitDot domain)
      = (splitDot domain).flatMap (fun l => (utf8Encode l).length :: utf8Encode l) := by
    rw [encodeParts_ascii _ hlab]
    apply List.flatMap_congr
    intro l hl
    rw [utf8Encode_ascii l (hlab l hl).2]
  have hcode := typeCode_lt type
  have heq : _createDNSQueryBuffer id domain type = specQueryBuffer id domain type := by
    unfold _createDNSQueryBuffer specQueryBuffer writeUInt16BE
    rw [hflat, ← typeCode_eq_spec]
    have h1 : id / 256 % 256 = id / 256 := Nat.mod_eq_of_lt (by omega)
    have h2 : typeCode type / 256 % 256 = typeCode type / 256 := Nat.mod_eq_of_lt (by omega)
    simp [h1, h2]
  refine ⟨heq, ?_⟩
  intro b hb
  unfold _createDNSQueryBuffer writeUInt16BE at hb
  rw [encodeParts_ascii _ hlab] at hb
  simp only [List.mem_append, List.mem_cons, List.mem_singleton, List.mem_flatMap,
    List.not_mem_nil, or_false] at hb
  rcases hb with ((hb | hb) | hb)
  · rcases hb with ((((hb | hb) | hb) | hb) | hb) | hb <;>
      rcases hb with hb | hb <;> subst hb <;> omega
  · rcases hb with ⟨l, hl, hb⟩ | hb
    · rcases hb with hb | hb
      · subst hb; exact (hlab l hl).1
      · have := (hlab l hl).2 b hb; omega
    · omega
  · rcases hb with (hb | hb) | (hb | hb) <;> subst hb <;> omega

/-- Witness for C9: the query for `example.com`, type AAAA, id 0x1234. -/
theorem query_buffer_layout_witness :
    _createDNSQueryBuffer 4660 (js "example.com") (js "AAAA")
      = specQueryBuffer 4660 (js "example.com") (js "AAAA") ∧
    ∀ b ∈ _createDNSQueryBuffer 4660 (js "example.com") (js "AAAA"), b < 256 :=
  query_buffer_layout 4660 (js "example.com") (js "AAAA") (by decide) (by decide)

/-- C9 as stated fails on a label that is not ASCII: for the one-character label `é`
the length byte is 1 (the length of the string) while the label has two bytes. -/
theorem query_buffer_layout_counterexample :
    _createDNSQueryBuffer 0 (js "é") (js "A")
      = [0, 0, 1, 0, 0, 1, 0, 0, 0, 0, 0, 0, 1, 195, 169, 0, 0, 1, 0, 1] ∧
    specQueryBuffer 0 (js "é") (js "A")
      = [0, 0, 1, 0, 0, 1, 0, 0, 0, 0, 0, 0, 2, 195, 169, 0, 0, 1, 0, 1] ∧
    _createDNSQueryBuffer 0 (js "é") (js "A") ≠ specQueryBuffer 0 (js "é") (js "A") := by
  refine ⟨by decide, by decide, by decide⟩

end DomesticDns


namespace DomesticDns

/-! ## Wire codec: the manual parser -/

theorem getD_append_at (A rest : List Nat) (x : Nat) :
    (A ++ x :: rest).getD A.length 0 = x := by
  induction A with
  | nil => rfl
  | cons a A ih => simpa [List.getD_cons_succ] using ih

theorem drop_step (buf : List Nat) (p x : Nat) (rest : List Nat)
    (h : buf.drop p = x :: rest) :
    buf.getD p 0 = x ∧ buf.get? p = some x ∧ buf.drop (p + 1) = rest ∧ p < buf.length := by
  have hlt : p < buf.length := by
    by_contra hge
    rw [List.drop_eq_nil_of_le (by omega)] at h
    exact absurd h (by simp)
  have hget : buf[p]? = some x := by
    have := List.getElem?_drop buf p 0
    rw [h] at this
    simpa using this.symm
  refine ⟨?_, ?_, ?_, hlt⟩
  · rw [List.getD_eq_getElem?_getD, hget]; rfl
  · rw [List.get?_eq_getElem?, hget]
  · have : buf.drop (p + 1) = (buf.drop p).drop 1 := by
      rw [List.drop_drop]
    rw [this, h]; rfl

theorem and192_of_le (b : Nat) (h : b ≤ 191) : ¬ (b &&& 192 = 192) := by
  intro hb
  have := Nat.and_le_left (n := b) (m := 192)
  omega

/-- The label loop has run to its end once the fuel covers what is left of the buffer:
more fuel changes nothing. -/
theorem skipLabels_fuel (buf : List Nat) (fuel1 fuel2 pos : Nat)
    (h1 : buf.length - pos ≤ fuel1) (h2 : buf.length - pos ≤ fuel2) :
    skipLabels fuel1 buf pos = skipLabels fuel2 buf pos := by
  induction fuel1 generalizing fuel2 pos with
  | zero =>
    have hge : ¬ pos < buf.length := by omega
    cases fuel2 with
    | zero => rfl
    | succ f2 => simp [skipLabels, hge]
  | succ f1 ih =>
    cases fuel2 with
    | zero =>
      have hge : ¬ pos < buf.length := by omega
      simp [skipLabels, hge]
    | succ f2 =>
      simp only [skipLabels]
      split_ifs with hc
      · exact ih f2 _ (by omega) (by omega)
      · rfl

/-- The question loop has run to its end once the fuel covers what is left of the
buffer. -/
theorem skipQuestionName_fuel (buf : List Nat) (fuel1 fuel2 pos : Nat)
    (h1 : buf.length - pos ≤ fuel1) (h2 : buf.length - pos ≤ fuel2) :
    skipQuestionName fuel1 buf pos = skipQuestionName fuel2 buf pos := by
  induction fuel1 generalizing fuel2 pos with
  | zero =>
    have hge : ¬ pos < buf.length := by omega
    cases fuel2 with
    | zero => rfl
    | succ f2 => simp [skipQuestionName, hge]
  | succ f1 ih =>
    cases fuel2 with
    | zero =>
      have hge : ¬ pos < buf.length := by omega
      simp [skipQuestionName, hge]
    | succ f2 =>
      simp only [skipQuestionName]
      split_ifs with hc hp
      · rfl
      · exact ih f2 _ (by omega) (by omega)
      · rfl

/-- The question loop steps over the length-prefixed labels of a name up to its
terminating zero byte. -/
theorem skipQuestionName_labels (ls : List JSString)
    (h : ∀ l ∈ ls, 1 ≤ l.length ∧ l.length ≤ 191) (A rest : List Nat) (fuel : Nat)
    (hf : ls.length ≤ fuel) :
    skipQuestionName fuel (A ++ ls.flatMap (fun l => l.length :: l) ++ 0 :: rest) A.length
      = A.length + (ls.flatMap (fun l => l.length :: l)).length := by
  induction ls generalizing A fuel with
  | nil =>
    cases fuel with
    | zero => simp [skipQuestionName]
    | succ f =>
      have h0 : (A ++ 0 :: rest).getD A.length 0 = 0 := getD_append_at A rest 0
      rw [skipQuestionName]
      simp only [List.flatMap_nil, List.append_nil, h0, ne_eq, not_true_eq_false, and_false,
        if_false, List.length_nil, Nat.add_zero]
  | cons l ls ih =>
    cases fuel with
    | zero => simp at hf
    | succ f =>
      have hl := h l (List.mem_cons_self _ _)
      have hbuf : A ++ (l :: ls).flatMap (fun l => l.length :: l) ++ 0 :: rest
          = A ++ l.length :: (l ++ ls.flatMap (fun l => l.length :: l) ++ 0 :: rest) := by
        simp [List.flatMap_cons, List.append_assoc]
      have hbuf2 : A ++ (l :: ls).flatMap (fun l => l.length :: l) ++ 0 :: rest
          = (A ++ l.length :: l) ++ ls.flatMap (fun l => l.length :: l) ++ 0 :: rest := by
        simp [List.flatMap_cons, List.append_assoc]
      have hb : (A ++ (l :: ls).flatMap (fun l => l.length :: l) ++ 0 :: rest).getD A.length 0
          = l.length := by
        rw [hbuf]; exact getD_append_at _ _ _
      have hlen : A.length < (A ++ (l :: ls).flatMap (fun l => l.length :: l)
          ++ 0 :: rest).length := by
        rw [hbuf]; simp
      have hne : l.length ≠ 0 := by omega
      have hptr := and192_of_le l.length hl.2
      rw [skipQuestionName]
      simp only [hb, hlen, hne, ne_eq, not_false_eq_true, and_self, if_true, hptr, if_false]
      have hpos : A.length + l.length + 1 = (A ++ l.length :: l).length := by simp; omega
      rw [hpos, hbuf2,
        ih (fun x hx => h x (List.mem_cons_of_mem _ hx)) (A ++ l.length :: l) f
          (by simp at hf; omega)]
      simp only [List.flatMap_cons, List.length_append, List.length_cons]
      omega

/-- The label loop of an answer name does the same. -/
theorem skipLabels_labels (ls : List JSString)
    (h : ∀ l ∈ ls, 1 ≤ l.length) (A rest : List Nat) (fuel : Nat)
    (hf : ls.length ≤ fuel) :
    skipLabels fuel (A ++ ls.flatMap (fun l => l.length :: l) ++ 0 :: rest) A.length
      = A.length + (ls.flatMap (fun l => l.length :: l)).length := by
  induction ls generalizing A fuel with
  | nil =>
    cases fuel with
    | zero => simp [skipLabels]
    | succ f =>
      have h0 : (A ++ 0 :: rest).getD A.length 0 = 0 := getD_append_at A rest 0
      rw [skipLabels]
      simp only [List.flatMap_nil, List.append_nil, h0, ne_eq, not_true_eq_false, and_false,
        if_false, List.length_nil, Nat.add_zero]
  | cons l ls ih =>
    cases fuel with
    | zero => simp at hf
    | succ f =>
      have hl := h l (List.mem_cons_self _ _)
      have hbuf : A ++ (l :: ls).flatMap (fun l => l.length :: l) ++ 0 :: rest
          = A ++ l.length :: (l ++ ls.flatMap (fun l => l.length :: l) ++ 0 :: rest) := by
        simp [List.flatMap_cons, List.append_assoc]
      have hbuf2 : A ++ (l :: ls).flatMap (fun l => l.length :: l) ++ 0 :: rest
          = (A ++ l.length :: l) ++ ls.flatMap (fun l => l.length :: l) ++ 0 :: rest := by
        simp [List.flatMap_cons, List.append_assoc]
      have hb : (A ++ (l :: ls).flatMap (fun l => l.length :: l) ++ 0 :: rest).getD A.length 0
          = l.length := by
        rw [hbuf]; exact getD_append_at _ _ _
      have hlen : A.length < (A ++ (l :: ls).flatMap (fun l => l.length :: l)
          ++ 0 :: rest).length := by
        rw [hbuf]; simp
      have hne : l.length ≠ 0 := by omega
      rw [skipLabels]
      simp only [hb, hlen, hne, ne_eq, not_false_eq_true, and_self, if_true]
      have hpos : A.length + l.length + 1 = (A ++ l.length :: l).length := by simp; omega
      rw [hpos, hbuf2,
        ih (fun x hx => h x (List.mem_cons_of_mem _ hx)) (A ++ l.length :: l) f
          (by simp at hf; omega)]
      simp only [List.flatMap_cons, List.length_append, List.length_cons]
      omega

theorem flatMap_labels_length_ge (ls : List JSString) :
    ls.length ≤ (ls.flatMap (fun l => l.length :: l)).length := by
  induction ls with
  | nil => simp
  | cons l ls ih =>
    simp only [List.flatMap_cons, List.length_append, List.length_cons]
    omega

/-- One answer `TYPE=1, CLASS=1, TTL=t, RDLENGTH=4, a b c d` read at `pos1`, the
position right after its name. -/
theorem parse_fixed_part (buf : List Nat) (domain : JSString) (pos pos1 t a b c d : Nat)
    (tail : List Nat) (ht : t < 4294967296)
    (hcond : pos + 12 < buf.length)
    (hname : (if buf.getD pos 0 &&& 192 = 192 then pos + 2
        else skipLabels buf.length buf pos + 1) = pos1)
    (hdrop : buf.drop pos1 = [0, 1, 0, 1] ++ u32Bytes t ++ [0, 4] ++ [a, b, c, d] ++ tail) :
    parseAnswers 1 buf domain pos []
      = [answerA domain (numStr 10 a ++ js "." ++ numStr 10 b ++ js "." ++ numStr 10 c ++
          js "." ++ numStr 10 d) t] := by
  simp only [u32Bytes, List.cons_append, List.nil_append, List.append_assoc] at hdrop
  obtain ⟨g0, -, d1, l0⟩ := drop_step _ _ _ _ hdrop
  obtain ⟨g1, -, d2, -⟩ := drop_step _ _ _ _ d1
  obtain ⟨g2, -, d3, -⟩ := drop_step _ _ _ _ d2
  obtain ⟨g3, -, d4, -⟩ := drop_step _ _ _ _ d3
  obtain ⟨g4, -, d5, -⟩ := drop_step _ _ _ _ d4
  obtain ⟨g5, -, d6, -⟩ := drop_step _ _ _ _ d5
  obtain ⟨g6, -, d7, -⟩ := drop_step _ _ _ _ d6
  obtain ⟨g7, -, d8, -⟩ := drop_step _ _ _ _ d7
  obtain ⟨g8, -, d9, -⟩ := drop_step _ _ _ _ d8
  obtain ⟨g9, -, d10, -⟩ := drop_step _ _ _ _ d9
  obtain ⟨-, q10, d11, -⟩ := drop_step _ _ _ _ d10
  obtain ⟨-, q11, d12, -⟩ := drop_step _ _ _ _ d11
  obtain ⟨-, q12, d13, -⟩ := drop_step _ _ _ _ d12
  obtain ⟨-, q13, -, l13⟩ := drop_step _ _ _ _ d13
  simp only [Nat.add_assoc, Nat.reduceAdd] at g1 g2 g3 g4 g5 g6 g7 g8 g9 q10 q11 q12 q13 l13
  have r1 : readUInt16BE buf pos1 = some 1 := by
    unfold readUInt16BE
    rw [if_pos (by omega), g0, g1]
  have r2 : readUInt16BE buf (pos1 + 2) = some 1 := by
    unfold readUInt16BE
    simp only [Nat.add_assoc, Nat.reduceAdd]
    rw [if_pos (by omega), g2, g3]
  have r3 : readUInt32BE buf (pos1 + 4) = some t := by
    simp only [readUInt32BE, g4, g5, g6, g7, Nat.add_assoc, Nat.reduceAdd]
    rw [if_pos (by omega)]
    congr 1
    omega
  have r4 : readUInt16BE buf (pos1 + 8) = some 4 := by
    unfold readUInt16BE
    simp only [Nat.add_assoc, Nat.reduceAdd]
    rw [if_pos (by omega), g8, g9]
  rw [parseAnswers]
  simp only [hcond, if_true, hname, r1, r2, r3, r4, and_self, byteStr, Nat.add_assoc,
    Nat.reduceAdd, q10, q11, q12, q13, parseAnswers, List.nil_append]
  rfl

theorem drop_append_length {α : Type} (P X : List α) (n : Nat) (h : P.length = n) :
    (P ++ X).drop n = X := by
  subst h; simp

theorem getD_append_length (P X : List Nat) (x n : Nat) (h : P.length = n) :
    (P ++ x :: X).getD n 0 = x := by
  subst h; exact getD_append_at P X x

/-- The response of `responseA`, with its question name spelled out. -/
theorem responseA_eq (hdr : List Nat) (domain : JSString) (name : List Nat)
    (t a b c d : Nat) (hlab : ∀ l ∈ splitDot domain, l.length < 256 ∧ ∀ u ∈ l, u < 128) :
    responseA hdr domain name t a b c d
      = hdr ++ (splitDot domain).flatMap (fun l => l.length :: l) ++
          0 :: ([0, 1, 0, 1] ++ (name ++
            ([0, 1, 0, 1] ++ u32Bytes t ++ [0, 4] ++ [a, b, c, d] ++ []))) := by
  have hA : typeCode (js "A") = 1 := by decide
  unfold responseA _createDNSQueryBuffer writeUInt16BE
  rw [encodeParts_ascii _ hlab, hA]
  simp [List.append_assoc]

/-- C7 (amended). For every domain whose labels are ASCII and 1 to 191 bytes long
(every valid DNS label has at most 63), every TTL `t` below 2^32 and all `a b c d`:
given a response made of a 12-byte header with ANCOUNT = 1, the question section of
the encoded query (type A, class IN) and one answer whose name is a 2-byte
compression pointer or the uncompressed labels, with TYPE = 1, CLASS = 1, TTL = `t`,
RDLENGTH = 4 and RDATA `a b c d`, `_manualParsePacket` returns exactly one record:
type `A`, address `a.b.c.d` in decimal, ttl `t`, name the queried domain. -/
theorem manual_parse_roundtrip (hdr : List Nat) (domain : JSString) (name : List Nat)
    (t a b c d : Nat)
    (hhdr : hdr.length = 12) (han : hdr.getD 6 0 = 0 ∧ hdr.getD 7 0 = 1)
    (hlab : ∀ l ∈ splitDot domain, 1 ≤ l.length ∧ l.length ≤ 191 ∧ ∀ u ∈ l, u < 128)
    (hname : (∃ p1 p2, name = [p1, p2] ∧ p1 &&& 192 = 192) ∨
      name = encodeParts (splitDot domain) ++ [0])
    (ht : t < 4294967296) :
    _manualParsePacket (responseA hdr domain name t a b c d) domain
      = some [answerA domain (numStr 10 a ++ js "." ++ numStr 10 b ++ js "." ++
          numStr 10 c ++ js "." ++ numStr 10 d) t] := by
  have hlab' : ∀ l ∈ splitDot domain, l.length < 256 ∧ ∀ u ∈ l, u < 128 :=
    fun l hl => ⟨by have := (hlab l hl).2.1; omega, (hlab l hl).2.2⟩
  have hlab1 : ∀ l ∈ splitDot domain, 1 ≤ l.length ∧ l.length ≤ 191 :=
    fun l hl => ⟨(hlab l hl).1, (hlab l hl).2.1⟩
  have hencode := encodeParts_ascii _ hlab'
  rw [hencode] at hname
  rw [responseA_eq hdr domain name t a b c d hlab']
  generalize hE : (splitDot domain).flatMap (fun l => l.length :: l) = E at hname
  generalize hfix : [0, 1, 0, 1] ++ u32Bytes t ++ [0, 4] ++ [a, b, c, d] ++ [] = fixed
  have hfixlen : fixed.length = 14 := by rw [← hfix]; simp [u32Bytes]
  generalize hbuf : hdr ++ E ++ 0 :: ([0, 1, 0, 1] ++ (name ++ fixed)) = buf
  have hbuflen : buf.length = 12 + E.length + 5 + name.length + 14 := by
    rw [← hbuf]; simp [hhdr, hfixlen]; omega
  -- the header
  have htake : buf.take 12 = hdr := by
    rw [← hbuf, List.append_assoc, List.take_append_eq_append_take, hhdr]
    simp [List.take_of_length_le (le_of_eq hhdr)]
  have hanc : readUInt16BE (buf.take 12) 6 = some 1 := by
    rw [htake]
    unfold readUInt16BE
    rw [if_pos (by omega), han.1, han.2]
  -- the question section
  have hskip : skipQuestionName buf.length buf 12 = 12 + E.length := by
    have h := skipQuestionName_labels (splitDot domain) hlab1 hdr
      ([0, 1, 0, 1] ++ (name ++ fixed)) buf.length
      (by
        have := flatMap_labels_length_ge (splitDot domain)
        rw [hE] at this; omega)
    rw [hE, hbuf, hhdr] at h
    exact h
  have hzero : buf.getD (12 + E.length) 0 = 0 := by
    rw [← hbuf]
    exact getD_append_length (hdr ++ E) _ 0 _ (by simp [hhdr])
  have hpos1 : (if 12 + E.length < buf.length ∧ buf.getD (12 + E.length) 0 = 0
      then 12 + E.length + 5 else 12 + E.length) = 12 + E.length + 5 := by
    rw [if_pos ⟨by omega, hzero⟩]
  -- the answer
  have hsplit : buf = (hdr ++ E ++ [0, 0, 1, 0, 1]) ++ (name ++ fixed) := by
    rw [← hbuf]; simp [List.append_assoc]
  have hPlen : (hdr ++ E ++ [0, 0, 1, 0, 1]).length = 12 + E.length + 5 := by
    simp [hhdr]; omega
  have hsplit2 : buf = (hdr ++ E ++ [0, 0, 1, 0, 1] ++ name) ++ (fixed ++ []) := by
    rw [hsplit]; simp [List.append_assoc]
  have hdrop : buf.drop (12 + E.length + 5 + name.length)
      = [0, 1, 0, 1] ++ u32Bytes t ++ [0, 4] ++ [a, b, c, d] ++ [] := by
    rw [hfix, hsplit2]
    have := drop_append_length (hdr ++ E ++ [0, 0, 1, 0, 1] ++ name) (fixed ++ [])
      (12 + E.length + 5 + name.length) (by simp [hhdr]; omega)
    simpa using this
  have hnamepos : (if buf.getD (12 + E.length + 5) 0 &&& 192 = 192
      then 12 + E.length + 5 + 2
      else skipLabels buf.length buf (12 + E.length + 5) + 1)
        = 12 + E.length + 5 + name.length := by
    rcases hname with ⟨p1, p2, hn, hp⟩ | hn
    · have hb : buf.getD (12 + E.length + 5) 0 = p1 := by
        rw [hsplit, hn]
        exact getD_append_length _ _ p1 _ hPlen
      rw [hb, if_pos hp, hn]
      rfl
    · cases hls : splitDot domain with
      | nil => exact absurd hls (splitDot_ne_nil domain)
      | cons l0 ls =>
        have hl0 := hlab1 l0 (by rw [hls]; exact List.mem_cons_self _ _)
        have hE' : E = l0.length :: (l0 ++ ls.flatMap (fun l => l.length :: l)) := by
          rw [← hE, hls]; simp [List.flatMap_cons]
        have hn2 : name ++ fixed
            = l0.length :: (l0 ++ ls.flatMap (fun l => l.length :: l) ++ [0] ++ fixed) := by
          rw [hn, hE']; simp
        have hb : buf.getD (12 + E.length + 5) 0 = l0.length := by
          rw [hsplit, hn2]
          exact getD_append_length _ _ _ _ hPlen
        rw [hb, if_neg (and192_of_le _ hl0.2)]
        have hs := skipLabels_labels (splitDot domain) (fun l hl => (hlab1 l hl).1)
          (hdr ++ E ++ [0, 0, 1, 0, 1]) fixed buf.length
          (by
            have := flatMap_labels_length_ge (splitDot domain)
            rw [hE] at this; omega)
        rw [hE, hPlen] at hs
        have hbuf3 : hdr ++ E ++ [0, 0, 1, 0, 1] ++ E ++ 0 :: fixed = buf := by
          rw [hsplit, hn]; simp [List.append_assoc]
        rw [hbuf3] at hs
        rw [hs, hn]
        simp
        omega
  have hparse := parse_fixed_part buf domain (12 + E.length + 5)
    (12 + E.length + 5 + name.length) t a b c d [] ht (by omega) hnamepos hdrop
  unfold _manualParsePacket
  rw [hanc]
  simp only [Nat.one_ne_zero, if_false, hskip, hpos1, hparse]

/-- Witness for C7: `example.com`, answer 93.184.216.34 with TTL 300 behind a
compression pointer. -/
theorem manual_parse_roundtrip_witness :
    _manualParsePacket
        (responseA headerOneAnswer (js "example.com") [192, 12] 300 93 184 216 34)
        (js "example.com")
      = some [answerA (js "example.com") (js "93.184.216.34") 300] :=
  (manual_parse_roundtrip headerOneAnswer (js "example.com") [192, 12] 300 93 184 216 34
    (by decide) (by decide) (by decide) (Or.inl ⟨192, 12, rfl, by decide⟩) (by decide)).trans
    (by decide)

set_option maxRecDepth 100000 in
/-- C7 as stated fails for a label of 192 bytes: its length byte has the two high
bits set, the parser takes it for a compression pointer and returns no record. -/
theorem manual_parse_roundtrip_counterexample :
    (∀ l ∈ splitDot (List.replicate 192 97), 1 ≤ l.length ∧ ∀ u ∈ l, u < 128) ∧
    _manualParsePacket
        (responseA headerOneAnswer (List.replicate 192 97) [192, 12] 300 93 184 216 34)
        (List.replicate 192 97) = some [] := by
  refine ⟨by decide, by decide⟩

end DomesticDns


namespace DomesticDns

/-! ## Domain router: `matchDomain` -/

theorem flatMap_escape_cons (c : Nat) (rest : JSString) :
    expandStars (escapeDots (c :: rest))
      = expandStars (if c = 46 then [92, 46] else [c]) ++ expandStars (escapeDots rest) := by
  simp [expandStars, escapeDots, List.flatMap_cons, List.flatMap_append]

theorem parse_dot (Y : JSString) :
    parseRegexBody (92 :: 46 :: Y)
      = (parseRegexBody Y).map (fun as => RegexAtom.lit 46 :: as) := by
  simp [parseRegexBody, parseRegexAux]

theorem parse_star (Y : JSString) :
    parseRegexBody (91 :: 94 :: 46 :: 93 :: 43 :: Y)
      = (parseRegexBody Y).map (fun as => RegexAtom.nonDotPlus :: as) := by
  simp [parseRegexBody, parseRegexAux]

theorem parse_plain (c : Nat) (Y : JSString) (h : isRegexSpecial c = false) :
    parseRegexBody (c :: Y) = (parseRegexBody Y).map (fun as => RegexAtom.lit c :: as) := by
  have h92 : c ≠ 92 := by intro hh; subst hh; exact absurd h (by decide)
  have h91 : c ≠ 91 := by intro hh; subst hh; exact absurd h (by decide)
  simp [parseRegexBody, parseRegexAux, h92, h91, h]

/-- The expression built from a pattern of dots, stars and plain units parses to one
atom per unit of the pattern. -/
theorem parse_expand (P : JSString)
    (h : ∀ c ∈ P, c = 46 ∨ c = 42 ∨ isRegexSpecial c = false) :
    parseRegexBody (expandStars (escapeDots P)) = some (P.map atomOfUnit) := by
  induction P with
  | nil => rfl
  | cons c rest ih =>
    have ih' := ih (fun x hx => h x (List.mem_cons_of_mem _ hx))
    rw [flatMap_escape_cons]
    rcases h c (List.mem_cons_self _ _) with hc | hc | hc
    · subst hc
      have e : expandStars (if (46 : Nat) = 46 then [92, 46] else [46]) = [92, 46] := by decide
      rw [e, List.cons_append, List.cons_append, List.nil_append, parse_dot, ih']
      rfl
    · subst hc
      have e : expandStars (if (42 : Nat) = 46 then [92, 46] else [42])
          = [91, 94, 46, 93, 43] := by decide
      rw [e]
      simp only [List.cons_append, List.nil_append]
      rw [parse_star, ih']
      rfl
    · have h46 : c ≠ 46 := by intro hh; subst hh; exact absurd hc (by decide)
      have h42 : c ≠ 42 := by intro hh; subst hh; exact absurd hc (by decide)
      have e : expandStars (if c = 46 then [92, 46] else [c]) = [c] := by
        simp [h46, expandStars, h42]
      rw [e, List.cons_append, List.nil_append, parse_plain c _ hc, ih']
      simp [atomOfUnit, h42]

theorem literal_unit_facts (c : Nat) (h : isLiteralUnit c = true) :
    isRegexSpecial (lowerUnit c) = false ∧ lowerUnit c ≠ 46 ∧ lowerUnit c ≠ 42 ∧
      lowerUnit (lowerUnit c) = lowerUnit c := by
  have hlt : c < 128 := by
    simp only [isLiteralUnit, Bool.or_eq_true, Bool.and_eq_true, decide_eq_true_eq] at h
    omega
  have key : ∀ c, c < 128 → isLiteralUnit c = true →
      (isRegexSpecial (lowerUnit c) = false ∧ lowerUnit c ≠ 46 ∧ lowerUnit c ≠ 42 ∧
        lowerUnit (lowerUnit c) = lowerUnit c) := by decide
  exact key c hlt h

/-! ### The matcher on literal labels and on stars -/

theorem atoms_literal (p : JSString) (h : 42 ∉ p) :
    p.map atomOfUnit = p.map RegexAtom.lit := by
  apply List.map_congr_left
  intro c hc
  have : c ≠ 42 := fun hh => h (hh ▸ hc)
  simp [atomOfUnit, this]

/-- A literal label at the end of the expression matches exactly itself. -/
theorem match_lit_end (p s : JSString) :
    matchAtoms (p.map RegexAtom.lit) s = (s == p) := by
  induction p generalizing s with
  | nil => cases s <;> simp [matchAtoms]
  | cons c p ih =>
    cases s with
    | nil => simp [matchAtoms]
    | cons x xs =>
      simp only [List.map_cons, matchAtoms, ih]
      by_cases hx : x = c <;> simp [hx]

/-- A literal label followed by a dot never matches a dot-free input. -/
theorem match_lit_dot_nodot (p d : JSString) (as : List RegexAtom) (hd : 46 ∉ d) :
    matchAtoms (p.map RegexAtom.lit ++ RegexAtom.lit 46 :: as) d = false := by
  induction p generalizing d with
  | nil =>
    cases d with
    | nil => simp [matchAtoms]
    | cons x xs =>
      have : x ≠ 46 := fun hh => hd (hh ▸ List.mem_cons_self _ _)
      simp [matchAtoms, this]
  | cons c p ih =>
    cases d with
    | nil => simp [matchAtoms]
    | cons x xs =>
      have hxs : 46 ∉ xs := fun hh => hd (List.mem_cons_of_mem _ hh)
      simp [matchAtoms, ih xs hxs]

/-- A dot-free literal label followed by a dot matches the first label of the input
exactly. -/
theorem match_lit_dot (p d rest : JSString) (as : List RegexAtom)
    (hp : 46 ∉ p) (hd : 46 ∉ d) :
    matchAtoms (p.map RegexAtom.lit ++ RegexAtom.lit 46 :: as) (d ++ 46 :: rest)
      = (p == d && matchAtoms as rest) := by
  induction p generalizing d with
  | nil =>
    cases d with
    | nil => simp [matchAtoms]
    | cons x xs =>
      have : x ≠ 46 := fun hh => hd (hh ▸ List.mem_cons_self _ _)
      simp [matchAtoms, this]
  | cons c p ih =>
    have hc : c ≠ 46 := fun hh => hp (hh ▸ List.mem_cons_self _ _)
    have hp' : 46 ∉ p := fun hh => hp (List.mem_cons_of_mem _ hh)
    cases d with
    | nil =>
      have : ¬ (46 = c) := fun hh => hc hh.symm
      simp [matchAtoms, this]
    | cons x xs =>
      have hxs : 46 ∉ xs := fun hh => hd (List.mem_cons_of_mem _ hh)
      simp only [List.map_cons, List.cons_append, matchAtoms, List.append_eq]
      rw [ih xs hp' hxs]
      by_cases hx : x = c
      · subst hx; simp
      · have h1 : (x == c) = false := by simpa using hx
        have h2 : (c == x) = false := by simpa using fun hh : c = x => hx hh.symm
        have h3 : (c :: p == x :: xs) = false := by
          simpa using fun hh : c = x => absurd hh.symm hx
        rw [h1, h3]; rfl

/-- A star at the end of the expression matches a non-empty dot-free input. -/
theorem plus_end (s : JSString) :
    plusThen (fun t => t.isEmpty) s = (!s.isEmpty && decide (46 ∉ s)) := by
  induction s with
  | nil => simp [plusThen]
  | cons x xs ih =>
    rw [plusThen, ih]
    by_cases hx : x = 46
    · subst hx; simp
    · have h2 : ¬ (46 = x) := fun hh => hx hh.symm
      cases xs with
      | nil => simp [hx, h2]
      | cons y ys => simp [hx, h2]

/-- A star followed by a dot never matches a dot-free input. -/
theorem plus_dot_nodot (d : JSString) (as : List RegexAtom) (hd : 46 ∉ d) :
    plusThen (matchAtoms (RegexAtom.lit 46 :: as)) d = false := by
  induction d with
  | nil => simp [plusThen]
  | cons x xs ih =>
    have hxs : 46 ∉ xs := fun hh => hd (List.mem_cons_of_mem _ hh)
    rw [plusThen, ih hxs]
    cases xs with
    | nil => simp [matchAtoms]
    | cons y ys =>
      have : y ≠ 46 := fun hh => hxs (hh ▸ List.mem_cons_self _ _)
      simp [matchAtoms, this]

/-- A star followed by a dot takes the whole first label, which must be non-empty. -/
theorem plus_dot (d rest : JSString) (as : List RegexAtom) (hd : 46 ∉ d) :
    plusThen (matchAtoms (RegexAtom.lit 46 :: as)) (d ++ 46 :: rest)
      = (!d.isEmpty && matchAtoms as rest) := by
  induction d with
  | nil => simp [plusThen]
  | cons x xs ih =>
    have hx : x ≠ 46 := fun hh => hd (hh ▸ List.mem_cons_self _ _)
    have hxs : 46 ∉ xs := fun hh => hd (List.mem_cons_of_mem _ hh)
    rw [List.cons_append, plusThen, ih hxs]
    cases xs with
    | nil => simp [matchAtoms, hx]
    | cons y ys =>
      have hy : (y == 46) = false := by
        simpa using fun hh : y = 46 => hxs (hh ▸ List.mem_cons_self _ _)
      have hx' : (x != 46) = true := by simpa using hx
      simp [matchAtoms, hy, hx']

theorem join_contains_dot (d e : JSString) (rest : List JSString) :
    46 ∈ joinWith [46] (d :: e :: rest) := by
  simp [joinWith]

theorem labelMatches_lower (p d : JSString) (hp : toLowerCase p = p)
    (hd : toLowerCase d = d) :
    labelMatches p d = if p = [42] then !d.isEmpty else p == d := by
  have hs : js "*" = [42] := by decide
  simp only [labelMatches, hs, hp, hd]

theorem atoms_join_cons (p q : JSString) (rest : List JSString) :
    (joinWith [46] (p :: q :: rest)).map atomOfUnit
      = p.map atomOfUnit ++ RegexAtom.lit 46 :: (joinWith [46] (q :: rest)).map atomOfUnit := by
  simp [joinWith, atomOfUnit]

/-- One label of the pattern against the first label of the input, when more labels
follow in the pattern. -/
theorem match_label_dot (p d rest : JSString) (as : List RegexAtom)
    (hp : p = [42] ∨ (42 ∉ p ∧ 46 ∉ p)) (hd : 46 ∉ d) :
    matchAtoms (p.map atomOfUnit ++ RegexAtom.lit 46 :: as) (d ++ 46 :: rest)
      = ((if p = [42] then !d.isEmpty else p == d) && matchAtoms as rest) := by
  rcases hp with hp | ⟨h42, h46⟩
  · subst hp
    have : matchAtoms ([42].map atomOfUnit ++ RegexAtom.lit 46 :: as)
        = plusThen (matchAtoms (RegexAtom.lit 46 :: as)) := rfl
    rw [this, plus_dot d rest as hd]
    simp
  · have hne : p ≠ [42] := fun hh => h42 (hh ▸ List.mem_cons_self _ _)
    rw [atoms_literal p h42, match_lit_dot p d rest as h46 hd]
    simp [hne]

theorem match_label_dot_nodot (p d : JSString) (as : List RegexAtom)
    (hp : p = [42] ∨ (42 ∉ p ∧ 46 ∉ p)) (hd : 46 ∉ d) :
    matchAtoms (p.map atomOfUnit ++ RegexAtom.lit 46 :: as) d = false := by
  rcases hp with hp | ⟨h42, -⟩
  · subst hp
    exact plus_dot_nodot d as hd
  · rw [atoms_literal p h42]
    exact match_lit_dot_nodot p d as hd

/-- The last label of the pattern against the whole rest of the input. -/
theorem match_label_end (p s : JSString) (hp : p = [42] ∨ (42 ∉ p ∧ 46 ∉ p)) :
    matchAtoms (p.map atomOfUnit) s
      = if p = [42] then (!s.isEmpty && decide (46 ∉ s)) else s == p := by
  rcases hp with hp | ⟨h42, -⟩
  · subst hp
    have : matchAtoms ([42].map atomOfUnit) = plusThen (matchAtoms []) := rfl
    rw [this]
    have h2 : matchAtoms [] = fun t : JSString => t.isEmpty := rfl
    rw [h2, plus_end]
    simp
  · have hne : p ≠ [42] := fun hh => h42 (hh ▸ List.mem_cons_self _ _)
    rw [atoms_literal p h42, match_lit_end]
    simp [hne]

/-- The expression of a pattern matches a domain exactly when the labels match one
by one (all labels in lower case). -/
theorem match_labels (pls ds : List JSString) (hpne : pls ≠ []) (hdne : ds ≠ [])
    (hp : ∀ p ∈ pls, p = [42] ∨ (42 ∉ p ∧ 46 ∉ p)) (hd : ∀ d ∈ ds, 46 ∉ d)
    (hplow : ∀ p ∈ pls, toLowerCase p = p) (hdlow : ∀ d ∈ ds, toLowerCase d = d) :
    matchAtoms ((joinWith [46] pls).map atomOfUnit) (joinWith [46] ds)
      = labelsMatch pls ds := by
  induction pls generalizing ds with
  | nil => exact absurd rfl hpne
  | cons p prest ih =>
    have hp0 := hp p (List.mem_cons_self _ _)
    have hpl0 := hplow p (List.mem_cons_self _ _)
    cases ds with
    | nil => exact absurd rfl hdne
    | cons d drest =>
      have hd0 := hd d (List.mem_cons_self _ _)
      have hdl0 := hdlow d (List.mem_cons_self _ _)
      cases prest with
      | nil =>
        cases drest with
        | nil =>
          simp only [joinWith, labelsMatch, Bool.and_true]
          rw [match_label_end p d hp0, labelMatches_lower p d hpl0 hdl0]
          by_cases hstar : p = [42]
          · simp [hstar, hd0]
          · simp only [hstar, if_false]
            by_cases hpd : p = d
            · subst hpd; simp
            · have : ¬ d = p := fun hh => hpd hh.symm
              simp [hpd, this]
        | cons e drest2 =>
          have hdot : 46 ∈ joinWith [46] (d :: e :: drest2) := join_contains_dot d e drest2
          simp only [labelsMatch, Bool.and_false]
          have hj : joinWith [46] [p] = p := rfl
          rw [hj, match_label_end p _ hp0]
          by_cases hstar : p = [42]
          · simp [hstar, hdot]
          · simp only [hstar, if_false]
            have : joinWith [46] (d :: e :: drest2) ≠ p := by
              intro hh
              rw [hh] at hdot
              rcases hp0 with h | h
              · exact hstar h
              · exact h.2 hdot
            simpa using this
      | cons q prest2 =>
        rw [atoms_join_cons]
        cases drest with
        | nil =>
          have hj : joinWith [46] [d] = d := rfl
          rw [hj, match_label_dot_nodot p d _ hp0 hd0]
          simp [labelsMatch]
        | cons e drest2 =>
          have hj : joinWith [46] (d :: e :: drest2) = d ++ 46 :: joinWith [46] (e :: drest2) := by
            simp [joinWith]
          rw [hj, match_label_dot p d _ _ hp0 hd0]
          rw [ih (e :: drest2) (by simp) (by simp)
            (fun x hx => hp x (List.mem_cons_of_mem _ hx))
            (fun x hx => hd x (List.mem_cons_of_mem _ hx))
            (fun x hx => hplow x (List.mem_cons_of_mem _ hx))
            (fun x hx => hdlow x (List.mem_cons_of_mem _ hx))]
          simp only [labelsMatch]
          rw [labelMatches_lower p d hpl0 hdl0]

theorem labelsMatch_map_lower (ps ds : List JSString) :
    labelsMatch (ps.map toLowerCase) (ds.map toLowerCase) = labelsMatch ps ds := by
  induction ps generalizing ds with
  | nil => cases ds <;> simp [labelsMatch]
  | cons p ps ih =>
    cases ds with
    | nil => simp [labelsMatch]
    | cons d ds =>
      simp only [List.map_cons, labelsMatch, ih]
      congr 1
      simp only [labelMatches, toLowerCase_idem, toLowerCase_eq_star]
      have he : (toLowerCase d).isEmpty = d.isEmpty := by cases d <;> rfl
      rw [he]

theorem labelsMatch_self (ps : List JSString) (h : ∀ p ∈ ps, toLowerCase p = p) :
    labelsMatch ps ps = true := by
  induction ps with
  | nil => rfl
  | cons p ps ih =>
    simp only [labelsMatch, ih (fun x hx => h x (List.mem_cons_of_mem _ hx)), Bool.and_true]
    have hs : js "*" = [42] := by decide
    simp only [labelMatches, hs]
    by_cases hp : p = [42]
    · subst hp; rfl
    · simp [hp]

/-- What `labelsMatch` says, spelled out: the same number of labels, a `*` stands
against a non-empty label, any other label equals its partner ignoring case. -/
theorem labelsMatch_iff (ps ds : List JSString) :
    labelsMatch ps ds = true ↔
      ps.length = ds.length ∧
      ∀ pd ∈ ps.zip ds, (pd.1 = js "*" → pd.2 ≠ []) ∧
        (pd.1 ≠ js "*" → toLowerCase pd.1 = toLowerCase pd.2) := by
  induction ps generalizing ds with
  | nil => cases ds <;> simp [labelsMatch]
  | cons p ps ih =>
    cases ds with
    | nil => simp [labelsMatch]
    | cons d ds =>
      simp only [labelsMatch, Bool.and_eq_true, ih, List.length_cons, List.zip_cons_cons,
        List.mem_cons, forall_eq_or_imp, Nat.add_right_cancel_iff]
      have hlm : labelMatches p d = true ↔
          ((p = js "*" → d ≠ []) ∧ (p ≠ js "*" → toLowerCase p = toLowerCase d)) := by
        unfold labelMatches
        by_cases hp : p = js "*"
        · simp [hp]
        · simp [hp]
      rw [hlm]
      tauto

theorem mem_join (ls : List JSString) (c : Nat) (h : c ∈ joinWith [46] ls) :
    c = 46 ∨ ∃ l ∈ ls, c ∈ l := by
  induction ls with
  | nil => simp [joinWith] at h
  | cons l rest ih =>
    cases rest with
    | nil =>
      right
      exact ⟨l, List.mem_cons_self _ _, by simpa [joinWith] using h⟩
    | cons m rest2 =>
      simp only [joinWith, List.mem_append, List.mem_singleton] at h
      rcases h with (h | h) | h
      · exact Or.inr ⟨l, List.mem_cons_self _ _, h⟩
      · exact Or.inl h
      · rcases ih h with h | ⟨x, hx, hc⟩
        · exact Or.inl h
        · exact Or.inr ⟨x, List.mem_cons_of_mem _ hx, hc⟩

/-- C6. For every pattern whose labels are each `*` or a literal of letters, digits,
hyphens and underscores, and every domain string, `matchDomain` answers, and answers
true exactly when the domain has as many labels as the pattern, every literal label
equals its partner ignoring letter case and every `*` stands against a non-empty
label. So `*.example.com` matches `api.example.com` and `a.example.com`, not
`example.com` nor `a.b.example.com`, and `*.*.example.com` matches `a.b.example.com`. -/
theorem matchDomain_spec (pattern domain : JSString)
    (hpat : ∀ l ∈ splitDot pattern, l = js "*" ∨ ∀ c ∈ l, isLiteralUnit c = true) :
    matchDomain pattern domain = some (specMatch pattern domain) ∧
    (matchDomain pattern domain = some true ↔
      (splitDot pattern).length = (splitDot domain).length ∧
      ∀ pd ∈ (splitDot pattern).zip (splitDot domain),
        (pd.1 = js "*" → pd.2 ≠ []) ∧
        (pd.1 ≠ js "*" → toLowerCase pd.1 = toLowerCase pd.2)) ∧
    matchDomain (js "*.example.com") (js "api.example.com") = some true ∧
    matchDomain (js "*.example.com") (js "a.example.com") = some true ∧
    matchDomain (js "*.example.com") (js "example.com") = some false ∧
    matchDomain (js "*.example.com") (js "a.b.example.com") = some false ∧
    matchDomain (js "*.*.example.com") (js "a.b.example.com") = some true := by
  have hs : js "*" = [42] := by decide
  have hpls : splitDot (toLowerCase pattern) = (splitDot pattern).map toLowerCase :=
    splitDot_toLowerCase pattern
  have hds : splitDot (toLowerCase domain) = (splitDot domain).map toLowerCase :=
    splitDot_toLowerCase domain
  -- the labels of the lower-cased pattern
  have hp : ∀ p ∈ splitDot (toLowerCase pattern), p = [42] ∨ (42 ∉ p ∧ 46 ∉ p) := by
    intro p hpm
    rw [hpls, List.mem_map] at hpm
    obtain ⟨l, hl, rfl⟩ := hpm
    rcases hpat l hl with h | h
    · left; rw [h, hs]; rfl
    · right
      constructor
      · intro hmem
        simp only [toLowerCase, List.mem_map] at hmem
        obtain ⟨c, hc, hc2⟩ := hmem
        exact (literal_unit_facts c (h c hc)).2.2.1 hc2
      · intro hmem
        simp only [toLowerCase, List.mem_map] at hmem
        obtain ⟨c, hc, hc2⟩ := hmem
        exact (literal_unit_facts c (h c hc)).2.1 hc2
  have hunits : ∀ c ∈ toLowerCase pattern, c = 46 ∨ c = 42 ∨ isRegexSpecial c = false := by
    intro c hc
    rw [← join_splitDot (toLowerCase pattern)] at hc
    rcases mem_join _ c hc with h | ⟨p, hpm, hcp⟩
    · exact Or.inl h
    · rw [hpls, List.mem_map] at hpm
      obtain ⟨l, hl, rfl⟩ := hpm
      rcases hpat l hl with h | h
      · right; left
        rw [h, hs] at hcp
        simpa [toLowerCase, lowerUnit] using hcp
      · right; right
        simp only [toLowerCase, List.mem_map] at hcp
        obtain ⟨c0, hc0, rfl⟩ := hcp
        exact (literal_unit_facts c0 (h c0 hc0)).1
  have hplow : ∀ p ∈ splitDot (toLowerCase pattern), toLowerCase p = p := by
    intro p hpm
    rw [hpls, List.mem_map] at hpm
    obtain ⟨l, -, rfl⟩ := hpm
    exact toLowerCase_idem l
  have hdlow : ∀ d ∈ splitDot (toLowerCase domain), toLowerCase d = d := by
    intro d hdm
    rw [hds, List.mem_map] at hdm
    obtain ⟨l, -, rfl⟩ := hdm
    exact toLowerCase_idem l
  have hregex : matchAtoms ((toLowerCase pattern).map atomOfUnit) (toLowerCase domain)
      = specMatch pattern domain := by
    have h := match_labels (splitDot (toLowerCase pattern)) (splitDot (toLowerCase domain))
      (splitDot_ne_nil _) (splitDot_ne_nil _) hp (splitDot_dotfree _) hplow hdlow
    rw [join_splitDot, join_splitDot] at h
    rw [h, hpls, hds, labelsMatch_map_lower]
    rfl
  have hmain : matchDomain pattern domain = some (specMatch pattern domain) := by
    unfold matchDomain
    simp only []
    by_cases heq : toLowerCase pattern = toLowerCase domain
    · rw [if_pos heq]
      have : specMatch pattern domain = true := by
        unfold specMatch
        rw [← labelsMatch_map_lower, ← hpls, ← hds, heq]
        exact labelsMatch_self _ hdlow
      rw [this]
    · rw [if_neg heq, parse_expand _ hunits]
      simp only [hregex]
  refine ⟨hmain, ?_, by decide, by decide, by decide, by decide, by decide⟩
  rw [hmain]
  simp only [Option.some.injEq]
  exact labelsMatch_iff _ _

/-- Witness for C6: the pattern `*.Example.com` against `api.example.com`. -/
theorem matchDomain_spec_witness :
    matchDomain (js "*.Example.com") (js "api.example.com")
      = some (specMatch (js "*.Example.com") (js "api.example.com")) ∧
    specMatch (js "*.Example.com") (js "api.example.com") = true :=
  ⟨(matchDomain_spec (js "*.Example.com") (js "api.example.com") (by decide)).1, by decide⟩

end DomesticDns


namespace DomesticDns

/-! ## Resolution engine: blocking and custom records -/

theorem js_star_dot_append (sfx : JSString) :
    startsWith (js "*." ++ sfx) (js "*.") = true ∧
    substring1 (js "*." ++ sfx) = js "." ++ sfx := by
  have h : js "*." = [42, 46] := by decide
  have h2 : js "." = [46] := by decide
  rw [h, h2]
  constructor
  · simp [startsWith]
  · simp [substring1]

/-- The two ways in which `isDomainBlocked` finds a domain: its lower-cased form is an
entry, or it ends with the `.suffix` part of an entry `*.suffix`. -/
theorem isDomainBlocked_of_match (blockedDomains : List JSString) (domain : JSString)
    (h : toLowerCase domain ∈ blockedDomains ∨
      ∃ sfx x, (js "*." ++ sfx) ∈ blockedDomains ∧
        toLowerCase domain = x ++ js "." ++ sfx) :
    isDomainBlocked blockedDomains domain = true := by
  unfold isDomainBlocked
  have hne : blockedDomains.length ≠ 0 := by
    rcases h with h | ⟨sfx, x, h, -⟩ <;>
      exact fun h0 => by rw [List.length_eq_zero.mp h0] at h; simp at h
  rw [if_neg hne]
  simp only []
  rcases h with h | ⟨sfx, x, hmem, hx⟩
  · have : blockedDomains.contains (toLowerCase domain) = true := by simpa using h
    rw [if_pos this]
  · by_cases hc : blockedDomains.contains (toLowerCase domain) = true
    · rw [if_pos hc]
    · rw [if_neg hc, List.any_eq_true]
      refine ⟨_, hmem, ?_⟩
      obtain ⟨h1, h2⟩ := js_star_dot_append sfx
      rw [h1, h2, hx]
      simp only [Bool.true_and, endsWith, List.append_assoc]
      simp

theorem logDropped_query (cfg : LoggingConfig) (e : LogInput) (h : e.source ≠ js "response") :
    logDropped cfg e = decide (cfg.logQueries = some false) := by
  unfold logDropped
  have : (e.source != js "response") = true := by simpa using h
  simp only [this, Bool.true_and, Bool.not_true, Bool.false_and, Bool.or_false]
  by_cases hq : cfg.logQueries = some false
  · simp [hq]
  · have : (cfg.logQueries == some false) = false := by simpa using hq
    simp [this, hq]

/-- What a call of `addLog` with a query entry leaves in the log buffer: nothing new
when `logQueries` is false, otherwise the stamped entry in front of the old buffer,
which loses its last entry once it is full. -/
theorem addLog_query_logs (w : World) (cfg : Config) (st : Stores) (e : LogInput)
    (h : e.source ≠ js "response") :
    (st.addLog w cfg e).trace = st.trace ++ [Event.addLog e] ∧
    (st.addLog w cfg e).cache = st.cache ∧
    (cfg.logging.logQueries = some false → (st.addLog w cfg e).logs = st.logs) ∧
    (cfg.logging.logQueries ≠ some false →
      ∃ kept, (st.addLog w cfg e).logs
          = ⟨w.clock st.ticks + w.random st.ticks, w.clock (st.ticks + 1), e⟩ :: kept ∧
        (kept = st.logs ∨ kept = st.logs.dropLast)) := by
  have hd := logDropped_query cfg.logging e h
  by_cases hq : cfg.logging.logQueries = some false
  · have hdrop : logDropped cfg.logging e = true := by rw [hd]; simpa using hq
    simp [Stores.addLog, hdrop, hq]
  · have hdrop : logDropped cfg.logging e = false := by rw [hd]; simpa using hq
    refine ⟨by simp [Stores.addLog, hdrop], by simp [Stores.addLog, hdrop],
      fun h2 => absurd h2 hq, fun _ => ?_⟩
    simp only [Stores.addLog, hdrop, addLog, Bool.false_eq_true, if_false]
    by_cases hlen : (⟨w.clock st.ticks + w.random st.ticks, w.clock (st.ticks + 1), e⟩
        :: st.logs : List LogEntry).length > MAX_LOGS
    · rw [if_pos hlen]
      cases hl : st.logs with
      | nil => rw [hl] at hlen; simp [MAX_LOGS] at hlen
      | cons a t => exact ⟨(a :: t).dropLast, by simp [List.dropLast], Or.inr rfl⟩
    · rw [if_neg hlen]
      exact ⟨st.logs, rfl, Or.inl rfl⟩

/-- C1 (amended). For every resolver state and every domain whose lower-cased form is
an entry of `blockedDomains`, or ends with the `.suffix` part of an entry `*.suffix`,
`lookup` returns the empty list and makes exactly one call on its collaborators: one
`addLog` with an entry of source `blocked` (no call of the record store, the cache or
a transport; the cache is unchanged). The log sink stores that entry at the front of
the buffer unless `logQueries` is false, in which case the buffer is unchanged. -/
theorem lookup_blocked (depth : Nat) (w : World) (cfg : Config) (st : Stores)
    (domain type clientIp : JSString) (protocol serverIp : Option JSString)
    (hblock : toLowerCase domain ∈ cfg.blockedDomains ∨
      ∃ sfx x, (js "*." ++ sfx) ∈ cfg.blockedDomains ∧
        toLowerCase domain = x ++ js "." ++ sfx) :
    ∃ st', lookup (depth + 1) w cfg st domain type clientIp protocol serverIp
        = some (Settled.resolved [], st') ∧
      st'.trace = st.trace ++ [Event.addLog (blockedEntry domain type clientIp)] ∧
      (blockedEntry domain type clientIp).source = js "blocked" ∧
      st'.cache = st.cache ∧
      (cfg.logging.logQueries = some false → st'.logs = st.logs) ∧
      (cfg.logging.logQueries ≠ some false →
        ∃ kept, st'.logs = ⟨w.clock st.ticks + w.random st.ticks, w.clock (st.ticks + 1),
            blockedEntry domain type clientIp⟩ :: kept ∧
          (kept = st.logs ∨ kept = st.logs.dropLast)) := by
  have hb := isDomainBlocked_of_match cfg.blockedDomains domain hblock
  have hsrc : (blockedEntry domain type clientIp).source ≠ js "response" := by
    simp only [blockedEntry]; decide
  obtain ⟨h1, h2, h3, h4⟩ := addLog_query_logs w cfg st (blockedEntry domain type clientIp) hsrc
  refine ⟨st.addLog w cfg (blockedEntry domain type clientIp), ?_, h1, rfl, h2, h3, h4⟩
  simp [lookup, lookupBody, hb]

/-- Witness for C1: `x.Tracker.NET` against the entry `*.tracker.net`. -/
theorem lookup_blocked_witness :
    ∃ st', lookup 1 sampleWorld sampleConfig emptyStores (js "x.Tracker.NET") (js "a")
        (js "10.0.0.1") none none = some (Settled.resolved [], st') ∧
      st'.trace = emptyStores.trace ++
        [Event.addLog (blockedEntry (js "x.Tracker.NET") (js "a") (js "10.0.0.1"))] ∧
      (blockedEntry (js "x.Tracker.NET") (js "a") (js "10.0.0.1")).source = js "blocked" ∧
      st'.cache = emptyStores.cache ∧
      (sampleConfig.logging.logQueries = some false → st'.logs = emptyStores.logs) ∧
      (sampleConfig.logging.logQueries ≠ some false →
        ∃ kept, st'.logs = ⟨sampleWorld.clock emptyStores.ticks
              + sampleWorld.random emptyStores.ticks,
            sampleWorld.clock (emptyStores.ticks + 1),
            blockedEntry (js "x.Tracker.NET") (js "a") (js "10.0.0.1")⟩ :: kept ∧
          (kept = emptyStores.logs ∨ kept = emptyStores.logs.dropLast)) :=
  lookup_blocked 0 sampleWorld sampleConfig emptyStores (js "x.Tracker.NET") (js "a")
    (js "10.0.0.1") none none
    (Or.inr ⟨js "tracker.net", js "x", by decide, by decide⟩)

/-- C1 as stated fails when query logging is switched off: the domain is an entry of
`blockedDomains`, `lookup` returns the empty list, and no log entry is recorded. -/
theorem lookup_blocked_counterexample :
    js "ads.example.com" ∈ quietConfig.blockedDomains ∧
    (lookup 1 sampleWorld quietConfig emptyStores (js "ads.example.com") (js "A")
        (js "10.0.0.1") none none).map (fun r => (r.1, r.2.logs))
      = some (Settled.resolved [], []) := by
  refine ⟨by decide, by decide⟩

/-- An entry of `blockedDomains` written in mixed case blocks nothing, not even the
domain spelled the same way: the domain is lower-cased, the entries are not. -/
theorem isDomainBlocked_mixed_case :
    js "Ads.Example.com" ∈ mixedCaseConfig.blockedDomains ∧
    isDomainBlocked mixedCaseConfig.blockedDomains (js "Ads.Example.com") = false ∧
    isDomainBlocked mixedCaseConfig.blockedDomains (js "ads.example.com") = false := by
  refine ⟨by decide, by decide, by decide⟩

/-- C2 (amended). For every domain that is not blocked and every type for which the
record store holds one or more records, `lookup` returns exactly the list
`getRecords(domain, type)`, whatever the cache contains and whatever the protocols
would answer: neither the cache nor a transport is called, the only calls are
`getRecords` and one `addLog` with source `custom`. -/
theorem lookup_custom (depth : Nat) (w : World) (cfg : Config) (st : Stores)
    (domain type clientIp : JSString) (protocol serverIp : Option JSString)
    (records : List Rec)
    (hnb : isDomainBlocked cfg.blockedDomains domain = false)
    (hrec : getRecords cfg.records domain type = Settled.resolved records)
    (hne : records ≠ []) :
    ∃ st', lookup (depth + 1) w cfg st domain type clientIp protocol serverIp
        = some (Settled.resolved records, st') ∧
      st'.trace = st.trace ++ [Event.getRecords domain type,
        Event.addLog (customEntry domain type clientIp records)] ∧
      st'.cache = st.cache := by
  have hlen : records.length > 0 := List.length_pos.mpr hne
  have hsrc : (customEntry domain type clientIp records).source ≠ js "response" := by
    simp only [customEntry]; decide
  obtain ⟨h1, h2, -, -⟩ := addLog_query_logs w cfg
    { st with trace := st.trace ++ [Event.getRecords domain type] }
    (customEntry domain type clientIp records) hsrc
  refine ⟨Stores.addLog w cfg { st with trace := st.trace ++ [Event.getRecords domain type] }
    (customEntry domain type clientIp records), ?_, ?_, ?_⟩
  · simp [lookup, lookupBody, hnb, hrec, hlen]
  · rw [h1]; simp
  · rw [h2]

/-- Witness for C2: the custom record of `home.lan`. -/
theorem lookup_custom_witness :
    ∃ st', lookup 1 deadWorld sampleConfig emptyStores (js "Home.LAN") (js "a")
        (js "10.0.0.1") (some (js "doh")) none
        = some (Settled.resolved [customA (js "home.lan") (js "192.168.1.1")], st') ∧
      st'.trace = emptyStores.trace ++ [Event.getRecords (js "Home.LAN") (js "a"),
        Event.addLog (customEntry (js "Home.LAN") (js "a") (js "10.0.0.1")
          [customA (js "home.lan") (js "192.168.1.1")])] ∧
      st'.cache = emptyStores.cache :=
  lookup_custom 0 deadWorld sampleConfig emptyStores (js "Home.LAN") (js "a")
    (js "10.0.0.1") (some (js "doh")) none [customA (js "home.lan") (js "192.168.1.1")]
    (by decide) (by decide) (by decide)

/-- C2 as stated fails for a blocked domain: the record store holds a record for
`ads.example.com`, and `lookup` returns the empty list. -/
theorem lookup_custom_counterexample :
    getRecords blockedRecordConfig.records (js "ads.example.com") (js "A")
      = Settled.resolved [customA (js "ads.example.com") (js "10.1.1.1")] ∧
    (lookup 1 sampleWorld blockedRecordConfig emptyStores (js "ads.example.com") (js "A")
        (js "10.0.0.1") none none).map (fun r => r.1) = some (Settled.resolved []) := by
  refine ⟨by decide, by decide⟩

end DomesticDns


namespace DomesticDns

/-! ## Resolution engine: the fallback chain -/

/-- Skipped protocols play no part: the loop over `fallbackOrder` is the loop over
the candidates. -/
theorem fallbackLoop_filter (nested : LookupFn) (w : World) (cfg : Config)
    (domain type clientIp useProtocol : JSString) (serverIp : Option JSString)
    (error : JSError) (order : List JSString) (st : Stores) :
    fallbackLoop nested w cfg domain type clientIp useProtocol serverIp error order st
      = fallbackLoop nested w cfg domain type clientIp useProtocol serverIp error
          (order.filter fun p =>
            decide (p ≠ useProtocol) && cfg.supportedProtocols.supports p) st := by
  induction order generalizing st with
  | nil => rfl
  | cons p rest ih =>
    by_cases hc : p ≠ useProtocol ∧ cfg.supportedProtocols.supports p = true
    · have hf : (decide (p ≠ useProtocol) && cfg.supportedProtocols.supports p) = true := by
        simp [hc.1, hc.2]
      rw [List.filter_cons]
      simp only [hf, if_true, fallbackLoop, if_pos hc]
      cases hatt : _lookupWithProtocol nested w cfg st.tick domain type clientIp p serverIp with
      | none => rfl
      | some r =>
        obtain ⟨res, st2⟩ := r
        cases res with
        | resolved R => rfl
        | rejected e => exact ih st2
    · have hf : (decide (p ≠ useProtocol) && cfg.supportedProtocols.supports p) = false := by
        rw [Bool.eq_false_iff]
        intro h
        simp only [Bool.and_eq_true, decide_eq_true_eq] at h
        exact hc h
      rw [List.filter_cons]
      simp only [hf, Bool.false_eq_true, if_false, fallbackLoop, if_neg hc]
      exact ih st

/-- When every candidate fails, the loop raises the error of the first attempt. -/
theorem fallbackLoop_all_fail (nested : LookupFn) (w : World) (cfg : Config)
    (domain type clientIp useProtocol : JSString) (serverIp : Option JSString)
    (error : JSError) (cands : List JSString) (st stN : Stores)
    (hc : ∀ p ∈ cands, p ≠ useProtocol ∧ cfg.supportedProtocols.supports p = true)
    (hrun : failedRun (fallbackAttempt nested w cfg domain type clientIp serverIp) cands st
      = some stN) :
    fallbackLoop nested w cfg domain type clientIp useProtocol serverIp error cands st
      = some (Settled.rejected error, stN) := by
  induction cands generalizing st with
  | nil =>
    simp only [failedRun, Option.some.injEq] at hrun
    subst hrun; rfl
  | cons p rest ih =>
    have hp := hc p (List.mem_cons_self _ _)
    simp only [fallbackLoop, if_pos hp]
    simp only [failedRun, fallbackAttempt] at hrun
    cases hatt : _lookupWithProtocol nested w cfg st.tick domain type clientIp p serverIp with
    | none => rw [hatt] at hrun; exact absurd hrun (by simp)
    | some r =>
      obtain ⟨res, st2⟩ := r
      rw [hatt] at hrun
      cases res with
      | resolved R => exact absurd hrun (by simp)
      | rejected e =>
        exact ih st2 (fun x hx => hc x (List.mem_cons_of_mem _ hx)) hrun

/-- The first candidate that succeeds ends the loop: its result is handed to the
cache and returned. -/
theorem fallbackLoop_first_success (nested : LookupFn) (w : World) (cfg : Config)
    (domain type clientIp useProtocol : JSString) (serverIp : Option JSString)
    (error : JSError) (pre : List JSString) (p : JSString) (post : List JSString)
    (st stK stP : Stores) (R : List Rec)
    (hc : ∀ q ∈ pre ++ p :: post, q ≠ useProtocol ∧ cfg.supportedProtocols.supports q = true)
    (hrun : failedRun (fallbackAttempt nested w cfg domain type clientIp serverIp) pre st
      = some stK)
    (hatt : fallbackAttempt nested w cfg domain type clientIp serverIp p stK
      = some (Settled.resolved R, stP)) :
    fallbackLoop nested w cfg domain type clientIp useProtocol serverIp error
        (pre ++ p :: post) st
      = some (Settled.resolved R, stP.cacheSet w domain type R) := by
  induction pre generalizing st with
  | nil =>
    simp only [failedRun, Option.some.injEq] at hrun
    subst hrun
    have hp := hc p (by simp)
    simp only [List.nil_append, fallbackLoop, if_pos hp]
    simp only [fallbackAttempt] at hatt
    rw [hatt]
  | cons q rest ih =>
    have hq := hc q (by simp)
    simp only [List.cons_append, fallbackLoop, if_pos hq]
    simp only [failedRun, fallbackAttempt] at hrun
    cases hq_att : _lookupWithProtocol nested w cfg st.tick domain type clientIp q serverIp with
    | none => rw [hq_att] at hrun; exact absurd hrun (by simp)
    | some r =>
      obtain ⟨res, st2⟩ := r
      rw [hq_att] at hrun
      cases res with
      | resolved R' => exact absurd hrun (by simp)
      | rejected e =>
        exact ih st2 (fun x hx => hc x (by simp at hx ⊢; exact Or.inr hx)) hrun

/-- Whatever the fallbacks do, an error raised by the loop is the error of the first
attempt. -/
theorem fallbackLoop_error (nested : LookupFn) (w : World) (cfg : Config)
    (domain type clientIp useProtocol : JSString) (serverIp : Option JSString)
    (error : JSError) (order : List JSString) (st stN : Stores) (e : JSError)
    (h : fallbackLoop nested w cfg domain type clientIp useProtocol serverIp error order st
      = some (Settled.rejected e, stN)) : e = error := by
  induction order generalizing st with
  | nil =>
    simp only [fallbackLoop, Option.some.injEq, Prod.mk.injEq, Settled.rejected.injEq] at h
    exact h.1.symm
  | cons p rest ih =>
    simp only [fallbackLoop] at h
    split_ifs at h with hc
    · cases hatt : _lookupWithProtocol nested w cfg st.tick domain type clientIp p serverIp with
      | none => rw [hatt] at h; exact absurd h (by simp)
      | some r =>
        obtain ⟨res, st2⟩ := r
        rw [hatt] at h
        cases res with
        | resolved R => simp at h
        | rejected e' => exact ih st2 h
    · exact ih st h

/-- The lookup of a domain that is not blocked, has no custom record and is not in
the cache, whose primary protocol is supported and fails: it is the fallback loop. -/
theorem lookup_primary_failed (depth : Nat) (w : World) (cfg : Config) (st st3 : Stores)
    (domain type clientIp : JSString) (protocol serverIp : Option JSString) (E : JSError)
    (hnb : isDomainBlocked cfg.blockedDomains domain = false)
    (hrec : getRecords cfg.records domain type = Settled.resolved [])
    (hmiss : (Stores.cacheGet w { st with trace := st.trace ++ [Event.getRecords domain type] }
      domain type).1 = none)
    (hsup : cfg.supportedProtocols.supports (orDefault protocol cfg.defaultProtocol) = true)
    (hprim : _lookupWithProtocol (lookup depth) w cfg (afterMiss w st domain type).tick
      domain type clientIp (orDefault protocol cfg.defaultProtocol) serverIp
        = some (Settled.rejected E, st3)) :
    lookup (depth + 1) w cfg st domain type clientIp protocol serverIp
      = fallbackLoop (lookup depth) w cfg domain type clientIp
          (orDefault protocol cfg.defaultProtocol) serverIp E cfg.fallbackOrder st3 := by
  simp only [lookup, lookupBody, hnb, Bool.false_eq_true, if_false, hrec, List.length_nil,
    gt_iff_lt, Nat.lt_irrefl, hsup, if_true]
  simp only [afterMiss] at hprim
  generalize hcg : Stores.cacheGet w { st with trace := st.trace ++ [Event.getRecords domain type] }
    domain type = cg at hmiss hprim
  obtain ⟨c1, st2⟩ := cg
  simp only at hmiss
  subst hmiss
  simp only [hprim]

theorem fallbackCandidates_spec (cfg : Config) (useProtocol : JSString) :
    ∀ p ∈ fallbackCandidates cfg useProtocol,
      p ≠ useProtocol ∧ cfg.supportedProtocols.supports p = true := by
  intro p hp
  simp only [fallbackCandidates, List.mem_filter, Bool.and_eq_true, decide_eq_true_eq] at hp
  exact hp.2

/-- What `cacheSet` does with a result: on an enabled cache the result is stored under
the key of the query, on a disabled cache nothing changes; either way it is one call
of the cache and nothing else. -/
theorem cacheSet_spec (w : World) (st : Stores) (domain type : JSString) (R : List Rec) :
    (st.cacheSet w domain type R).trace = st.trace ++ [Event.cacheSet domain type R] ∧
    (st.cacheSet w domain type R).logs = st.logs ∧
    (st.cacheSet w domain type R).cache.enabled = st.cache.enabled ∧
    (st.cache.enabled = true →
      ∃ item, mapGet (st.cacheSet w domain type R).cache.entries (_getCacheKey domain type)
        = some item ∧ item.data = R ∧
        item.expiresAt = (w.clock (st.ticks + 1) : Int) + item.ttl * 1000) ∧
    (st.cache.enabled = false → (st.cacheSet w domain type R).cache = st.cache) := by
  refine ⟨rfl, rfl, ?_, ?_, ?_⟩
  · simp only [Stores.cacheSet, DNSCache.set]
    by_cases hen : st.cache.enabled = true
    · simp only [hen, Bool.not_true, Bool.false_eq_true, if_false]
      split_ifs with hev
      · simp only [_evictOldest]
        split
        · split_ifs
          · simp only [_removeItem]
            split_ifs <;> exact hen
          · exact hen
        · exact hen
      · exact hen
    · simp [hen]
  · intro hen
    obtain ⟨-, h⟩ := set_stores st.cache domain type R none (w.clock st.ticks)
      (w.clock (st.ticks + 1)) hen
    exact ⟨_, h, rfl, rfl⟩
  · intro hen
    simp [Stores.cacheSet, DNSCache.set, hen]

/-- C5 (amended). A lookup reaches the dispatch (domain not blocked, no custom
record, cache miss) with a supported primary protocol `P` whose attempt fails with
error `E`. Then the protocols of `fallbackOrder` other than `P` and the unsupported
ones are tried in order: (1) when they all fail, `lookup` raises exactly `E`; (2) the
result of the first one that succeeds is returned and handed to the cache, which
stores it when it is enabled and ignores it when it is disabled, and no later
fallback is attempted (the call of the cache is the last event); (3) in every case an
error raised by `lookup` is `E`, never the error of a fallback. -/
theorem lookup_fallback (depth : Nat) (w : World) (cfg : Config) (st st3 : Stores)
    (domain type clientIp : JSString) (protocol serverIp : Option JSString) (E : JSError)
    (hnb : isDomainBlocked cfg.blockedDomains domain = false)
    (hrec : getRecords cfg.records domain type = Settled.resolved [])
    (hmiss : (Stores.cacheGet w { st with trace := st.trace ++ [Event.getRecords domain type] }
      domain type).1 = none)
    (hsup : cfg.supportedProtocols.supports (orDefault protocol cfg.defaultProtocol) = true)
    (hprim : _lookupWithProtocol (lookup depth) w cfg (afterMiss w st domain type).tick
      domain type clientIp (orDefault protocol cfg.defaultProtocol) serverIp
        = some (Settled.rejected E, st3)) :
    (∀ stN,
      failedRun (fallbackAttempt (lookup depth) w cfg domain type clientIp serverIp)
          (fallbackCandidates cfg (orDefault protocol cfg.defaultProtocol)) st3 = some stN →
        lookup (depth + 1) w cfg st domain type clientIp protocol serverIp
          = some (Settled.rejected E, stN)) ∧
    (∀ pre p post stK stP R,
      fallbackCandidates cfg (orDefault protocol cfg.defaultProtocol) = pre ++ p :: post →
      failedRun (fallbackAttempt (lookup depth) w cfg domain type clientIp serverIp) pre st3
        = some stK →
      fallbackAttempt (lookup depth) w cfg domain type clientIp serverIp p stK
        = some (Settled.resolved R, stP) →
        lookup (depth + 1) w cfg st domain type clientIp protocol serverIp
          = some (Settled.resolved R, stP.cacheSet w domain type R) ∧
        (stP.cacheSet w domain type R).trace = stP.trace ++ [Event.cacheSet domain type R] ∧
        (stP.cache.enabled = true →
          ∃ item, mapGet (stP.cacheSet w domain type R).cache.entries
            (_getCacheKey domain type) = some item ∧ item.data = R) ∧
        (stP.cache.enabled = false → (stP.cacheSet w domain type R).cache = stP.cache)) ∧
    (∀ e stN,
      lookup (depth + 1) w cfg st domain type clientIp protocol serverIp
        = some (Settled.rejected e, stN) → e = E) := by
  have hloop := lookup_primary_failed depth w cfg st st3 domain type clientIp protocol
    serverIp E hnb hrec hmiss hsup hprim
  have hcand := fallbackCandidates_spec cfg (orDefault protocol cfg.defaultProtocol)
  refine ⟨?_, ?_, ?_⟩
  · intro stN hrun
    rw [hloop, fallbackLoop_filter]
    exact fallbackLoop_all_fail _ w cfg domain type clientIp _ serverIp E _ st3 stN hcand hrun
  · intro pre p post stK stP R hsplit hrun hatt
    obtain ⟨h1, -, -, h4, h5⟩ := cacheSet_spec w stP domain type R
    refine ⟨?_, h1, ?_, h5⟩
    · rw [hloop, fallbackLoop_filter]
      have hcand' : ∀ q ∈ pre ++ p :: post, q ≠ orDefault protocol cfg.defaultProtocol ∧
          cfg.supportedProtocols.supports q = true := by
        rw [← hsplit]; exact hcand
      have := fallbackLoop_first_success (lookup depth) w cfg domain type clientIp
        (orDefault protocol cfg.defaultProtocol) serverIp E pre p post st3 stK stP R
        hcand' hrun hatt
      rw [← hsplit] at this
      exact this
    · intro hen
      obtain ⟨item, hi, hd, -⟩ := h4 hen
      exact ⟨item, hi, hd⟩
  · intro e stN h
    rw [hloop] at h
    exact fallbackLoop_error _ w cfg domain type clientIp _ serverIp E _ st3 stN e h

/-- Witness for C5: default protocol `custom`, fallback order `standard, custom`, every
transport fails; the error raised is the one of `custom`. -/
theorem lookup_fallback_witness :
    lookup 1 deadWorld sampleConfig emptyStores (js "foo.org") (js "A") (js "10.0.0.1")
        none none
      = some (Settled.rejected ⟨js "upstream failure: custom", none⟩, sampleAfterFallbacks) :=
  (lookup_fallback 0 deadWorld sampleConfig emptyStores sampleAfterPrimary (js "foo.org")
    (js "A") (js "10.0.0.1") none none ⟨js "upstream failure: custom", none⟩
    (by decide) (by decide) (by decide) (by decide) (by decide)).1
    sampleAfterFallbacks (by decide)

/-- C5 as stated fails on a disabled cache: `custom` fails, the fallback `standard`
succeeds and its result is returned, but nothing is stored in the cache. -/
theorem lookup_fallback_counterexample :
    (lookup 1 sampleWorld sampleConfig disabledStores (js "foo.org") (js "A")
        (js "10.0.0.1") none none).map (fun r => r.1)
      = some (Settled.resolved [answerA (js "foo.org") (js "1.2.3.4") 60]) ∧
    (lookup 1 sampleWorld sampleConfig disabledStores (js "foo.org") (js "A")
        (js "10.0.0.1") none none).map (fun r => transportsOf r.2.trace)
      = some [js "custom", js "standard"] ∧
    (lookup 1 sampleWorld sampleConfig disabledStores (js "foo.org") (js "A")
        (js "10.0.0.1") none none).map
      (fun r => mapGet r.2.cache.entries (_getCacheKey (js "foo.org") (js "A")))
      = some none ∧
    (lookup 1 sampleWorld sampleConfig disabledStores (js "foo.org") (js "A")
        (js "10.0.0.1") none none).map (fun r => r.2.cache.entries) = some [] := by
  refine ⟨by decide, by decide, by decide, by decide⟩

end DomesticDns


namespace DomesticDns

/-! ## Resolution engine: the second lookup is served from the cache -/

theorem addLog_cache (w : World) (cfg : Config) (st : Stores) (e : LogInput) :
    (st.addLog w cfg e).cache = st.cache := by
  unfold Stores.addLog
  split_ifs <;> rfl

theorem foldl_addLog_cache (w : World) (cfg : Config) (logs : List LogInput) (st : Stores) :
    (logs.foldl (fun acc e => acc.addLog w cfg e) st).cache = st.cache := by
  induction logs generalizing st with
  | nil => rfl
  | cons e rest ih => rw [List.foldl_cons, ih, addLog_cache]

theorem netCall_cache (w : World) (cfg : Config) (st : Stores) (call : NetCall) :
    (st.netCall w cfg call).2.cache = st.cache := by
  simp only [Stores.netCall]
  rw [foldl_addLog_cache]

theorem netCall_enabled (w : World) (cfg : Config) (st : Stores) (call : NetCall)
    (r : Settled) (st' : Stores) (h : st.netCall w cfg call = (r, st')) :
    st'.cache.enabled = st.cache.enabled := by
  have hc := netCall_cache w cfg st call
  rw [h] at hc
  simp only at hc
  rw [hc]

theorem removeItem_enabled (c : DNSCache) (key : JSString) :
    (_removeItem c key).2.enabled = c.enabled := by
  by_cases h : mapHas c.entries key = true <;> simp [_removeItem, h]

theorem cacheGet_enabled (w : World) (st : Stores) (domain type : JSString) :
    (st.cacheGet w domain type).2.cache.enabled = st.cache.enabled := by
  simp only [Stores.cacheGet, DNSCache.get]
  split_ifs
  · rfl
  · split
    · rfl
    · split_ifs
      · simp only [removeItem_enabled]
      · rfl

theorem doqQuery_enabled (nested : LookupFn) (hk : KeepsEnabled nested) (w : World)
    (cfg : Config) (st : Stores) (domain type : JSString) (r : Settled) (st' : Stores)
    (h : doqQuery nested w cfg st domain type = some (r, st')) :
    st'.cache.enabled = st.cache.enabled := by
  unfold doqQuery at h
  simp only at h
  cases hn : nested w cfg st.tick domain type (js "127.0.0.1") none none with
  | none => rw [hn] at h; simp at h
  | some res =>
    obtain ⟨res1, st2⟩ := res
    have hk2 := hk w cfg st.tick domain type (js "127.0.0.1") none none res1 st2 hn
    rw [hn] at h
    cases res1 with
    | resolved results =>
      simp only [Option.some.injEq, Prod.mk.injEq] at h
      rw [← h.2, addLog_cache]
      exact hk2
    | rejected e =>
      simp only [Option.some.injEq, Prod.mk.injEq] at h
      rw [← h.2, addLog_cache]
      exact hk2

theorem lookupWithProtocol_enabled (nested : LookupFn) (hk : KeepsEnabled nested) (w : World)
    (cfg : Config) (st : Stores) (domain type clientIp protocol : JSString)
    (serverIp : Option JSString) (r : Settled) (st' : Stores)
    (h : _lookupWithProtocol nested w cfg st domain type clientIp protocol serverIp
      = some (r, st')) :
    st'.cache.enabled = st.cache.enabled := by
  unfold _lookupWithProtocol at h
  split_ifs at h
  · simp only [Option.some.injEq] at h
    exact netCall_enabled w cfg st _ r st' h
  · simp only [Option.some.injEq] at h
    exact netCall_enabled w cfg st _ r st' h
  · exact doqQuery_enabled nested hk w cfg st domain type r st' h
  · simp only [Option.some.injEq] at h
    exact netCall_enabled w cfg st _ r st' h
  · simp only [Option.some.injEq] at h
    exact netCall_enabled w cfg st _ r st' h

/-- A fallback loop that succeeds with `R` ends on the call that hands `R` to the
cache, and the cache is enabled there if it was at the start. -/
theorem fallbackLoop_success (nested : LookupFn) (hk : KeepsEnabled nested) (w : World)
    (cfg : Config) (domain type clientIp useProtocol : JSString) (serverIp : Option JSString)
    (error : JSError) (order : List JSString) (st st1 : Stores) (R : List Rec)
    (h : fallbackLoop nested w cfg domain type clientIp useProtocol serverIp error order st
      = some (Settled.resolved R, st1)) :
    ∃ stX : Stores, st1 = stX.cacheSet w domain type R ∧
      stX.cache.enabled = st.cache.enabled := by
  induction order generalizing st with
  | nil => simp [fallbackLoop] at h
  | cons p rest ih =>
    simp only [fallbackLoop] at h
    split_ifs at h with hc
    · cases hatt : _lookupWithProtocol nested w cfg st.tick domain type clientIp p serverIp with
      | none => rw [hatt] at h; simp at h
      | some res =>
        obtain ⟨res1, st2⟩ := res
        have hen := lookupWithProtocol_enabled nested hk w cfg st.tick domain type clientIp p
          serverIp res1 st2 hatt
        rw [hatt] at h
        cases res1 with
        | resolved R' =>
          simp only [Option.some.injEq, Prod.mk.injEq, Settled.resolved.injEq] at h
          obtain ⟨hR, hst⟩ := h
          subst hR
          exact ⟨st2, hst.symm, hen⟩
        | rejected e =>
          obtain ⟨stX, h1, h2⟩ := ih st2 h
          exact ⟨stX, h1, by rw [h2, hen]; rfl⟩
    · exact ih st h

theorem fallbackLoop_enabled (nested : LookupFn) (hk : KeepsEnabled nested) (w : World)
    (cfg : Config) (domain type clientIp useProtocol : JSString) (serverIp : Option JSString)
    (error : JSError) (order : List JSString) (st st1 : Stores) (r : Settled)
    (h : fallbackLoop nested w cfg domain type clientIp useProtocol serverIp error order st
      = some (r, st1)) :
    st1.cache.enabled = st.cache.enabled := by
  cases r with
  | resolved R =>
    obtain ⟨stX, h1, h2⟩ := fallbackLoop_success nested hk w cfg domain type clientIp
      useProtocol serverIp error order st st1 R h
    rw [h1, (cacheSet_spec w stX domain type R).2.2.1, h2]
  | rejected e =>
    induction order generalizing st with
    | nil =>
      simp only [fallbackLoop, Option.some.injEq, Prod.mk.injEq] at h
      rw [← h.2]
    | cons p rest ih =>
      simp only [fallbackLoop] at h
      split_ifs at h with hc
      · cases hatt : _lookupWithProtocol nested w cfg st.tick domain type clientIp p serverIp with
        | none => rw [hatt] at h; simp at h
        | some res =>
          obtain ⟨res1, st2⟩ := res
          have hen := lookupWithProtocol_enabled nested hk w cfg st.tick domain type clientIp p
            serverIp res1 st2 hatt
          rw [hatt] at h
          cases res1 with
          | resolved R' => simp at h
          | rejected e' => rw [ih st2 h, hen]; rfl
      · exact ih st h

/-- A lookup that goes to the dispatch and succeeds with `R` ends on the call that
hands `R` to the cache. -/
theorem lookupBody_success (nested : LookupFn) (hk : KeepsEnabled nested) (w : World)
    (cfg : Config) (st st1 : Stores) (domain type clientIp : JSString)
    (protocol serverIp : Option JSString) (R : List Rec)
    (hnb : isDomainBlocked cfg.blockedDomains domain = false)
    (hrec : getRecords cfg.records domain type = Settled.resolved [])
    (hmiss : (Stores.cacheGet w { st with trace := st.trace ++ [Event.getRecords domain type] }
      domain type).1 = none)
    (h : lookupBody nested w cfg st domain type clientIp protocol serverIp
      = some (Settled.resolved R, st1)) :
    ∃ stX : Stores, st1 = stX.cacheSet w domain type R ∧
      stX.cache.enabled = st.cache.enabled := by
  have hcg := cacheGet_enabled w { st with trace := st.trace ++ [Event.getRecords domain type] }
    domain type
  simp only [lookupBody, hnb, Bool.false_eq_true, if_false, hrec, List.length_nil,
    gt_iff_lt, Nat.lt_irrefl] at h
  generalize hg : Stores.cacheGet w { st with trace := st.trace ++ [Event.getRecords domain type] }
    domain type = cg at hmiss hcg h
  obtain ⟨c1, st2⟩ := cg
  simp only at hmiss hcg
  subst hmiss
  simp only at h
  split_ifs at h with hsup
  · cases hatt : _lookupWithProtocol nested w cfg st2.tick domain type clientIp
        (orDefault protocol cfg.defaultProtocol) serverIp with
    | none => rw [hatt] at h; simp at h
    | some res =>
      obtain ⟨res1, st3⟩ := res
      have hen := lookupWithProtocol_enabled nested hk w cfg st2.tick domain type clientIp _
        serverIp res1 st3 hatt
      rw [hatt] at h
      cases res1 with
      | resolved R' =>
        simp only [Option.some.injEq, Prod.mk.injEq, Settled.resolved.injEq] at h
        obtain ⟨hR, hst⟩ := h
        subst hR
        exact ⟨st3, hst.symm, by rw [hen]; exact hcg⟩
      | rejected e =>
        simp only at h
        obtain ⟨stX, h1, h2⟩ := fallbackLoop_success nested hk w cfg domain type clientIp _
          serverIp e _ st3 st1 R h
        exact ⟨stX, h1, by rw [h2, hen]; exact hcg⟩
  · generalize hn : Stores.netCall w cfg st2
      ⟨js "standard", domain, type, some clientIp, none⟩ = nc at h
    have hnc := netCall_cache w cfg st2 ⟨js "standard", domain, type, some clientIp, none⟩
    rw [hn] at hnc
    obtain ⟨res1, st3⟩ := nc
    cases res1 with
    | resolved R' =>
      simp only [Option.some.injEq, Prod.mk.injEq, Settled.resolved.injEq] at h
      obtain ⟨hR, hst⟩ := h
      subst hR
      exact ⟨st3, hst.symm, by simp only at hnc; rw [hnc]; exact hcg⟩
    | rejected e => simp at h

theorem lookupBody_enabled (nested : LookupFn) (hk : KeepsEnabled nested) :
    KeepsEnabled (lookupBody nested) := by
  intro w cfg st domain type clientIp protocol serverIp r st' h
  have hcg := cacheGet_enabled w { st with trace := st.trace ++ [Event.getRecords domain type] }
    domain type
  by_cases hb : isDomainBlocked cfg.blockedDomains domain = true
  · simp only [lookupBody, hb, if_true, Option.some.injEq, Prod.mk.injEq] at h
    rw [← h.2, addLog_cache]
  · simp only [lookupBody, hb, Bool.false_eq_true, if_false] at h
    cases hrec : getRecords cfg.records domain type with
    | rejected e =>
      rw [hrec] at h
      simp only [Option.some.injEq, Prod.mk.injEq] at h
      rw [← h.2]
    | resolved customRecords =>
      rw [hrec] at h
      simp only at h
      by_cases hlen : customRecords.length > 0
      · simp only [hlen, if_true, Option.some.injEq, Prod.mk.injEq] at h
        rw [← h.2, addLog_cache]
      · simp only [hlen, if_false] at h
        generalize hg : Stores.cacheGet w
          { st with trace := st.trace ++ [Event.getRecords domain type] } domain type = cg
          at hcg h
        obtain ⟨c1, st2⟩ := cg
        simp only at hcg
        cases c1 with
        | some cached =>
          simp only [Option.some.injEq, Prod.mk.injEq] at h
          rw [← h.2, addLog_cache]
          exact hcg
        | none =>
          simp only at h
          by_cases hsup : cfg.supportedProtocols.supports
              (orDefault protocol cfg.defaultProtocol) = true
          · simp only [hsup, if_true] at h
            cases hatt : _lookupWithProtocol nested w cfg st2.tick domain type clientIp
                (orDefault protocol cfg.defaultProtocol) serverIp with
            | none => rw [hatt] at h; simp at h
            | some res =>
              obtain ⟨res1, st3⟩ := res
              have hen := lookupWithProtocol_enabled nested hk w cfg st2.tick domain type
                clientIp _ serverIp res1 st3 hatt
              rw [hatt] at h
              cases res1 with
              | resolved R =>
                simp only [Option.some.injEq, Prod.mk.injEq] at h
                rw [← h.2, (cacheSet_spec w st3 domain type R).2.2.1, hen]
                exact hcg
              | rejected e =>
                simp only at h
                rw [fallbackLoop_enabled nested hk w cfg domain type clientIp _ serverIp e _
                  st3 st' r h, hen]
                exact hcg
          · simp only [hsup, Bool.false_eq_true, if_false] at h
            generalize hn : Stores.netCall w cfg st2
              ⟨js "standard", domain, type, some clientIp, none⟩ = nc at h
            obtain ⟨res1, st3⟩ := nc
            have hnc := netCall_enabled w cfg st2 _ res1 st3 hn
            cases res1 with
            | resolved R =>
              simp only [Option.some.injEq, Prod.mk.injEq] at h
              rw [← h.2, (cacheSet_spec w st3 domain type R).2.2.1, hnc]
              exact hcg
            | rejected e =>
              simp only [Option.some.injEq, Prod.mk.injEq] at h
              rw [← h.2, hnc]
              exact hcg

/-- No lookup switches the cache on or off. -/
theorem lookup_enabled (depth : Nat) : KeepsEnabled (lookup depth) := by
  induction depth with
  | zero =>
    intro w cfg st domain type clientIp protocol serverIp r st' h
    simp [lookup] at h
  | succ n ih => exact lookupBody_enabled (lookup n) ih

/-- C3 (amended). With the cache enabled, for a `(domain, type)` that is neither
blocked nor in the record store and that the cache does not hold: when a first
`lookup` succeeds with result `R`, a second `lookup` of the same `(domain, type)` made
before the cache entry expires returns `R` without invoking a transport: its only
calls are `getRecords`, the cache `get` and one `addLog` with an entry of source
`cache`. The log sink stores that entry at the front of the buffer unless `logQueries`
is false, in which case the buffer is unchanged. -/
theorem lookup_twice_cached (d1 d2 : Nat) (w : World) (cfg : Config) (st0 st1 : Stores)
    (domain type ip1 ip2 : JSString) (p1 s1 p2 s2 : Option JSString) (R : List Rec)
    (hen : st0.cache.enabled = true)
    (hnb : isDomainBlocked cfg.blockedDomains domain = false)
    (hrec : getRecords cfg.records domain type = Settled.resolved [])
    (hmiss : (Stores.cacheGet w { st0 with trace := st0.trace ++ [Event.getRecords domain type] }
      domain type).1 = none)
    (hfirst : lookup d1 w cfg st0 domain type ip1 p1 s1 = some (Settled.resolved R, st1))
    (hfresh : ∀ item, mapGet st1.cache.entries (_getCacheKey domain type) = some item →
      (w.clock st1.ticks : Int) ≤ item.expiresAt) :
    ∃ st2, lookup (d2 + 1) w cfg st1 domain type ip2 p2 s2 = some (Settled.resolved R, st2) ∧
      st2.trace = st1.trace ++ [Event.getRecords domain type, Event.cacheGet domain type,
        Event.addLog (cacheEntry domain type ip2 R)] ∧
      transportsOf st2.trace = transportsOf st1.trace ∧
      (cacheEntry domain type ip2 R).source = js "cache" ∧
      (cfg.logging.logQueries = some false → st2.logs = st1.logs) ∧
      (cfg.logging.logQueries ≠ some false →
        ∃ id ts kept, st2.logs = ⟨id, ts, cacheEntry domain type ip2 R⟩ :: kept ∧
          (kept = st1.logs ∨ kept = st1.logs.dropLast)) := by
  -- the first lookup ended on the call that stores `R`
  cases d1 with
  | zero => simp [lookup] at hfirst
  | succ n =>
    obtain ⟨stX, hst1, henX⟩ := lookupBody_success (lookup n) (lookup_enabled n) w cfg st0 st1
      domain type ip1 p1 s1 R hnb hrec hmiss hfirst
    have henX' : stX.cache.enabled = true := by rw [henX, hen]
    obtain ⟨-, -, hen1, hstored, -⟩ := cacheSet_spec w stX domain type R
    obtain ⟨item, hitem, hdata, -⟩ := hstored henX'
    rw [← hst1] at hitem hen1
    have hen1' : st1.cache.enabled = true := by rw [hen1, henX']
    have hnotexp : ¬ ((w.clock st1.ticks : Int) > item.expiresAt) := by
      have := hfresh item hitem
      omega
    -- the second lookup
    have hget : Stores.cacheGet w { st1 with trace := st1.trace ++ [Event.getRecords domain type] }
        domain type
        = (some R, { st1 with
            cache := { st1.cache with hits := st1.cache.hits + 1 }
            ticks := st1.ticks + 1
            trace := st1.trace ++ [Event.getRecords domain type] ++
              [Event.cacheGet domain type] }) := by
      simp [Stores.cacheGet, DNSCache.get, hen1', hitem, hnotexp, hdata]
    have hsrc : (cacheEntry domain type ip2 R).source ≠ js "response" := by
      simp only [cacheEntry]; decide
    obtain ⟨h1, -, h3, h4⟩ := addLog_query_logs w cfg
      { st1 with
        cache := { st1.cache with hits := st1.cache.hits + 1 }
        ticks := st1.ticks + 1
        trace := st1.trace ++ [Event.getRecords domain type] ++ [Event.cacheGet domain type] }
      (cacheEntry domain type ip2 R) hsrc
    refine ⟨_, ?_, ?_, ?_, rfl, h3, ?_⟩
    · simp only [lookup, lookupBody, hnb, Bool.false_eq_true, if_false, hrec, List.length_nil,
        gt_iff_lt, Nat.lt_irrefl, hget]
    · rw [h1]; simp
    · rw [h1]; simp [transportsOf, List.filterMap_append]
    · intro hq
      obtain ⟨kept, hk1, hk2⟩ := h4 hq
      exact ⟨_, _, kept, hk1, hk2⟩

/-- Witness for C3: `foo.org` is resolved through the fallback `standard` and asked
again by another client. -/
theorem lookup_twice_cached_witness :
    ∃ st2, lookup 1 sampleWorld sampleConfig sampleAfterFirst (js "foo.org") (js "A")
        (js "10.0.0.9") (some (js "doh")) none
        = some (Settled.resolved [answerA (js "foo.org") (js "1.2.3.4") 60], st2) ∧
      st2.trace = sampleAfterFirst.trace ++ [Event.getRecords (js "foo.org") (js "A"),
        Event.cacheGet (js "foo.org") (js "A"),
        Event.addLog (cacheEntry (js "foo.org") (js "A") (js "10.0.0.9")
          [answerA (js "foo.org") (js "1.2.3.4") 60])] ∧
      transportsOf st2.trace = transportsOf sampleAfterFirst.trace ∧
      (cacheEntry (js "foo.org") (js "A") (js "10.0.0.9")
        [answerA (js "foo.org") (js "1.2.3.4") 60]).source = js "cache" ∧
      (sampleConfig.logging.logQueries = some false → st2.logs = sampleAfterFirst.logs) ∧
      (sampleConfig.logging.logQueries ≠ some false →
        ∃ id ts kept, st2.logs = ⟨id, ts, cacheEntry (js "foo.org") (js "A") (js "10.0.0.9")
            [answerA (js "foo.org") (js "1.2.3.4") 60]⟩ :: kept ∧
          (kept = sampleAfterFirst.logs ∨ kept = sampleAfterFirst.logs.dropLast)) :=
  lookup_twice_cached 1 0 sampleWorld sampleConfig emptyStores sampleAfterFirst (js "foo.org")
    (js "A") (js "10.0.0.1") (js "10.0.0.9") none none (some (js "doh")) none
    [answerA (js "foo.org") (js "1.2.3.4") 60]
    (by decide) (by decide) (by decide) (by decide) (by decide)
    (by
      intro item h
      have hc : mapGet sampleAfterFirst.cache.entries (_getCacheKey (js "foo.org") (js "A"))
          = some ⟨[answerA (js "foo.org") (js "1.2.3.4") 60], 1006, 61007, 60⟩ := by decide
      rw [hc] at h
      cases h
      decide)

/-- C3 as stated fails when query logging is switched off: the second lookup returns
the cached result and invokes no transport, but no entry with source `cache` is
logged (the buffer is as the first lookup left it). -/
theorem lookup_twice_cached_counterexample :
    (lookup 1 sampleWorld quietConfig emptyStores (js "foo.org") (js "A") (js "10.0.0.1")
        none none).map (fun r => r.1)
      = some (Settled.resolved [answerA (js "foo.org") (js "1.2.3.4") 60]) ∧
    (lookup 1 sampleWorld quietConfig quietAfterFirst (js "foo.org") (js "A") (js "10.0.0.1")
        none none).map (fun r => r.1)
      = some (Settled.resolved [answerA (js "foo.org") (js "1.2.3.4") 60]) ∧
    (lookup 1 sampleWorld quietConfig quietAfterFirst (js "foo.org") (js "A") (js "10.0.0.1")
        none none).map (fun r => transportsOf r.2.trace)
      = some (transportsOf quietAfterFirst.trace) ∧
    (lookup 1 sampleWorld quietConfig quietAfterFirst (js "foo.org") (js "A") (js "10.0.0.1")
        none none).map (fun r => r.2.logs) = some quietAfterFirst.logs ∧
    (lookup 1 sampleWorld quietConfig quietAfterFirst (js "foo.org") (js "A") (js "10.0.0.1")
        none none).map (fun r => r.2.logs.filter (fun l => l.entry.source == js "cache"))
      = some [] := by
  refine ⟨by decide, by decide, by decide, by decide, by decide⟩

end DomesticDns


namespace DomesticDns

/-! ## Cache entries and the clock: theorems -/

theorem mem_mapSet {β : Type} (m : List (JSString × β)) (key : JSString) (v : β)
    (e : JSString × β) (h : e ∈ mapSet m key v) : e ∈ m ∨ e = (key, v) := by
  induction m with
  | nil =>
    simp only [mapSet, List.mem_singleton] at h
    exact Or.inr h
  | cons x xs ih =>
    simp only [mapSet] at h
    by_cases hx : (x.1 == key) = true
    · simp only [hx, if_true, List.mem_cons] at h
      rcases h with h | h
      · exact Or.inr h
      · exact Or.inl (List.mem_cons_of_mem _ h)
    · have hx2 : (x.1 == key) = false := by simpa using hx
      rw [hx2] at h
      rcases List.mem_cons.1 h with h0 | h0
      · exact Or.inl (h0 ▸ List.mem_cons_self _ _)
      · rcases ih h0 with h1 | h1
        · exact Or.inl (List.mem_cons_of_mem _ h1)
        · exact Or.inr h1

theorem mem_mapDelete {β : Type} (m : List (JSString × β)) (key : JSString)
    (e : JSString × β) (h : e ∈ mapDelete m key) : e ∈ m :=
  List.mem_of_mem_eraseP h

theorem removeItem_entries (c : DNSCache) (key : JSString) :
    (_removeItem c key).2.entries = mapDelete c.entries key := by
  unfold _removeItem
  by_cases hh : mapHas c.entries key = true <;> simp [hh]

theorem mem_evictOldest (c : DNSCache) (e : JSString × CacheItem)
    (h : e ∈ (_evictOldest c).2.entries) : e ∈ c.entries := by
  unfold _evictOldest at h
  split at h
  · split at h
    · rw [removeItem_entries] at h
      exact mem_mapDelete _ _ _ h
    · exact h
  · exact h

/-- The entries after a `set` are entries from before or the new item, whose
`createdAt` is the first clock read and whose `expiresAt` counts from the second. -/
theorem set_entries (c : DNSCache) (domain type : JSString) (d : List Rec)
    (ttl : Option Int) (now1 now2 : Nat) (e : JSString × CacheItem)
    (h : e ∈ (c.set domain type (some d) ttl now1 now2).2.entries) :
    e ∈ c.entries ∨
      e.2 = ⟨d, now1, (now2 : Int) + resolveTtl c d ttl * 1000, resolveTtl c d ttl⟩ := by
  simp only [DNSCache.set] at h
  split at h
  · exact Or.inl h
  · rcases mem_mapSet _ _ _ _ h with h1 | h1
    · left
      split at h1
      · exact mem_evictOldest _ _ h1
      · exact h1
    · right
      rw [h1]

/-- When the two clock reads of every `set` agree, every stored entry satisfies
`expiresAt = createdAt + ttl * 1000`, for every sequence of `set` calls. -/
theorem runSets_expiryOk (calls : List SetCall) (c : DNSCache)
    (hc : ∀ e ∈ c.entries, e.2.expiryOk = true)
    (hclock : ∀ s ∈ calls, s.now1 = s.now2) :
    ∀ e ∈ (runSets calls c).entries, e.2.expiryOk = true := by
  induction calls generalizing c with
  | nil => simpa [runSets] using hc
  | cons s rest ih =>
    have hs := hclock s (List.mem_cons_self _ _)
    have hrest : ∀ x ∈ rest, x.now1 = x.now2 :=
      fun x hx => hclock x (List.mem_cons_of_mem _ hx)
    have step : runSets (s :: rest) c
        = runSets rest (c.set s.domain s.type (some s.data) s.ttl s.now1 s.now2).2 := by
      simp [runSets]
    rw [step]
    apply ih _ _ hrest
    intro e he
    rcases set_entries _ _ _ _ _ _ _ _ he with h1 | h1
    · exact hc e h1
    · rw [h1, hs]
      simp [CacheItem.expiryOk]

/-- C11 (the code, with the failing input). On an enabled cache, the item that
`set` stores has `createdAt` equal to the first clock read of the call and
`expiresAt` equal to the second read plus `ttl * 1000`: it satisfies
`expiresAt = createdAt + ttl * 1000` exactly when the two reads return the same
value, and misses it by the time that passes between them otherwise. -/
theorem set_expiry_offset (c : DNSCache) (domain type : JSString) (d : List Rec)
    (ttl : Option Int) (now1 now2 : Nat) (hen : c.enabled = true) :
    ∃ item : CacheItem,
      mapGet (c.set domain type (some d) ttl now1 now2).2.entries (_getCacheKey domain type)
        = some item ∧
      item.createdAt = now1 ∧
      item.expiresAt = (item.createdAt : Int) + item.ttl * 1000 + ((now2 : Int) - now1) ∧
      (item.expiryOk = true ↔ now1 = now2) := by
  refine ⟨⟨d, now1, (now2 : Int) + resolveTtl c d ttl * 1000, resolveTtl c d ttl⟩,
    (set_stores c domain type d ttl now1 now2 hen).2, rfl, ?_, ?_⟩
  · show (now2 : Int) + resolveTtl c d ttl * 1000
      = (now1 : Int) + resolveTtl c d ttl * 1000 + ((now2 : Int) - now1)
    omega
  · simp only [CacheItem.expiryOk, beq_iff_eq]
    constructor
    · intro h; omega
    · intro h; rw [h]

/-- Witness of C11, the failing input: on a fresh cache, `set("a.com", "A", [])` with
a clock that returns 1000 at the first read and 1001 at the second stores an item
that does not satisfy `expiresAt = createdAt + ttl * 1000`. -/
theorem set_expiry_offset_witness :
    ∃ item : CacheItem,
      mapGet (DNSCache.initial.set (js "a.com") (js "A") (some []) none 1000 1001).2.entries
        (_getCacheKey (js "a.com") (js "A")) = some item ∧
      item.createdAt = 1000 ∧
      item.expiresAt = (item.createdAt : Int) + item.ttl * 1000 + (((1001 : Nat) : Int) - (1000 : Nat)) ∧
      (item.expiryOk = true ↔ 1000 = 1001) :=
  set_expiry_offset DNSCache.initial (js "a.com") (js "A") [] none 1000 1001 rfl

/-- The code at the failing input: the stored item has `createdAt = 1000`,
`ttl = 300` and `expiresAt = 301001`, one more than `createdAt + ttl * 1000`. -/
theorem set_expiry_two_reads :
    mapGet (runSets [tickingSet] DNSCache.initial).entries (js "a.com:A")
      = some ⟨[], 1000, 301001, 300⟩ ∧
    CacheItem.expiryOk ⟨[], 1000, 301001, 300⟩ = false ∧
    ((1000 : Int) + 300 * 1000 = 301000) := by
  decide

end DomesticDns


namespace DomesticDns

/-! ## Log sink, the drop rule: theorems -/

theorem logDropped_iff (cfg : LoggingConfig) (e : LogInput) :
    logDropped cfg e = true ↔
      (e.source = js "response" ∧ cfg.logResponses = some false) ∨
      (e.source ≠ js "response" ∧ cfg.logQueries = some false) := by
  unfold logDropped
  by_cases h : e.source = js "response"
  · simp [h]
  · simp [h]

/-- C15. With the logging policy `cfg` read by the call, `addLog(entry)` returns
`null` exactly when (`entry.source` is `response` and `logResponses` is `false`) or
(`entry.source` is anything else and `logQueries` is `false`), and then the buffer is
unchanged; in every other case it returns the stored entry, which carries the fields
of `entry` and is the first element of the buffer, in front of the earlier entries
(without the last one when the buffer would exceed 1000). -/
theorem addLog_drop_rule (cfg : LoggingConfig) (idNow rnd tsNow : Nat) (e : LogInput)
    (logs : List LogEntry) :
    ((addLog cfg idNow rnd tsNow e logs).1 = none ↔
      ((e.source = js "response" ∧ cfg.logResponses = some false) ∨
       (e.source ≠ js "response" ∧ cfg.logQueries = some false))) ∧
    ((addLog cfg idNow rnd tsNow e logs).1 = none →
      (addLog cfg idNow rnd tsNow e logs).2 = logs) ∧
    ((addLog cfg idNow rnd tsNow e logs).1 ≠ none →
      ∃ log : LogEntry, (addLog cfg idNow rnd tsNow e logs).1 = some log ∧
        log.entry = e ∧
        (addLog cfg idNow rnd tsNow e logs).2
          = log :: (if logs.length + 1 > 1000 then logs.dropLast else logs)) := by
  rw [← logDropped_iff]
  by_cases hd : logDropped cfg e = true
  · simp [addLog, hd]
  · have hd2 : logDropped cfg e = false := by simpa using hd
    refine ⟨by simp [addLog, hd2], by simp [addLog, hd2], ?_⟩
    intro _
    refine ⟨⟨idNow + rnd, tsNow, e⟩, by simp [addLog, hd2], rfl, ?_⟩
    simp only [addLog, hd2, MAX_LOGS, List.length_cons]
    by_cases hl : logs.length + 1 > 1000
    · cases logs with
      | nil => simp at hl
      | cons a t =>
        rw [if_pos hl, if_pos hl]
        rfl
    · rw [if_neg hl, if_neg hl]
      rfl

/-- Witness of C15: a response entry under `logResponses = false` is dropped, and a
query entry under the same policy is stored in front. -/
theorem addLog_drop_rule_witness :
    (addLog ⟨none, some false⟩ 5 7 9 ⟨js "a.com", js "A", js "1.1.1.1", js "response",
        true, none, none, none⟩ []).2 = [] ∧
    (∃ log : LogEntry,
      (addLog ⟨none, some false⟩ 5 7 9 ⟨js "a.com", js "A", js "1.1.1.1", js "custom",
        true, none, none, none⟩ []).1 = some log ∧
      log.entry = ⟨js "a.com", js "A", js "1.1.1.1", js "custom", true, none, none, none⟩ ∧
      (addLog ⟨none, some false⟩ 5 7 9 ⟨js "a.com", js "A", js "1.1.1.1", js "custom",
        true, none, none, none⟩ []).2
        = log :: (if ([] : List LogEntry).length + 1 > 1000 then [].dropLast else [])) :=
  ⟨(addLog_drop_rule ⟨none, some false⟩ 5 7 9 ⟨js "a.com", js "A", js "1.1.1.1",
      js "response", true, none, none, none⟩ []).2.1 (by decide),
   (addLog_drop_rule ⟨none, some false⟩ 5 7 9 ⟨js "a.com", js "A", js "1.1.1.1",
      js "custom", true, none, none, none⟩ []).2.2 (by decide)⟩

end DomesticDns


namespace DomesticDns

/-! ## Record store: theorems -/

theorem truthy_false_iff (s : JSString) : truthy s = false ↔ s = [] := by
  cases s <;> simp [truthy]

theorem mapGet_mapSet_ne {β : Type} (m : List (JSString × β)) (key k : JSString) (v : β)
    (h : k ≠ key) : mapGet (mapSet m key v) k = mapGet m k := by
  induction m with
  | nil =>
    have : (key == k) = false := by simpa using fun hh => h hh.symm
    simp [mapSet, mapGet, List.find?_cons, this]
  | cons e es ih =>
    by_cases he : (e.1 == key) = true
    · have hek : (e.1 == k) = false := by
        have : e.1 = key := by simpa using he
        simpa [this] using fun hh => h hh.symm
      have hkk : (key == k) = false := by simpa using fun hh => h hh.symm
      simp [mapSet, he, mapGet, List.find?_cons, hek, hkk]
    · have he2 : (e.1 == key) = false := by simpa using he
      simp only [mapGet] at ih
      by_cases hek : (e.1 == k) = true
      · simp [mapSet, he2, mapGet, List.find?_cons, hek]
      · have hek2 : (e.1 == k) = false := by simpa using hek
        simp [mapSet, he2, mapGet, List.find?_cons, hek2, ih]

theorem mapGet_of_not_mapHas {β : Type} (m : List (JSString × β)) (key : JSString)
    (h : mapHas m key = false) : mapGet m key = none := by
  induction m with
  | nil => rfl
  | cons e es ih =>
    simp only [mapHas, List.any_cons, Bool.or_eq_false_iff] at h
    simp only [mapGet, List.find?_cons, h.1]
    exact ih (by simpa [mapHas] using h.2)

/-- The record that a successful `addRecord` builds. -/
theorem addRecord_rejected_iff (records : RecordStore) (domain type value : JSString)
    (ttl priority : Option Int) (now1 now2 : Nat) :
    (∃ err, (addRecord records domain type value ttl priority now1 now2).1 = Except.error err) ↔
      (domain = [] ∨ type = [] ∨ value = [] ∨ toUpperCase type ∉ validTypes) := by
  unfold addRecord
  by_cases hd : domain = []
  · simp [hd, truthy]
  by_cases ht : type = []
  · simp [ht, truthy]
  by_cases hv : value = []
  · simp [hv, truthy]
  have hd1 : truthy domain = true := by cases domain <;> simp_all [truthy]
  have ht1 : truthy type = true := by cases type <;> simp_all [truthy]
  have hv1 : truthy value = true := by cases value <;> simp_all [truthy]
  by_cases hm : toUpperCase type ∈ validTypes
  · have hc : validTypes.contains (toUpperCase type) = true := by simpa using hm
    simp [hd1, ht1, hv1, hc, hd, ht, hv, hm]
  · have hc : validTypes.contains (toUpperCase type) = false := by simpa using hm
    simp [hd1, ht1, hv1, hc, hd, ht, hv, hm]

/-- What an accepted `addRecord` returns and stores. -/
theorem addRecord_accepted (records : RecordStore) (domain type value : JSString)
    (ttl priority : Option Int) (now1 now2 : Nat)
    (hd : domain ≠ []) (ht : type ≠ []) (hv : value ≠ [])
    (hm : toUpperCase type ∈ validTypes) :
    addRecord records domain type value ttl priority now1 now2 =
      (Except.ok
        { Rec.empty with
          domain := some (toLowerCase domain), type := some (toUpperCase type),
          value := some value, ttl := some (ttl.getD 300),
          createdAt := some now1, updatedAt := some now2,
          priority := if toUpperCase type = js "MX" then some (priority.getD 10) else none },
       mapSet (if !mapHas records (toLowerCase domain ++ js ":" ++ toUpperCase type)
               then mapSet records (toLowerCase domain ++ js ":" ++ toUpperCase type) []
               else records)
         (toLowerCase domain ++ js ":" ++ toUpperCase type)
         (listAt records (toLowerCase domain ++ js ":" ++ toUpperCase type) ++
          [{ Rec.empty with
             domain := some (toLowerCase domain), type := some (toUpperCase type),
             value := some value, ttl := some (ttl.getD 300),
             createdAt := some now1, updatedAt := some now2,
             priority :=
               if toUpperCase type = js "MX" then some (priority.getD 10) else none }])) := by
  have hd1 : truthy domain = true := by cases domain <;> simp_all [truthy]
  have ht1 : truthy type = true := by cases type <;> simp_all [truthy]
  have hv1 : truthy value = true := by cases value <;> simp_all [truthy]
  have hc : validTypes.contains (toUpperCase type) = true := by simpa using hm
  unfold addRecord
  simp only [hd1, ht1, hv1, hc, Bool.not_true, Bool.or_self, Bool.false_eq_true, if_false]
  congr 2
  unfold listAt
  generalize toLowerCase domain ++ js ":" ++ toUpperCase type = key
  by_cases hh : mapHas records key = true
  · simp [hh]
  · have hh2 : mapHas records key = false := by simpa using hh
    simp [hh2, mapGet_mapSet, mapGet_of_not_mapHas _ _ hh2]

theorem addRecord_rejected_store (records : RecordStore) (domain type value : JSString)
    (ttl priority : Option Int) (now1 now2 : Nat)
    (h : domain = [] ∨ type = [] ∨ value = [] ∨ toUpperCase type ∉ validTypes) :
    (addRecord records domain type value ttl priority now1 now2).2 = records := by
  unfold addRecord
  by_cases h1 : (!truthy domain || !truthy type || !truthy value) = true
  · rw [if_pos h1]
  · rw [if_neg h1]
    have hd : domain ≠ [] := by
      intro hh; apply h1; simp [hh, truthy]
    have ht : type ≠ [] := by
      intro hh; apply h1; simp [hh, truthy]
    have hv : value ≠ [] := by
      intro hh; apply h1; simp [hh, truthy]
    have hm : toUpperCase type ∉ validTypes := by
      rcases h with h | h | h | h
      · exact absurd h hd
      · exact absurd h ht
      · exact absurd h hv
      · exact h
    have hc : (!validTypes.contains (toUpperCase type)) = true := by simpa using hm
    simp only [hc, if_true]

theorem listAt_mapSet (m : RecordStore) (key : JSString) (v : List Rec) :
    listAt (mapSet m key v) key = v := by
  simp [listAt, mapGet_mapSet]

theorem mapGet_addRecord_ne (records : RecordStore) (key k : JSString) (v : List Rec)
    (h : k ≠ key) :
    mapGet (mapSet (if !mapHas records key then mapSet records key [] else records) key v) k
      = mapGet records k := by
  rw [mapGet_mapSet_ne _ _ _ _ h]
  split
  · exact mapGet_mapSet_ne _ _ _ _ h
  · rfl

/-- C12. `addRecord(domain, type, value, ttl, priority)` throws exactly when `domain`,
`type` or `value` is empty or the upper-cased type is not one of A, AAAA, CNAME, MX,
TXT, NS, and then the map is unchanged. Otherwise it returns the record made of the
lower-cased domain, the upper-cased type, the given value, the ttl (300 when absent)
and, for MX only, the priority (10 when absent); the list under the key of (domain,
type), which is what `getRecords(domain, type)` returns, is the list from before with
that record appended at the end, whatever the list held, and the list under every
other key is unchanged. -/
theorem addRecord_spec (records : RecordStore) (domain type value : JSString)
    (ttl priority : Option Int) (now1 now2 : Nat) :
    ((∃ err, (addRecord records domain type value ttl priority now1 now2).1
        = Except.error err) ↔
      (domain = [] ∨ type = [] ∨ value = [] ∨ toUpperCase type ∉ validTypes)) ∧
    ((∃ err, (addRecord records domain type value ttl priority now1 now2).1
        = Except.error err) →
      (addRecord records domain type value ttl priority now1 now2).2 = records) ∧
    ((¬ ∃ err, (addRecord records domain type value ttl priority now1 now2).1
        = Except.error err) →
      (addRecord records domain type value ttl priority now1 now2).1 =
        Except.ok
          { Rec.empty with
            domain := some (toLowerCase domain), type := some (toUpperCase type),
            value := some value, ttl := some (ttl.getD 300),
            createdAt := some now1, updatedAt := some now2,
            priority :=
              if toUpperCase type = js "MX" then some (priority.getD 10) else none } ∧
      getRecords (addRecord records domain type value ttl priority now1 now2).2 domain type
        = Settled.resolved
          (listAt records (toLowerCase domain ++ js ":" ++ toUpperCase type) ++
            [{ Rec.empty with
               domain := some (toLowerCase domain), type := some (toUpperCase type),
               value := some value, ttl := some (ttl.getD 300),
               createdAt := some now1, updatedAt := some now2,
               priority :=
                 if toUpperCase type = js "MX" then some (priority.getD 10) else none }]) ∧
      ∀ k, k ≠ toLowerCase domain ++ js ":" ++ toUpperCase type →
        mapGet (addRecord records domain type value ttl priority now1 now2).2 k
          = mapGet records k) := by
  refine ⟨addRecord_rejected_iff _ _ _ _ _ _ _ _, ?_, ?_⟩
  · intro h
    exact addRecord_rejected_store _ _ _ _ _ _ _ _
      ((addRecord_rejected_iff _ _ _ _ _ _ _ _).1 h)
  · intro h
    rw [addRecord_rejected_iff] at h
    simp only [not_or, not_not] at h
    obtain ⟨hd, ht, hv, hm⟩ := h
    rw [addRecord_accepted records domain type value ttl priority now1 now2 hd ht hv hm]
    refine ⟨rfl, ?_, ?_⟩
    · have hd1 : truthy domain = true := by cases domain <;> simp_all [truthy]
      have ht1 : truthy type = true := by cases type <;> simp_all [truthy]
      simp only [getRecords, hd1, ht1, Bool.not_true, Bool.false_eq_true, if_false, if_true]
      rw [mapGet_mapSet]
      rfl
    · intro k hk
      exact mapGet_addRecord_ne _ _ _ _ hk

/-- Witness of C12: adding `A.com`/`a`/`1.1.1.1` a second time appends a second record
with the same value. -/
theorem addRecord_spec_witness :
    getRecords (addRecord sampleStore (js "A.com") (js "a") (js "1.1.1.1") none none 7 8).2
        (js "A.com") (js "a")
      = Settled.resolved
        (listAt sampleStore (js "a.com:A") ++
          [{ Rec.empty with
             domain := some (js "a.com"), type := some (js "A"),
             value := some (js "1.1.1.1"), ttl := some 300,
             createdAt := some 7, updatedAt := some 8, priority := none }]) :=
  ((addRecord_spec sampleStore (js "A.com") (js "a") (js "1.1.1.1") none none 7 8).2.2
    (by rw [addRecord_rejected_iff]; decide)).2.1

end DomesticDns


namespace DomesticDns

/-! ## Record store, `importRecords`: theorems -/

theorem accepted_iff (e : ImportEntry) :
    e.accepted = true ↔
      ¬ (e.domain = [] ∨ e.type = [] ∨ e.value = [] ∨ toUpperCase e.type ∉ validTypes) := by
  rw [← addRecord_rejected_iff [] e.domain e.type e.value e.ttl e.priority 0 0]
  unfold ImportEntry.accepted
  cases h : (addRecord [] e.domain e.type e.value e.ttl e.priority 0 0).1 with
  | error err => simp
  | ok r => simp

theorem addRecord_of_accepted (e : ImportEntry) (records : RecordStore) (n1 n2 : Nat)
    (h : e.accepted = true) :
    ∃ r, (addRecord records e.domain e.type e.value e.ttl e.priority n1 n2).1 = Except.ok r := by
  rw [accepted_iff] at h
  simp only [not_or, not_not] at h
  obtain ⟨hd, ht, hv, hm⟩ := h
  rw [addRecord_accepted records e.domain e.type e.value e.ttl e.priority n1 n2 hd ht hv hm]
  exact ⟨_, rfl⟩

theorem addRecord_of_rejected (e : ImportEntry) (records : RecordStore) (n1 n2 : Nat)
    (h : e.accepted = false) :
    ∃ err, addRecord records e.domain e.type e.value e.ttl e.priority n1 n2
      = (Except.error err, records) := by
  have h1 : ¬ e.accepted = true := by simp [h]
  rw [accepted_iff, not_not] at h1
  have hs := addRecord_rejected_store records e.domain e.type e.value e.ttl e.priority n1 n2 h1
  obtain ⟨err, herr⟩ :=
    (addRecord_rejected_iff records e.domain e.type e.value e.ttl e.priority n1 n2).2 h1
  exact ⟨err, Prod.ext herr hs⟩

theorem importRecords_eq (clock : Nat → Nat) (L : List ImportEntry) (records : RecordStore)
    (t : Nat) :
    importRecords clock L records t
      = ((L.filter ImportEntry.accepted).length,
         addAll clock (L.filter ImportEntry.accepted) records t) := by
  induction L generalizing records t with
  | nil => rfl
  | cons e rest ih =>
    by_cases h : e.accepted = true
    · obtain ⟨r, hr⟩ := addRecord_of_accepted e records (clock t) (clock (t + 1)) h
      have hpair : addRecord records e.domain e.type e.value e.ttl e.priority (clock t)
          (clock (t + 1))
          = (Except.ok r, (addRecord records e.domain e.type e.value e.ttl e.priority
              (clock t) (clock (t + 1))).2) := Prod.ext hr rfl
      rw [importRecords, List.filter_cons_of_pos h]
      rw [hpair]
      simp only [ih, List.length_cons, addAll]
    · have h2 : e.accepted = false := by simpa using h
      obtain ⟨err, herr⟩ := addRecord_of_rejected e records (clock t) (clock (t + 1)) h2
      rw [importRecords, List.filter_cons_of_neg h]
      rw [herr]
      exact ih records t

/-- C14. For every list `L`, `importRecords(L)` returns the number of entries of `L`
that `addRecord` accepts, and leaves the map that calling `addRecord` on exactly
those entries, in list order and with the same clock, produces; each of those calls
succeeds, and an entry that `addRecord` rejects can be removed from `L` without
changing the outcome. -/
theorem importRecords_spec (clock : Nat → Nat) (L : List ImportEntry) (records : RecordStore)
    (t : Nat) :
    (importRecords clock L records t).1 = (L.filter ImportEntry.accepted).length ∧
    (importRecords clock L records t).2
      = addAll clock (L.filter ImportEntry.accepted) records t ∧
    (∀ e ∈ L.filter ImportEntry.accepted, ∀ (rs : RecordStore) (n1 n2 : Nat),
      ∃ r, (addRecord rs e.domain e.type e.value e.ttl e.priority n1 n2).1 = Except.ok r) ∧
    (∀ (pre post : List ImportEntry) (e : ImportEntry), L = pre ++ e :: post →
      (∀ (rs : RecordStore) (n1 n2 : Nat), ∃ err,
        (addRecord rs e.domain e.type e.value e.ttl e.priority n1 n2).1
          = Except.error err) →
      importRecords clock L records t = importRecords clock (pre ++ post) records t) := by
  refine ⟨by rw [importRecords_eq], by rw [importRecords_eq], ?_, ?_⟩
  · intro e he rs n1 n2
    exact addRecord_of_accepted e rs n1 n2 (List.mem_filter.1 he).2
  · intro pre post e hL hrej
    have hacc : e.accepted = false := by
      cases hh : e.accepted with
      | false => rfl
      | true =>
        obtain ⟨r, hr⟩ := addRecord_of_accepted e [] 0 0 hh
        obtain ⟨err, herr⟩ := hrej [] 0 0
        rw [hr] at herr
        cases herr
    rw [importRecords_eq, importRecords_eq, hL]
    simp [List.filter_append, List.filter_cons, hacc]

/-- Witness of C14: of the five entries of `sampleImport` the second (type SRV) and
the fourth (empty domain) are rejected; three records are imported, and leaving the
second entry out changes nothing. -/
theorem importRecords_spec_witness :
    (importRecords (fun n => n) sampleImport [] 0).1 = 3 ∧
    importRecords (fun n => n) sampleImport [] 0
      = importRecords (fun n => n)
          ([⟨js "a.com", js "A", js "1.1.1.1", none, none⟩] ++
           [⟨js "a.com", js "a", js "1.1.1.1", some 60, some 5⟩,
            ⟨js "", js "A", js "x", none, none⟩,
            ⟨js "m.com", js "mx", js "mail.m.com", none, none⟩]) [] 0 :=
  ⟨(importRecords_spec (fun n => n) sampleImport [] 0).1,
   (importRecords_spec (fun n => n) sampleImport [] 0).2.2.2
     [⟨js "a.com", js "A", js "1.1.1.1", none, none⟩]
     [⟨js "a.com", js "a", js "1.1.1.1", some 60, some 5⟩,
      ⟨js "", js "A", js "x", none, none⟩,
      ⟨js "m.com", js "mx", js "mail.m.com", none, none⟩]
     ⟨js "bad.com", js "SRV", js "x", none, none⟩ rfl
     (fun rs n1 n2 => addRecord_of_rejected ⟨js "bad.com", js "SRV", js "x", none, none⟩
        rs n1 n2 (by decide) |>.imp fun _ h => congrArg Prod.fst h)⟩

end DomesticDns


namespace DomesticDns

/-! ## Record store, `deleteRecord`: theorems -/

theorem js_colon : js ":" = [58] := by decide

theorem first_sep_unique (c : Nat) (a b x y : List Nat) (ha : c ∉ a) (hb : c ∉ b)
    (h : a ++ c :: x = b ++ c :: y) : a = b ∧ x = y := by
  induction a generalizing b with
  | nil =>
    cases b with
    | nil => simpa using h
    | cons b0 bs =>
      simp only [List.nil_append, List.cons_append, List.cons.injEq] at h
      exact absurd (h.1 ▸ List.mem_cons_self _ _) hb
  | cons a0 as ih =>
    cases b with
    | nil =>
      simp only [List.nil_append, List.cons_append, List.cons.injEq] at h
      exact absurd (h.1 ▸ List.mem_cons_self _ _) ha
    | cons b0 bs =>
      simp only [List.cons_append, List.cons.injEq] at h
      have := ih bs (fun hh => ha (List.mem_cons_of_mem _ hh))
        (fun hh => hb (List.mem_cons_of_mem _ hh)) h.2
      exact ⟨by rw [h.1, this.1], this.2⟩

theorem startsWith_sep_iff (d nd t : JSString) (hd : 58 ∉ d) (hn : 58 ∉ nd) :
    startsWith (d ++ js ":" ++ t) (nd ++ js ":") = true ↔ d = nd := by
  rw [js_colon]
  unfold startsWith
  rw [List.isPrefixOf_iff_prefix]
  constructor
  · rintro ⟨y, hy⟩
    have h2 : nd ++ 58 :: y = d ++ 58 :: t := by simpa using hy
    exact (first_sep_unique 58 nd d y t hn hd h2).1.symm
  · intro h
    subst h
    exact ⟨t, by simp⟩

theorem key_eq_iff (d nd t nt : JSString) (hd : 58 ∉ d) (hn : 58 ∉ nd) :
    d ++ js ":" ++ t = nd ++ js ":" ++ nt ↔ d = nd ∧ t = nt := by
  rw [js_colon]
  constructor
  · intro h
    exact first_sep_unique 58 d nd t nt hd hn (by simpa using h)
  · rintro ⟨h1, h2⟩
    rw [h1, h2]

theorem colon_toLowerCase (d : JSString) (h : 58 ∉ d) : 58 ∉ toLowerCase d := by
  unfold toLowerCase
  intro hh
  obtain ⟨c, hc, hcl⟩ := List.mem_map.1 hh
  unfold lowerUnit at hcl
  split at hcl
  · omega
  · exact h (hcl ▸ hc)

theorem mapGet_mapDelete_ne {β : Type} (m : List (JSString × β)) (key k : JSString)
    (h : k ≠ key) : mapGet (mapDelete m key) k = mapGet m k := by
  induction m with
  | nil => rfl
  | cons e es ih =>
    unfold mapDelete at ih ⊢
    by_cases he : (e.1 == key) = true
    · have hek : (e.1 == k) = false := by
        have : e.1 = key := by simpa using he
        simpa [this] using fun hh => h hh.symm
      simp [List.eraseP_cons, he, mapGet, List.find?_cons, hek]
    · have he2 : (e.1 == key) = false := by simpa using he
      simp only [mapGet] at ih
      by_cases hek : (e.1 == k) = true
      · simp [List.eraseP_cons, he2, mapGet, List.find?_cons, hek]
      · have hek2 : (e.1 == k) = false := by simpa using hek
        simp [List.eraseP_cons, he2, mapGet, List.find?_cons, hek2, ih]

theorem mapGet_none_of_not_mem {β : Type} (m : List (JSString × β)) (key : JSString)
    (h : key ∉ m.map (fun e => e.1)) : mapGet m key = none :=
  mapGet_of_not_mapHas m key ((mapHas_false_iff m key).2 h)

theorem mapGet_cons {β : Type} (e : JSString × β) (es : List (JSString × β))
    (k : JSString) :
    mapGet (e :: es) k = if (e.1 == k) = true then some e.2 else mapGet es k := by
  unfold mapGet
  rw [List.find?_cons]
  cases h : (e.1 == k) <;> simp

theorem mapGet_mapDelete_self {β : Type} (m : List (JSString × β)) (key : JSString)
    (hn : (m.map (fun e => e.1)).Nodup) : mapGet (mapDelete m key) key = none := by
  induction m with
  | nil => rfl
  | cons e es ih =>
    rw [List.map_cons, List.nodup_cons] at hn
    unfold mapDelete at ih ⊢
    by_cases he : (e.1 == key) = true
    · have hk : e.1 = key := by simpa using he
      simp only [List.eraseP_cons, he, cond_true]
      exact mapGet_none_of_not_mem es key (hk ▸ hn.1)
    · have he2 : (e.1 == key) = false := by simpa using he
      simp only [List.eraseP_cons, he2, cond_false]
      rw [mapGet_cons, if_neg he]
      exact ih hn.2

theorem mapGet_filter_keys {β : Type} (m : List (JSString × β)) (K : JSString → Bool)
    (k : JSString) :
    mapGet (m.filter (fun e => !K e.1)) k = if K k = true then none else mapGet m k := by
  induction m with
  | nil => simp [mapGet]
  | cons e es ih =>
    rw [List.filter_cons]
    by_cases hK : K e.1 = true
    · simp only [hK, Bool.not_true, Bool.false_eq_true, if_false]
      rw [ih, mapGet_cons]
      by_cases hKk : K k = true
      · simp only [hKk, if_true]
      · have hek : ¬ (e.1 == k) = true := by
          intro hh
          have : e.1 = k := by simpa using hh
          exact hKk (this ▸ hK)
        simp [hKk, hek]
    · have hK2 : K e.1 = false := by simpa using hK
      simp only [hK2, Bool.not_false, if_true]
      rw [mapGet_cons, mapGet_cons, ih]
      by_cases hek : (e.1 == k) = true
      · have : e.1 = k := by simpa using hek
        have hKk : ¬ K k = true := this ▸ hK
        simp [hek, hKk]
      · simp [hek]

theorem deleteLoop_fold (K : JSString → Bool) (rest pre0 : RecordStore) (n : Nat)
    (hn : ((pre0 ++ rest).map (fun e => e.1)).Nodup)
    (hpre : ∀ e ∈ pre0, K e.1 = false) :
    rest.foldl
        (fun (acc : Nat × RecordStore) e =>
          if K e.1 then (acc.1 + e.2.length, mapDelete acc.2 e.1) else acc)
        (n, pre0 ++ rest)
      = (n + ((rest.filter (fun e => K e.1)).map (fun e => e.2.length)).sum,
         pre0 ++ rest.filter (fun e => !K e.1)) := by
  induction rest generalizing pre0 n with
  | nil => simp
  | cons e es ih =>
    rw [List.foldl_cons]
    by_cases hK : K e.1 = true
    · have hne : ∀ x ∈ pre0, x.1 ≠ e.1 := by
        intro x hx hxe
        rw [List.map_append, List.nodup_append] at hn
        exact hn.2.2 (List.mem_map.2 ⟨x, hx, rfl⟩)
          (List.mem_map.2 ⟨e, List.mem_cons_self _ _, hxe.symm⟩)
      have hn2 : ((pre0 ++ es).map (fun e => e.1)).Nodup := by
        have hsub : List.Sublist (pre0 ++ es) (pre0 ++ e :: es) :=
          List.Sublist.append_left (List.sublist_cons_self e es) pre0
        exact List.Nodup.sublist (List.Sublist.map _ hsub) hn
      simp only [hK, if_true]
      rw [mapDelete_split pre0 es e hne, ih pre0 _ hn2 hpre]
      simp [List.filter_cons, hK]
      omega
    · have hK2 : K e.1 = false := by simpa using hK
      have hn2 : (((pre0 ++ [e]) ++ es).map (fun e => e.1)).Nodup := by
        simpa using hn
      have hpre2 : ∀ x ∈ pre0 ++ [e], K x.1 = false := by
        intro x hx
        rcases List.mem_append.1 hx with h1 | h1
        · exact hpre x h1
        · rw [List.mem_singleton.1 h1]; exact hK2
      have hrw : pre0 ++ e :: es = (pre0 ++ [e]) ++ es := by simp
      simp only [hK2, Bool.false_eq_true, if_false]
      rw [hrw, ih (pre0 ++ [e]) n hn2 hpre2]
      simp [List.filter_cons, hK2]

theorem deleteDomainLoop_eq (pre : JSString) (m : RecordStore)
    (hn : (m.map (fun e => e.1)).Nodup) :
    deleteDomainLoop pre m
      = (((m.filter (fun e => startsWith e.1 pre)).map (fun e => e.2.length)).sum,
         m.filter (fun e => !startsWith e.1 pre)) := by
  have := deleteLoop_fold (fun k => startsWith k pre) m [] 0 (by simpa using hn)
    (by intro e he; cases he)
  simpa [deleteDomainLoop] using this

theorem countP_touched (sel : Rec → Bool) (K : JSString → Bool) (m : RecordStore)
    (h : ∀ e ∈ m, ∀ r ∈ e.2, sel r = K e.1) :
    (allRecords m).countP sel
      = ((m.filter (fun e => K e.1)).map (fun e => e.2.length)).sum := by
  induction m with
  | nil => rfl
  | cons e es ih =>
    have he := h e (List.mem_cons_self _ _)
    have hes : ∀ x ∈ es, ∀ r ∈ x.2, sel r = K x.1 :=
      fun x hx => h x (List.mem_cons_of_mem _ hx)
    have hrec : allRecords (e :: es) = e.2 ++ allRecords es := by
      simp [allRecords]
    rw [hrec, List.countP_append, ih hes, List.filter_cons]
    by_cases hK : K e.1 = true
    · have : e.2.countP sel = e.2.length := by
        rw [List.countP_eq_length]
        intro r hr
        rw [he r hr, hK]
      simp [hK, this]
    · have hK2 : K e.1 = false := by simpa using hK
      have : e.2.countP sel = 0 := by
        rw [List.countP_eq_zero]
        intro r hr
        rw [he r hr, hK2]
        simp
      simp [hK2, this]

theorem countP_one_key (sel : Rec → Bool) (key : JSString) (m : RecordStore)
    (hn : (m.map (fun e => e.1)).Nodup)
    (h : ∀ e ∈ m, e.1 ≠ key → ∀ r ∈ e.2, sel r = false) :
    (allRecords m).countP sel = (listAt m key).countP sel := by
  induction m with
  | nil => rfl
  | cons e es ih =>
    rw [List.map_cons, List.nodup_cons] at hn
    have hes : ∀ x ∈ es, x.1 ≠ key → ∀ r ∈ x.2, sel r = false :=
      fun x hx => h x (List.mem_cons_of_mem _ hx)
    have hrec : allRecords (e :: es) = e.2 ++ allRecords es := by
      simp [allRecords]
    rw [hrec, List.countP_append, ih hn.2 hes]
    unfold listAt
    rw [mapGet_cons]
    by_cases hk : (e.1 == key) = true
    · have hk1 : e.1 = key := by simpa using hk
      rw [if_pos hk, mapGet_none_of_not_mem es key (hk1 ▸ hn.1)]
      simp
    · have hk1 : e.1 ≠ key := by simpa using hk
      have : e.2.countP sel = 0 := by
        rw [List.countP_eq_zero]
        intro r hr
        rw [h e (List.mem_cons_self _ _) hk1 r hr]
        simp
      rw [if_neg hk, this]
      simp

theorem mem_of_listAt (m : RecordStore) (k : JSString) (r : Rec) (h : r ∈ listAt m k) :
    ∃ e ∈ m, e.1 = k ∧ r ∈ e.2 := by
  induction m with
  | nil => simp [listAt, mapGet] at h
  | cons e es ih =>
    unfold listAt at h ih
    rw [mapGet_cons] at h
    by_cases hk : (e.1 == k) = true
    · rw [if_pos hk] at h
      exact ⟨e, List.mem_cons_self _ _, by simpa using hk, by simpa using h⟩
    · rw [if_neg hk] at h
      obtain ⟨x, hx, hx1, hx2⟩ := ih h
      exact ⟨x, List.mem_cons_of_mem _ hx, hx1, hx2⟩

theorem selected_of_entry (records : RecordStore) (domain type value : JSString)
    (hwf : records.WF) (hcf : records.ColonFree) (hc : 58 ∉ domain)
    (e : JSString × List Rec) (he : e ∈ records) (r : Rec) (hr : r ∈ e.2) :
    selected domain type value r =
      if !truthy type then startsWith e.1 (toLowerCase domain ++ js ":")
      else if !truthy value then
        (e.1 == toLowerCase domain ++ js ":" ++ toUpperCase type)
      else
        ((e.1 == toLowerCase domain ++ js ":" ++ toUpperCase type) &&
          (r.value == some value)) := by
  obtain ⟨d, t, hd, ht, hk⟩ := hwf.2 e he r hr
  have hcd : 58 ∉ d := hcf e he r hr d hd
  have hcn : 58 ∉ toLowerCase domain := colon_toLowerCase domain hc
  have hstart := startsWith_sep_iff d (toLowerCase domain) t hcd hcn
  have hkey := key_eq_iff d (toLowerCase domain) t (toUpperCase type) hcd hcn
  have h1 : (r.domain == some (toLowerCase domain))
      = startsWith e.1 (toLowerCase domain ++ js ":") := by
    rw [hd, hk, Bool.eq_iff_iff, hstart]
    simp
  have h2 : (r.domain == some (toLowerCase domain) && r.type == some (toUpperCase type))
      = (e.1 == toLowerCase domain ++ js ":" ++ toUpperCase type) := by
    rw [hd, ht, hk, Bool.eq_iff_iff, beq_iff_eq, hkey]
    simp
  unfold selected
  by_cases htt : truthy type = true
  · by_cases hvv : truthy value = true
    · simp only [htt, hvv, Bool.not_true, Bool.false_eq_true, if_false]
      rw [h2]
    · have hvv2 : truthy value = false := by simpa using hvv
      simp only [htt, hvv2, Bool.not_true, Bool.not_false, Bool.false_eq_true, if_false,
        if_true]
      rw [h2]
  · have htt2 : truthy type = false := by simpa using htt
    simp only [htt2, Bool.not_false, if_true]
    rw [h1]

theorem filter_not_const {α : Type} (p : α → Bool) (b : Bool) (l : List α)
    (h : ∀ x ∈ l, p x = b) : l.filter (fun x => !p x) = if b = true then [] else l := by
  cases b with
  | true =>
    rw [if_pos rfl, List.filter_eq_nil_iff]
    intro x hx
    simp [h x hx]
  | false =>
    rw [if_neg (by simp), List.filter_eq_self]
    intro x hx
    simp [h x hx]

theorem length_sub_filter_not {α : Type} (p : α → Bool) (l : List α) :
    l.length - (l.filter (fun x => !p x)).length = l.countP p := by
  induction l with
  | nil => rfl
  | cons x xs ih =>
    have hle : (xs.filter (fun x => !p x)).length ≤ xs.length := List.length_filter_le _ _
    cases hp : p x
    · simp only [List.filter_cons, hp, Bool.not_false, if_true, List.length_cons,
        List.countP_cons, Bool.false_eq_true, if_false]
      omega
    · simp only [List.filter_cons, hp, Bool.not_true, Bool.false_eq_true, if_false,
        List.length_cons, List.countP_cons, if_true]
      omega

theorem deleteRecord_no_type (records : RecordStore) (domain type value : JSString)
    (hwf : records.WF) (hcf : records.ColonFree) (hd : domain ≠ []) (hc : 58 ∉ domain)
    (ht : truthy type = false) :
    (deleteRecord records domain type value).1
      = Except.ok ((allRecords records).countP (selected domain type value)) ∧
    ∀ k, listAt (deleteRecord records domain type value).2 k
      = (listAt records k).filter (fun r => !selected domain type value r) := by
  have hd1 : truthy domain = true := by cases domain <;> simp_all [truthy]
  have hsel : ∀ e ∈ records, ∀ r ∈ e.2,
      selected domain type value r = startsWith e.1 (toLowerCase domain ++ js ":") := by
    intro e he r hr
    rw [selected_of_entry records domain type value hwf hcf hc e he r hr]
    simp [ht]
  have hdel : deleteRecord records domain type value
      = (Except.ok (deleteDomainLoop (toLowerCase domain ++ js ":") records).1,
         (deleteDomainLoop (toLowerCase domain ++ js ":") records).2) := by
    unfold deleteRecord
    simp only [hd1, ht, Bool.not_true, Bool.false_eq_true, if_false]
  rw [hdel, deleteDomainLoop_eq _ _ hwf.1]
  refine ⟨?_, ?_⟩
  · rw [countP_touched (selected domain type value)
      (fun k => startsWith k (toLowerCase domain ++ js ":")) records hsel]
  · intro k
    show listAt (records.filter
      (fun e => !(fun k => startsWith k (toLowerCase domain ++ js ":")) e.1)) k = _
    unfold listAt
    rw [mapGet_filter_keys records (fun k => startsWith k (toLowerCase domain ++ js ":")) k]
    have hall : ∀ r ∈ listAt records k,
        selected domain type value r = startsWith k (toLowerCase domain ++ js ":") := by
      intro r hr
      obtain ⟨e, he, hek, hre⟩ := mem_of_listAt records k r hr
      rw [hsel e he r hre, hek]
    have := filter_not_const (selected domain type value) _ (listAt records k) hall
    unfold listAt at this
    rw [this]
    split <;> rfl

theorem deleteRecord_typed_lists (records : RecordStore) (domain type value : JSString)
    (hwf : records.WF) (hcf : records.ColonFree) (hc : 58 ∉ domain)
    (ht : truthy type = true) (k : JSString)
    (hk : k ≠ toLowerCase domain ++ js ":" ++ toUpperCase type) :
    (listAt records k).filter (fun r => !selected domain type value r) = listAt records k := by
  rw [List.filter_eq_self]
  intro r hr
  obtain ⟨e, he, hek, hre⟩ := mem_of_listAt records k r hr
  have hne : (e.1 == toLowerCase domain ++ js ":" ++ toUpperCase type) = false := by
    rw [hek]; simpa using hk
  rw [selected_of_entry records domain type value hwf hcf hc e he r hre]
  simp only [ht, Bool.not_true, Bool.false_eq_true, if_false, hne, Bool.false_and]
  split <;> rfl

theorem countP_typed (records : RecordStore) (domain type value : JSString)
    (hwf : records.WF) (hcf : records.ColonFree) (hc : 58 ∉ domain)
    (ht : truthy type = true) :
    (allRecords records).countP (selected domain type value)
      = (listAt records (toLowerCase domain ++ js ":" ++ toUpperCase type)).countP
          (selected domain type value) := by
  apply countP_one_key _ _ _ hwf.1
  intro e he hne r hr
  have hne2 : (e.1 == toLowerCase domain ++ js ":" ++ toUpperCase type) = false := by
    simpa using hne
  rw [selected_of_entry records domain type value hwf hcf hc e he r hr]
  simp only [ht, Bool.not_true, Bool.false_eq_true, if_false, hne2, Bool.false_and]
  split <;> rfl

theorem selected_at_key (records : RecordStore) (domain type value : JSString)
    (hwf : records.WF) (hcf : records.ColonFree) (hc : 58 ∉ domain)
    (ht : truthy type = true) (r : Rec)
    (hr : r ∈ listAt records (toLowerCase domain ++ js ":" ++ toUpperCase type)) :
    selected domain type value r
      = if !truthy value then true else (r.value == some value) := by
  obtain ⟨e, he, hek, hre⟩ := mem_of_listAt records _ r hr
  have hke : (e.1 == toLowerCase domain ++ js ":" ++ toUpperCase type) = true := by
    simpa using hek
  rw [selected_of_entry records domain type value hwf hcf hc e he r hre]
  simp only [ht, Bool.not_true, Bool.false_eq_true, if_false, hke, Bool.true_and]

theorem deleteRecord_type_only (records : RecordStore) (domain type value : JSString)
    (hwf : records.WF) (hcf : records.ColonFree) (hd : domain ≠ []) (hc : 58 ∉ domain)
    (ht : truthy type = true) (hv : truthy value = false) :
    (deleteRecord records domain type value).1
      = Except.ok ((allRecords records).countP (selected domain type value)) ∧
    ∀ k, listAt (deleteRecord records domain type value).2 k
      = (listAt records k).filter (fun r => !selected domain type value r) := by
  have hd1 : truthy domain = true := by cases domain <;> simp_all [truthy]
  have hcount := countP_typed records domain type value hwf hcf hc ht
  have hothers := deleteRecord_typed_lists records domain type value hwf hcf hc ht
  have hat := selected_at_key records domain type value hwf hcf hc ht
  have hdel : deleteRecord records domain type value
      = if mapHas records (toLowerCase domain ++ js ":" ++ toUpperCase type) then
          (Except.ok
            ((mapGet records (toLowerCase domain ++ js ":" ++ toUpperCase type)).getD []).length,
           mapDelete records (toLowerCase domain ++ js ":" ++ toUpperCase type))
        else (Except.ok 0, records) := by
    unfold deleteRecord
    simp only [hd1, ht, hv, Bool.not_true, Bool.false_eq_true, if_false, if_true]
  generalize toLowerCase domain ++ js ":" ++ toUpperCase type = key at hcount hothers hat hdel
  have hall : ∀ r ∈ listAt records key, selected domain type value r = true := by
    intro r hr
    rw [hat r hr]
    simp [hv]
  have hfil : (listAt records key).filter (fun r => !selected domain type value r) = [] := by
    rw [filter_not_const _ true _ hall]
    rfl
  have hcnt : (listAt records key).countP (selected domain type value)
      = (listAt records key).length := by
    rw [List.countP_eq_length]
    exact hall
  rw [hdel, hcount, hcnt]
  by_cases hh : mapHas records key = true
  · rw [if_pos hh]
    refine ⟨rfl, ?_⟩
    intro k
    by_cases hk : k = key
    · rw [hk, hfil]
      show listAt (mapDelete records key) key = []
      unfold listAt
      rw [mapGet_mapDelete_self records key hwf.1]
      rfl
    · rw [hothers k hk]
      show listAt (mapDelete records key) k = listAt records k
      unfold listAt
      rw [mapGet_mapDelete_ne records key k hk]
  · rw [if_neg hh]
    have hh2 : mapHas records key = false := by simpa using hh
    have hnil : listAt records key = [] := by
      unfold listAt
      rw [mapGet_of_not_mapHas records key hh2]
      rfl
    refine ⟨by rw [hnil]; rfl, ?_⟩
    intro k
    by_cases hk : k = key
    · rw [hk, hfil]
      exact hnil
    · rw [hothers k hk]

theorem deleteRecord_value (records : RecordStore) (domain type value : JSString)
    (hwf : records.WF) (hcf : records.ColonFree) (hd : domain ≠ []) (hc : 58 ∉ domain)
    (ht : truthy type = true) (hv : truthy value = true) :
    (deleteRecord records domain type value).1
      = Except.ok ((allRecords records).countP (selected domain type value)) ∧
    ∀ k, listAt (deleteRecord records domain type value).2 k
      = (listAt records k).filter (fun r => !selected domain type value r) := by
  have hd1 : truthy domain = true := by cases domain <;> simp_all [truthy]
  have hcount := countP_typed records domain type value hwf hcf hc ht
  have hothers := deleteRecord_typed_lists records domain type value hwf hcf hc ht
  have hat := selected_at_key records domain type value hwf hcf hc ht
  have hnone : mapGet records (toLowerCase domain ++ js ":" ++ toUpperCase type) = none →
      deleteRecord records domain type value = (Except.ok 0, records) := by
    intro hm
    unfold deleteRecord
    simp only [hd1, ht, hv, Bool.not_true, Bool.false_eq_true, if_false, if_true, hm]
  have hsome : ∀ l, mapGet records (toLowerCase domain ++ js ":" ++ toUpperCase type) = some l →
      deleteRecord records domain type value =
        if (l.filter (fun record => record.value != some value)).length = 0 then
          (Except.ok (l.length - (l.filter (fun record => record.value != some value)).length),
           mapDelete records (toLowerCase domain ++ js ":" ++ toUpperCase type))
        else
          (Except.ok (l.length - (l.filter (fun record => record.value != some value)).length),
           mapSet records (toLowerCase domain ++ js ":" ++ toUpperCase type)
             (l.filter (fun record => record.value != some value))) := by
    intro l hm
    unfold deleteRecord
    simp only [hd1, ht, hv, Bool.not_true, Bool.false_eq_true, if_false, if_true, hm]
  generalize toLowerCase domain ++ js ":" ++ toUpperCase type = key
    at hcount hothers hat hnone hsome
  have hall : ∀ r ∈ listAt records key,
      selected domain type value r = (r.value == some value) := by
    intro r hr
    rw [hat r hr]
    simp [hv]
  have hfil : (listAt records key).filter (fun r => !selected domain type value r)
      = (listAt records key).filter (fun record => record.value != some value) := by
    apply List.filter_congr
    intro r hr
    rw [hall r hr]
    rfl
  have hcnt : (listAt records key).countP (selected domain type value)
      = (listAt records key).length
        - ((listAt records key).filter (fun record => record.value != some value)).length := by
    rw [← hfil, length_sub_filter_not]
  rw [hcount, hcnt]
  cases hm : mapGet records key with
  | none =>
    have hnil : listAt records key = [] := by
      unfold listAt; rw [hm]; rfl
    rw [hnone hm]
    refine ⟨by rw [hnil]; rfl, ?_⟩
    intro k
    by_cases hk : k = key
    · rw [hk, hfil, hnil]; rfl
    · rw [hothers k hk]
  | some l =>
    have hl : listAt records key = l := by
      unfold listAt; rw [hm]; rfl
    rw [hsome l hm, hl]
    rw [hl] at hfil
    by_cases hz : (l.filter (fun record => record.value != some value)).length = 0
    · rw [if_pos hz]
      refine ⟨rfl, ?_⟩
      intro k
      by_cases hk : k = key
      · rw [hk, hl, hfil, List.length_eq_zero.1 hz]
        unfold listAt
        rw [mapGet_mapDelete_self records key hwf.1]
        rfl
      · rw [hothers k hk]
        unfold listAt
        rw [mapGet_mapDelete_ne records key k hk]
    · rw [if_neg hz]
      refine ⟨rfl, ?_⟩
      intro k
      by_cases hk : k = key
      · rw [hk, hl, hfil]
        unfold listAt
        rw [mapGet_mapSet]
        rfl
      · rw [hothers k hk]
        unfold listAt
        rw [mapGet_mapSet_ne records key k _ hk]

theorem keys_mapSet {β : Type} (m : List (JSString × β)) (key : JSString) (v : β) :
    (mapSet m key v).map (fun e => e.1)
      = if mapHas m key = true then m.map (fun e => e.1) else m.map (fun e => e.1) ++ [key] := by
  induction m with
  | nil => simp [mapSet, mapHas]
  | cons e es ih =>
    by_cases he : (e.1 == key) = true
    · have hk : e.1 = key := by simpa using he
      simp [mapSet, he, mapHas, hk]
    · have he2 : (e.1 == key) = false := by simpa using he
      have hh : mapHas (e :: es) key = mapHas es key := by
        simp [mapHas, he2]
      rw [hh]
      simp only [mapSet, he2, Bool.false_eq_true, if_false, List.map_cons, ih]
      split <;> simp

theorem nodup_mapSet {β : Type} (m : List (JSString × β)) (key : JSString) (v : β)
    (hn : (m.map (fun e => e.1)).Nodup) : ((mapSet m key v).map (fun e => e.1)).Nodup := by
  rw [keys_mapSet]
  by_cases hh : mapHas m key = true
  · rw [if_pos hh]; exact hn
  · rw [if_neg hh]
    have hh2 : mapHas m key = false := by simpa using hh
    have hnot := (mapHas_false_iff m key).1 hh2
    rw [List.nodup_append]
    refine ⟨hn, List.nodup_singleton _, ?_⟩
    intro a ha hb
    rw [List.mem_singleton] at hb
    exact hnot (hb ▸ ha)

theorem wf_nil : RecordStore.WF [] := by
  refine ⟨List.nodup_nil, ?_⟩
  intro e he
  cases he

theorem wf_mapSet (records : RecordStore) (key : JSString) (l : List Rec)
    (hwf : records.WF)
    (hl : ∀ r ∈ l, ∃ d t, r.domain = some d ∧ r.type = some t ∧ key = d ++ js ":" ++ t) :
    RecordStore.WF (mapSet records key l) := by
  refine ⟨nodup_mapSet _ _ _ hwf.1, ?_⟩
  intro e he r hr
  rcases mem_mapSet _ _ _ _ he with h1 | h1
  · exact hwf.2 e h1 r hr
  · rw [h1] at hr ⊢
    exact hl r hr

theorem addRecord_wf (records : RecordStore) (domain type value : JSString)
    (ttl priority : Option Int) (now1 now2 : Nat) (hwf : records.WF) :
    RecordStore.WF (addRecord records domain type value ttl priority now1 now2).2 := by
  by_cases hrej : domain = [] ∨ type = [] ∨ value = [] ∨ toUpperCase type ∉ validTypes
  · rw [addRecord_rejected_store _ _ _ _ _ _ _ _ hrej]
    exact hwf
  · simp only [not_or, not_not] at hrej
    obtain ⟨hd, ht, hv, hm⟩ := hrej
    rw [addRecord_accepted records domain type value ttl priority now1 now2 hd ht hv hm]
    apply wf_mapSet
    · split
      · exact wf_mapSet _ _ _ hwf (by intro r hr; cases hr)
      · exact hwf
    · intro r hr
      rcases List.mem_append.1 hr with h1 | h1
      · obtain ⟨e, he, hek, hre⟩ := mem_of_listAt records _ r h1
        obtain ⟨d, t, h2, h3, h4⟩ := hwf.2 e he r hre
        exact ⟨d, t, h2, h3, by rw [← hek, h4]⟩
      · rw [List.mem_singleton.1 h1]
        exact ⟨_, _, rfl, rfl, rfl⟩

theorem colonFree_mapSet (records : RecordStore) (key : JSString) (l : List Rec)
    (hcf : records.ColonFree) (hl : ∀ r ∈ l, ∀ d, r.domain = some d → 58 ∉ d) :
    RecordStore.ColonFree (mapSet records key l) := by
  intro e he r hr
  rcases mem_mapSet _ _ _ _ he with h1 | h1
  · exact hcf e h1 r hr
  · rw [h1] at hr
    exact hl r hr

theorem addRecord_colonFree (records : RecordStore) (domain type value : JSString)
    (ttl priority : Option Int) (now1 now2 : Nat) (hcf : records.ColonFree)
    (hc : 58 ∉ domain) :
    RecordStore.ColonFree (addRecord records domain type value ttl priority now1 now2).2 := by
  by_cases hrej : domain = [] ∨ type = [] ∨ value = [] ∨ toUpperCase type ∉ validTypes
  · rw [addRecord_rejected_store _ _ _ _ _ _ _ _ hrej]
    exact hcf
  · simp only [not_or, not_not] at hrej
    obtain ⟨hd, ht, hv, hm⟩ := hrej
    rw [addRecord_accepted records domain type value ttl priority now1 now2 hd ht hv hm]
    apply colonFree_mapSet
    · split
      · exact colonFree_mapSet _ _ _ hcf (by intro r hr; cases hr)
      · exact hcf
    · intro r hr d hdom
      rcases List.mem_append.1 hr with h1 | h1
      · obtain ⟨e, he, _, hre⟩ := mem_of_listAt records _ r h1
        exact hcf e he r hre d hdom
      · rw [List.mem_singleton.1 h1] at hdom
        have : d = toLowerCase domain := by
          simpa using hdom.symm
        rw [this]
        exact colon_toLowerCase domain hc

theorem addAll_wf (clock : Nat → Nat) (L : List ImportEntry) (records : RecordStore) (t : Nat)
    (hwf : records.WF) : RecordStore.WF (addAll clock L records t).1 := by
  induction L generalizing records t with
  | nil => exact hwf
  | cons e rest ih =>
    rw [addAll]
    exact ih _ _ (addRecord_wf _ _ _ _ _ _ _ _ hwf)

theorem addAll_colonFree (clock : Nat → Nat) (L : List ImportEntry) (records : RecordStore)
    (t : Nat) (hcf : records.ColonFree) (hL : ∀ e ∈ L, 58 ∉ e.domain) :
    RecordStore.ColonFree (addAll clock L records t).1 := by
  induction L generalizing records t with
  | nil => exact hcf
  | cons e rest ih =>
    rw [addAll]
    exact ih _ _ (addRecord_colonFree _ _ _ _ _ _ _ _ hcf (hL e (List.mem_cons_self _ _)))
      (fun x hx => hL x (List.mem_cons_of_mem _ hx))

theorem sampleStore_wf : RecordStore.WF sampleStore :=
  addAll_wf _ _ _ _ wf_nil

theorem sampleStore_colonFree : RecordStore.ColonFree sampleStore :=
  addAll_colonFree _ _ _ _ (by intro e he; cases he) (by decide)

/-- C13 (amended). On a store whose keys are those that `addRecord` builds and in
which no domain name contains a colon, and for a non-empty `domain` without a colon,
`deleteRecord(domain, type, value)` returns the number of records selected by its
granularity (no type: the records of the lower-cased domain; a type: the records of
that domain and upper-cased type; a type and a value: those of them with that value),
and afterwards the list under every key is the list from before without the selected
records, the others unchanged and in order. -/
theorem deleteRecord_spec (records : RecordStore) (domain type value : JSString)
    (hwf : records.WF) (hcf : records.ColonFree) (hd : domain ≠ []) (hc : 58 ∉ domain) :
    (deleteRecord records domain type value).1
      = Except.ok ((allRecords records).countP (selected domain type value)) ∧
    ∀ k, listAt (deleteRecord records domain type value).2 k
      = (listAt records k).filter (fun r => !selected domain type value r) := by
  by_cases ht : truthy type = true
  · by_cases hv : truthy value = true
    · exact deleteRecord_value records domain type value hwf hcf hd hc ht hv
    · exact deleteRecord_type_only records domain type value hwf hcf hd hc ht
        (by simpa using hv)
  · exact deleteRecord_no_type records domain type value hwf hcf hd hc (by simpa using ht)

/-- Witness of C13 (amended): on `sampleStore`, `deleteRecord("A.com")` removes the two
records of `a.com` and keeps the record of `b.com`. -/
theorem deleteRecord_spec_witness :
    (deleteRecord sampleStore (js "A.com") [] []).1 = Except.ok 2 ∧
    listAt (deleteRecord sampleStore (js "A.com") [] []).2 (js "b.com:A")
      = listAt sampleStore (js "b.com:A") :=
  ⟨(deleteRecord_spec sampleStore (js "A.com") [] [] sampleStore_wf sampleStore_colonFree
      (by decide) (by decide)).1,
   ((deleteRecord_spec sampleStore (js "A.com") [] [] sampleStore_wf sampleStore_colonFree
      (by decide) (by decide)).2 (js "b.com:A")).trans (by decide)⟩

/-- C13 as stated fails on a store that holds a record of the domain `a:b`, which
`addRecord` accepts: `deleteRecord("a")` removes that record and returns 1, although
no stored record has the domain `a`. -/
theorem deleteRecord_counterexample :
    (addRecord [] (js "a:b") (js "A") (js "1.1.1.1") none none 5 5).2 = colonStore ∧
    (allRecords colonStore).countP (selected (js "a") [] []) = 0 ∧
    (allRecords colonStore).length = 1 ∧
    deleteRecord colonStore (js "a") [] [] = (Except.ok 1, []) := by
  refine ⟨rfl, by decide, by decide, rfl⟩

end DomesticDns


namespace DomesticDns

/-! ## Log queries: theorems -/

theorem jsSlice_nat {α : Type} (xs : List α) (skip limit : Nat) :
    jsSlice xs (skip : Int) ((skip : Int) + (limit : Int)) = (xs.drop skip).take limit := by
  unfold jsSlice
  have h1 : ¬ ((skip : Int) < 0) := by omega
  have h2 : ¬ ((skip : Int) + (limit : Int) < 0) := by omega
  simp only [h1, h2, if_false]
  have e1 : ((skip : Int)).toNat = skip := by simp
  have e2 : ((skip : Int) + (limit : Int)).toNat = skip + limit := by omega
  rw [e1, e2]
  by_cases hs : skip ≤ xs.length
  · rw [Nat.min_eq_left hs]
    apply List.ext_getElem?
    intro i
    simp only [List.getElem?_take, List.getElem?_drop]
    by_cases hi : i < limit
    · by_cases hi2 : i < min (skip + limit) xs.length - skip
      · simp [hi, hi2]
      · have : xs.length ≤ skip + i := by omega
        simp [hi, hi2, List.getElem?_eq_none this]
    · have hi2 : ¬ i < min (skip + limit) xs.length - skip := by omega
      simp [hi, hi2]
  · have hs2 : xs.length ≤ skip := by omega
    rw [List.drop_eq_nil_of_le (by omega : xs.length ≤ min skip xs.length),
      List.drop_eq_nil_of_le hs2]
    simp

theorem includes_nil (p : JSString) (hp : truthy p = true) : includes [] p = false := by
  cases p with
  | nil => simp [truthy] at hp
  | cons a t => simp [includes, startsWith, List.isPrefixOf]

theorem truthy_toLowerCase (s : JSString) : truthy (toLowerCase s) = truthy s := by
  cases s <;> simp [truthy, toLowerCase]

theorem truthy_and_includes (s p : JSString) (hp : truthy p = true) :
    (truthy s && includes s p) = includes s p := by
  cases s with
  | nil => simp [includes_nil p hp]
  | cons a t => simp [truthy]

theorem truthy_and_lower_includes (s p : JSString) (hp : truthy p = true) :
    (truthy s && includes (toLowerCase s) (toLowerCase p))
      = includes (toLowerCase s) (toLowerCase p) := by
  rw [← truthy_toLowerCase s]
  exact truthy_and_includes _ _ (by rw [truthy_toLowerCase]; exact hp)

theorem truthy_and_eq (s p : JSString) (hp : truthy p = true) :
    (truthy s && s == p) = (s == p) := by
  cases s with
  | nil =>
    cases p with
    | nil => simp [truthy] at hp
    | cons a t => simp
  | cons a t => simp [truthy]

theorem filterStep_eq (field : Option JSString) (keep spec : JSString → LogEntry → Bool)
    (l : List LogEntry)
    (h : ∀ v, truthy v = true → ∀ log, keep v log = spec v log) :
    filterStep field keep l
      = l.filter (fun log =>
          match suppliedString field with
          | some v => spec v log
          | Option.none => true) := by
  unfold filterStep suppliedString
  cases field with
  | none => simp
  | some v =>
    by_cases hv : truthy v = true
    · simp only [hv, if_true]
      apply List.filter_congr
      intro log _
      exact h v hv log
    · have hv2 : truthy v = false := by simpa using hv
      simp [hv2]

theorem filterWhen_eq {β : Type} (field : Option β) (keep : β → LogEntry → Bool)
    (l : List LogEntry) :
    filterWhen field keep l
      = l.filter (fun log =>
          match field with
          | some v => keep v log
          | Option.none => true) := by
  unfold filterWhen
  cases field <;> simp

theorem filterLogs_eq_slice (logs : List LogEntry) (filters : Filters) (limit skip : Int) :
    filterLogs logs filters limit skip
      = jsSlice (logs.filter (satisfiesFilters filters)) skip (skip + limit) := by
  unfold filterLogs
  simp only []
  rw [filterStep_eq filters.domain _
      (fun v log => includes (toLowerCase log.entry.domain) (toLowerCase v)) logs
      (fun v hv log => truthy_and_lower_includes _ _ hv),
    filterStep_eq filters.type _ (fun v log => log.entry.type == v) _
      (fun v hv log => truthy_and_eq _ _ hv),
    filterStep_eq filters.clientIp _ (fun v log => includes log.entry.clientIp v) _
      (fun v hv log => truthy_and_includes _ _ hv),
    filterWhen_eq, filterWhen_eq, filterWhen_eq]
  simp only [List.filter_filter]
  congr 1
  apply List.filter_congr
  intro log _
  unfold satisfiesFilters
  simp only [ge_iff_le, Bool.and_assoc, Bool.and_comm, Bool.and_left_comm]
  cases filters.status <;> cases filters.startTime <;> cases filters.endTime <;> rfl

/-- C16. For every buffer content, filter set and counts `limit` and `skip`,
`filterLogs(filters, limit, skip)` is the list of the elements `skip .. skip+limit-1`
of the list that keeps, in buffer order, exactly the entries satisfying every
supplied filter (domain contains the filter without regard to case, type equal,
`clientIp` contains the filter, timestamp within `[startTime, endTime]`, `success`
equal to `status`); with no filter supplied it equals `getLogs(limit, skip)`. -/
theorem filterLogs_spec (logs : List LogEntry) (filters : Filters) (limit skip : Nat) :
    filterLogs logs filters (limit : Int) (skip : Int)
      = ((logs.filter (satisfiesFilters filters)).drop skip).take limit ∧
    filterLogs logs Filters.none (limit : Int) (skip : Int)
      = getLogs logs (limit : Int) (skip : Int) := by
  refine ⟨?_, ?_⟩
  · rw [filterLogs_eq_slice, jsSlice_nat]
  · rw [filterLogs_eq_slice]
    unfold getLogs
    congr 1
    rw [List.filter_eq_self]
    intro log _
    rfl

/-- With no filter supplied `filterLogs` and `getLogs` agree for all numbers `limit`
and `skip`, negative ones included, where `slice` counts from the end. -/
theorem filterLogs_none_eq_getLogs (logs : List LogEntry) (limit skip : Int) :
    filterLogs logs Filters.none limit skip = getLogs logs limit skip := by
  rw [filterLogs_eq_slice]
  unfold getLogs
  congr 1
  rw [List.filter_eq_self]
  intro log _
  rfl

/-- On `sampleLogs` the domain filter `EXAMPLE` with `status = true` keeps only the
first entry, and skipping one entry of the unfiltered buffer with limit 1 gives the
second entry. -/
theorem filterLogs_sample :
    filterLogs sampleLogs ⟨some (js "EXAMPLE"), Option.none, Option.none, Option.none,
      Option.none, some true⟩ 100 0 = sampleLogs.take 1 ∧
    filterLogs sampleLogs Filters.none 1 1 = (sampleLogs.drop 1).take 1 := by
  decide

end DomesticDns


namespace DomesticDns

/-! ## DoT response framing: theorems -/

theorem jsSlice_zero {α : Type} (xs : List α) (n : Nat) :
    jsSlice xs 0 (n : Int) = xs.take n := by
  unfold jsSlice
  have h2 : ¬ ((n : Int) < 0) := by omega
  simp only [h2, if_false, lt_self_iff_false, Int.toNat_zero, Nat.zero_min, List.drop_zero,
    Int.toNat_ofNat, Nat.sub_zero]
  by_cases h : n ≤ xs.length
  · rw [Nat.min_eq_left h]
  · rw [Nat.min_eq_right (by omega), List.take_of_length_le (le_refl _),
      List.take_of_length_le (by omega)]

theorem initial_framed (P extra R : List Nat) (hpre : R <+: framed P ++ extra)
    (hlen : 2 ≤ R.length) :
    ∃ rest, R = (P.length / 256 % 256) :: (P.length % 256) :: rest ∧ rest <+: P ++ extra := by
  obtain ⟨tail, ht⟩ := hpre
  match R, hlen with
  | a :: b :: rest, _ =>
    simp only [framed, writeUInt16BE, List.cons_append, List.nil_append, List.cons.injEq] at ht
    obtain ⟨h1, h2, h3⟩ := ht
    exact ⟨rest, by rw [h1, h2], ⟨tail, h3⟩⟩

theorem take_of_initial (P extra rest : List Nat) (hpre : rest <+: P ++ extra)
    (hlen : P.length ≤ rest.length) : rest.take P.length = P := by
  obtain ⟨tail, ht⟩ := hpre
  have h1 : (rest ++ tail).take P.length = (P ++ extra).take P.length := by rw [ht]
  rw [List.take_append_of_le_length hlen, List.take_left] at h1
  exact h1

theorem decode_after (P extra R : List Nat) (hP : P.length ≤ 65535)
    (hpre : R <+: framed P ++ extra) (hlen : 2 ≤ R.length) :
    (readUInt16BE R 0).getD 0 = P.length ∧
    (2 + P.length ≤ R.length → (R.drop 2).take P.length = P) := by
  obtain ⟨rest, hR, hrest⟩ := initial_framed P extra R hpre hlen
  subst hR
  refine ⟨?_, ?_⟩
  · have : 0 + 2 ≤ ((P.length / 256 % 256) :: (P.length % 256) :: rest).length := by
      simp
    simp only [readUInt16BE, this, if_true, Option.getD_some, List.getD_cons_zero,
      List.getD_cons_succ, Nat.zero_add]
    omega
  · intro h
    simp only [List.length_cons] at h
    exact take_of_initial P extra rest hrest (by omega)

theorem decide_branch (P extra R : List Nat) (hP : P.length ≤ 65535)
    (hpre : R <+: framed P ++ extra) (hlen : 2 ≤ R.length) :
    (if ((P.length : Nat) : Int) ≠ -1 ∧ (((R.drop 2).length : Nat) : Int) ≥ ((P.length : Nat) : Int)
      then ((⟨R.drop 2, P.length, P.length⟩ : DotState),
            some (jsSlice (R.drop 2) 0 ((P.length : Nat) : Int)))
      else (⟨R.drop 2, P.length, P.length⟩, Option.none))
    = (⟨R.drop 2, P.length, P.length⟩,
       if 2 + P.length ≤ R.length then some P else Option.none) := by
  have hd := (decode_after P extra R hP hpre hlen).2
  by_cases h : 2 + P.length ≤ R.length
  · have hc : ((P.length : Nat) : Int) ≠ -1 ∧
        (((R.drop 2).length : Nat) : Int) ≥ ((P.length : Nat) : Int) := by
      refine ⟨by omega, ?_⟩
      rw [List.length_drop]
      omega
    rw [if_pos hc, if_pos h, jsSlice_zero, hd h]
  · have hc : ¬ (((P.length : Nat) : Int) ≠ -1 ∧
        (((R.drop 2).length : Nat) : Int) ≥ ((P.length : Nat) : Int)) := by
      rw [List.length_drop]
      omega
    rw [if_neg hc, if_neg h]

theorem onData_unread (R c : List Nat) (h : (R ++ c).length < 2) :
    onData ⟨R, 0, -1⟩ c = (⟨R ++ c, 0, -1⟩, Option.none) := by
  have h1 : ¬ ((-1 : Int) = -1 ∧ (R ++ c).length ≥ 2) := by omega
  unfold onData
  dsimp only
  rw [if_neg h1]
  dsimp only
  rw [if_neg (by simp)]

theorem onData_read (R c : List Nat) (h : 2 ≤ (R ++ c).length) :
    onData ⟨R, 0, -1⟩ c =
      if (((readUInt16BE (R ++ c) 0).getD 0 : Nat) : Int) ≠ -1 ∧
          ((((R ++ c).drop 2).length : Nat) : Int) ≥ (((readUInt16BE (R ++ c) 0).getD 0 : Nat) : Int)
      then ((⟨(R ++ c).drop 2, ((readUInt16BE (R ++ c) 0).getD 0 : Nat),
              ((readUInt16BE (R ++ c) 0).getD 0 : Nat)⟩ : DotState),
            some (jsSlice ((R ++ c).drop 2) 0 (((readUInt16BE (R ++ c) 0).getD 0 : Nat) : Int)))
      else (⟨(R ++ c).drop 2, ((readUInt16BE (R ++ c) 0).getD 0 : Nat),
              ((readUInt16BE (R ++ c) 0).getD 0 : Nat)⟩, Option.none) := by
  have h1 : (-1 : Int) = -1 ∧ (R ++ c).length ≥ 2 := ⟨rfl, h⟩
  unfold onData
  dsimp only
  rw [if_pos h1]

theorem onData_known (D c : List Nat) (n : Nat) :
    onData ⟨D, n, n⟩ c =
      if ((n : Nat) : Int) ≠ -1 ∧ (((D ++ c).length : Nat) : Int) ≥ ((n : Nat) : Int)
      then ((⟨D ++ c, n, n⟩ : DotState), some (jsSlice (D ++ c) 0 ((n : Nat) : Int)))
      else (⟨D ++ c, n, n⟩, Option.none) := by
  have h1 : ¬ (((n : Nat) : Int) = -1 ∧ (D ++ c).length ≥ 2) := by omega
  unfold onData
  dsimp only
  rw [if_neg h1]

/-- One `data` event on a stream that starts with the frame of `P`: the handler
decodes exactly when the bytes received so far reach `2 + |P|`, and then on `P`. -/
theorem onData_step (P extra R c : List Nat) (hP : P.length ≤ 65535)
    (hpre : (R ++ c) <+: framed P ++ extra) :
    onData (stateAfter P.length R) c
      = (stateAfter P.length (R ++ c),
         if 2 + P.length ≤ (R ++ c).length then some P else Option.none) := by
  by_cases hR : R.length < 2
  · by_cases hRc : (R ++ c).length < 2
    · have h3 : ¬ (2 + P.length ≤ (R ++ c).length) := by omega
      unfold stateAfter
      rw [if_pos hR, if_pos hRc, if_neg h3]
      exact onData_unread R c hRc
    · have hv := (decode_after P extra (R ++ c) hP hpre (by omega)).1
      unfold stateAfter
      rw [if_pos hR, if_neg hRc, onData_read R c (by omega), hv]
      exact decide_branch P extra (R ++ c) hP hpre (by omega)
  · have hRc : ¬ (R ++ c).length < 2 := by
      rw [List.length_append]; omega
    have hdrop : R.drop 2 ++ c = (R ++ c).drop 2 := by
      rw [List.drop_append_of_le_length (by omega)]
    unfold stateAfter
    rw [if_neg hR, if_neg hRc, onData_known, hdrop]
    exact decide_branch P extra (R ++ c) hP hpre (by omega)

theorem runChunks_spec (P extra : List Nat) (hP : P.length ≤ 65535) :
    ∀ (chunks : List (List Nat)) (R : List Nat),
      R.length < 2 + P.length → R ++ chunks.flatten = framed P ++ extra →
      ∃ pre c post, chunks = pre ++ c :: post ∧
        (R ++ pre.flatten).length < 2 + P.length ∧
        2 + P.length ≤ (R ++ pre.flatten ++ c).length ∧
        runChunks (stateAfter P.length R) chunks
          = pre.map (fun _ => Option.none) ++
            some P :: runChunks (stateAfter P.length (R ++ pre.flatten ++ c)) post := by
  intro chunks
  induction chunks with
  | nil =>
    intro R hR hs
    exfalso
    have : (R ++ ([] : List (List Nat)).flatten).length = (framed P ++ extra).length := by
      rw [hs]
    simp [framed, writeUInt16BE] at this
    omega
  | cons c cs ih =>
    intro R hR hs
    have hpre : (R ++ c) <+: framed P ++ extra := by
      refine ⟨cs.flatten, ?_⟩
      rw [← hs]
      simp
    have hstep := onData_step P extra R c hP hpre
    by_cases hcross : 2 + P.length ≤ (R ++ c).length
    · refine ⟨[], c, cs, rfl, by simpa using hR, by simpa using hcross, ?_⟩
      simp only [runChunks, hstep, if_pos hcross, List.map_nil, List.nil_append,
        List.flatten_nil, List.append_nil]
    · have hs2 : (R ++ c) ++ cs.flatten = framed P ++ extra := by
        rw [← hs]; simp
      obtain ⟨pre, c1, post, h1, h2, h3, h4⟩ := ih (R ++ c) (by omega) hs2
      refine ⟨c :: pre, c1, post, by rw [h1]; rfl, by simpa using h2, by simpa using h3, ?_⟩
      simp only [runChunks, hstep, if_neg hcross, h4, List.map_cons, List.cons_append,
        List.flatten_cons, List.append_assoc]

/-- C17. For every payload `P` of at most 65535 bytes and every way of cutting the
framed stream (the length of `P` as two big-endian bytes, then `P`) into chunks,
empty or not, the `data` handler decodes for the first time on the chunk that brings the number of
bytes received to `2 + |P|` or more, on no earlier chunk, and the bytes that it hands
to the decoder are `P`. -/
theorem dot_first_decode (P : List Nat) (chunks : List (List Nat)) (hP : P.length ≤ 65535)
    (hs : chunks.flatten = framed P) :
    ∃ pre c post, chunks = pre ++ c :: post ∧
      pre.flatten.length < 2 + P.length ∧
      2 + P.length ≤ (pre.flatten ++ c).length ∧
      (runChunks DotState.initial chunks).take pre.length
        = pre.map (fun _ => Option.none) ∧
      (runChunks DotState.initial chunks)[pre.length]? = some (some P) := by
  obtain ⟨pre, c, post, h1, h2, h3, h4⟩ :=
    runChunks_spec P [] hP chunks [] (by simp) (by simpa using hs)
  have hinit : DotState.initial = stateAfter P.length [] := rfl
  refine ⟨pre, c, post, h1, by simpa using h2, by simpa using h3, ?_, ?_⟩
  · rw [hinit, h4, List.take_append_eq_append_take]
    simp
  · rw [hinit, h4, List.getElem?_append_right (by simp)]
    simp

/-- Witness of C17: the payload `[7, 8, 9]` cut as `[0]`, `[3, 7]`, `[8, 9]` is decoded
on the third chunk. -/
theorem dot_first_decode_witness :
    ∃ pre c post, [[0], [3, 7], [8, 9]] = pre ++ c :: post ∧
      pre.flatten.length < 2 + [7, 8, 9].length ∧
      2 + [7, 8, 9].length ≤ (pre.flatten ++ c).length ∧
      (runChunks DotState.initial [[0], [3, 7], [8, 9]]).take pre.length
        = pre.map (fun _ => Option.none) ∧
      (runChunks DotState.initial [[0], [3, 7], [8, 9]])[pre.length]? = some (some [7, 8, 9]) :=
  dot_first_decode [7, 8, 9] [[0], [3, 7], [8, 9]] (by decide) (by decide)

/-- The handler evaluated on that stream: nothing on the first two chunks, the
payload on the third. -/
theorem runChunks_sample :
    runChunks DotState.initial [[0], [3, 7], [8, 9]]
      = [Option.none, Option.none, some [7, 8, 9]] := by
  decide

end DomesticDns


namespace DomesticDns

/-! ## DoH GET parameter: theorems -/

theorem base64Char_small : ∀ v, v < 64 →
    base64Char v ≠ 61 ∧ isUrlSafe (urlChar v) = true ∧ urlChar v ≠ 61 ∧
      base64UrlValue (urlChar v) = some v := by
  decide

theorem base64Char_ne_pad (v : Nat) : base64Char v ≠ 61 := by
  by_cases h : v < 64
  · exact (base64Char_small v h).1
  · have : base64Chars.length ≤ v := by
      have : base64Chars.length = 64 := by decide
      omega
    unfold base64Char
    rw [List.getD_eq_default _ _ this]
    decide

theorem replaceAll_cons (x : Nat) (s : JSString) (c : Nat) (r : JSString) :
    replaceAll (x :: s) c r = (if x = c then r else [x]) ++ replaceAll s c r := by
  simp [replaceAll]

theorem replaceAll_nil (c : Nat) (r : JSString) : replaceAll [] c r = [] := rfl

theorem replaceAll_append (s t : JSString) (c : Nat) (r : JSString) :
    replaceAll (s ++ t) c r = replaceAll s c r ++ replaceAll t c r := by
  simp [replaceAll]

/-- The three `replace` calls as one function. -/
theorem dnsParam_eq (buf : List Nat) :
    dnsParam buf
      = replaceAll (replaceAll (replaceAll (toBase64 buf) 61 []) 43 [45]) 47 [95] := rfl

theorem replace_char (v : Nat) (s : JSString) :
    replaceAll (replaceAll (replaceAll (base64Char v :: s) 61 []) 43 [45]) 47 [95]
      = urlChar v :: replaceAll (replaceAll (replaceAll s 61 []) 43 [45]) 47 [95] := by
  have h := base64Char_ne_pad v
  rw [replaceAll_cons, if_neg h, List.singleton_append, replaceAll_cons]
  unfold urlChar
  by_cases h43 : base64Char v = 43
  · rw [if_pos h43, if_pos h43, List.singleton_append, replaceAll_cons, if_neg (by decide)]
    rfl
  · rw [if_neg h43, if_neg h43, List.singleton_append, replaceAll_cons]
    by_cases h47 : base64Char v = 47
    · rw [if_pos h47, if_pos h47]; rfl
    · rw [if_neg h47, if_neg h47]; rfl

theorem replace_pad (s : JSString) :
    replaceAll (replaceAll (replaceAll (61 :: s) 61 []) 43 [45]) 47 [95]
      = replaceAll (replaceAll (replaceAll s 61 []) 43 [45]) 47 [95] := by
  rw [replaceAll_cons, if_pos rfl, List.nil_append]

theorem dnsParam_urlText : ∀ buf : List Nat, dnsParam buf = urlText buf
  | [] => rfl
  | [a] => by
    rw [dnsParam_eq, toBase64, replace_char, replace_char, replace_pad, replace_pad]
    rfl
  | [a, b] => by
    rw [dnsParam_eq, toBase64, replace_char, replace_char, replace_char, replace_pad]
    rfl
  | a :: b :: c :: rest => by
    rw [dnsParam_eq, toBase64, replace_char, replace_char, replace_char, replace_char,
      ← dnsParam_eq, dnsParam_urlText rest]
    rfl

theorem urlText_safe : ∀ buf : List Nat, (∀ b ∈ buf, b < 256) →
    ∀ x ∈ urlText buf, isUrlSafe x = true
  | [], _ => by intro x hx; cases hx
  | [a], h => by
    have ha : a < 256 := h a (by simp)
    intro x hx
    simp only [urlText, List.mem_cons, List.mem_singleton, List.not_mem_nil, or_false] at hx
    rcases hx with hx | hx <;> rw [hx] <;> exact (base64Char_small _ (by omega)).2.1
  | [a, b], h => by
    have ha : a < 256 := h a (by simp)
    have hb : b < 256 := h b (by simp)
    intro x hx
    simp only [urlText, List.mem_cons, List.mem_singleton, List.not_mem_nil, or_false] at hx
    rcases hx with hx | hx | hx <;> rw [hx] <;> exact (base64Char_small _ (by omega)).2.1
  | a :: b :: c :: rest, h => by
    have ha : a < 256 := h a (by simp)
    have hb : b < 256 := h b (by simp)
    have hc : c < 256 := h c (by simp)
    have hrest : ∀ y ∈ rest, y < 256 := fun y hy => h y (by simp [hy])
    intro x hx
    simp only [urlText, List.mem_cons] at hx
    rcases hx with hx | hx | hx | hx | hx
    · rw [hx]; exact (base64Char_small _ (by omega)).2.1
    · rw [hx]; exact (base64Char_small _ (by omega)).2.1
    · rw [hx]; exact (base64Char_small _ (by omega)).2.1
    · rw [hx]; exact (base64Char_small _ (by omega)).2.1
    · exact urlText_safe rest hrest x hx

theorem restorePadding_group (x0 x1 x2 x3 : Nat) (s : JSString) :
    restorePadding (x0 :: x1 :: x2 :: x3 :: s) = x0 :: x1 :: x2 :: x3 :: restorePadding s := by
  unfold restorePadding
  have : (x0 :: x1 :: x2 :: x3 :: s).length % 4 = s.length % 4 := by
    simp only [List.length_cons]
    omega
  rw [this]
  rfl

theorem decodeGroup_full (v0 v1 v2 v3 : Nat) (h0 : v0 < 64) (h1 : v1 < 64) (h2 : v2 < 64)
    (h3 : v3 < 64) :
    decodeGroup (urlChar v0) (urlChar v1) (urlChar v2) (urlChar v3)
      = some [(v0 * 4 + v1 / 16) % 256, (v1 % 16 * 16 + v2 / 4) % 256,
          (v2 % 4 * 64 + v3) % 256] := by
  have e0 := (base64Char_small v0 h0).2.2
  have e1 := (base64Char_small v1 h1).2.2
  have e2 := (base64Char_small v2 h2).2.2
  have e3 := (base64Char_small v3 h3).2.2
  unfold decodeGroup
  rw [e0.2, e1.2, e2.2, e3.2]
  have n3 : ¬ urlChar v3 = 61 := e3.1
  have n23 : ¬ (urlChar v2 = 61 ∧ urlChar v3 = 61) := fun h => e3.1 h.2
  dsimp only
  rw [if_neg n23, if_neg n3]

theorem decodeGroup_two (v0 v1 v2 : Nat) (h0 : v0 < 64) (h1 : v1 < 64) (h2 : v2 < 64) :
    decodeGroup (urlChar v0) (urlChar v1) (urlChar v2) 61
      = some [(v0 * 4 + v1 / 16) % 256, (v1 % 16 * 16 + v2 / 4) % 256] := by
  have e0 := (base64Char_small v0 h0).2.2
  have e1 := (base64Char_small v1 h1).2.2
  have e2 := (base64Char_small v2 h2).2.2
  unfold decodeGroup
  rw [e0.2, e1.2, e2.2]
  have n23 : ¬ (urlChar v2 = 61 ∧ (61 : Nat) = 61) := fun h => e2.1 h.1
  dsimp only
  rw [if_neg n23, if_pos rfl]

theorem decodeGroup_one (v0 v1 : Nat) (h0 : v0 < 64) (h1 : v1 < 64) :
    decodeGroup (urlChar v0) (urlChar v1) 61 61 = some [(v0 * 4 + v1 / 16) % 256] := by
  have e0 := (base64Char_small v0 h0).2.2
  have e1 := (base64Char_small v1 h1).2.2
  unfold decodeGroup
  rw [e0.2, e1.2]
  simp only [and_self, if_true]

theorem decode_urlText : ∀ buf : List Nat, (∀ b ∈ buf, b < 256) →
    decodePadded (restorePadding (urlText buf)) = some buf
  | [], _ => by decide
  | [a], h => by
    have ha : a < 256 := h a (by simp)
    have hp : restorePadding (urlText [a]) = [urlChar (a / 4), urlChar (a % 4 * 16), 61, 61] :=
      rfl
    rw [hp, decodePadded, decodeGroup_one _ _ (by omega) (by omega)]
    have e : (a / 4 * 4 + a % 4 * 16 / 16) % 256 = a := by omega
    rw [e]
    simp [decodePadded]
  | [a, b], h => by
    have ha : a < 256 := h a (by simp)
    have hb : b < 256 := h b (by simp)
    have hp : restorePadding (urlText [a, b])
        = [urlChar (a / 4), urlChar (a % 4 * 16 + b / 16), urlChar (b % 16 * 4), 61] := rfl
    rw [hp, decodePadded, decodeGroup_two _ _ _ (by omega) (by omega) (by omega)]
    have e1 : (a / 4 * 4 + (a % 4 * 16 + b / 16) / 16) % 256 = a := by omega
    have e2 : ((a % 4 * 16 + b / 16) % 16 * 16 + b % 16 * 4 / 4) % 256 = b := by omega
    rw [e1, e2]
    simp [decodePadded]
  | a :: b :: c :: rest, h => by
    have ha : a < 256 := h a (by simp)
    have hb : b < 256 := h b (by simp)
    have hc : c < 256 := h c (by simp)
    have hrest : ∀ y ∈ rest, y < 256 := fun y hy => h y (by simp [hy])
    have ih := decode_urlText rest hrest
    rw [urlText, restorePadding_group, decodePadded,
      decodeGroup_full _ _ _ _ (by omega) (by omega) (by omega) (by omega)]
    have n3 : ¬ (urlChar (c % 64) = 61 ∧ restorePadding (urlText rest) ≠ []) :=
      fun hh => (base64Char_small (c % 64) (by omega)).2.2.1 hh.1
    have e1 : (a / 4 * 4 + (a % 4 * 16 + b / 16) / 16) % 256 = a := by omega
    have e2 : ((a % 4 * 16 + b / 16) % 16 * 16 + (b % 16 * 4 + c / 64) / 4) % 256 = b := by
      omega
    have e3 : ((b % 16 * 4 + c / 64) % 4 * 64 + c % 64) % 256 = c := by omega
    simp only [n3, if_false, ih, Option.map_some', e1, e2, e3]
    rfl

/-- For every byte sequence the `dns=` value is made of URL-safe characters only and
decodes back to the sequence. -/
theorem dnsParam_bytes (buf : List Nat) (h : ∀ b ∈ buf, b < 256) :
    (∀ x ∈ dnsParam buf, isUrlSafe x = true) ∧ base64UrlDecode (dnsParam buf) = some buf := by
  rw [dnsParam_urlText]
  exact ⟨urlText_safe buf h, decode_urlText buf h⟩

theorem splitDot_units (s : JSString) : ∀ l ∈ splitDot s, ∀ u ∈ l, u ∈ s := by
  induction s with
  | nil => simp [splitDot]
  | cons c rest ih =>
    by_cases hc : c = 46
    · rw [hc, splitDot_cons_dot]
      intro l hl u hu
      rcases List.mem_cons.1 hl with h | h
      · rw [h] at hu; cases hu
      · exact List.mem_cons_of_mem _ (ih l h u hu)
    · obtain ⟨l0, ls, h1, h2⟩ := splitDot_cons_other c rest hc
      rw [h2]
      rw [h1] at ih
      intro l hl u hu
      rcases List.mem_cons.1 hl with h | h
      · rw [h] at hu
        rcases List.mem_cons.1 hu with h3 | h3
        · rw [h3]; exact List.mem_cons_self _ _
        · exact List.mem_cons_of_mem _ (ih l0 (List.mem_cons_self _ _) u h3)
      · exact List.mem_cons_of_mem _ (ih l (List.mem_cons_of_mem _ h) u hu)

theorem utf8Unit_lt (u : Nat) (hu : u < 65536) : ∀ b ∈ utf8Unit u, b < 256 := by
  intro b hb
  unfold utf8Unit at hb
  split at hb
  · simp only [List.mem_singleton] at hb; omega
  · split at hb
    · simp only [List.mem_cons, List.mem_singleton, List.not_mem_nil, or_false] at hb
      rcases hb with h | h <;> omega
    · simp only [List.mem_cons, List.mem_singleton, List.not_mem_nil, or_false] at hb
      rcases hb with h | h | h <;> omega

theorem utf8Pair_lt (hi lo : Nat) (hhi : hi < 56320) (hlo : lo < 57344) :
    ∀ b ∈ utf8Pair hi lo, b < 256 := by
  intro b hb
  simp only [utf8Pair, List.mem_cons, List.mem_singleton, List.not_mem_nil, or_false] at hb
  rcases hb with h | h | h | h <;> omega

theorem replacement_lt : ∀ b ∈ [239, 191, 189], b < 256 := by decide

theorem utf8Aux_lt (s : JSString) : ∀ (pending : Option Nat),
    (∀ u ∈ s, u < 65536) → (∀ hi, pending = some hi → hi < 56320) →
    ∀ b ∈ utf8Aux pending s, b < 256 := by
  induction s with
  | nil =>
    intro pending _ _ b hb
    cases pending with
    | none => simp [utf8Aux] at hb
    | some hi =>
      simp only [utf8Aux] at hb
      exact replacement_lt b hb
  | cons u rest ih =>
    intro pending hs hp b hb
    have hu : u < 65536 := hs u (List.mem_cons_self _ _)
    have hrest : ∀ x ∈ rest, x < 65536 := fun x hx => hs x (List.mem_cons_of_mem _ hx)
    have hnone : ∀ hi, (none : Option Nat) = some hi → hi < 56320 := by
      intro hi h; cases h
    cases pending with
    | none =>
      simp only [utf8Aux] at hb
      split at hb
      · rename_i h1
        exact ih (some u) hrest (by intro hi h; cases h; exact h1.2) b hb
      · split at hb
        · rcases List.mem_append.1 hb with h | h
          · exact replacement_lt b h
          · exact ih none hrest hnone b h
        · rcases List.mem_append.1 hb with h | h
          · exact utf8Unit_lt u hu b h
          · exact ih none hrest hnone b h
    | some hi =>
      have hhi : hi < 56320 := hp hi rfl
      simp only [utf8Aux] at hb
      split at hb
      · rename_i h1
        rcases List.mem_append.1 hb with h | h
        · exact utf8Pair_lt hi u hhi h1.2 b h
        · exact ih none hrest hnone b h
      · split at hb
        · rename_i h1
          rcases List.mem_append.1 hb with h | h
          · exact replacement_lt b h
          · exact ih (some u) hrest (by intro x h; cases h; exact h1.2) b h
        · rcases List.mem_append.1 hb with h | h
          · rcases List.mem_append.1 h with h2 | h2
            · exact replacement_lt b h2
            · exact utf8Unit_lt u hu b h2
          · exact ih none hrest hnone b h

theorem writeUInt16BE_lt (v : Nat) : ∀ b ∈ writeUInt16BE v, b < 256 := by
  intro b hb
  simp only [writeUInt16BE, List.mem_cons, List.mem_singleton, List.not_mem_nil, or_false] at hb
  rcases hb with h | h <;> omega

/-- Every element of the query buffer is a byte. -/
theorem createDNSQueryBuffer_bytes (id : Nat) (domain type : JSString)
    (hdom : ∀ u ∈ domain, u < 65536) :
    ∀ b ∈ _createDNSQueryBuffer id domain type, b < 256 := by
  intro b hb
  simp only [_createDNSQueryBuffer, List.mem_append] at hb
  rcases hb with ((((((h | h) | h) | h) | h) | h) | (h | h)) | (h | h)
  any_goals exact writeUInt16BE_lt _ b h
  · rw [encodeParts_eq, List.mem_flatMap] at h
    obtain ⟨p, hp, hbp⟩ := h
    rcases List.mem_cons.1 hbp with h1 | h1
    · omega
    · exact utf8Aux_lt p none
        (fun u hu => hdom u (splitDot_units domain p hp u hu))
        (by intro hi hh; cases hh) b h1
  · simp only [List.mem_singleton] at h
    omega

/-- C18. For every query buffer `Q` that the DoH client builds (any id, any domain
of 16-bit code units, any type), the value placed in the `dns=` parameter in GET
mode contains only characters from `A`-`Z`, `a`-`z`, `0`-`9`, `-` and `_`, and
base64url decoding with the padding restored yields exactly `Q`. -/
theorem dnsParam_roundtrip (id : Nat) (domain type : JSString)
    (hdom : ∀ u ∈ domain, u < 65536) :
    (∀ x ∈ dnsParam (_createDNSQueryBuffer id domain type), isUrlSafe x = true) ∧
    base64UrlDecode (dnsParam (_createDNSQueryBuffer id domain type))
      = some (_createDNSQueryBuffer id domain type) :=
  dnsParam_bytes _ (createDNSQueryBuffer_bytes id domain type hdom)

/-- Witness of C18: the query for `a.com`/`A` with id 64511 (`FB FF`), whose base64
text starts with `+/8`, the two characters that are replaced. -/
theorem dnsParam_roundtrip_witness :
    (∀ x ∈ dnsParam (_createDNSQueryBuffer 64511 (js "a.com") (js "A")),
      isUrlSafe x = true) ∧
    base64UrlDecode (dnsParam (_createDNSQueryBuffer 64511 (js "a.com") (js "A")))
      = some (_createDNSQueryBuffer 64511 (js "a.com") (js "A")) :=
  dnsParam_roundtrip 64511 (js "a.com") (js "A") (by decide)

/-- The `dns=` value of that query: `-_8BAAABAAAAAAAAAWEDY29tAAABAAE`. -/
theorem dnsParam_sample :
    dnsParam (_createDNSQueryBuffer 64511 (js "a.com") (js "A"))
      = js "-_8BAAABAAAAAAAAAWEDY29tAAABAAE" := by
  decide

end DomesticDns


namespace DomesticDns

/-! ## DoQ stub: theorems -/

theorem addLog_trace (w : World) (cfg : Config) (st : Stores) (e : LogInput) :
    (st.addLog w cfg e).trace = st.trace ++ [Event.addLog e] := by
  unfold Stores.addLog
  split <;> rfl

theorem doqQuery_success (depth : Nat) (w : World) (cfg : Config) (st st2 : Stores)
    (domain type : JSString) (results : List Rec)
    (h : lookup depth w cfg st.tick domain type (js "127.0.0.1") none none
      = some (Settled.resolved results, st2)) :
    ∃ st', doqQuery (lookup depth) w cfg st domain type
      = some (Settled.resolved results, st') := by
  simp only [doqQuery, h]
  exact ⟨_, rfl⟩

/-- C19 (amended). `doqService.query(domain, type)` delegates to
`lookup(domain, type, '127.0.0.1')` with the default protocol: when that lookup
returns records the stub returns the same records, when it fails the stub fails with
the message of that failure behind the text that the stub puts in front, and in both cases the last
thing the stub does is to hand `addLog` an entry with source `doq-simulated` that
carries the response time (the clock after the lookup minus the clock at the
start). -/
theorem doqQuery_delegates (depth : Nat) (w : World) (cfg : Config) (st st2 : Stores)
    (domain type : JSString) (out : Settled)
    (h : lookup depth w cfg st.tick domain type (js "127.0.0.1") none none = some (out, st2)) :
    ∃ st',
      ((∀ results, out = Settled.resolved results →
        doqQuery (lookup depth) w cfg st domain type = some (Settled.resolved results, st') ∧
        st'.trace = st2.trace ++
          [Event.addLog ⟨domain, toUpperCase type, js "127.0.0.1", js "doq-simulated", true,
            some results, none, some ((w.clock st2.ticks : Int) - w.clock st.ticks)⟩]) ∧
       (∀ error, out = Settled.rejected error →
        doqQuery (lookup depth) w cfg st domain type
          = some (Settled.rejected ⟨js "模拟DNS over QUIC查询失败: " ++ error.message, none⟩, st') ∧
        st'.trace = st2.trace ++
          [Event.addLog ⟨domain, toUpperCase type, js "127.0.0.1", js "doq-simulated", false,
            none, some (js "后备DNS查询失败: " ++ error.message),
            some ((w.clock st2.ticks : Int) - w.clock st.ticks)⟩])) := by
  cases out with
  | resolved results =>
    refine ⟨st2.tick.addLog w cfg
      ⟨domain, toUpperCase type, js "127.0.0.1", js "doq-simulated", true, some results,
        none, some ((w.clock st2.ticks : Int) - w.clock st.ticks)⟩, ?_, ?_⟩
    · intro r hr
      cases hr
      refine ⟨?_, ?_⟩
      · simp only [doqQuery, h]
      · rw [addLog_trace]; rfl
    · intro e he
      cases he
  | rejected error =>
    refine ⟨st2.tick.addLog w cfg
      ⟨domain, toUpperCase type, js "127.0.0.1", js "doq-simulated", false, none,
        some (js "后备DNS查询失败: " ++ error.message),
        some ((w.clock st2.ticks : Int) - w.clock st.ticks)⟩, ?_, ?_⟩
    · intro r hr
      cases hr
    · intro e he
      cases he
      refine ⟨?_, ?_⟩
      · simp only [doqQuery, h]
      · rw [addLog_trace]; rfl

/-- A case in which the claim of C19 does hold: for a domain that is not blocked, has
no custom record and is not in the cache, under the default protocol `standard`, the
records that the stub returns are those of the system resolver. -/
theorem doqQuery_standard_path (depth : Nat) (w : World) (cfg : Config) (st : Stores)
    (domain type : JSString) (results : List Rec)
    (hnb : isDomainBlocked cfg.blockedDomains domain = false)
    (hrec : getRecords cfg.records domain type = Settled.resolved [])
    (hmiss : (Stores.cacheGet w
      { st.tick with trace := st.tick.trace ++ [Event.getRecords domain type] }
      domain type).1 = none)
    (hdef : cfg.defaultProtocol = js "standard")
    (hsup : cfg.supportedProtocols.standard = true)
    (hres : (Stores.netCall w cfg (afterMiss w st.tick domain type).tick
      ⟨js "standard", domain, type, some (js "127.0.0.1"), none⟩).1
        = Settled.resolved results) :
    ∃ st', doqQuery (lookup (depth + 1)) w cfg st domain type
      = some (Settled.resolved results, st') := by
  have hsup2 : cfg.supportedProtocols.supports (orDefault none cfg.defaultProtocol) = true := by
    rw [hdef]
    simp only [orDefault, Protocols.supports, if_true, hsup]
  have hlook : ∃ st2, lookup (depth + 1) w cfg st.tick domain type (js "127.0.0.1") none none
      = some (Settled.resolved results, st2) := by
    simp only [lookup, lookupBody, hnb, Bool.false_eq_true, if_false, hrec, List.length_nil,
      gt_iff_lt, Nat.lt_irrefl, hsup2, if_true]
    simp only [afterMiss] at hres
    generalize hcg : Stores.cacheGet w
      { st.tick with trace := st.tick.trace ++ [Event.getRecords domain type] }
      domain type = cg at hmiss hres
    obtain ⟨c1, st2⟩ := cg
    simp only at hmiss
    subst hmiss
    have hproto : _lookupWithProtocol (lookup depth) w cfg st2.tick domain type
        (js "127.0.0.1") (orDefault none cfg.defaultProtocol) none
        = some (Stores.netCall w cfg st2.tick
            ⟨js "standard", domain, type, some (js "127.0.0.1"), none⟩) := by
      rw [hdef]
      simp only [orDefault, _lookupWithProtocol]
      rw [if_neg (by decide), if_neg (by decide), if_neg (by decide), if_neg (by decide)]
    simp only [hproto]
    generalize hnc : Stores.netCall w cfg st2.tick
      ⟨js "standard", domain, type, some (js "127.0.0.1"), none⟩ = nc at hres
    obtain ⟨r, st3⟩ := nc
    simp only at hres
    subst hres
    exact ⟨_, rfl⟩
  obtain ⟨st2, h2⟩ := hlook
  obtain ⟨st', h3⟩ := doqQuery_success (depth + 1) w cfg st st2 domain type results h2
  exact ⟨st', h3⟩

/-- Witness of C19 (amended): in the sample world the stub for `foo.org` returns the
record that the nested lookup obtained through the fallback chain. -/
theorem doqQuery_delegates_witness :
    ∃ st',
      ((∀ results, Settled.resolved [answerA (js "foo.org") (js "1.2.3.4") 60]
          = Settled.resolved results →
        doqQuery (lookup 2) sampleWorld sampleConfig emptyStores (js "foo.org") (js "A")
          = some (Settled.resolved results, st') ∧
        st'.trace = doqNestedStores.trace ++
          [Event.addLog ⟨js "foo.org", toUpperCase (js "A"), js "127.0.0.1",
            js "doq-simulated", true, some results, none,
            some ((sampleWorld.clock doqNestedStores.ticks : Int)
              - sampleWorld.clock emptyStores.ticks)⟩]) ∧
       (∀ error, Settled.resolved [answerA (js "foo.org") (js "1.2.3.4") 60]
          = Settled.rejected error →
        doqQuery (lookup 2) sampleWorld sampleConfig emptyStores (js "foo.org") (js "A")
          = some (Settled.rejected ⟨js "模拟DNS over QUIC查询失败: " ++ error.message, none⟩, st') ∧
        st'.trace = doqNestedStores.trace ++
          [Event.addLog ⟨js "foo.org", toUpperCase (js "A"), js "127.0.0.1",
            js "doq-simulated", false, none, some (js "后备DNS查询失败: " ++ error.message),
            some ((sampleWorld.clock doqNestedStores.ticks : Int)
              - sampleWorld.clock emptyStores.ticks)⟩])) :=
  doqQuery_delegates 2 sampleWorld sampleConfig emptyStores doqNestedStores (js "foo.org")
    (js "A") (Settled.resolved [answerA (js "foo.org") (js "1.2.3.4") 60]) (by decide)

/-- C19 as stated fails for a domain with a custom record: the system resolver would
answer `home.lan` with `1.2.3.4`, but the stub returns the record of the store, and
no transport is invoked at all. -/
theorem doqQuery_counterexample :
    (Stores.netCall sampleWorld sampleConfig emptyStores
      ⟨js "standard", js "home.lan", js "A", some (js "127.0.0.1"), none⟩).1
      = Settled.resolved [answerA (js "home.lan") (js "1.2.3.4") 60] ∧
    (doqQuery (lookup 1) sampleWorld sampleConfig emptyStores (js "home.lan") (js "A")).map
      (fun r => r.1) = some (Settled.resolved [customA (js "home.lan") (js "192.168.1.1")]) ∧
    transportsOf (storesAfter emptyStores
      (doqQuery (lookup 1) sampleWorld sampleConfig emptyStores (js "home.lan")
        (js "A"))).trace = [] := by
  refine ⟨by decide, by decide, by decide⟩

end DomesticDns


namespace DomesticDns

/-! ## Listener: theorems -/

/-- For a request without a question, `handleQuery` raises the `TypeError` of the
destructuring that stands before its `try` block, whatever the override lookup and
`lookup` would do. -/
theorem handleQuery_no_question (depth : Nat) (w : World) (cfg : Config) (st : Stores)
    (servfail : Nat) (response : Response) (rinfo : Option JSString)
    (serverConfig : Except JSError (Option ServerConfig)) :
    handleQuery depth w cfg st servfail response emptyRequest rinfo serverConfig
      = some ⟨[], some destructureError, st⟩ := rfl

/-- For a request with at least one question whose override lookup fails with `error`,
`handleQuery` calls `send` once; the response has an empty answer list and unchanged
flags when the code of the error is `ENODATA`, and the server-failure flag or-ed into
its flags otherwise. -/
theorem handleQuery_override_error (depth : Nat) (w : World) (cfg : Config) (st : Stores)
    (servfail : Nat) (response : Response) (question : Question) (rest : List Question)
    (rinfo : Option JSString) (error : JSError) :
    ∃ sent, handleQuery depth w cfg st servfail response ⟨question :: rest⟩ rinfo
        (Except.error error) = some ⟨[sent], none, st⟩ ∧
      (error.code = some (js "ENODATA") → sent = { response with answers := [] }) ∧
      (error.code ≠ some (js "ENODATA") →
        sent = { response with flags := response.flags ||| servfail }) := by
  by_cases h : error.code = some (js "ENODATA")
  · exact ⟨{ response with answers := [] }, by simp [handleQuery, h], fun _ => rfl,
      fun hh => absurd h hh⟩
  · exact ⟨{ response with flags := response.flags ||| servfail }, by simp [handleQuery, h],
      fun hh => absurd hh h, fun _ => rfl⟩

/-- For a request with at least one question whose override lookup returns and whose
`lookup` returns, `handleQuery` calls `send` exactly once and raises nothing: with the
converted answers and unchanged flags when `lookup` succeeds, with an empty answer
list and unchanged flags when it fails with code `ENODATA`, and with the
server-failure flag or-ed into the flags when it fails with any other error. -/
theorem handleQuery_with_question (depth : Nat) (w : World) (cfg : Config) (st st1 : Stores)
    (servfail : Nat) (response : Response) (question : Question) (rest : List Question)
    (rinfo : Option JSString) (found : Option ServerConfig) (out : Settled)
    (hlook : lookup depth w cfg st question.name (getDnsTypeName question.type)
      (clientIpOf rinfo)
      (found.map (fun c => c.protocol)) (found.bind (fun c => c.serverIP))
        = some (out, st1)) :
    ∃ sent, handleQuery depth w cfg st servfail response ⟨question :: rest⟩ rinfo
        (Except.ok found) = some ⟨[sent], none, st1⟩ ∧
      (∀ answers, out = Settled.resolved answers →
        sent = { response with answers := answers.map (toAnswer question.name question.type) }) ∧
      (∀ error, out = Settled.rejected error → error.code = some (js "ENODATA") →
        sent = { response with answers := [] }) ∧
      (∀ error, out = Settled.rejected error → error.code ≠ some (js "ENODATA") →
        sent = { response with flags := response.flags ||| servfail }) := by
  cases out with
  | resolved answers =>
    refine ⟨{ response with answers := answers.map (toAnswer question.name question.type) },
      ?_, ?_, ?_, ?_⟩
    · simp only [handleQuery, hlook]
    · intro a ha; cases ha; rfl
    · intro e he; cases he
    · intro e he; cases he
  | rejected error =>
    by_cases h : error.code = some (js "ENODATA")
    · refine ⟨{ response with answers := [] }, ?_, ?_, ?_, ?_⟩
      · simp only [handleQuery, hlook, h, if_true]
      · intro a ha; cases ha
      · intro e he _; rfl
      · intro e he hne; cases he; exact absurd h hne
    · refine ⟨{ response with flags := response.flags ||| servfail }, ?_, ?_, ?_, ?_⟩
      · simp only [handleQuery, hlook, h, if_false]
      · intro a ha; cases ha
      · intro e he hc; cases he; exact absurd hc h
      · intro e he _; rfl

/-- The sample request in the dead world: every transport fails, the lookup raises,
and the one response that is sent carries the server-failure flag 2. -/
theorem handleQuery_sample :
    (handleQuery 2 deadWorld sampleConfig emptyStores 2 blankResponse sampleRequest none
      (Except.ok none)).map (fun h => (h.sent, h.thrown))
      = some ([⟨[], 2⟩], none) := by
  decide

/-- C20 (the code, with the failing input). Whenever a run of `handleQuery` ends, the
number of calls of `send` it has made is decided by the request alone: for a request
without a question `send` is not called at all and the promise rejects with the
`TypeError` of the destructuring in front of the `try` block; for a request with a
question `send` is called exactly once and nothing is raised. -/
theorem handleQuery_send_count (depth : Nat) (w : World) (cfg : Config) (st : Stores)
    (servfail : Nat) (response : Response) (request : Request) (rinfo : Option JSString)
    (serverConfig : Except JSError (Option ServerConfig)) (r : Handled)
    (h : handleQuery depth w cfg st servfail response request rinfo serverConfig = some r) :
    (request.questions = [] → r.sent = [] ∧ r.thrown = some destructureError) ∧
    (request.questions ≠ [] → r.sent.length = 1 ∧ r.thrown = none) := by
  obtain ⟨questions⟩ := request
  cases questions with
  | nil =>
    simp only [handleQuery, Option.some.injEq] at h
    subst h
    exact ⟨fun _ => ⟨rfl, rfl⟩, fun hne => absurd rfl hne⟩
  | cons question rest =>
    refine ⟨fun hnil => (by cases hnil), fun _ => ?_⟩
    cases serverConfig with
    | error error =>
      obtain ⟨sent, hs, -, -⟩ := handleQuery_override_error depth w cfg st servfail response
        question rest rinfo error
      rw [hs, Option.some.injEq] at h
      subst h
      exact ⟨rfl, rfl⟩
    | ok found =>
      cases hl : lookup depth w cfg st question.name (getDnsTypeName question.type)
          (clientIpOf rinfo) (found.map (fun c => c.protocol))
          (found.bind (fun c => c.serverIP)) with
      | none =>
        simp only [handleQuery, hl] at h
        cases h
      | some res =>
        obtain ⟨out, st1⟩ := res
        obtain ⟨sent, hs, -, -, -⟩ := handleQuery_with_question depth w cfg st st1 servfail
          response question rest rinfo found out hl
        rw [hs, Option.some.injEq] at h
        subst h
        exact ⟨rfl, rfl⟩

/-- Witness of C20: for the request without a question in the dead world, `send` is
not called and the `TypeError` is raised. -/
theorem handleQuery_send_count_witness :
    handleQuery 2 deadWorld sampleConfig emptyStores 2 blankResponse emptyRequest none
        (Except.ok none) = some ⟨[], some destructureError, emptyStores⟩ ∧
    ((⟨[], some destructureError, emptyStores⟩ : Handled).sent = [] ∧
     (⟨[], some destructureError, emptyStores⟩ : Handled).thrown = some destructureError) :=
  ⟨rfl,
   (handleQuery_send_count 2 deadWorld sampleConfig emptyStores 2 blankResponse emptyRequest
      none (Except.ok none) ⟨[], some destructureError, emptyStores⟩ rfl).1 rfl⟩

end DomesticDns


namespace DomesticDns

/-! ## Cache configuration: theorems -/

theorem minCreatedAt_spec (entries : List (JSString × CacheItem)) (hne : entries ≠ []) :
    ∃ t, minCreatedAt entries = some t ∧ (∀ e ∈ entries, t ≤ e.2.createdAt) ∧
      ∃ e ∈ entries, e.2.createdAt = t := by
  induction entries with
  | nil => exact absurd rfl hne
  | cons e es ih =>
    cases es with
    | nil =>
      refine ⟨e.2.createdAt, rfl, ?_, e, List.mem_cons_self _ _, rfl⟩
      intro x hx
      rw [List.mem_singleton.1 hx]
    | cons e2 es2 =>
      obtain ⟨t, ht, hall, x, hx, hxt⟩ := ih (by simp)
      refine ⟨min e.2.createdAt t, ?_, ?_, ?_⟩
      · show (match minCreatedAt (e2 :: es2) with
          | none => some e.2.createdAt
          | some t => some (min e.2.createdAt t)) = _
        rw [ht]
      · intro y hy
        rcases List.mem_cons.1 hy with h | h
        · rw [h]; exact Nat.min_le_left _ _
        · exact le_trans (Nat.min_le_right _ _) (hall y h)
      · by_cases hle : e.2.createdAt ≤ t
        · exact ⟨e, List.mem_cons_self _ _, by rw [Nat.min_eq_left hle]⟩
        · exact ⟨x, List.mem_cons_of_mem _ hx, by rw [Nat.min_eq_right (by omega)]; exact hxt⟩

theorem dropOldest_split (pre post : List (JSString × CacheItem)) (v : JSString × CacheItem)
    (hmin : ∀ e ∈ pre ++ v :: post, v.2.createdAt ≤ e.2.createdAt)
    (hfirst : ∀ e ∈ pre, v.2.createdAt < e.2.createdAt) :
    dropOldest (pre ++ v :: post) = pre ++ post := by
  obtain ⟨t, ht, hall, x, hx, hxt⟩ := minCreatedAt_spec (pre ++ v :: post) (by simp)
  have hv : t = v.2.createdAt := by
    have h1 := hall v (by simp)
    have h2 := hmin x hx
    omega
  unfold dropOldest
  rw [ht, hv]
  dsimp only
  rw [List.eraseP_append_right]
  · simp
  · intro e he
    have := hfirst e he
    simp only [beq_iff_eq]
    omega

theorem dropOldest_length (entries : List (JSString × CacheItem)) :
    (dropOldest entries).length = entries.length - 1 := by
  cases entries with
  | nil => rfl
  | cons e es =>
    obtain ⟨t, ht, _, x, hx, hxt⟩ := minCreatedAt_spec (e :: es) (by simp)
    unfold dropOldest
    rw [ht]
    dsimp only
    rw [List.length_eraseP_of_mem hx (by simpa using hxt)]

theorem dropOldest_sublist (entries : List (JSString × CacheItem)) :
    List.Sublist (dropOldest entries) entries := by
  unfold dropOldest
  split
  · exact List.Sublist.refl _
  · exact List.eraseP_sublist _

theorem evictOldest_eq (c : DNSCache) (hwf : c.WF) (hne : c.entries ≠ []) :
    (_evictOldest c).2
      = { c with entries := dropOldest c.entries, size := (dropOldest c.entries).length } := by
  obtain ⟨pre, v, post, hsplit, hmin, hfirst, heq⟩ := evictOldest_spec c hwf hne
  have hd : dropOldest c.entries = pre ++ post := by
    rw [hsplit]
    exact dropOldest_split pre post v (by rw [← hsplit]; exact hmin) hfirst
  rw [heq, hd]

theorem wf_dropOldest (c : DNSCache) (hwf : c.WF) (n : Nat) :
    DNSCache.WF { c with entries := dropOldest c.entries, size := n } := by
  refine ⟨?_, ?_⟩
  · exact List.Nodup.sublist (List.Sublist.map _ (dropOldest_sublist c.entries)) hwf.1
  · intro e he
    exact hwf.2 e ((dropOldest_sublist c.entries).subset he)

theorem iterate_dropOldest_length (n : Nat) (entries : List (JSString × CacheItem)) :
    (dropOldest^[n] entries).length = entries.length - n := by
  induction n generalizing entries with
  | zero => rfl
  | succ k ih =>
    rw [Function.iterate_succ_apply, ih, dropOldest_length]
    omega

theorem evictLoop_done (fuel : Nat) (c : DNSCache)
    (h : ¬ (c.entries.length : Int) > c.maxSize) : evictLoop fuel c = some c := by
  cases fuel <;> simp only [evictLoop, if_neg h]

/-- The eviction loop on a map that exceeds a non-negative `maxSize` by `n` entries:
`n` turns, each of which removes the first entry of minimal `createdAt`. -/
theorem evictLoop_spec (n : Nat) : ∀ (fuel : Nat) (c : DNSCache), c.WF →
    (c.entries.length : Int) = c.maxSize + (n + 1 : Nat) → 0 ≤ c.maxSize → n + 1 ≤ fuel →
    evictLoop fuel c
      = some { c with
          entries := dropOldest^[n + 1] c.entries
          size := (dropOldest^[n + 1] c.entries).length } := by
  induction n with
  | zero =>
    intro fuel c hwf hlen hmax hfuel
    obtain ⟨f, rfl⟩ : ∃ f, fuel = f + 1 := ⟨fuel - 1, by omega⟩
    have hgt : (c.entries.length : Int) > c.maxSize := by omega
    have hne : c.entries ≠ [] := by
      intro h; rw [h] at hlen; simp at hlen; omega
    rw [evictLoop, if_pos hgt, evictOldest_eq c hwf hne]
    rw [evictLoop_done]
    · rfl
    · show ¬ (((dropOldest c.entries).length : Nat) : Int) > c.maxSize
      rw [dropOldest_length]
      omega
  | succ k ih =>
    intro fuel c hwf hlen hmax hfuel
    obtain ⟨f, rfl⟩ : ∃ f, fuel = f + 1 := ⟨fuel - 1, by omega⟩
    have hgt : (c.entries.length : Int) > c.maxSize := by omega
    have hne : c.entries ≠ [] := by
      intro h; rw [h] at hlen; simp at hlen; omega
    rw [evictLoop, if_pos hgt, evictOldest_eq c hwf hne]
    rw [ih f _ (wf_dropOldest c hwf _) ?_ hmax (by omega)]
    · simp only [Function.iterate_succ_apply]
    · show (((dropOldest c.entries).length : Nat) : Int) = c.maxSize + ((k + 1 : Nat) : Int)
      rw [dropOldest_length]
      omega

theorem removeItem_maxSize (c : DNSCache) (key : JSString) :
    (_removeItem c key).2.maxSize = c.maxSize := by
  unfold _removeItem
  by_cases hh : mapHas c.entries key = true <;> simp [hh]

theorem evictOldest_maxSize (c : DNSCache) : (_evictOldest c).2.maxSize = c.maxSize := by
  unfold _evictOldest
  split
  · split
    · exact removeItem_maxSize c _
    · rfl
  · rfl

/-- With a negative `maxSize` the condition of the loop never becomes false. -/
theorem evictLoop_negative (fuel : Nat) : ∀ c : DNSCache, c.maxSize < 0 →
    evictLoop fuel c = none := by
  induction fuel with
  | zero =>
    intro c h
    have hgt : (c.entries.length : Int) > c.maxSize := by omega
    rw [evictLoop, if_pos hgt]
  | succ f ih =>
    intro c h
    have hgt : (c.entries.length : Int) > c.maxSize := by omega
    rw [evictLoop, if_pos hgt]
    exact ih _ (by rw [evictOldest_maxSize]; exact h)

theorem evictLoop_total (fuel : Nat) (c : DNSCache) (hwf : c.WF) (hmax : 0 ≤ c.maxSize)
    (hfuel : c.entries.length ≤ fuel) :
    ∃ c', evictLoop fuel c = some c' ∧
      c'.entries = dropOldest^[c.entries.length - c.maxSize.toNat] c.entries ∧
      c'.entries.length = min c.entries.length c.maxSize.toNat ∧
      c'.maxSize = c.maxSize ∧ c'.enabled = c.enabled ∧ c'.ttl = c.ttl ∧
      (c.size = c.entries.length → c'.size = c'.entries.length) := by
  by_cases hgt : (c.entries.length : Int) > c.maxSize
  · obtain ⟨n, hn⟩ : ∃ n, c.entries.length - c.maxSize.toNat = n + 1 :=
      ⟨c.entries.length - c.maxSize.toNat - 1, by omega⟩
    have hlen : (c.entries.length : Int) = c.maxSize + ((n + 1 : Nat) : Int) := by omega
    rw [evictLoop_spec n fuel c hwf hlen hmax (by omega), hn]
    refine ⟨_, rfl, rfl, ?_, rfl, rfl, rfl, fun _ => rfl⟩
    show (dropOldest^[n + 1] c.entries).length = _
    rw [iterate_dropOldest_length]
    omega
  · rw [evictLoop_done fuel c hgt]
    have h0 : c.entries.length - c.maxSize.toNat = 0 := by omega
    refine ⟨c, rfl, by rw [h0]; rfl, by omega, rfl, rfl, rfl, fun h => h⟩

theorem configureBase_frame (c : DNSCache) (options : CacheOptions) :
    (configureBase c options).entries = c.entries ∧
    (configureBase c options).size = c.size ∧
    (configureBase c options).maxSize = c.maxSize := by
  obtain ⟨enable, ttl, maxSize⟩ := options
  unfold configureBase
  cases enable <;> cases ttl with
  | none => exact ⟨rfl, rfl, rfl⟩
  | some t =>
    dsimp only
    split <;> exact ⟨rfl, rfl, rfl⟩

theorem configure_none (fuel : Nat) (c : DNSCache) (enable : Option Bool) (ttl : Option Int) :
    configure fuel c ⟨enable, ttl, none⟩ = some (configureBase c ⟨enable, ttl, none⟩) := rfl

theorem configure_zero (fuel : Nat) (c : DNSCache) (enable : Option Bool) (ttl : Option Int) :
    configure fuel c ⟨enable, ttl, some 0⟩ = some (configureBase c ⟨enable, ttl, some 0⟩) := rfl

theorem configure_some (fuel : Nat) (c : DNSCache) (enable : Option Bool) (ttl : Option Int)
    (m : Int) (hm : m ≠ 0) :
    configure fuel c ⟨enable, ttl, some m⟩
      = evictLoop fuel { configureBase c ⟨enable, ttl, some m⟩ with maxSize := m } := by
  simp only [configure, hm, if_false]

/-- C22. For every cache holding `k` entries and every `configure({maxSize: m})` with
`1 <= m`, the call ends after at most `k - m` turns of its loop; the cache then holds
the entries that remain after removing `k - m` times the first entry of minimal
`createdAt` (exactly `m` of them when `m < k`, all of them when `m >= k`), and its
`maxSize` is `m`. -/
theorem configure_maxSize (c : DNSCache) (m : Int) (fuel : Nat) (hwf : c.WF) (hm : 1 ≤ m)
    (hfuel : c.entries.length - m.toNat ≤ fuel) :
    ∃ c', configure fuel c ⟨none, none, some m⟩ = some c' ∧
      c'.maxSize = m ∧
      c'.entries = dropOldest^[c.entries.length - m.toNat] c.entries ∧
      (m < c.entries.length → (c'.entries.length : Int) = m) ∧
      ((c.entries.length : Int) ≤ m → c'.entries = c.entries) := by
  have hm0 : ¬ m = 0 := by omega
  have hcfg : configure fuel c ⟨none, none, some m⟩ = evictLoop fuel { c with maxSize := m } :=
    configure_some fuel c none none m hm0
  rw [hcfg]
  by_cases hgt : (c.entries.length : Int) > m
  · obtain ⟨n, hn⟩ : ∃ n, c.entries.length - m.toNat = n + 1 :=
      ⟨c.entries.length - m.toNat - 1, by omega⟩
    have hlen : (({ c with maxSize := m } : DNSCache).entries.length : Int)
        = ({ c with maxSize := m } : DNSCache).maxSize + ((n + 1 : Nat) : Int) := by
      show (c.entries.length : Int) = m + ((n + 1 : Nat) : Int)
      omega
    rw [evictLoop_spec n fuel { c with maxSize := m } hwf hlen (by show 0 ≤ m; omega)
      (by omega), hn]
    refine ⟨_, rfl, rfl, rfl, ?_, ?_⟩
    · intro _
      show (((dropOldest^[n + 1] c.entries).length : Nat) : Int) = m
      rw [iterate_dropOldest_length]
      omega
    · intro hle
      omega
  · rw [evictLoop_done fuel _ hgt]
    have h0 : c.entries.length - m.toNat = 0 := by omega
    refine ⟨_, rfl, rfl, by rw [h0]; rfl, ?_, fun _ => rfl⟩
    intro hlt
    omega

/-- Witness of C22: `configure({maxSize: 1})` on the cache of three entries created at
7, 5 and 5 removes the two entries created at 5 and keeps the one created at 7. -/
theorem configure_maxSize_witness :
    ∃ c', configure 2 threeCache ⟨none, none, some 1⟩ = some c' ∧
      c'.maxSize = 1 ∧
      c'.entries = dropOldest^[threeCache.entries.length - (1 : Int).toNat] threeCache.entries ∧
      ((1 : Int) < threeCache.entries.length → (c'.entries.length : Int) = 1) ∧
      ((threeCache.entries.length : Int) ≤ 1 → c'.entries = threeCache.entries) :=
  configure_maxSize threeCache 1 2 ⟨by decide, by decide⟩ (by decide) (by decide)

/-- The run of that witness: the entry of `a.com` is the one that is left. -/
theorem configure_sample :
    (configure 2 threeCache ⟨none, none, some 1⟩).map (fun c => (c.entries, c.size, c.maxSize))
      = some ([(js "a.com:A", ⟨[], 7, 300007, 300⟩)], 1, 1) := by
  decide

/-- C30 (amended). For every cache content and every options object whose `maxSize`
is absent, zero or positive, `configure(options)` ends after at most as many turns
of its loop as the cache holds entries. With `maxSize >= 1` the cache afterwards
holds at most `maxSize` entries and has that `maxSize`; with `maxSize` absent or
zero its entries and its `maxSize` are unchanged; and the size reported by the
statistics equals the number of stored entries whenever it did so before. -/
theorem configure_terminates (c : DNSCache) (options : CacheOptions) (fuel : Nat)
    (hwf : c.WF) (hopt : ∀ m, options.maxSize = some m → 0 ≤ m)
    (hfuel : c.entries.length ≤ fuel) :
    ∃ c', configure fuel c options = some c' ∧
      (∀ m, options.maxSize = some m → 1 ≤ m →
        (c'.entries.length : Int) ≤ m ∧ c'.maxSize = m) ∧
      (options.maxSize = none ∨ options.maxSize = some 0 →
        c'.entries = c.entries ∧ c'.maxSize = c.maxSize) ∧
      (c.size = c.entries.length → c'.size = c'.entries.length) := by
  obtain ⟨he, hs, hmx⟩ := configureBase_frame c options
  obtain ⟨enable, ttl, maxSize⟩ := options
  cases maxSize with
  | none =>
    rw [configure_none]
    refine ⟨_, rfl, ?_, fun _ => ⟨he, hmx⟩, fun h => by rw [hs, he]; exact h⟩
    intro m hm
    cases hm
  | some m =>
    by_cases hm0 : m = 0
    · subst hm0
      rw [configure_zero]
      refine ⟨_, rfl, ?_, fun _ => ⟨he, hmx⟩, fun h => by rw [hs, he]; exact h⟩
      intro m hm h1
      cases hm
      omega
    · have hpos : 0 ≤ m := hopt m rfl
      rw [configure_some fuel c enable ttl m hm0]
      generalize configureBase c ⟨enable, ttl, some m⟩ = c2 at he hs hmx
      have hwf2 : DNSCache.WF { c2 with maxSize := m } := by
        refine ⟨?_, ?_⟩
        · show (c2.entries.map (fun e => e.1)).Nodup
          rw [he]; exact hwf.1
        · show ∀ e ∈ c2.entries, e.1 ≠ []
          rw [he]; exact hwf.2
      obtain ⟨c', h1, _, h3, h4, _, _, h7⟩ :=
        evictLoop_total fuel { c2 with maxSize := m } hwf2 hpos
          (by show c2.entries.length ≤ fuel; rw [he]; exact hfuel)
      refine ⟨c', h1, ?_, ?_, ?_⟩
      · intro m' hm' _
        cases hm'
        refine ⟨?_, h4⟩
        rw [h3]
        show ((min c2.entries.length m.toNat : Nat) : Int) ≤ m
        omega
      · intro h
        rcases h with h | h
        · cases h
        · cases h
          exact absurd rfl hm0
      · intro h
        apply h7
        show c2.size = c2.entries.length
        rw [hs, he]; exact h

/-- Witness of C30 (amended): `configure({ttl: 60, maxSize: 2})` on the cache of three
entries. -/
theorem configure_terminates_witness :
    ∃ c', configure 3 threeCache ⟨none, some 60, some 2⟩ = some c' ∧
      (∀ m, (⟨none, some 60, some 2⟩ : CacheOptions).maxSize = some m → 1 ≤ m →
        (c'.entries.length : Int) ≤ m ∧ c'.maxSize = m) ∧
      ((⟨none, some 60, some 2⟩ : CacheOptions).maxSize = none ∨
        (⟨none, some 60, some 2⟩ : CacheOptions).maxSize = some 0 →
        c'.entries = threeCache.entries ∧ c'.maxSize = threeCache.maxSize) ∧
      (threeCache.size = threeCache.entries.length → c'.size = c'.entries.length) :=
  configure_terminates threeCache ⟨none, some 60, some 2⟩ 3 ⟨by decide, by decide⟩
    (by intro m hm; cases hm; decide) (by decide)

/-- C30 as stated fails for `maxSize = 0` and for a negative `maxSize`: the first is
skipped as falsy, so the cache of three entries keeps its three entries and its old
`maxSize`; with the second the loop condition `cache.size > maxSize` stays true on the
empty map, where `_evictOldest` removes nothing, and the call never ends. -/
theorem configure_counterexample :
    configure 0 threeCache ⟨none, none, some 0⟩ = some threeCache ∧
    threeCache.entries.length = 3 ∧
    ∀ fuel, configure fuel threeCache ⟨none, none, some (-1)⟩ = none := by
  refine ⟨by decide, by decide, ?_⟩
  intro fuel
  rw [configure_some fuel threeCache none none (-1) (by decide)]
  exact evictLoop_negative fuel _ (by decide)

end DomesticDns


namespace DomesticDns

/-! ## Routing rules: theorems -/

theorem addRules_append (obj : List (JSString × DomainEntry)) (a b : List RuleItem) :
    addRules (addRules obj a) b = addRules obj (a ++ b) := by
  simp [addRules, List.foldl_append]

/-- On a snapshot of plain rules the object `domainData` holds one property per rule,
in the order of the snapshot. -/
theorem addRules_plain (items : List RuleItem) : ∀ (obj : List (JSString × DomainEntry)),
    (items.map (fun r => r.domain)).Nodup →
    (∀ r ∈ items, r.domain ≠ [] ∧ r.domain ≠ js "__proto__" ∧
      r.domain ∉ obj.map (fun e => e.1)) →
    addRules obj items
      = obj ++ items.map (fun r => (r.domain, (⟨r.dns, r.protocol, r.name⟩ : DomainEntry))) := by
  induction items with
  | nil => intro obj _ _; simp [addRules]
  | cons r rest ih =>
    intro obj hnd h
    rw [List.map_cons, List.nodup_cons] at hnd
    obtain ⟨hne, hproto, hnew⟩ := h r (List.mem_cons_self _ _)
    have htruthy : truthy r.domain = true := by
      cases hd : r.domain with
      | nil => exact absurd hd hne
      | cons a t => simp [truthy]
    have hstep : addRules obj (r :: rest)
        = addRules (obj ++ [(r.domain, ⟨r.dns, r.protocol, r.name⟩)]) rest := by
      simp only [addRules, List.foldl_cons, htruthy, if_true, objSet, if_neg hproto]
      rw [mapSet_new obj r.domain _ hnew]
    rw [hstep, ih _ hnd.2]
    · simp
    · intro x hx
      obtain ⟨h1, h2, h3⟩ := h x (List.mem_cons_of_mem _ hx)
      refine ⟨h1, h2, ?_⟩
      simp only [List.map_append, List.map_cons, List.map_nil, List.mem_append,
        List.mem_singleton, not_or]
      refine ⟨h3, ?_⟩
      intro hxr
      exact hnd.1 (hxr ▸ List.mem_map_of_mem (fun r => r.domain) hx)

theorem objectEntries_plain {β : Type} (obj : List (JSString × β))
    (h : ∀ e ∈ obj, arrayIndex e.1 = none) : objectEntries obj = obj := by
  unfold objectEntries
  have h1 : obj.filter (fun e => (arrayIndex e.1).isSome) = [] := by
    rw [List.filter_eq_nil_iff]
    intro e he
    simp [h e he]
  have h2 : obj.filter (fun e => (arrayIndex e.1).isNone) = obj := by
    rw [List.filter_eq_self]
    intro e he
    simp [h e he]
  rw [h1, h2]
  rfl

theorem findRule_map (items : List RuleItem) (domain : JSString) :
    findRule (items.map (fun r => (r.domain, (⟨r.dns, r.protocol, r.name⟩ : DomainEntry))))
      domain = firstMatch items domain := by
  induction items with
  | nil => rfl
  | cons r rest ih =>
    simp only [List.map_cons, findRule, firstMatch]
    cases hm : matchDomain r.domain domain with
    | none => rfl
    | some b =>
      cases b
      · exact ih
      · rfl

/-- C21 (amended). For every rule snapshot (domestic entries followed by foreign
entries) whose patterns are pairwise distinct, non-empty, not array-index numerals
and not `__proto__`, and for every domain, `getDomainServerConfig` returns the server
address and protocol (`standard` when the rule names none) of the first rule, in the
snapshot's order, whose pattern satisfies `matchDomain(pattern, domain)`, and `null`
when no rule matches. -/
theorem getDomainServerConfig_first (raw : RawData) (domain : JSString)
    (h : PlainRules (raw.domestic ++ raw.foreign)) :
    getDomainServerConfig (some raw) domain
      = firstMatch (raw.domestic ++ raw.foreign) domain := by
  unfold getDomainServerConfig getDomainData
  simp only
  rw [addRules_append, addRules_plain _ [] h.1
    (fun r hr => ⟨(h.2 r hr).1, (h.2 r hr).2.1, by simp⟩), List.nil_append,
    objectEntries_plain, findRule_map]
  intro e he
  obtain ⟨r, hr, hre⟩ := List.mem_map.1 he
  rw [← hre]
  exact (h.2 r hr).2.2

/-- The file that cannot be read gives the empty rule set: no rule matches. -/
theorem getDomainServerConfig_unreadable (domain : JSString) :
    getDomainServerConfig none domain = some none := rfl

theorem sampleRules_plain : PlainRules (sampleRules.domestic ++ sampleRules.foreign) := by
  refine ⟨by decide, ?_⟩
  intro r hr
  simp only [sampleRules, List.cons_append, List.nil_append, List.mem_cons,
    List.mem_singleton, List.not_mem_nil, or_false] at hr
  rcases hr with h | h | h <;> subst h <;> decide

/-- Witness of C21 (amended): `www.Example.com` matches the second domestic rule and
the foreign rule; the second domestic rule comes first. -/
theorem getDomainServerConfig_first_witness :
    getDomainServerConfig (some sampleRules) (js "www.Example.com")
      = some (some ⟨some (js "9.9.9.9"), js "dot"⟩) :=
  (getDomainServerConfig_first sampleRules (js "www.Example.com") sampleRules_plain).trans
    (by decide)

/-- C21 as stated fails for a snapshot in which a pattern occurs twice: the rules are
stored in an object keyed by the pattern, so the later rule overwrites the earlier
one, and `a.com` is answered with the foreign rule although the domestic rule is the
first that matches. -/
theorem getDomainServerConfig_counterexample :
    firstMatch (repeatedRules.domestic ++ repeatedRules.foreign) (js "a.com")
      = some (some ⟨some (js "1.1.1.1"), js "standard"⟩) ∧
    getDomainServerConfig (some repeatedRules) (js "a.com")
      = some (some ⟨some (js "8.8.8.8"), js "doh"⟩) := by
  refine ⟨by decide, by decide⟩

/-- A pattern that is a numeral is enumerated before every other pattern: in front
of it in the file stands the wildcard rule `*`, which matches `10` too, but the rule
of `10` is the one returned. -/
theorem getDomainServerConfig_numeral :
    firstMatch (numeralRules.domestic ++ numeralRules.foreign) (js "10")
      = some (some ⟨some (js "1.1.1.1"), js "standard"⟩) ∧
    getDomainServerConfig (some numeralRules) (js "10")
      = some (some ⟨some (js "8.8.8.8"), js "doh"⟩) := by
  refine ⟨by decide, by decide⟩

end DomesticDns


namespace DomesticDns

/-! ## Transport servers: theorems -/

theorem insertByPriority_ne_nil (a : ServerEntry) (l : List ServerEntry) :
    insertByPriority a l ≠ [] := by
  cases l with
  | nil => simp [insertByPriority]
  | cons b t =>
    unfold insertByPriority
    split <;> simp

theorem sortByPriority_ne_nil (l : List ServerEntry) (h : l ≠ []) : sortByPriority l ≠ [] := by
  cases l with
  | nil => exact absurd rfl h
  | cons a t => exact insertByPriority_ne_nil a _

/-- The head of the stable sort: the first server, in list order, of minimal key. -/
theorem sortByPriority_head (servers : List ServerEntry) (hne : servers ≠ []) :
    ∃ pre s post, servers = pre ++ s :: post ∧
      (∀ t ∈ servers, effPriority s ≤ effPriority t) ∧
      (∀ t ∈ pre, effPriority s < effPriority t) ∧
      (sortByPriority servers).headD ServerEntry.empty = s := by
  induction servers with
  | nil => exact absurd rfl hne
  | cons a l ih =>
    cases l with
    | nil =>
      refine ⟨[], a, [], rfl, ?_, ?_, rfl⟩
      · intro t ht; rw [List.mem_singleton.1 ht]
      · intro t ht; cases ht
    | cons b l2 =>
      obtain ⟨pre, s, post, hsplit, hmin, hfirst, hhead⟩ := ih (by simp)
      obtain ⟨h0, rest, hsort⟩ : ∃ h0 rest, sortByPriority (b :: l2) = h0 :: rest := by
        cases hs : sortByPriority (b :: l2) with
        | nil => exact absurd hs (sortByPriority_ne_nil _ (by simp))
        | cons h0 rest => exact ⟨h0, rest, rfl⟩
      have hh0 : h0 = s := by
        rw [hsort] at hhead
        exact hhead
      subst hh0
      have hstep : sortByPriority (a :: b :: l2) = insertByPriority a (h0 :: rest) := by
        rw [← hsort]; rfl
      by_cases hle : effPriority a ≤ effPriority h0
      · refine ⟨[], a, b :: l2, rfl, ?_, ?_, ?_⟩
        · intro t ht
          rcases List.mem_cons.1 ht with h | h
          · rw [h]
          · exact le_trans hle (hmin t h)
        · intro t ht; cases ht
        · rw [hstep]
          simp only [insertByPriority, if_pos hle, List.headD_cons]
      · refine ⟨a :: pre, h0, post, by rw [hsplit]; rfl, ?_, ?_, ?_⟩
        · intro t ht
          rcases List.mem_cons.1 ht with h | h
          · rw [h]; omega
          · exact hmin t h
        · intro t ht
          rcases List.mem_cons.1 ht with h | h
          · rw [h]; omega
          · exact hfirst t h
        · rw [hstep]
          simp only [insertByPriority, if_neg hle, List.headD_cons]

theorem withTimeout_spec (server : ServerEntry) :
    withTimeout none server = server ∧ withTimeout (some 0) server = server ∧
    ∀ t : Int, t ≠ 0 → withTimeout (some t) server = { server with timeout := some t } := by
  refine ⟨rfl, rfl, ?_⟩
  intro t ht
  simp only [withTimeout, ht, if_false]

/-- C27 (amended). For a protocol whose configured server list is non-empty,
`_getServerForProtocol` returns a copy of the first server, in list order, of minimal
key `priority || 100` (a server without a priority, or with the priority 0, counts
as 100), with its timeout replaced by the protocol-level timeout when that is
configured and not 0, and leaves the configuration as it is; for an empty or missing
list, or a missing protocol section, it returns the built-in server of the protocol
(the empty object for a protocol other than `dot`, `doh` and `doq`). -/
theorem getServerForProtocol_spec (dnsConfig : DnsConfig) (protocol : JSString) :
    (∀ protocolConfig servers, mapGet dnsConfig protocol = some protocolConfig →
      protocolConfig.servers = some servers → servers ≠ [] →
      ∃ pre s post, servers = pre ++ s :: post ∧
        (∀ t ∈ servers, effPriority s ≤ effPriority t) ∧
        (∀ t ∈ pre, effPriority s < effPriority t) ∧
        _getServerForProtocol dnsConfig protocol
          = (withTimeout protocolConfig.timeout s, dnsConfig)) ∧
    (mapGet dnsConfig protocol = none ∨
      (∃ protocolConfig, mapGet dnsConfig protocol = some protocolConfig ∧
        (protocolConfig.servers = none ∨ protocolConfig.servers = some [])) →
      _getServerForProtocol dnsConfig protocol = (defaultServer protocol, dnsConfig)) := by
  refine ⟨?_, ?_⟩
  · intro pc servers h1 h2 h3
    obtain ⟨pre, s, post, hsplit, hmin, hfirst, hhead⟩ := sortByPriority_head servers h3
    refine ⟨pre, s, post, hsplit, hmin, hfirst, ?_⟩
    have hlen : ¬ servers.length = 0 := by
      intro h; exact h3 (List.length_eq_zero.1 h)
    simp only [_getServerForProtocol, h1, h2, hlen, if_false, hhead]
  · intro h
    rcases h with h | ⟨pc, h1, h2 | h2⟩
    · simp only [_getServerForProtocol, h]
    · simp only [_getServerForProtocol, h1, h2]
    · simp only [_getServerForProtocol, h1, h2, List.length_nil, if_true]

/-- Witness of C27 (amended): of the servers `a` (no priority), `b` (5) and `c` (5)
the server `b` is returned, with the timeout 3000 of the section. -/
theorem getServerForProtocol_spec_witness :
    ∃ pre s post,
      [{ ServerEntry.empty with host := some (js "a") },
        { ServerEntry.empty with host := some (js "b"), priority := some 5 },
        { ServerEntry.empty with host := some (js "c"), priority := some 5 }]
        = pre ++ s :: post ∧
      (∀ t ∈ [{ ServerEntry.empty with host := some (js "a") },
          { ServerEntry.empty with host := some (js "b"), priority := some 5 },
          { ServerEntry.empty with host := some (js "c"), priority := some 5 }],
        effPriority s ≤ effPriority t) ∧
      (∀ t ∈ pre, effPriority s < effPriority t) ∧
      _getServerForProtocol sampleDnsConfig (js "dot")
        = (withTimeout (some 3000) s, sampleDnsConfig) :=
  (getServerForProtocol_spec sampleDnsConfig (js "dot")).1
    ⟨some [{ ServerEntry.empty with host := some (js "a") },
        { ServerEntry.empty with host := some (js "b"), priority := some 5 },
        { ServerEntry.empty with host := some (js "c"), priority := some 5 }], some 3000⟩
    _ (by decide) rfl (by decide)

/-- The value of that call. -/
theorem getServerForProtocol_sample :
    (_getServerForProtocol sampleDnsConfig (js "dot")).1
      = { ServerEntry.empty with
          host := some (js "b"), priority := some 5, timeout := some 3000 } := by
  decide

/-- C27 as stated fails for a server with the priority 0: `0 || 100` is 100, so of
the servers `a` (priority 0) and `b` (priority 5) the server `b` is returned, although
0 is the numerically smallest priority. -/
theorem getServerForProtocol_counterexample :
    (_getServerForProtocol zeroPriorityConfig (js "dot")).1
      = { ServerEntry.empty with host := some (js "b"), priority := some 5 } ∧
    ({ ServerEntry.empty with host := some (js "a"), priority := some 0 } : ServerEntry).priority
      = some 0 ∧
    effPriority { ServerEntry.empty with host := some (js "a"), priority := some 0 } = 100 := by
  refine ⟨by decide, rfl, by decide⟩

end DomesticDns


namespace DomesticDns

/-! ## The `serverIp` argument of `_lookupWithProtocol`: theorems -/

/-- In the engine the dispatch to `dot` and to `doh` does not depend on `serverIp`. -/
theorem lookupWithProtocol_serverIp (nested : LookupFn) (w : World) (cfg : Config)
    (st : Stores) (domain type clientIp : JSString) (serverIp : Option JSString) :
    _lookupWithProtocol nested w cfg st domain type clientIp (js "dot") serverIp
      = _lookupWithProtocol nested w cfg st domain type clientIp (js "dot") none ∧
    _lookupWithProtocol nested w cfg st domain type clientIp (js "doh") serverIp
      = _lookupWithProtocol nested w cfg st domain type clientIp (js "doh") none := by
  refine ⟨?_, ?_⟩
  · simp only [_lookupWithProtocol, if_true]
  · have h : ¬ js "doh" = js "dot" := by decide
    simp only [_lookupWithProtocol, if_neg h, if_true]

/-- C23 (the code, with the failing input). For a non-empty `serverIp`, the options
that `_lookupWithProtocol` hands to `dotService.query` and to `dohService.query` are
those of `_getServerForProtocol`, whatever `serverIp` is: their host is the
configured or built-in one, and only the options for `doqService.query` have the
host `serverIp`. -/
theorem serverOptions_serverIp (dnsConfig : DnsConfig) (serverIp : JSString)
    (h : serverIp ≠ []) :
    serverOptions dnsConfig (js "dot") (some serverIp)
      = some (_getServerForProtocol dnsConfig (js "dot")).1 ∧
    serverOptions dnsConfig (js "doh") (some serverIp)
      = some (_getServerForProtocol dnsConfig (js "doh")).1 ∧
    serverOptions dnsConfig (js "doq") (some serverIp)
      = some { ServerEntry.empty with host := some serverIp } := by
  have ht : truthy serverIp = true := by
    cases serverIp with
    | nil => exact absurd rfl h
    | cons a t => simp [truthy]
  have h1 : ¬ js "doh" = js "dot" := by decide
  have h2 : ¬ js "doq" = js "dot" := by decide
  have h3 : ¬ js "doq" = js "doh" := by decide
  refine ⟨?_, ?_, ?_⟩
  · simp only [serverOptions, if_true]
  · simp only [serverOptions, if_neg h1, if_true]
  · simp only [serverOptions, if_neg h2, if_neg h3, if_true, ht]

/-- Witness of C23, the failing input: with no server configured and the `serverIp`
`9.9.9.9` of a routing rule, the DoT client is sent to `1.1.1.1` and the DoH client to
`dns.google`. -/
theorem serverOptions_serverIp_witness :
    (serverOptions [] (js "dot") (some (js "9.9.9.9"))).bind (fun s => s.host)
      = some (js "1.1.1.1") ∧
    (serverOptions [] (js "doh") (some (js "9.9.9.9"))).bind (fun s => s.host)
      = some (js "dns.google") ∧
    (serverOptions [] (js "doq") (some (js "9.9.9.9"))).bind (fun s => s.host)
      = some (js "9.9.9.9") :=
  ⟨(congrArg (fun o => Option.bind o (fun s => s.host))
      (serverOptions_serverIp [] (js "9.9.9.9") (by decide)).1).trans (by decide),
   (congrArg (fun o => Option.bind o (fun s => s.host))
      (serverOptions_serverIp [] (js "9.9.9.9") (by decide)).2.1).trans (by decide),
   (congrArg (fun o => Option.bind o (fun s => s.host))
      (serverOptions_serverIp [] (js "9.9.9.9") (by decide)).2.2).trans (by decide)⟩

end DomesticDns


namespace DomesticDns

/-! ## Manual parser, the question section: theorems -/

theorem manualParsePacket_eq (buf : List Nat) (domain : JSString) (ancount : Nat)
    (h : readUInt16BE (buf.take 12) 6 = some ancount) (hn : ancount ≠ 0) :
    _manualParsePacket buf domain = some (parseAnswers ancount buf domain (skipQuestion buf) []) := by
  simp only [_manualParsePacket, h, hn, if_false, skipQuestion]

theorem pointer_ne_zero (p : Nat) (hp : p &&& 192 = 192) : p ≠ 0 := by
  intro h
  rw [h] at hp
  simp at hp

/-- The name loop on labels that end in a compression pointer stops two bytes after
the first byte of the pointer. -/
theorem skipQuestionName_pointer (ls : List JSString)
    (h : ∀ l ∈ ls, 1 ≤ l.length ∧ l.length ≤ 191) (A rest : List Nat) (p : Nat)
    (hp : p &&& 192 = 192) (fuel : Nat) (hf : ls.length + 1 ≤ fuel) :
    skipQuestionName fuel (A ++ labelBytes ls ++ p :: rest) A.length
      = A.length + (labelBytes ls).length + 2 := by
  induction ls generalizing A fuel with
  | nil =>
    cases fuel with
    | zero => simp at hf
    | succ f =>
      have h0 : (A ++ p :: rest).getD A.length 0 = p := getD_append_at A rest p
      have hlen : A.length < (A ++ p :: rest).length := by simp
      have hne := pointer_ne_zero p hp
      rw [skipQuestionName]
      simp only [labelBytes, List.flatMap_nil, List.append_nil, h0, hlen, hne, ne_eq,
        not_false_eq_true, and_self, if_true, hp, List.length_nil, Nat.add_zero]
  | cons l ls ih =>
    cases fuel with
    | zero => simp at hf
    | succ f =>
      have hl := h l (List.mem_cons_self _ _)
      have hbuf : A ++ labelBytes (l :: ls) ++ p :: rest
          = A ++ l.length :: (l ++ labelBytes ls ++ p :: rest) := by
        simp [labelBytes, List.flatMap_cons, List.append_assoc]
      have hbuf2 : A ++ labelBytes (l :: ls) ++ p :: rest
          = (A ++ l.length :: l) ++ labelBytes ls ++ p :: rest := by
        simp [labelBytes, List.flatMap_cons, List.append_assoc]
      have hb : (A ++ labelBytes (l :: ls) ++ p :: rest).getD A.length 0 = l.length := by
        rw [hbuf]; exact getD_append_at _ _ _
      have hlen : A.length < (A ++ labelBytes (l :: ls) ++ p :: rest).length := by
        rw [hbuf]; simp
      have hne : l.length ≠ 0 := by omega
      have hptr := and192_of_le l.length hl.2
      rw [skipQuestionName]
      simp only [hb, hlen, hne, ne_eq, not_false_eq_true, and_self, if_true, hptr, if_false]
      have hpos : A.length + l.length + 1 = (A ++ l.length :: l).length := by simp; omega
      rw [hpos, hbuf2,
        ih (fun x hx => h x (List.mem_cons_of_mem _ hx)) (A ++ l.length :: l) f
          (by simp at hf; omega)]
      simp only [labelBytes, List.flatMap_cons, List.length_append, List.length_cons]
      omega

/-- C25 (the code, with the failing input). For a response whose question name is a
sequence of labels (possibly none) that ends in a compression pointer `p0 p1`, the
question-skipping step of `_manualParsePacket` leaves the read position at the end of
the name plus 5 when the first byte of QTYPE is `0`, and at the end of the name
otherwise: never at the end of the name plus the 4 bytes of QTYPE and QCLASS, where
the first answer begins. -/
theorem skipQuestion_pointer (hdr : List Nat) (ls : List JSString)
    (p0 p1 qt0 qt1 qc0 qc1 : Nat) (rest : List Nat)
    (hh : hdr.length = 12) (hl : ∀ l ∈ ls, 1 ≤ l.length ∧ l.length ≤ 191)
    (hp : p0 &&& 192 = 192) :
    skipQuestion (hdr ++ labelBytes ls ++ p0 :: p1 :: qt0 :: qt1 :: qc0 :: qc1 :: rest)
      = 12 + (labelBytes ls).length + 2 + (if qt0 = 0 then 5 else 0) ∧
    skipQuestion (hdr ++ labelBytes ls ++ p0 :: p1 :: qt0 :: qt1 :: qc0 :: qc1 :: rest)
      ≠ 12 + (labelBytes ls).length + 2 + 4 := by
  have hskip : skipQuestionName
      (hdr ++ labelBytes ls ++ p0 :: p1 :: qt0 :: qt1 :: qc0 :: qc1 :: rest).length
      (hdr ++ labelBytes ls ++ p0 :: p1 :: qt0 :: qt1 :: qc0 :: qc1 :: rest) 12
      = 12 + (labelBytes ls).length + 2 := by
    have := skipQuestionName_pointer ls hl hdr (p1 :: qt0 :: qt1 :: qc0 :: qc1 :: rest) p0 hp
      (hdr ++ labelBytes ls ++ p0 :: p1 :: qt0 :: qt1 :: qc0 :: qc1 :: rest).length
      (by
        have hle : ls.length ≤ (labelBytes ls).length := by
          unfold labelBytes
          induction ls with
          | nil => simp
          | cons l t ih =>
            have := ih (fun x hx => hl x (List.mem_cons_of_mem _ hx))
            simp only [List.flatMap_cons, List.length_append, List.length_cons]
            omega
        simp only [List.length_append, List.length_cons]
        omega)
    rw [hh] at this
    exact this
  have hbuf : hdr ++ labelBytes ls ++ p0 :: p1 :: qt0 :: qt1 :: qc0 :: qc1 :: rest
      = (hdr ++ labelBytes ls ++ [p0, p1]) ++ qt0 :: (qt1 :: qc0 :: qc1 :: rest) := by
    simp [List.append_assoc]
  have hq : (hdr ++ labelBytes ls ++ p0 :: p1 :: qt0 :: qt1 :: qc0 :: qc1 :: rest).getD
      (12 + (labelBytes ls).length + 2) 0 = qt0 := by
    have hlen : 12 + (labelBytes ls).length + 2 = (hdr ++ labelBytes ls ++ [p0, p1]).length := by
      simp only [List.length_append, List.length_cons, List.length_nil, hh]
    rw [hlen, hbuf]
    exact getD_append_at _ _ _
  have hlt : 12 + (labelBytes ls).length + 2
      < (hdr ++ labelBytes ls ++ p0 :: p1 :: qt0 :: qt1 :: qc0 :: qc1 :: rest).length := by
    simp only [List.length_append, List.length_cons, hh]
    omega
  have hval : skipQuestion (hdr ++ labelBytes ls ++ p0 :: p1 :: qt0 :: qt1 :: qc0 :: qc1 :: rest)
      = 12 + (labelBytes ls).length + 2 + (if qt0 = 0 then 5 else 0) := by
    unfold skipQuestion
    simp only [hskip, hq, hlt, true_and]
    split <;> rfl
  refine ⟨hval, ?_⟩
  rw [hval]
  split <;> omega

/-- Witness of C25, the failing input: the question name of `pointerResponse` is the
pointer `C0 12` alone, the first answer begins at offset 18, and the step ends at
19. -/
theorem skipQuestion_pointer_witness :
    skipQuestion (headerOneAnswer ++ labelBytes [] ++ 192 :: 18 :: 0 :: 1 :: 0 :: 1 ::
        ([1, 97, 3, 99, 111, 109, 0] ++ [0, 1, 0, 1] ++ u32Bytes 60 ++ [0, 4] ++ [1, 2, 3, 4]))
      = 12 + (labelBytes []).length + 2 + (if (0 : Nat) = 0 then 5 else 0) ∧
    skipQuestion (headerOneAnswer ++ labelBytes [] ++ 192 :: 18 :: 0 :: 1 :: 0 :: 1 ::
        ([1, 97, 3, 99, 111, 109, 0] ++ [0, 1, 0, 1] ++ u32Bytes 60 ++ [0, 4] ++ [1, 2, 3, 4]))
      ≠ 12 + (labelBytes []).length + 2 + 4 :=
  skipQuestion_pointer headerOneAnswer [] 192 18 0 1 0 1
    ([1, 97, 3, 99, 111, 109, 0] ++ [0, 1, 0, 1] ++ u32Bytes 60 ++ [0, 4] ++ [1, 2, 3, 4])
    (by decide) (by intro l hl; cases hl) (by decide)

/-- The buffer of that witness is `pointerResponse`, and the step ends at 19 on it. -/
theorem pointerResponse_shape :
    pointerResponse = headerOneAnswer ++ labelBytes [] ++ 192 :: 18 :: 0 :: 1 :: 0 :: 1 ::
        ([1, 97, 3, 99, 111, 109, 0] ++ [0, 1, 0, 1] ++ u32Bytes 60 ++ [0, 4] ++ [1, 2, 3, 4]) ∧
    skipQuestion pointerResponse = 19 := by
  refine ⟨by decide, by decide⟩

/-- The parser on that response returns no record, although it holds the A answer
`1.2.3.4`; read from offset 18 the same bytes give the address. -/
theorem manualParse_pointer_sample :
    _manualParsePacket pointerResponse (js "a.com") = some [] ∧
    parseAnswers 1 pointerResponse (js "a.com") 18 []
      = [answerA (js "a.com") (js "1.2.3.4") 60] := by
  refine ⟨by decide, by decide⟩

end DomesticDns


namespace DomesticDns

/-! ## Manual parser on arbitrary buffers: theorems -/

/-- The answer loop adds at most one record per turn, and only records of type `A`
or `AAAA`. -/
theorem parseAnswers_safe (n : Nat) : ∀ (buf : List Nat) (domain : JSString) (pos : Nat)
    (results : List Rec),
    (∀ r ∈ results, r.type = some (js "A") ∨ r.type = some (js "AAAA")) →
    (parseAnswers n buf domain pos results).length ≤ results.length + n ∧
    ∀ r ∈ parseAnswers n buf domain pos results,
      r.type = some (js "A") ∨ r.type = some (js "AAAA") := by
  induction n with
  | zero =>
    intro buf domain pos results h
    exact ⟨by simp [parseAnswers], by simpa [parseAnswers] using h⟩
  | succ k ih =>
    intro buf domain pos results h
    have key : ∀ (pos1 : Nat) (a : Rec),
        (a.type = some (js "A") ∨ a.type = some (js "AAAA")) →
        (parseAnswers k buf domain pos1 (results ++ [a])).length ≤ results.length + (k + 1) ∧
        ∀ r ∈ parseAnswers k buf domain pos1 (results ++ [a]),
          r.type = some (js "A") ∨ r.type = some (js "AAAA") := by
      intro pos1 a ha
      have h2 := ih buf domain pos1 (results ++ [a]) (by
        intro r hr
        rcases List.mem_append.1 hr with h1 | h1
        · exact h r h1
        · rw [List.mem_singleton.1 h1]; exact ha)
      refine ⟨?_, h2.2⟩
      have h1 := h2.1
      simp only [List.length_append, List.length_singleton] at h1
      omega
    have skip : ∀ (pos1 : Nat),
        (parseAnswers k buf domain pos1 results).length ≤ results.length + (k + 1) ∧
        ∀ r ∈ parseAnswers k buf domain pos1 results,
          r.type = some (js "A") ∨ r.type = some (js "AAAA") := by
      intro pos1
      have h2 := ih buf domain pos1 results h
      exact ⟨by have := h2.1; omega, h2.2⟩
    rw [parseAnswers]
    split
    · dsimp only
      split
      · split
        · exact key _ _ (Or.inl rfl)
        · split
          · split
            · exact ⟨by omega, h⟩
            · exact key _ _ (Or.inr rfl)
          · exact skip _
      · exact ⟨by omega, h⟩
    · exact ⟨by omega, h⟩

theorem readHeader (buf : List Nat) (h : 12 ≤ buf.length) :
    readUInt16BE (buf.take 12) 6 = some (buf.getD 6 0 * 256 + buf.getD 7 0) := by
  have hlen : 6 + 2 ≤ (buf.take 12).length := by
    rw [List.length_take]; omega
  have g : ∀ i, i < 12 → (buf.take 12).getD i 0 = buf.getD i 0 := by
    intro i hi
    simp only [List.getD_eq_getElem?_getD, List.getElem?_take, hi, if_true]
  simp only [readUInt16BE, hlen, if_true, g 6 (by omega), g 7 (by omega)]

/-- C28 (what holds). For every byte buffer of length at least 12,
`_manualParsePacket` returns without raising, and it returns at most ANCOUNT (the
number in bytes 6 and 7) records, each of type `A` or `AAAA`. -/
theorem manualParse_safe (buf : List Nat) (domain : JSString) (h : 12 ≤ buf.length) :
    ∃ results, _manualParsePacket buf domain = some results ∧
      results.length ≤ buf.getD 6 0 * 256 + buf.getD 7 0 ∧
      ∀ r ∈ results, r.type = some (js "A") ∨ r.type = some (js "AAAA") := by
  by_cases h0 : buf.getD 6 0 * 256 + buf.getD 7 0 = 0
  · refine ⟨[], ?_, by simp, by intro r hr; cases hr⟩
    simp only [_manualParsePacket, readHeader buf h, h0, if_true]
  · have hs := parseAnswers_safe (buf.getD 6 0 * 256 + buf.getD 7 0) buf domain
      (skipQuestion buf) [] (by intro r hr; cases hr)
    refine ⟨_, ?_, by simpa using hs.1, hs.2⟩
    simp only [_manualParsePacket, readHeader buf h, h0, if_false, skipQuestion]

/-- Witness of C28, with the failing input: `truncatedResponse` has 30 bytes, the
RDATA of its A answer is cut off after one byte, and the record that the parser
returns has the address `1.undefined.undefined.undefined`. -/
theorem manualParse_safe_witness :
    (∃ results, _manualParsePacket truncatedResponse (js "") = some results ∧
      results.length ≤ truncatedResponse.getD 6 0 * 256 + truncatedResponse.getD 7 0 ∧
      ∀ r ∈ results, r.type = some (js "A") ∨ r.type = some (js "AAAA")) ∧
    _manualParsePacket truncatedResponse (js "")
      = some [answerA (js "") (js "1.undefined.undefined.undefined") 60] :=
  ⟨manualParse_safe truncatedResponse (js "") (by decide), by decide⟩

/-- The sibling branch: the AAAA answer whose RDATA is cut off in the same way is
rejected (the read beyond the buffer throws, and the loop ends), so no record with a
made-up address is returned. -/
theorem manualParse_truncated_aaaa :
    truncatedAAAA.length = truncatedResponse.length ∧
    _manualParsePacket truncatedAAAA (js "") = some [] := by
  refine ⟨by decide, by decide⟩

end DomesticDns


namespace DomesticDns

/-! ## Custom records in the listener: theorems -/

/-- The fields of a record that `addRecord` returns: the upper-cased type, the value
as given (not empty), and neither a `name` nor an `address`. -/
theorem addRecord_ok_fields (records : RecordStore) (domain type value : JSString)
    (ttl priority : Option Int) (now1 now2 : Nat) (r : Rec)
    (h : (addRecord records domain type value ttl priority now1 now2).1 = Except.ok r) :
    r.type = some (toUpperCase type) ∧ r.value = some value ∧ value ≠ [] ∧
    r.address = none ∧ r.name = none ∧ r.cls = none ∧ toUpperCase type ∈ validTypes := by
  by_cases hrej : domain = [] ∨ type = [] ∨ value = [] ∨ toUpperCase type ∉ validTypes
  · obtain ⟨err, herr⟩ := (addRecord_rejected_iff records domain type value ttl priority
      now1 now2).2 hrej
    rw [herr] at h
    cases h
  · simp only [not_or, not_not] at hrej
    obtain ⟨hd, ht, hv, hm⟩ := hrej
    rw [addRecord_accepted records domain type value ttl priority now1 now2 hd ht hv hm] at h
    simp only [Except.ok.injEq] at h
    subst h
    exact ⟨rfl, rfl, hv, rfl, rfl, rfl, hm⟩

/-- The answer that the listener builds from a record stored through `addRecord` with
type A or AAAA: its address is `0.0.0.0`, whatever the value of the record. -/
theorem toAnswer_stored (name : JSString) (qtype : Nat) (typeName : JSString) (r : Rec)
    (ht : typeName = js "A" ∨ typeName = js "AAAA") (h : StoredThrough typeName r) :
    (toAnswer name qtype r).address = some (js "0.0.0.0") ∧
    (toAnswer name qtype r).data = none ∧
    ∃ v, r.value = some v ∧ v ≠ [] := by
  obtain ⟨records, domain, type, value, ttl, priority, now1, now2, hup, hok⟩ := h
  obtain ⟨h1, h2, h3, h4, -, -, -⟩ := addRecord_ok_fields records domain type value ttl
    priority now1 now2 r hok
  rw [hup] at h1
  refine ⟨?_, ?_, value, h2, h3⟩
  · rcases ht with ht | ht <;> subst ht <;>
      simp [toAnswer, h1, h4, orDefault, truthy, show js "A" ≠ [] by decide,
        show js "AAAA" ≠ [] by decide, show js "AAAA" ≠ js "A" by decide]
  · rcases ht with ht | ht <;> subst ht <;>
      simp [toAnswer, h1, h4, orDefault, truthy, show js "A" ≠ [] by decide,
        show js "AAAA" ≠ [] by decide, show js "AAAA" ≠ js "A" by decide]

/-- A lookup of a domain that is not blocked and has custom records returns them. -/
theorem lookup_returns_custom (depth : Nat) (w : World) (cfg : Config) (st : Stores)
    (domain type clientIp : JSString) (protocol serverIp : Option JSString)
    (records : List Rec)
    (hnb : isDomainBlocked cfg.blockedDomains domain = false)
    (hrec : getRecords cfg.records domain type = Settled.resolved records)
    (hne : records ≠ []) :
    ∃ st', lookup (depth + 1) w cfg st domain type clientIp protocol serverIp
        = some (Settled.resolved records, st') := by
  have hlen : records.length > 0 := List.length_pos.mpr hne
  refine ⟨Stores.addLog w cfg { st with trace := st.trace ++ [Event.getRecords domain type] }
    (customEntry domain type clientIp records), ?_⟩
  simp [lookup, lookupBody, hnb, hrec, hlen]

/-- C26 (the code, with the failing input). For a query of type A or AAAA of a domain
that is not blocked and whose custom records were all stored through `addRecord`,
`handleQuery` sends one response with one answer per stored record, and the address
field of every answer is `0.0.0.0`: the record carries its value `v` in the field
`value`, and the listener reads the field `address`. -/
theorem handleQuery_custom_address (depth : Nat) (w : World) (cfg : Config) (st : Stores)
    (servfail : Nat) (response : Response) (name : JSString) (qtype : Nat)
    (rest : List Question) (rinfo : Option JSString) (found : Option ServerConfig)
    (records : List Rec)
    (hq : qtype = 1 ∨ qtype = 28)
    (hnb : isDomainBlocked cfg.blockedDomains name = false)
    (hrec : getRecords cfg.records name (getDnsTypeName qtype) = Settled.resolved records)
    (hne : records ≠ [])
    (hst : ∀ r ∈ records, StoredThrough (getDnsTypeName qtype) r) :
    ∃ st', handleQuery (depth + 1) w cfg st servfail response ⟨⟨name, qtype⟩ :: rest⟩ rinfo
        (Except.ok found)
        = some ⟨[{ response with answers := records.map (toAnswer name qtype) }], none, st'⟩ ∧
      (records.map (toAnswer name qtype)).length = records.length ∧
      ∀ r ∈ records, (toAnswer name qtype r).address = some (js "0.0.0.0") ∧
        ∃ v, r.value = some v ∧ v ≠ [] := by
  obtain ⟨st', hl⟩ := lookup_returns_custom depth w cfg st name (getDnsTypeName qtype)
    (clientIpOf rinfo) (found.map (fun c => c.protocol)) (found.bind (fun c => c.serverIP))
    records hnb hrec hne
  have htn : getDnsTypeName qtype = js "A" ∨ getDnsTypeName qtype = js "AAAA" := by
    rcases hq with hq | hq <;> subst hq
    · exact Or.inl (by decide)
    · exact Or.inr (by decide)
  refine ⟨st', ?_, List.length_map _ _, ?_⟩
  · simp only [handleQuery, hl]
  · intro r hr
    obtain ⟨h1, -, h3⟩ := toAnswer_stored name qtype _ r htn (hst r hr)
    exact ⟨h1, h3⟩

/-- Witness of C26, with the failing input: the record of `home.lan` is the one that
`addRecord` stores for the value `192.168.1.1`, and the answer for it carries the
address `0.0.0.0`. -/
theorem handleQuery_custom_address_witness :
    sampleConfig.records
      = (addRecord [] (js "home.lan") (js "A") (js "192.168.1.1") none none 1 1).2 ∧
    ∃ st', handleQuery (1 + 1) deadWorld sampleConfig emptyStores 2 blankResponse
        ⟨⟨js "home.lan", 1⟩ :: []⟩ none (Except.ok none)
        = some ⟨[{ blankResponse with
                   answers := [customA (js "home.lan") (js "192.168.1.1")].map
                     (toAnswer (js "home.lan") 1) }], none, st'⟩ ∧
      ([customA (js "home.lan") (js "192.168.1.1")].map
        (toAnswer (js "home.lan") 1)).length
        = [customA (js "home.lan") (js "192.168.1.1")].length ∧
      ∀ r ∈ [customA (js "home.lan") (js "192.168.1.1")],
        (toAnswer (js "home.lan") 1 r).address = some (js "0.0.0.0") ∧
        ∃ v, r.value = some v ∧ v ≠ [] :=
  ⟨by decide,
   handleQuery_custom_address 1 deadWorld sampleConfig emptyStores 2 blankResponse
    (js "home.lan") 1 [] none none [customA (js "home.lan") (js "192.168.1.1")]
    (Or.inl rfl) (by decide) (by decide) (by decide)
    (fun r hr => ⟨[], js "home.lan", js "A", js "192.168.1.1", none, none, 1, 1,
      by decide, by rw [List.mem_singleton.1 hr]; rfl⟩)⟩

/-- The whole run for `home.lan`: the one answer that is sent has the address
`0.0.0.0`, not the stored value `192.168.1.1`. -/
theorem handleQuery_home_sample :
    (handleQuery 2 deadWorld sampleConfig emptyStores 2 blankResponse homeRequest none
      (Except.ok none)).map (fun h => h.sent.map (fun r => r.answers.map (fun a => a.address)))
      = some [[some (js "0.0.0.0")]] := by
  decide

/-- The sibling branch of the listener reads the field `value`: for a record stored
with type NS the answer carries the stored value. -/
theorem toAnswer_ns_value :
    (addRecord [] (js "home.lan") (js "NS") (js "ns1.home.lan") none none 1 1).1
      = Except.ok { Rec.empty with domain := some (js "home.lan"), type := some (js "NS"),
                                   value := some (js "ns1.home.lan"), ttl := some 300,
                                   createdAt := some 1, updatedAt := some 1 } ∧
    (toAnswer (js "home.lan") 2
      { Rec.empty with domain := some (js "home.lan"), type := some (js "NS"),
                       value := some (js "ns1.home.lan"), ttl := some 300,
                       createdAt := some 1, updatedAt := some 1 }).data
      = some (AnswerData.text (js "ns1.home.lan")) := by
  refine ⟨rfl, by decide⟩

end DomesticDns


namespace DomesticDns

/-! ## Nesting of lookups through the DoQ stub: theorems -/

/-- A protocol other than `doq` is served by one transport call, whatever the nested
lookup function is. -/
theorem lookupWithProtocol_flat (w : World) (cfg : Config) (st : Stores)
    (domain type clientIp protocol : JSString) (serverIp : Option JSString)
    (hp : protocol ≠ js "doq") :
    ∃ r, ∀ nested : LookupFn,
      _lookupWithProtocol nested w cfg st domain type clientIp protocol serverIp = some r := by
  unfold _lookupWithProtocol
  by_cases h1 : protocol = js "dot"
  · exact ⟨_, fun _ => by rw [if_pos h1]⟩
  by_cases h2 : protocol = js "doh"
  · exact ⟨_, fun _ => by rw [if_neg h1, if_pos h2]⟩
  by_cases h3 : protocol = js "custom"
  · exact ⟨_, fun _ => by rw [if_neg h1, if_neg h2, if_neg hp, if_pos h3]⟩
  · exact ⟨_, fun _ => by rw [if_neg h1, if_neg h2, if_neg hp, if_neg h3]⟩

/-- A fallback loop over protocols other than `doq` returns, whatever the nested
lookup function is. -/
theorem fallbackLoop_flat (w : World) (cfg : Config)
    (domain type clientIp useProtocol : JSString) (serverIp : Option JSString)
    (error : JSError) (order : List JSString) (h : js "doq" ∉ order) :
    ∀ st : Stores, ∃ r, ∀ nested : LookupFn,
      fallbackLoop nested w cfg domain type clientIp useProtocol serverIp error order st
        = some r := by
  induction order with
  | nil => intro st; exact ⟨_, fun _ => rfl⟩
  | cons p rest ih =>
    intro st
    have hp : p ≠ js "doq" := fun e => h (by rw [e]; exact List.mem_cons_self _ _)
    have hrest : js "doq" ∉ rest := fun e => h (List.mem_cons_of_mem _ e)
    by_cases hc : p ≠ useProtocol ∧ cfg.supportedProtocols.supports p
    · obtain ⟨r, hr⟩ := lookupWithProtocol_flat w cfg st.tick domain type clientIp p
        serverIp hp
      obtain ⟨out, st2⟩ := r
      cases out with
      | resolved result =>
        exact ⟨(Settled.resolved result, st2.cacheSet w domain type result),
          fun nested => by simp only [fallbackLoop, if_pos hc, hr nested]⟩
      | rejected e =>
        obtain ⟨r2, hr2⟩ := ih hrest st2
        exact ⟨r2, fun nested => by simp only [fallbackLoop, if_pos hc, hr nested, hr2 nested]⟩
    · obtain ⟨r2, hr2⟩ := ih hrest st
      exact ⟨r2, fun nested => by simp only [fallbackLoop, if_neg hc, hr2 nested]⟩

/-- When the primary protocol returns the same for every nested lookup function of a
family `N`, and `doq` is not in the fallback order, then `lookupBody` returns the same
for every nested function of the family. -/
theorem lookupBody_uniform (N : LookupFn → Prop) (w : World) (cfg : Config) (st : Stores)
    (domain type clientIp : JSString) (protocol serverIp : Option JSString)
    (hfb : js "doq" ∉ cfg.fallbackOrder)
    (hprim : ∀ st1 : Stores, ∃ r, ∀ nested, N nested →
      _lookupWithProtocol nested w cfg st1 domain type clientIp
        (orDefault protocol cfg.defaultProtocol) serverIp = some r) :
    ∃ r, ∀ nested, N nested →
      lookupBody nested w cfg st domain type clientIp protocol serverIp = some r := by
  by_cases hb : isDomainBlocked cfg.blockedDomains domain = true
  · exact ⟨(Settled.resolved [], st.addLog w cfg (blockedEntry domain type clientIp)),
      fun nested _ => by simp only [lookupBody, hb, if_true]⟩
  cases hg : getRecords cfg.records domain type with
  | rejected e =>
    exact ⟨(Settled.rejected e,
        { st with trace := st.trace ++ [Event.getRecords domain type] }),
      fun nested _ => by simp only [lookupBody, hb, hg]; rfl⟩
  | resolved customRecords =>
    by_cases hlen : customRecords.length > 0
    · exact ⟨(Settled.resolved customRecords,
          Stores.addLog w cfg { st with trace := st.trace ++ [Event.getRecords domain type] }
            (customEntry domain type clientIp customRecords)),
        fun nested _ => by simp only [lookupBody, hb, hg, hlen, if_true]; rfl⟩
    cases hcg : Stores.cacheGet w { st with trace := st.trace ++ [Event.getRecords domain type] }
        domain type with
    | mk o st2 =>
      cases o with
      | some cachedResults =>
        exact ⟨(Settled.resolved cachedResults,
            st2.addLog w cfg (cacheEntry domain type clientIp cachedResults)),
          fun nested _ => by simp only [lookupBody, hb, hg, hlen, hcg]; rfl⟩
      | none =>
        by_cases hs : cfg.supportedProtocols.supports (orDefault protocol cfg.defaultProtocol)
            = true
        · obtain ⟨first, hfirst⟩ := hprim st2.tick
          obtain ⟨out, st3⟩ := first
          cases out with
          | resolved result =>
            exact ⟨(Settled.resolved result, st3.cacheSet w domain type result),
              fun nested hn => by
                simp only [lookupBody, hb, hg, hlen, hcg, hs, hfirst nested hn]; rfl⟩
          | rejected error =>
            obtain ⟨r2, hr2⟩ := fallbackLoop_flat w cfg domain type clientIp
              (orDefault protocol cfg.defaultProtocol) serverIp error cfg.fallbackOrder hfb st3
            exact ⟨r2, fun nested hn => by
              simp only [lookupBody, hb, hg, hlen, hcg, hs, hfirst nested hn, hr2 nested]; rfl⟩
        · cases hnet : st2.netCall w cfg ⟨js "standard", domain, type, some clientIp, none⟩ with
          | mk out st3 =>
            cases out with
            | resolved result =>
              exact ⟨(Settled.resolved result, st3.cacheSet w domain type result),
                fun nested _ => by simp only [lookupBody, hb, hg, hlen, hcg, hs, hnet]; rfl⟩
            | rejected error =>
              exact ⟨(Settled.rejected error, st3),
                fun nested _ => by simp only [lookupBody, hb, hg, hlen, hcg, hs, hnet]; rfl⟩

/-- With a default protocol other than `doq` and no `doq` in the fallback order, a
lookup without a protocol returns, and no nested lookup is started. -/
theorem lookupBody_default_flat (w : World) (cfg : Config) (st : Stores)
    (domain type clientIp : JSString) (serverIp : Option JSString)
    (hdef : cfg.defaultProtocol ≠ js "doq") (hfb : js "doq" ∉ cfg.fallbackOrder) :
    ∃ r, ∀ nested : LookupFn,
      lookupBody nested w cfg st domain type clientIp none serverIp = some r := by
  obtain ⟨r, hr⟩ := lookupBody_uniform (fun _ => True) w cfg st domain type clientIp none
    serverIp hfb (fun st1 => by
      obtain ⟨r1, h1⟩ := lookupWithProtocol_flat w cfg st1 domain type clientIp
        (orDefault none cfg.defaultProtocol) serverIp hdef
      exact ⟨r1, fun nested _ => h1 nested⟩)
  exact ⟨r, fun nested => hr nested trivial⟩

/-- With a default protocol other than `doq` and no `doq` in the fallback order, the
DoQ stub returns as soon as one nested lookup is allowed. -/
theorem doqQuery_returns (w : World) (cfg : Config) (st : Stores) (domain type : JSString)
    (hdef : cfg.defaultProtocol ≠ js "doq") (hfb : js "doq" ∉ cfg.fallbackOrder) :
    ∃ r, ∀ depth, doqQuery (lookup (depth + 1)) w cfg st domain type = some r := by
  obtain ⟨r0, h0⟩ := lookupBody_default_flat w cfg st.tick domain type (js "127.0.0.1") none
    hdef hfb
  obtain ⟨out, st2⟩ := r0
  cases out with
  | resolved results =>
    exact ⟨(Settled.resolved results,
        st2.tick.addLog w cfg
          ⟨domain, toUpperCase type, js "127.0.0.1", js "doq-simulated", true, some results,
            none, some ((w.clock st2.ticks : Int) - w.clock st.ticks)⟩),
      fun depth => by
        have h1 : lookup (depth + 1) w cfg st.tick domain type (js "127.0.0.1") none none
            = some (Settled.resolved results, st2) := h0 (lookup depth)
        simp only [doqQuery, h1]⟩
  | rejected error =>
    exact ⟨(Settled.rejected ⟨js "模拟DNS over QUIC查询失败: " ++ error.message, none⟩,
        st2.tick.addLog w cfg
          ⟨domain, toUpperCase type, js "127.0.0.1", js "doq-simulated", false, none,
            some (js "后备DNS查询失败: " ++ error.message),
            some ((w.clock st2.ticks : Int) - w.clock st.ticks)⟩),
      fun depth => by
        have h1 : lookup (depth + 1) w cfg st.tick domain type (js "127.0.0.1") none none
            = some (Settled.rejected error, st2) := h0 (lookup depth)
        simp only [doqQuery, h1]⟩

/-- Under the same two conditions every protocol returns once one nested lookup is
allowed. -/
theorem lookupWithProtocol_returns (w : World) (cfg : Config) (st : Stores)
    (domain type clientIp protocol : JSString) (serverIp : Option JSString)
    (hdef : cfg.defaultProtocol ≠ js "doq") (hfb : js "doq" ∉ cfg.fallbackOrder) :
    ∃ r, ∀ nested : LookupFn, (∃ depth, nested = lookup (depth + 1)) →
      _lookupWithProtocol nested w cfg st domain type clientIp protocol serverIp = some r := by
  by_cases hp : protocol = js "doq"
  · obtain ⟨r, hr⟩ := doqQuery_returns w cfg st domain type hdef hfb
    refine ⟨r, fun nested hn => ?_⟩
    obtain ⟨depth, hd⟩ := hn
    subst hd
    subst hp
    have := hr depth
    simpa [_lookupWithProtocol] using this
  · obtain ⟨r, hr⟩ := lookupWithProtocol_flat w cfg st domain type clientIp protocol
      serverIp hp
    exact ⟨r, fun nested _ => hr nested⟩

/-- When the default protocol is not `doq` and `doq` is not in the fallback order, a
lookup dispatched to `doq` returns with two levels of lookup calls: the lookup itself
and the one that the DoQ stub starts; more levels are never entered, and the result
does not depend on how many are allowed. -/
theorem lookup_doq_returns (w : World) (cfg : Config) (st : Stores)
    (domain type clientIp : JSString) (serverIp : Option JSString)
    (hdef : cfg.defaultProtocol ≠ js "doq") (hfb : js "doq" ∉ cfg.fallbackOrder) :
    ∃ r, ∀ depth, lookup (depth + 2) w cfg st domain type clientIp (some (js "doq")) serverIp
      = some r := by
  obtain ⟨r, hr⟩ := lookupBody_uniform (fun nested => ∃ depth, nested = lookup (depth + 1))
    w cfg st domain type clientIp (some (js "doq")) serverIp hfb
    (fun st1 => lookupWithProtocol_returns w cfg st1 domain type clientIp _ serverIp hdef hfb)
  refine ⟨r, fun depth => ?_⟩
  have h1 : lookup (depth + 2) = lookupBody (lookup (depth + 1)) := rfl
  rw [h1]
  exact hr (lookup (depth + 1)) ⟨depth, rfl⟩

/-- A cache without entries misses, and stays without entries. -/
theorem cacheGet_no_entries (w : World) (st : Stores) (domain type : JSString)
    (h : st.cache.entries = []) :
    (st.cacheGet w domain type).1 = none ∧ (st.cacheGet w domain type).2.cache.entries = [] := by
  simp only [Stores.cacheGet, DNSCache.get, h, mapGet]
  by_cases he : st.cache.enabled = true
  · simp [he, h]
  · simp [he, h]

/-- The dispatch of the protocol `doq` is the DoQ stub. -/
theorem lookupWithProtocol_doq (nested : LookupFn) (w : World) (cfg : Config) (st : Stores)
    (domain type clientIp : JSString) (serverIp : Option JSString) :
    _lookupWithProtocol nested w cfg st domain type clientIp (js "doq") serverIp
      = doqQuery nested w cfg st domain type := by
  simp only [_lookupWithProtocol, show js "doq" ≠ js "dot" by decide,
    show js "doq" ≠ js "doh" by decide, if_false, if_true]

/-- The DoQ stub does not return when the nested lookup does not. -/
theorem doqQuery_none (nested : LookupFn) (w : World) (cfg : Config) (st : Stores)
    (domain type : JSString)
    (h : nested w cfg st.tick domain type (js "127.0.0.1") none none = none) :
    doqQuery nested w cfg st domain type = none := by
  simp only [doqQuery, h]

/-- With `doq` as the supported default protocol, a lookup without a protocol or with
`doq`, for a domain that is neither blocked nor in the record store and with a cache
without entries, returns within no depth: every level dispatches to the DoQ stub, which
starts the next level. -/
theorem lookup_default_doq_loops (w : World) (cfg : Config) (domain type : JSString)
    (hdef : cfg.defaultProtocol = js "doq")
    (hsup : cfg.supportedProtocols.supports (js "doq") = true)
    (hnb : isDomainBlocked cfg.blockedDomains domain = false)
    (hrec : getRecords cfg.records domain type = Settled.resolved []) :
    ∀ (depth : Nat) (st : Stores) (clientIp : JSString) (protocol serverIp : Option JSString),
      st.cache.entries = [] → (protocol = none ∨ protocol = some (js "doq")) →
      lookup depth w cfg st domain type clientIp protocol serverIp = none := by
  intro depth
  induction depth with
  | zero => intro st clientIp protocol serverIp _ _; rfl
  | succ d ih =>
    intro st clientIp protocol serverIp hst hp
    have hu : orDefault protocol cfg.defaultProtocol = js "doq" := by
      rcases hp with hp | hp <;> subst hp
      · simp only [orDefault, hdef]
      · simp only [orDefault]
        rw [if_pos (by decide)]
    obtain ⟨hc1, hc2⟩ := cacheGet_no_entries w
      { st with trace := st.trace ++ [Event.getRecords domain type] } domain type hst
    cases hcg : Stores.cacheGet w { st with trace := st.trace ++ [Event.getRecords domain type] }
        domain type with
    | mk o st2 =>
      rw [hcg] at hc1 hc2
      simp only at hc1 hc2
      subst hc1
      have hn : lookup d w cfg st2.tick.tick domain type (js "127.0.0.1") none none = none :=
        ih st2.tick.tick (js "127.0.0.1") none none hc2 (Or.inl rfl)
      have hq := doqQuery_none (lookup d) w cfg st2.tick domain type hn
      have hl : lookup (d + 1) = lookupBody (lookup d) := rfl
      rw [hl]
      simp only [lookupBody, hnb, hrec, hcg, hu, hsup, lookupWithProtocol_doq, hq]
      rfl

/-- C29 (the code, with the failing input). A lookup dispatched to the supported
protocol `doq`, for a domain that is neither blocked nor in the record store and with a
cache without entries, reaches the DoQ stub, whose nested lookup runs under the default
protocol. When the default protocol is `doq` itself, the nested lookup is dispatched to
`doq` again and the lookup returns within no depth, whatever the transports do. When
the default protocol is not `doq` and `doq` is not in the fallback order, the lookup
returns with two levels of lookup calls, with the same result at every larger depth. -/
theorem lookup_doq_nesting (w : World) (cfg : Config) (st : Stores)
    (domain type clientIp : JSString) (serverIp : Option JSString)
    (hsup : cfg.supportedProtocols.supports (js "doq") = true)
    (hnb : isDomainBlocked cfg.blockedDomains domain = false)
    (hrec : getRecords cfg.records domain type = Settled.resolved [])
    (hst : st.cache.entries = []) :
    (cfg.defaultProtocol = js "doq" →
      ∀ depth, lookup depth w cfg st domain type clientIp (some (js "doq")) serverIp = none) ∧
    (cfg.defaultProtocol ≠ js "doq" → js "doq" ∉ cfg.fallbackOrder →
      ∃ r, ∀ depth, lookup (depth + 2) w cfg st domain type clientIp (some (js "doq")) serverIp
        = some r) := by
  constructor
  · intro hdef depth
    exact lookup_default_doq_loops w cfg domain type hdef hsup hnb hrec depth st clientIp
      (some (js "doq")) serverIp hst (Or.inr rfl)
  · intro hdef hfb
    exact lookup_doq_returns w cfg st domain type clientIp serverIp hdef hfb

/-- Witness of C29, with the failing input: under the sample configuration with `doq`
as the default protocol, in a world whose system resolver answers every query, the
lookup of `foo.org` dispatched to `doq` returns within no depth; under the sample
configuration itself (default protocol `custom`, fallback order `standard, custom`) it
returns with depth two. -/
theorem lookup_doq_nesting_witness :
    (∀ depth, lookup depth sampleWorld doqDefaultConfig emptyStores (js "foo.org") (js "A")
      (js "10.0.0.1") (some (js "doq")) none = none) ∧
    (∃ r, ∀ depth, lookup (depth + 2) sampleWorld sampleConfig emptyStores (js "foo.org")
      (js "A") (js "10.0.0.1") (some (js "doq")) none = some r) :=
  ⟨(lookup_doq_nesting sampleWorld doqDefaultConfig emptyStores (js "foo.org") (js "A")
      (js "10.0.0.1") none (by decide) (by decide) (by decide) (by decide)).1 (by decide),
   (lookup_doq_nesting sampleWorld sampleConfig emptyStores (js "foo.org") (js "A")
      (js "10.0.0.1") none (by decide) (by decide) (by decide) (by decide)).2
      (by decide) (by decide)⟩

/-- In the dead world a transport call fails and leaves the cache as it is. -/
theorem netCall_dead (cfg : Config) (st : Stores) (call : NetCall) :
    st.netCall deadWorld cfg call
      = (Settled.rejected ⟨js "upstream failure: " ++ call.protocol, none⟩,
         { st with trace := st.trace ++ [Event.transport call] }) := by
  simp only [Stores.netCall, deadWorld, List.foldl_nil]

/-- The other way into the loop: `doq` in the fallback order. With the default protocol
`standard` failing, the nested lookup of the stub falls back to `doq`, whose stub starts
the next nested lookup, and so on: no depth is enough. -/
theorem lookup_fallback_doq_loops :
    ∀ (depth : Nat) (st : Stores) (clientIp : JSString) (protocol : Option JSString),
      st.cache.entries = [] → (protocol = none ∨ protocol = some (js "doq")) →
      lookup depth deadWorld doqFallbackConfig st (js "foo.org") (js "A") clientIp protocol
        none = none := by
  intro depth
  induction depth with
  | zero => intro st clientIp protocol _ _; rfl
  | succ d ih =>
    intro st clientIp protocol hst hp
    obtain ⟨hc1, hc2⟩ := cacheGet_no_entries deadWorld
      { st with trace := st.trace ++ [Event.getRecords (js "foo.org") (js "A")] }
      (js "foo.org") (js "A") hst
    cases hcg : Stores.cacheGet deadWorld
        { st with trace := st.trace ++ [Event.getRecords (js "foo.org") (js "A")] }
        (js "foo.org") (js "A") with
    | mk o st2 =>
      rw [hcg] at hc1 hc2
      simp only at hc1 hc2
      subst hc1
      have hl : lookup (d + 1) = lookupBody (lookup d) := rfl
      have hnb : isDomainBlocked doqFallbackConfig.blockedDomains (js "foo.org") = false := by
        decide
      have hrec : getRecords doqFallbackConfig.records (js "foo.org") (js "A")
          = Settled.resolved [] := by decide
      rcases hp with hp | hp <;> subst hp
      · have hu : orDefault none doqFallbackConfig.defaultProtocol = js "standard" := by decide
        have hsup : doqFallbackConfig.supportedProtocols.supports (js "standard") = true := by
          decide
        have hprim : _lookupWithProtocol (lookup d) deadWorld doqFallbackConfig st2.tick
            (js "foo.org") (js "A") clientIp (js "standard") none
            = some (Settled.rejected ⟨js "upstream failure: " ++ js "standard", none⟩,
                { st2.tick with trace := st2.tick.trace ++
                  [Event.transport ⟨js "standard", js "foo.org", js "A", some clientIp, none⟩] }) := by
          simp only [_lookupWithProtocol, show js "standard" ≠ js "dot" by decide,
            show js "standard" ≠ js "doh" by decide, show js "standard" ≠ js "doq" by decide,
            show js "standard" ≠ js "custom" by decide, if_false, netCall_dead]
        have hn := ih (Stores.tick (Stores.tick
            { st2.tick with trace := st2.tick.trace ++
              [Event.transport ⟨js "standard", js "foo.org", js "A", some clientIp, none⟩] }))
          (js "127.0.0.1") none hc2 (Or.inl rfl)
        have hq := doqQuery_none (lookup d) deadWorld doqFallbackConfig _ (js "foo.org")
          (js "A") hn
        have hfo : doqFallbackConfig.fallbackOrder = [js "doq"] := rfl
        have hcond : (js "doq" ≠ js "standard" ∧
            doqFallbackConfig.supportedProtocols.supports (js "doq") = true) := by decide
        rw [hl]
        simp only [lookupBody, hnb, hrec, hcg, hu, hsup, hprim, hfo, fallbackLoop, hcond,
          lookupWithProtocol_doq, hq]
        rfl
      · have hu : orDefault (some (js "doq")) doqFallbackConfig.defaultProtocol = js "doq" := by
          decide
        have hsup : doqFallbackConfig.supportedProtocols.supports (js "doq") = true := by decide
        have hn := ih st2.tick.tick (js "127.0.0.1") none hc2 (Or.inl rfl)
        have hq := doqQuery_none (lookup d) deadWorld doqFallbackConfig st2.tick (js "foo.org")
          (js "A") hn
        rw [hl]
        simp only [lookupBody, hnb, hrec, hcg, hu, hsup, lookupWithProtocol_doq, hq]
        rfl

end DomesticDns


namespace DomesticDns

/-! ## Reverse lookup: theorems -/

/-- The query name of `1.2.3.4`. -/
theorem reverseDomain_sample : reverseDomain (js "1.2.3.4") = js "4.3.2.1.in-addr.arpa" := by
  decide

/-- For a supported protocol other than `standard`, `reverse` re-enters `lookup` with
the reversed name and the type PTR, and returns what a successful lookup returns. -/
theorem reverse_success (dnsReverse : DnsReverse) (depth n : Nat) (w : World) (cfg : Config)
    (st st1 : Stores) (ip clientIp : JSString) (protocol : Option JSString)
    (result : List Rec)
    (hstd : orDefault protocol cfg.defaultProtocol ≠ js "standard")
    (hsup : cfg.supportedProtocols.supports (orDefault protocol cfg.defaultProtocol) = true)
    (hl : lookup depth w cfg st.tick (reverseDomain ip) (js "PTR") clientIp
      (some (orDefault protocol cfg.defaultProtocol)) none = some (Settled.resolved result, st1)) :
    reverse dnsReverse depth (n + 1) w cfg st ip clientIp protocol
      = some (Settled.resolved result, st1) := by
  have hc : ¬ (orDefault protocol cfg.defaultProtocol = js "standard" ∨
      cfg.supportedProtocols.supports (orDefault protocol cfg.defaultProtocol) = false) := by
    rw [hsup]; simp [hstd]
  simp only [reverse, if_neg hc, hl]

/-- In the dead world, with the fallback order `dot, doh`, a PTR lookup over `dot` or
`doh` returns with an error as soon as its depth is not zero, and leaves the cache
without entries. -/
theorem lookup_dead_fails (depth : Nat) (st : Stores) (clientIp p : JSString)
    (hst : st.cache.entries = []) (hp : p = js "dot" ∨ p = js "doh") :
    ∃ e st1, lookup (depth + 1) deadWorld loopConfig st (reverseDomain (js "1.2.3.4"))
        (js "PTR") clientIp (some p) none = some (Settled.rejected e, st1) ∧
      st1.cache.entries = [] := by
  rw [reverseDomain_sample]
  obtain ⟨hc1, hc2⟩ := cacheGet_no_entries deadWorld
    { st with trace := st.trace ++ [Event.getRecords (js "4.3.2.1.in-addr.arpa") (js "PTR")] }
    (js "4.3.2.1.in-addr.arpa") (js "PTR") hst
  cases hcg : Stores.cacheGet deadWorld
      { st with trace := st.trace ++ [Event.getRecords (js "4.3.2.1.in-addr.arpa") (js "PTR")] }
      (js "4.3.2.1.in-addr.arpa") (js "PTR") with
  | mk o st2 =>
    rw [hcg] at hc1 hc2
    simp only at hc1 hc2
    subst hc1
    have hl : lookup (depth + 1) = lookupBody (lookup depth) := rfl
    have hnb : isDomainBlocked loopConfig.blockedDomains (js "4.3.2.1.in-addr.arpa") = false := by
      decide
    have hrec : getRecords loopConfig.records (js "4.3.2.1.in-addr.arpa") (js "PTR")
        = Settled.resolved [] := by decide
    have hfo : loopConfig.fallbackOrder = [js "dot", js "doh"] := rfl
    rcases hp with hp | hp <;> subst hp
    · have hu : orDefault (some (js "dot")) loopConfig.defaultProtocol = js "dot" := by decide
      have hsup : loopConfig.supportedProtocols.supports (js "dot") = true := by decide
      have h1 : ¬ (js "dot" ≠ js "dot" ∧
          loopConfig.supportedProtocols.supports (js "dot") = true) := by decide
      have h2 : (js "doh" ≠ js "dot" ∧
          loopConfig.supportedProtocols.supports (js "doh") = true) := by decide
      rw [hl]
      simp only [lookupBody, hnb, hrec, hcg, hu, hsup, hfo, fallbackLoop, if_neg h1, if_pos h2,
        _lookupWithProtocol, show js "doh" ≠ js "dot" by decide, netCall_dead, if_true,
        if_false]
      exact ⟨_, _, rfl, hc2⟩
    · have hu : orDefault (some (js "doh")) loopConfig.defaultProtocol = js "doh" := by decide
      have hsup : loopConfig.supportedProtocols.supports (js "doh") = true := by decide
      have h1 : (js "dot" ≠ js "doh" ∧
          loopConfig.supportedProtocols.supports (js "dot") = true) := by decide
      have h2 : ¬ (js "doh" ≠ js "doh" ∧
          loopConfig.supportedProtocols.supports (js "doh") = true) := by decide
      rw [hl]
      simp only [lookupBody, hnb, hrec, hcg, hu, hsup, hfo, fallbackLoop, if_pos h1, if_neg h2,
        _lookupWithProtocol, show js "doh" ≠ js "dot" by decide, netCall_dead, if_true,
        if_false]
      exact ⟨_, _, rfl, hc2⟩

/-- With the fallback order `dot, doh` and every transport failing, `reverse` over
`dot` or over `doh` returns within no number of nested calls: the `catch` block of the
one starts the other, whose `catch` block starts the first again. -/
theorem reverse_never_returns (depth : Nat) :
    ∀ (n : Nat) (st : Stores) (clientIp p : JSString),
      st.cache.entries = [] → (p = js "dot" ∨ p = js "doh") →
      reverse deadReverse depth n deadWorld loopConfig st (js "1.2.3.4") clientIp (some p)
        = none := by
  intro n
  induction n with
  | zero => intro st clientIp p _ _; rfl
  | succ n ih =>
    intro st clientIp p hst hp
    have hfo : loopConfig.fallbackOrder = [js "dot", js "doh"] := rfl
    cases depth with
    | zero =>
      rcases hp with hp | hp <;> subst hp
      · have hu : orDefault (some (js "dot")) loopConfig.defaultProtocol = js "dot" := by decide
        have hc : ¬ (js "dot" = js "standard" ∨
            loopConfig.supportedProtocols.supports (js "dot") = false) := by decide
        simp only [reverse, hu, if_neg hc, lookup]
      · have hu : orDefault (some (js "doh")) loopConfig.defaultProtocol = js "doh" := by decide
        have hc : ¬ (js "doh" = js "standard" ∨
            loopConfig.supportedProtocols.supports (js "doh") = false) := by decide
        simp only [reverse, hu, if_neg hc, lookup]
    | succ d =>
      obtain ⟨e, st1, hl, hst1⟩ := lookup_dead_fails d st.tick clientIp p hst hp
      rcases hp with hp | hp <;> subst hp
      · have hu : orDefault (some (js "dot")) loopConfig.defaultProtocol = js "dot" := by decide
        have hc : ¬ (js "dot" = js "standard" ∨
            loopConfig.supportedProtocols.supports (js "dot") = false) := by decide
        have h1 : ¬ (js "dot" ≠ js "dot" ∧
            loopConfig.supportedProtocols.supports (js "dot") = true) := by decide
        have h2 : (js "doh" ≠ js "dot" ∧
            loopConfig.supportedProtocols.supports (js "doh") = true) := by decide
        have hn := ih st1 clientIp (js "doh") hst1 (Or.inr rfl)
        simp only [reverse, hu, if_neg hc, hl, hfo, reverseFallback, if_neg h1, if_pos h2, hn]
      · have hu : orDefault (some (js "doh")) loopConfig.defaultProtocol = js "doh" := by decide
        have hc : ¬ (js "doh" = js "standard" ∨
            loopConfig.supportedProtocols.supports (js "doh") = false) := by decide
        have h1 : (js "dot" ≠ js "doh" ∧
            loopConfig.supportedProtocols.supports (js "dot") = true) := by decide
        have hn := ih st1 clientIp (js "dot") hst1 (Or.inl rfl)
        simp only [reverse, hu, if_neg hc, hl, hfo, reverseFallback, if_pos h1, hn]

/-- C24 (the code, with the failing input). All protocols are supported, the fallback
order is `dot, doh`, and every transport and `dns.reverse` fail. Then the PTR lookup
that `reverse('1.2.3.4', clientIp, P)` starts for `P` = `dot` or `doh` returns with an
error at every depth above zero, and `reverse` itself returns within no number of
nested calls: it does not terminate by raising that error. -/
theorem reverse_fallback_loops (st : Stores) (clientIp p : JSString)
    (hst : st.cache.entries = []) (hp : p = js "dot" ∨ p = js "doh") :
    (∀ depth, ∃ e st1, lookup (depth + 1) deadWorld loopConfig st.tick
        (reverseDomain (js "1.2.3.4")) (js "PTR") clientIp (some p) none
        = some (Settled.rejected e, st1)) ∧
    ∀ depth n, reverse deadReverse depth n deadWorld loopConfig st (js "1.2.3.4") clientIp
      (some p) = none := by
  constructor
  · intro depth
    obtain ⟨e, st1, hl, -⟩ := lookup_dead_fails depth st.tick clientIp p hst hp
    exact ⟨e, st1, hl⟩
  · intro depth n
    exact reverse_never_returns depth n st clientIp p hst hp

/-- Witness of C24: the call `reverse('1.2.3.4', '10.0.0.1', 'dot')` in fresh stores. -/
theorem reverse_fallback_loops_witness :
    (∀ depth, ∃ e st1, lookup (depth + 1) deadWorld loopConfig emptyStores.tick
        (reverseDomain (js "1.2.3.4")) (js "PTR") (js "10.0.0.1") (some (js "dot")) none
        = some (Settled.rejected e, st1)) ∧
    ∀ depth n, reverse deadReverse depth n deadWorld loopConfig emptyStores (js "1.2.3.4")
      (js "10.0.0.1") (some (js "dot")) = none :=
  reverse_fallback_loops emptyStores (js "10.0.0.1") (js "dot") (by decide) (Or.inl rfl)

/-- A run that does return, with the fallback order `standard, custom` of the sample
configuration and the protocol `dot`: the transports are entered in the order `dot`,
`standard`, `custom` (the lookup with its own fallback chain), `dns.reverse`, then
`custom`, `standard` (the lookup of the nested `reverse` over `custom`) and
`dns.reverse` a second time; the error raised is the one of `dot`. -/
theorem reverse_sample_trace :
    (reverse deadReverse 1 3 deadWorld sampleConfig emptyStores (js "1.2.3.4")
      (js "10.0.0.1") (some (js "dot"))).map
        (fun r => (r.1, transportsOf r.2.trace, nativeReverseCalls r.2.trace))
      = some (Settled.rejected ⟨js "upstream failure: dot", none⟩,
          [js "dot", js "standard", js "custom", js "reverse", js "custom", js "standard",
            js "reverse"], 2) := by
  decide

end DomesticDns
